import Mathlib

/-! # io-event selector core: a shallow embedding

Definitions follow `ext/io/event` of io-event 1.11.2 (selector.h, selector.c, list.h,
interrupt.c, selector/epoll.c, selector/kqueue.c, selector/uring.c) and keep the names of
the C functions they embed.

* Bit masks and flag words are natural numbers (the bit pattern of the C integer).
* Pointers are natural numbers, `0` is `NULL`, and the memory of a kind of C struct is one
  map per member from the address of the struct to the value of the member.
* A call into the kernel or a transfer of control to another fiber is an explicit input of
  the definition that makes it: the answer of the kernel, or the memory as the other fibers
  leave it when control comes back.
* Loops take a bound on their iterations and yield `none` when the bound does not suffice.
* A raised exception is an `Except.error` or a constructor of the result type.

The first part of the file holds the definitions, the second part the theorems.
-/

namespace IOEvent

/-! ## Event masks (selector.h) -/

/-- The bit `IO_EVENT_READABLE` of `enum IO_Event`. -/
def IO_EVENT_READABLE : Nat := 1
/-- The bit `IO_EVENT_PRIORITY` of `enum IO_Event`. -/
def IO_EVENT_PRIORITY : Nat := 2
/-- The bit `IO_EVENT_WRITABLE` of `enum IO_Event`. -/
def IO_EVENT_WRITABLE : Nat := 4
/-- The bit `IO_EVENT_ERROR` of `enum IO_Event`. -/
def IO_EVENT_ERROR : Nat := 8
/-- The bit `IO_EVENT_HANGUP` of `enum IO_Event`. -/
def IO_EVENT_HANGUP : Nat := 16
/-- The bit `IO_EVENT_EXIT` of `enum IO_Event`. -/
def IO_EVENT_EXIT : Nat := 32

/-- The readiness flag constants of `<sys/epoll.h>`.  The header is not part of the
repository, so the values are parameters of every definition that uses them. -/
structure EPollFlags where
  EPOLLIN : Nat
  EPOLLPRI : Nat
  EPOLLOUT : Nat
  EPOLLERR : Nat
  EPOLLHUP : Nat

/-- The readiness flag constants of `<poll.h>`, parameters for the same reason. -/
structure PollFlags where
  POLLIN : Nat
  POLLPRI : Nat
  POLLOUT : Nat
  POLLERR : Nat
  POLLHUP : Nat

/-- The values `<poll.h>` gives the poll flags on Linux. -/
def linuxPollFlags : PollFlags :=
  { POLLIN := 1, POLLPRI := 2, POLLOUT := 4, POLLERR := 8, POLLHUP := 16 }

/-- The values `<sys/epoll.h>` gives the epoll flags on Linux. -/
def linuxEPollFlags : EPollFlags :=
  { EPOLLIN := 1, EPOLLPRI := 2, EPOLLOUT := 4, EPOLLERR := 8, EPOLLHUP := 16 }

/-- What a waiting operation hands back to its fiber: a Ruby integer, `Qfalse`, or a
raised system error carrying an errno. -/
inductive Outcome where
  | value (events : Nat)
  | qfalse
  | raised (errno : Nat)
  deriving DecidableEq, Repr

namespace EPoll

/-- Embeds `epoll_flags_from_events` (epoll.c:187): the flags armed for a requested mask. -/
def epoll_flags_from_events (K : EPollFlags) (events : Nat) : Nat :=
  let flags := 0
  let flags := if events &&& IO_EVENT_READABLE ≠ 0 then flags ||| K.EPOLLIN else flags
  let flags := if events &&& IO_EVENT_PRIORITY ≠ 0 then flags ||| K.EPOLLPRI else flags
  let flags := if events &&& IO_EVENT_WRITABLE ≠ 0 then flags ||| K.EPOLLOUT else flags
  let flags := flags ||| K.EPOLLHUP
  let flags := flags ||| K.EPOLLERR
  flags

/-- Embeds `events_from_epoll_flags` (epoll.c:204): the event mask of a readiness flag word. -/
def events_from_epoll_flags (K : EPollFlags) (flags : Nat) : Nat :=
  let events := 0
  let events :=
    if flags &&& (K.EPOLLIN ||| K.EPOLLHUP ||| K.EPOLLERR) ≠ 0 then events ||| IO_EVENT_READABLE
    else events
  let events := if flags &&& K.EPOLLPRI ≠ 0 then events ||| IO_EVENT_PRIORITY else events
  let events := if flags &&& K.EPOLLOUT ≠ 0 then events ||| IO_EVENT_WRITABLE else events
  events

end EPoll

namespace URing

/-- Embeds `poll_flags_from_events` (uring.c:500): the poll flags submitted for a requested mask. -/
def poll_flags_from_events (K : PollFlags) (events : Nat) : Nat :=
  let flags := 0
  let flags := if events &&& IO_EVENT_READABLE ≠ 0 then flags ||| K.POLLIN else flags
  let flags := if events &&& IO_EVENT_PRIORITY ≠ 0 then flags ||| K.POLLPRI else flags
  let flags := if events &&& IO_EVENT_WRITABLE ≠ 0 then flags ||| K.POLLOUT else flags
  let flags := flags ||| K.POLLHUP
  let flags := flags ||| K.POLLERR
  flags

/-- Embeds `events_from_poll_flags` (uring.c:514): the event mask of a poll flag word. -/
def events_from_poll_flags (K : PollFlags) (flags : Nat) : Nat :=
  let events := 0
  let events :=
    if flags &&& (K.POLLIN ||| K.POLLHUP ||| K.POLLERR) ≠ 0 then events ||| IO_EVENT_READABLE
    else events
  let events := if flags &&& K.POLLPRI ≠ 0 then events ||| IO_EVENT_PRIORITY else events
  let events := if flags &&& K.POLLOUT ≠ 0 then events ||| IO_EVENT_WRITABLE else events
  events

/-- Embeds `io_wait_transfer` (uring.c:550) from the point where
`IO_Event_Selector_loop_yield` has returned:
`result` is `waiting->result` (the `res` of the completion, `0` when none was stored) and
`flags` the poll flags that were submitted. -/
def io_wait_transfer (K : PollFlags) (result : Int) (flags : Nat) : Outcome :=
  if result < 0 then Outcome.raised (-result).toNat
  else if result > 0 then Outcome.value (events_from_poll_flags K (result.toNat &&& flags))
  else Outcome.qfalse

/-- Embeds `IO_Event_Selector_URing_io_wait` (uring.c:571) as a function of the requested
mask and of the result the completion stored in the waiter before the fiber was resumed. -/
def IO_Event_Selector_URing_io_wait (K : PollFlags) (events : Nat) (result : Int) : Outcome :=
  let flags := poll_flags_from_events K events
  io_wait_transfer K result flags

end URing

/-! ## System calls and errors -/

/-- The `errno` values the selectors test for, kept symbolic; `other` is any further code. -/
inductive Errno where
  | EPERM | ENOENT | EEXIST | EINTR | ENOSYS | EAGAIN | EWOULDBLOCK | EBUSY | ETIME | ESRCH
  | ENOMEM
  | other (code : Nat)
  deriving DecidableEq, Repr

/-- The kernel requests recorded by the models of `close` and `wakeup`. -/
inductive Syscall where
  | close (fd : Int)
  | io_uring_queue_exit
  | interrupt_write (fd : Int)
  | kevent_user_add
  | kevent_user_trigger
  | io_uring_submit_nop
  deriving DecidableEq, Repr

/-- Embeds `struct IO_Event_Interrupt` (interrupt.h): one eventfd descriptor, or the two
ends of a pipe when `<sys/eventfd.h>` is not available. -/
inductive IO_Event_Interrupt where
  | eventfd (descriptor : Int)
  | pipe (descriptor0 descriptor1 : Int)
  deriving DecidableEq, Repr

/-- Embeds `IO_Event_Interrupt_close` (interrupt.c:25 and :68): the descriptors it closes. -/
def IO_Event_Interrupt_close : IO_Event_Interrupt → List Syscall
  | IO_Event_Interrupt.eventfd d => [Syscall.close d]
  | IO_Event_Interrupt.pipe d0 d1 => [Syscall.close d0, Syscall.close d1]

/-- Embeds `IO_Event_Interrupt_signal` (interrupt.c:30 and :74): one write on the signalling
descriptor; `written` is `none` when the write succeeds and the errno when it returns `-1`.
`EAGAIN` and `EWOULDBLOCK` are ignored, every other error is raised. -/
def IO_Event_Interrupt_signal (interrupt : IO_Event_Interrupt) (written : Option Errno) :
    Except Errno Unit × List Syscall :=
  let fd := match interrupt with
    | IO_Event_Interrupt.eventfd d => d
    | IO_Event_Interrupt.pipe _ d1 => d1
  match written with
  | none => (Except.ok (), [Syscall.interrupt_write fd])
  | some e =>
    if e = Errno.EAGAIN ∨ e = Errno.EWOULDBLOCK then (Except.ok (), [Syscall.interrupt_write fd])
    else (Except.error e, [Syscall.interrupt_write fd])

namespace EPoll

/-- The fields of `struct IO_Event_Selector_EPoll` that `close` and `wakeup` use. -/
structure IO_Event_Selector_EPoll where
  descriptor : Int
  blocked : Bool
  interrupt : IO_Event_Interrupt
  deriving DecidableEq, Repr

/-- Embeds `close_internal` (epoll.c:130), which is all `IO_Event_Selector_EPoll_close` does. -/
def close_internal (selector : IO_Event_Selector_EPoll) :
    IO_Event_Selector_EPoll × List Syscall :=
  if selector.descriptor ≥ 0 then
    ({ selector with descriptor := -1 },
      Syscall.close selector.descriptor :: IO_Event_Interrupt_close selector.interrupt)
  else (selector, [])

/-- Embeds `IO_Event_Selector_EPoll_wakeup` (epoll.c:1028). -/
def IO_Event_Selector_EPoll_wakeup (selector : IO_Event_Selector_EPoll)
    (written : Option Errno) : Except Errno Bool × List Syscall :=
  if selector.blocked then
    match IO_Event_Interrupt_signal selector.interrupt written with
    | (Except.ok _, calls) => (Except.ok true, calls)
    | (Except.error e, calls) => (Except.error e, calls)
  else (Except.ok false, [])

end EPoll

namespace KQueue

/-- The fields of `struct IO_Event_Selector_KQueue` that `close` and `wakeup` use.  The
`interrupt` member exists only in the build without `EVFILT_USER`
(`IO_EVENT_SELECTOR_KQUEUE_USE_INTERRUPT`), which is `some` here. -/
structure IO_Event_Selector_KQueue where
  descriptor : Int
  blocked : Bool
  interrupt : Option IO_Event_Interrupt
  deriving DecidableEq, Repr

/-- Embeds `close_internal` (kqueue.c:131). -/
def close_internal (selector : IO_Event_Selector_KQueue) :
    IO_Event_Selector_KQueue × List Syscall :=
  if selector.descriptor ≥ 0 then
    ({ selector with descriptor := -1 }, [Syscall.close selector.descriptor])
  else (selector, [])

/-- Embeds `IO_Event_Selector_KQueue_close` (kqueue.c:370): `close_internal`, then, in the
pipe-interrupt build, `IO_Event_Interrupt_close`. -/
def IO_Event_Selector_KQueue_close (selector : IO_Event_Selector_KQueue) :
    IO_Event_Selector_KQueue × List Syscall :=
  let r := close_internal selector
  match selector.interrupt with
  | some interrupt => (r.1, r.2 ++ IO_Event_Interrupt_close interrupt)
  | none => r

/-- Embeds `IO_Event_Selector_KQueue_wakeup` (kqueue.c:1016).  `written` answers the interrupt
write of the pipe-interrupt build; `added` and `triggered` answer the two `kevent` calls of
the `EVFILT_USER` build (`none` for success, the errno for `-1`). -/
def IO_Event_Selector_KQueue_wakeup (selector : IO_Event_Selector_KQueue)
    (written added triggered : Option Errno) : Except Errno Bool × List Syscall :=
  if selector.blocked then
    match selector.interrupt with
    | some interrupt =>
      match IO_Event_Interrupt_signal interrupt written with
      | (Except.ok _, calls) => (Except.ok true, calls)
      | (Except.error e, calls) => (Except.error e, calls)
    | none =>
      match added with
      | some e => (Except.error e, [Syscall.kevent_user_add])
      | none =>
        match triggered with
        | some e => (Except.error e, [Syscall.kevent_user_add, Syscall.kevent_user_trigger])
        | none => (Except.ok true, [Syscall.kevent_user_add, Syscall.kevent_user_trigger])
  else (Except.ok false, [])

end KQueue

namespace URing

/-- The fields of `struct IO_Event_Selector_URing` that `close` and `wakeup` use. -/
structure IO_Event_Selector_URing where
  ring_fd : Int
  blocked : Bool
  deriving DecidableEq, Repr

/-- Embeds `close_internal` (uring.c:101), which is all `IO_Event_Selector_URing_close` does. -/
def close_internal (selector : IO_Event_Selector_URing) :
    IO_Event_Selector_URing × List Syscall :=
  if selector.ring_fd ≥ 0 then
    ({ selector with ring_fd := -1 }, [Syscall.io_uring_queue_exit])
  else (selector, [])

/-- One round of the loop of `IO_Event_Selector_URing_wakeup`: `io_uring_get_sqe` either
hands out an entry, or returns `NULL`, after which `rb_thread_schedule` runs and the
`blocked` flag is read again. -/
inductive SqeAttempt where
  | entry
  | full (blocked_after : Bool)
  deriving DecidableEq, Repr

/-- The `while (true)` loop of `IO_Event_Selector_URing_wakeup` (uring.c:1176) over the
rounds the environment offers; `none` when the rounds run out with the loop still spinning. -/
def wakeup_loop : List SqeAttempt → Option (Bool × List Syscall)
  | [] => none
  | SqeAttempt.entry :: _ => some (true, [Syscall.io_uring_submit_nop])
  | SqeAttempt.full false :: _ => some (false, [])
  | SqeAttempt.full true :: rest => wakeup_loop rest

/-- Embeds `IO_Event_Selector_URing_wakeup` (uring.c:1168). -/
def IO_Event_Selector_URing_wakeup (selector : IO_Event_Selector_URing)
    (rounds : List SqeAttempt) : Option (Bool × List Syscall) :=
  if selector.blocked then wakeup_loop rounds else some (false, [])

end URing

/-! ## select (epoll.c:977, kqueue.c:954, uring.c:1119) -/

/-- Embeds `struct timespec` / `struct __kernel_timespec`. -/
structure Timespec where
  tv_sec : Int
  tv_nsec : Int
  deriving DecidableEq, Repr

/-- The `duration` argument of `select`: `nil`, an Integer, or a Float.  For a Float the
two numbers are what the conversions `(time_t)value` and
`(value - seconds) * 1000000000L` of `make_timeout` produce. -/
inductive Duration where
  | nil
  | integer (seconds : Int)
  | float (seconds : Int) (nanoseconds : Int)
  deriving DecidableEq, Repr

/-- Embeds `make_timeout` (epoll.c:786, kqueue.c:794, uring.c:1001); `none` is the `NULL`
timeout. -/
def make_timeout : Duration → Option Timespec
  | Duration.nil => none
  | Duration.integer seconds => some { tv_sec := seconds, tv_nsec := 0 }
  | Duration.float seconds nanoseconds => some { tv_sec := seconds, tv_nsec := nanoseconds }

/-- Embeds `timeout_nonblocking` (epoll.c:809, kqueue.c:817, uring.c:1024). -/
def timeout_nonblocking : Option Timespec → Bool
  | none => false
  | some t => t.tv_sec == 0 && t.tv_nsec == 0

/-- The steps of one `select` cycle that the models record, in program order:
`io_uring_submit_flush`, `IO_Event_Selector_ready_flush`, the non-blocking `select_internal`
under `select_internal_with_gvl` (`poll`), `select_process_completions`, the blocking
`select_internal` under `select_internal_without_gvl` with `blocked` set (`wait`), and
`select_handle_events`. -/
inductive SelectStep where
  | submit_flush
  | ready_flush
  | poll (timeout : Option Timespec)
  | process_completions
  | wait (timeout : Option Timespec)
  | handle_events (count : Int)
  deriving DecidableEq, Repr

/-- What one `select_internal` leaves behind: `arguments->count` and, when that is `-1`,
`errno`. -/
structure KernelWait where
  count : Int
  errno : Errno
  deriving DecidableEq, Repr

/-- What the surroundings answer during one `select` of the epoll or kqueue selector: the
return value of `IO_Event_Selector_ready_flush`, the outcome of the non-blocking
`select_internal`, whether `selector->backend.ready` is non-NULL when tested, and the outcome
of the blocking `select_internal`. -/
structure SelectEnv where
  ready : Int
  polled : KernelWait
  queued : Bool
  waited : KernelWait
  deriving DecidableEq, Repr

/-- The error handling shared by `select_internal_with_gvl` and
`select_internal_without_gvl` (epoll.c:877 and :890, kqueue.c:850 and :863): `-1` raises
unless `errno` is `EINTR`, which counts as zero events. -/
def select_internal_count (k : KernelWait) : Except Errno Int :=
  if k.count = -1 then
    if k.errno ≠ Errno.EINTR then Except.error k.errno else Except.ok 0
  else Except.ok k.count

/-- The tail of `select`: dispatch when events were harvested. -/
def select_finish (steps : List SelectStep) (count : Int) : List SelectStep × Except Errno Int :=
  if count ≠ 0 then (steps ++ [SelectStep.handle_events count], Except.ok count)
  else (steps, Except.ok 0)

namespace EPoll

/-- Embeds `IO_Event_Selector_EPoll_select` (epoll.c:977): the steps it performs and its
result. -/
def IO_Event_Selector_EPoll_select (env : SelectEnv) (duration : Duration) :
    List SelectStep × Except Errno Int :=
  let steps := [SelectStep.ready_flush, SelectStep.poll (some { tv_sec := 0, tv_nsec := 0 })]
  match select_internal_count env.polled with
  | Except.error e => (steps, Except.error e)
  | Except.ok count =>
    if env.ready = 0 ∧ count = 0 ∧ env.queued = false then
      let timeout := make_timeout duration
      if timeout_nonblocking timeout = false then
        let steps := steps ++ [SelectStep.wait timeout]
        match select_internal_count env.waited with
        | Except.error e => (steps, Except.error e)
        | Except.ok count => select_finish steps count
      else select_finish steps count
    else select_finish steps count

end EPoll

namespace KQueue

/-- Embeds `IO_Event_Selector_KQueue_select` (kqueue.c:954): the steps it performs and its
result. -/
def IO_Event_Selector_KQueue_select (env : SelectEnv) (duration : Duration) :
    List SelectStep × Except Errno Int :=
  let steps := [SelectStep.ready_flush, SelectStep.poll (some { tv_sec := 0, tv_nsec := 0 })]
  match select_internal_count env.polled with
  | Except.error e => (steps, Except.error e)
  | Except.ok count =>
    if env.ready = 0 ∧ count = 0 ∧ env.queued = false then
      let timeout := make_timeout duration
      if timeout_nonblocking timeout = false then
        let steps := steps ++ [SelectStep.wait timeout]
        match select_internal_count env.waited with
        | Except.error e => (steps, Except.error e)
        | Except.ok count => select_finish steps count
      else select_finish steps count
    else select_finish steps count

end KQueue

namespace URing

/-- What the surroundings answer during one `select` of the io_uring selector: the outcome
of the two `io_uring_submit_flush` calls (`none` when nothing is raised), the return value of
`IO_Event_Selector_ready_flush`, the counts of the two `select_process_completions`, the two
readings of `selector->backend.ready` (uring.c:1138 and :1147), and the result of
`io_uring_wait_cqe_timeout` (`none` for a non-negative result, else the errno). -/
structure SelectEnv where
  flushed : Option Errno
  ready : Int
  completed : Nat
  queued : Bool
  queued_again : Bool
  flushed_again : Option Errno
  waited : Option Errno
  completed_after : Nat
  deriving DecidableEq, Repr

/-- The result handling of `select_internal_without_gvl` (uring.c:1056): `-ETIME` and
`-EINTR` count as zero, any other error is raised, success is reported as `1`. -/
def select_internal_result : Option Errno → Except Errno Int
  | none => Except.ok 1
  | some Errno.ETIME => Except.ok 0
  | some Errno.EINTR => Except.ok 0
  | some e => Except.error e

/-- Embeds `IO_Event_Selector_URing_select` (uring.c:1119): the steps it performs and its
result. -/
def IO_Event_Selector_URing_select (env : SelectEnv) (duration : Duration) :
    List SelectStep × Except Errno Int :=
  match env.flushed with
  | some e => ([SelectStep.submit_flush], Except.error e)
  | none =>
    let steps := [SelectStep.submit_flush, SelectStep.ready_flush, SelectStep.process_completions]
    let result : Int := env.completed
    if env.ready = 0 ∧ result = 0 ∧ env.queued = false then
      let timeout := make_timeout duration
      if env.queued_again = false ∧ timeout_nonblocking timeout = false then
        match env.flushed_again with
        | some e => (steps ++ [SelectStep.submit_flush], Except.error e)
        | none =>
          let steps := steps ++ [SelectStep.submit_flush, SelectStep.wait timeout]
          match select_internal_result env.waited with
          | Except.error e => (steps, Except.error e)
          | Except.ok result =>
            if result > 0 then
              (steps ++ [SelectStep.process_completions], Except.ok (env.completed_after : Int))
            else (steps, Except.ok result)
      else (steps, Except.ok result)
    else (steps, Except.ok result)

end URing

/-- The gate on the blocking wait of one `select` cycle with recorded steps `steps`: every
blocking wait among them uses the timeout made from `duration`, which is `nil` or non-zero,
happens only when `idle` holds, and comes after a `ready_flush`. -/
def BlockingWaitGated (steps : List SelectStep) (duration : Duration) (idle : Prop) : Prop :=
  ∀ t, SelectStep.wait t ∈ steps →
    idle ∧ t = make_timeout duration ∧
    (duration = Duration.nil ∨
      ∃ ts, make_timeout duration = some ts ∧ ¬ (ts.tv_sec = 0 ∧ ts.tv_nsec = 0)) ∧
    ∃ before after, steps = before ++ SelectStep.wait t :: after ∧
      SelectStep.ready_flush ∈ before

/-- A `select` cycle that only polls: no blocking wait among its steps. -/
def OnlyPolls (steps : List SelectStep) : Prop :=
  ∀ t, SelectStep.wait t ∉ steps

/-! ## Intrusive lists (list.h) and the waiters on them -/

/-- Memory holding `struct IO_Event_List` cells and the members of the waiter laid out
behind a cell (`struct IO_Event_Selector_EPoll_Waiting`, `struct
IO_Event_Selector_KQueue_Waiting`): one map per member, indexed by the address of the cell. -/
structure ListMemory where
  head : Nat → Nat
  tail : Nat → Nat
  type : Nat → Nat
  events : Nat → Nat
  ready : Nat → Nat
  fiber : Nat → Nat

/-- The member map `f` after storing `v` at address `p`. -/
def store (f : Nat → Nat) (p v : Nat) : Nat → Nat :=
  fun a => if a = p then v else f a

/-- Embeds `IO_Event_List_initialize` (list.h:16). -/
def IO_Event_List_initialize (m : ListMemory) (list : Nat) : ListMemory :=
  { m with head := store m.head list list, tail := store m.tail list list,
           type := store m.type list 0 }

/-- Embeds `IO_Event_List_append` (list.h:29). -/
def IO_Event_List_append (m : ListMemory) (list node : Nat) : ListMemory :=
  let head := m.head list
  let m := { m with tail := store m.tail node list }
  let m := { m with head := store m.head node head }
  let m := { m with head := store m.head list node }
  let m := { m with tail := store m.tail head node }
  m

/-- Embeds `IO_Event_List_prepend` (list.h:42). -/
def IO_Event_List_prepend (m : ListMemory) (list node : Nat) : ListMemory :=
  let tail := m.tail list
  let m := { m with head := store m.head node list }
  let m := { m with tail := store m.tail node tail }
  let m := { m with tail := store m.tail list node }
  let m := { m with head := store m.head tail node }
  m

/-- Embeds `IO_Event_List_pop` (list.h:55). -/
def IO_Event_List_pop (m : ListMemory) (node : Nat) : ListMemory :=
  let head := m.head node
  let tail := m.tail node
  let m := { m with tail := store m.tail head tail }
  let m := { m with head := store m.head tail head }
  let m := { m with tail := store m.tail node 0 }
  let m := { m with head := store m.head node 0 }
  m

/-- Embeds `IO_Event_List_free` (list.h:69). -/
def IO_Event_List_free (m : ListMemory) (node : Nat) : ListMemory :=
  if m.head node ≠ 0 ∧ m.tail node ≠ 0 then IO_Event_List_pop m node else m

/-- Embeds `IO_Event_List_empty` (list.h:91). -/
def IO_Event_List_empty (m : ListMemory) (list : Nat) : Bool :=
  m.head list == m.tail list

/-- Embeds `io_wait_transfer` of the epoll and kqueue selectors (epoll.c:541, kqueue.c:534) from
the point where `IO_Event_Selector_loop_yield` has returned: what `io_wait` hands to its
fiber, read from the waiter at address `waiting`. -/
def io_wait_transfer (m : ListMemory) (waiting : Nat) : Outcome :=
  if m.ready waiting ≠ 0 then Outcome.value (m.ready waiting) else Outcome.qfalse

/-- Embeds `IO_Event_Selector_EPoll_Waiting_cancel` (epoll.c:294) and
`IO_Event_Selector_KQueue_Waiting_cancel` (kqueue.c:268), which `io_wait_ensure` runs when
the waiting fiber leaves `io_wait`. -/
def Waiting_cancel (m : ListMemory) (waiting : Nat) : ListMemory :=
  let m := IO_Event_List_pop m waiting
  { m with fiber := store m.fiber waiting 0 }

/-- The waiter that `io_wait` sets up in its own frame at address `waiting` before it
registers it (epoll.c:562, kqueue.c:555): the members named in the initializer, and zero in
all others, so the links are `NULL` and `ready` is `0`. -/
def waiter_initialized (m : ListMemory) (waiting fiber events : Nat) : ListMemory :=
  { m with head := store m.head waiting 0, tail := store m.tail waiting 0,
           fiber := store m.fiber waiting fiber,
           events := store m.events waiting events,
           ready := store m.ready waiting 0 }

/-- The state the dispatch loop of `handle` works on: the list memory, the descriptor's
`waiting_events`, and (for the statements) the record of the transfers made so far, each
with the address of the waiter and the value `io_wait_transfer` reads from it at the moment
its fiber is resumed. -/
structure Dispatch where
  memory : ListMemory
  waiting_events : Nat
  resumed : List (Nat × Outcome)

/-- The `while (node != list)` loop of `IO_Event_Selector_EPoll_handle` (epoll.c:917) and
`IO_Event_Selector_KQueue_handle` (kqueue.c:893).  `resume node m` is the memory when
`IO_Event_Selector_loop_resume` on the fiber of the waiter at `node` comes back to the loop;
`none` when `fuel` iterations do not reach the list head. -/
def dispatch_loop (resume : Nat → ListMemory → ListMemory) (ready_events list saved : Nat) :
    Nat → Nat → Dispatch → Option Dispatch
  | 0, node, d => if node = list then some d else none
  | fuel + 1, node, d =>
    if node = list then some d
    else
      let matching_events := d.memory.events node &&& ready_events
      if matching_events ≠ 0 then
        let m := IO_Event_List_append d.memory node saved
        let m := { m with ready := store m.ready node matching_events }
        let resumed := d.resumed ++ [(node, io_wait_transfer m node)]
        let m := resume node m
        let node := m.tail saved
        let m := IO_Event_List_pop m saved
        dispatch_loop resume ready_events list saved fuel node
          { memory := m, waiting_events := d.waiting_events, resumed := resumed }
      else
        dispatch_loop resume ready_events list saved fuel (d.memory.tail node)
          { d with waiting_events := d.waiting_events ||| d.memory.events node }

/-! ## The ready queue (selector.h, selector.c) -/

/-- The tag `IO_EVENT_SELECTOR_QUEUE_FIBER` of `enum IO_Event_Selector_Queue_Flags`. -/
def IO_EVENT_SELECTOR_QUEUE_FIBER : Nat := 1
/-- The tag `IO_EVENT_SELECTOR_QUEUE_INTERNAL` of `enum IO_Event_Selector_Queue_Flags`. -/
def IO_EVENT_SELECTOR_QUEUE_INTERNAL : Nat := 2

/-- Embeds `struct IO_Event_Selector` (selector.h:183) together with the memory of the
`struct IO_Event_Selector_Queue` nodes it links: `waiting` is the front (most recently
pushed) node, `ready` the back node that is processed next, and `head`, `tail`, `flags` and
`fiber` map the address of a node to its members. -/
structure IO_Event_Selector where
  loop : Nat
  waiting : Nat
  ready : Nat
  head : Nat → Nat
  tail : Nat → Nat
  flags : Nat → Nat
  fiber : Nat → Nat

/-- Embeds `IO_Event_Selector_initialize` (selector.c:100), on the queue members. -/
def IO_Event_Selector_initialize (backend : IO_Event_Selector) (loop : Nat) :
    IO_Event_Selector :=
  { backend with loop := loop, waiting := 0, ready := 0 }

/-- Embeds `queue_pop` (selector.c:127). -/
def queue_pop (backend : IO_Event_Selector) (waiting : Nat) : IO_Event_Selector :=
  let backend :=
    if backend.head waiting ≠ 0 then
      { backend with tail := store backend.tail (backend.head waiting) (backend.tail waiting) }
    else
      { backend with waiting := backend.tail waiting }
  let backend :=
    if backend.tail waiting ≠ 0 then
      { backend with head := store backend.head (backend.tail waiting) (backend.head waiting) }
    else
      { backend with ready := backend.head waiting }
  let backend := { backend with head := store backend.head waiting 0 }
  let backend := { backend with tail := store backend.tail waiting 0 }
  backend

/-- Embeds `queue_push` (selector.c:146). -/
def queue_push (backend : IO_Event_Selector) (waiting : Nat) : IO_Event_Selector :=
  let backend :=
    if backend.waiting ≠ 0 then
      let backend := { backend with head := store backend.head backend.waiting waiting }
      { backend with tail := store backend.tail waiting backend.waiting }
    else
      { backend with ready := waiting }
  { backend with waiting := waiting }

/-- Embeds `IO_Event_Selector_ready_push` (selector.c:241); `node` is the address `malloc`
returned. -/
def IO_Event_Selector_ready_push (backend : IO_Event_Selector) (node fiber : Nat) :
    IO_Event_Selector :=
  let backend := { backend with head := store backend.head node 0 }
  let backend := { backend with tail := store backend.tail node 0 }
  let backend :=
    { backend with flags := store backend.flags node IO_EVENT_SELECTOR_QUEUE_INTERNAL }
  let backend := { backend with fiber := store backend.fiber node fiber }
  queue_push backend node

/-- How the other fibers behave during a flush: `fibers k node fiber backend` is the queue
memory at the moment control comes back to the loop from transfer number `k` of the flush,
made for the queue node at address `node` to `fiber`, and whether an exception comes back
with it. -/
abbrev Fibers := Nat → Nat → Nat → IO_Event_Selector → IO_Event_Selector × Bool

/-- Which fibers are alive during a flush: `alive k fiber` is what `rb_fiber_alive_p` (or
the method `alive?`) answers for `fiber` when the flush has processed `k` entries. -/
abbrev Alive := Nat → Nat → Bool

/-- What a call that may transfer control leaves: the queue when control is back, whether an
exception is unwinding, and the fibers that control was transferred to. -/
structure Popped where
  backend : IO_Event_Selector
  raised : Bool
  transfers : List Nat

/-- Embeds `IO_Event_Selector_loop_resume` (selector.c:108), which is
`IO_Event_Fiber_transfer` (fiber.c:8), for the queue node at address `node`: control is
transferred to `fiber` when it is alive; for a fiber that is not alive nothing is done and
`nil` is returned. -/
def IO_Event_Selector_loop_resume (alive : Alive) (fibers : Fibers) (k node fiber : Nat)
    (backend : IO_Event_Selector) : Popped :=
  if alive k fiber = true then
    { backend := (fibers k node fiber backend).1, raised := (fibers k node fiber backend).2,
      transfers := [fiber] }
  else { backend := backend, raised := false, transfers := [] }

/-- Embeds `IO_Event_Selector_ready_pop` (selector.c:255): the queue when control is back,
whether an exception is unwinding (raised here for an unknown tag, or by the transfer), and
the fibers control was transferred to. -/
def IO_Event_Selector_ready_pop (alive : Alive) (fibers : Fibers) (k : Nat)
    (backend : IO_Event_Selector) (ready : Nat) : Popped :=
  let fiber := backend.fiber ready
  if backend.flags ready &&& IO_EVENT_SELECTOR_QUEUE_INTERNAL ≠ 0 then
    let backend := queue_pop backend ready
    IO_Event_Selector_loop_resume alive fibers k ready fiber backend
  else if backend.flags ready &&& IO_EVENT_SELECTOR_QUEUE_FIBER ≠ 0 then
    IO_Event_Selector_loop_resume alive fibers k ready fiber backend
  else { backend := backend, raised := true, transfers := [] }

/-- What a flush leaves behind: its return value `count` (meaningful when nothing was
raised), the queue, the addresses of the nodes it processed in order, the fibers it
transferred control to in order, and whether it was left by an exception. -/
structure Flushed where
  count : Nat
  backend : IO_Event_Selector
  processed : List Nat
  transfers : List Nat
  raised : Bool

/-- The `while (backend->ready)` loop of `IO_Event_Selector_ready_flush` (selector.c:287);
`waiting` is the front node noted on entry, `none` when `fuel` iterations do not end it. -/
def ready_flush_loop (alive : Alive) (fibers : Fibers) (waiting : Nat) :
    Nat → IO_Event_Selector → Nat → List Nat → List Nat → Option Flushed
  | 0, backend, count, processed, transfers =>
    if backend.ready = 0 then
      some { count := count, backend := backend, processed := processed,
             transfers := transfers, raised := false }
    else none
  | fuel + 1, backend, count, processed, transfers =>
    if backend.ready = 0 then
      some { count := count, backend := backend, processed := processed,
             transfers := transfers, raised := false }
    else
      let ready := backend.ready
      let r := IO_Event_Selector_ready_pop alive fibers count backend ready
      let transfers := transfers ++ r.transfers
      let count := count + 1
      let processed := processed ++ [ready]
      if r.raised then
        some { count := count, backend := r.backend, processed := processed,
               transfers := transfers, raised := true }
      else if ready = waiting then
        some { count := count, backend := r.backend, processed := processed,
               transfers := transfers, raised := false }
      else ready_flush_loop alive fibers waiting fuel r.backend count processed transfers

/-- Embeds `IO_Event_Selector_ready_flush` (selector.c:275). -/
def IO_Event_Selector_ready_flush (alive : Alive) (fibers : Fibers) (fuel : Nat)
    (backend : IO_Event_Selector) : Option Flushed :=
  ready_flush_loop alive fibers backend.waiting fuel backend 0 [] []

/-- Every fiber is alive. -/
def allAlive : Alive := fun _ _ => true

/-- Every fiber but fiber 9 is alive. -/
def aliveBut9 : Alive := fun _ fiber => decide (fiber ≠ 9)

/-- The fibers of the entries `entries` that are alive when their entry is processed, the
first entry being processed after `k` others. -/
def alive_fibers (alive : Alive) : Nat → List (Nat × Nat) → List Nat
  | _, [] => []
  | k, e :: rest =>
    (if alive k e.2 = true then [e.2] else []) ++ alive_fibers alive (k + 1) rest

/-! ## epoll: registration and `io_wait` (epoll.c) -/

namespace EPoll

/-- The operations of `epoll_ctl`. -/
inductive Operation where
  | EPOLL_CTL_ADD
  | EPOLL_CTL_MOD
  | EPOLL_CTL_DEL
  deriving DecidableEq, Repr

/-- One `epoll_ctl` request: operation, descriptor, and the flags of the event (`none` for
the `NULL` event of a delete). -/
structure Control where
  operation : Operation
  descriptor : Int
  flags : Option Nat
  deriving DecidableEq, Repr

/-- The kernel's side of `epoll_ctl`: given the requests made so far and the next one, `none`
for success and the errno for `-1`. -/
abbrev Kernel := List Control → Control → Option Errno

/-- Embeds `struct IO_Event_Selector_EPoll_Descriptor` (epoll.c:54); `list` is the address of its
embedded list head. -/
structure IO_Event_Selector_EPoll_Descriptor where
  list : Nat
  io : Nat
  waiting_events : Nat
  registered_events : Nat
  deriving DecidableEq, Repr

/-- What the epoll functions below work on: the list memory, the per-descriptor record of
the descriptor at hand, the `epoll_ctl` requests issued so far, and the ready queue. -/
structure State where
  memory : ListMemory
  descriptor : IO_Event_Selector_EPoll_Descriptor
  calls : List Control
  backend : IO_Event_Selector

/-- Embeds `IO_Event_Selector_EPoll_Descriptor_initialize` (epoll.c:301). -/
def IO_Event_Selector_EPoll_Descriptor_initialize (m : ListMemory) (element : Nat) :
    ListMemory × IO_Event_Selector_EPoll_Descriptor :=
  ( IO_Event_List_initialize m element,
    { list := element, io := 0, waiting_events := 0, registered_events := 0 })

/-- Embeds `IO_Event_Selector_EPoll_Descriptor_update` (epoll.c:220): the value it returns (`-1`
with its errno as an error), the record and the requests afterwards. -/
def IO_Event_Selector_EPoll_Descriptor_update (K : EPollFlags) (kernel : Kernel)
    (calls : List Control) (io : Nat) (descriptor : Int)
    (d : IO_Event_Selector_EPoll_Descriptor) :
    Except Errno Int × IO_Event_Selector_EPoll_Descriptor × List Control :=
  if d.io = io ∧ d.registered_events = d.waiting_events then (Except.ok 0, d, calls)
  else
    let d := if d.io = io then d else { d with registered_events := 0, io := io }
    if d.waiting_events = 0 then
      if d.registered_events ≠ 0 then
        let request : Control :=
          { operation := Operation.EPOLL_CTL_DEL, descriptor := descriptor, flags := none }
        (Except.ok 0, { d with registered_events := 0, io := 0 }, calls ++ [request])
      else (Except.ok 0, { d with io := 0 }, calls)
    else
      let flags := epoll_flags_from_events K d.waiting_events
      let operation :=
        if d.registered_events ≠ 0 then Operation.EPOLL_CTL_MOD else Operation.EPOLL_CTL_ADD
      let request : Control :=
        { operation := operation, descriptor := descriptor, flags := some flags }
      match kernel calls request with
      | none =>
        (Except.ok 1, { d with registered_events := d.waiting_events }, calls ++ [request])
      | some e =>
        let calls := calls ++ [request]
        if e = Errno.ENOENT then
          let again : Control :=
            { operation := Operation.EPOLL_CTL_ADD, descriptor := descriptor,
              flags := some flags }
          match kernel calls again with
          | none =>
            (Except.ok 1, { d with registered_events := d.waiting_events }, calls ++ [again])
          | some e' => (Except.error e', d, calls ++ [again])
        else if e = Errno.EEXIST then
          let again : Control :=
            { operation := Operation.EPOLL_CTL_MOD, descriptor := descriptor,
              flags := some flags }
          match kernel calls again with
          | none =>
            (Except.ok 1, { d with registered_events := d.waiting_events }, calls ++ [again])
          | some e' => (Except.error e', d, calls ++ [again])
        else (Except.error e, d, calls)

/-- How `IO_Event_Selector_EPoll_Waiting_register` ends: by the exception of a failed
`IO_Event_Selector_EPoll_Descriptor_lookup`, by returning `-1` with `errno` set, or by
returning the non-negative result of the update with the waiter linked. -/
inductive Registered where
  | raised (errno : Errno)
  | failed (errno : Errno)
  | linked (result : Int)
  deriving DecidableEq, Repr

/-- Embeds `IO_Event_Selector_EPoll_Waiting_register` (epoll.c:278).  `found` tells whether
`IO_Event_Array_lookup` yields the record (it returns `NULL` when the table cannot grow). -/
def IO_Event_Selector_EPoll_Waiting_register (K : EPollFlags) (kernel : Kernel)
    (found : Bool) (s : State) (io : Nat) (descriptor : Int) (waiting : Nat) :
    Registered × State :=
  if found = false then (Registered.raised Errno.ENOMEM, s)
  else
    let d := { s.descriptor with
      waiting_events := s.descriptor.waiting_events ||| s.memory.events waiting }
    let r := IO_Event_Selector_EPoll_Descriptor_update K kernel s.calls io descriptor d
    match r.1 with
    | Except.error e =>
      (Registered.failed e, { s with descriptor := r.2.1, calls := r.2.2 })
    | Except.ok result =>
      (Registered.linked result,
        { s with memory := IO_Event_List_prepend s.memory r.2.1.list waiting,
                 descriptor := r.2.1, calls := r.2.2 })

/-- How `IO_Event_Selector_EPoll_io_wait` goes on after the registration: it raises a system
error; or it has pushed the fiber on the ready queue and will call
`IO_Event_Selector_yield` and then return `value`; or it runs `io_wait_transfer` under
`io_wait_ensure` for the registered waiter. -/
inductive Waited where
  | raised (errno : Errno)
  | yield_then_return (value : Nat)
  | transfer_ensure (waiting : Nat)
  deriving DecidableEq, Repr

/-- Embeds `IO_Event_Selector_EPoll_io_wait` (epoll.c:556) up to the point where the fiber gives up
control.  `waiting` is the address of the waiter in the caller's frame, `node` the address
`malloc` returns to `IO_Event_Selector_ready_push`. -/
def IO_Event_Selector_EPoll_io_wait (K : EPollFlags) (kernel : Kernel) (found : Bool)
    (s : State) (fiber io : Nat) (descriptor : Int) (events : Nat) (waiting node : Nat) :
    Waited × State :=
  let s := { s with memory := waiter_initialized s.memory waiting fiber events }
  let r := IO_Event_Selector_EPoll_Waiting_register K kernel found s io descriptor waiting
  match r.1 with
  | Registered.raised e => (Waited.raised e, r.2)
  | Registered.failed e =>
    if e = Errno.EPERM then
      (Waited.yield_then_return events,
        { r.2 with backend := IO_Event_Selector_ready_push r.2.backend node fiber })
    else (Waited.raised e, r.2)
  | Registered.linked _ => (Waited.transfer_ensure waiting, r.2)

/-- What `IO_Event_Selector_EPoll_handle` leaves behind: the state, the value it returns (or
the error it raises), and the transfers it made. -/
structure Handled where
  state : State
  result : Except Errno Int
  resumed : List (Nat × Outcome)

/-- Embeds `IO_Event_Selector_EPoll_handle` (epoll.c:899) for an event with descriptor `descriptor`
and readiness flags `flags`; `saved` is the address of `arguments->saved`. -/
def IO_Event_Selector_EPoll_handle (K : EPollFlags) (kernel : Kernel)
    (resume : Nat → ListMemory → ListMemory) (fuel : Nat) (found : Bool) (s : State)
    (descriptor : Int) (flags : Nat) (saved : Nat) : Option Handled :=
  let ready_events := events_from_epoll_flags K flags
  if found = false then
    some { state := s, result := Except.error Errno.ENOMEM, resumed := [] }
  else
    let list := s.descriptor.list
    let node := s.memory.tail list
    match dispatch_loop resume ready_events list saved fuel node
        { memory := s.memory, waiting_events := 0, resumed := [] } with
    | none => none
    | some r =>
      let d := { s.descriptor with waiting_events := r.waiting_events }
      let u := IO_Event_Selector_EPoll_Descriptor_update K kernel s.calls d.io descriptor d
      some { state := { s with memory := r.memory, descriptor := u.2.1, calls := u.2.2 },
             result := u.1, resumed := r.resumed }

end EPoll

/-! ## kqueue: registration and `io_wait` (kqueue.c) -/

namespace KQueue

/-- The kevent filters the selector arms. -/
inductive Filter where
  | EVFILT_READ
  | EVFILT_WRITE
  | EVFILT_PROC
  deriving DecidableEq, Repr

/-- One change of a `kevent` request (`EV_ADD | EV_ONESHOT` on `ident` for `filter`). -/
structure Change where
  ident : Nat
  filter : Filter
  deriving DecidableEq, Repr

/-- The kernel's side of a `kevent` call that only submits changes: given the requests made
so far and the next one, `none` for success and the errno for `-1`. -/
abbrev Kernel := List (List Change) → List Change → Option Errno

/-- Embeds `struct IO_Event_Selector_KQueue_Descriptor` (kqueue.c:65); `list` is the address of its
embedded list head. -/
structure IO_Event_Selector_KQueue_Descriptor where
  list : Nat
  waiting_events : Nat
  registered_events : Nat
  ready_events : Nat
  deriving DecidableEq, Repr

/-- What the kqueue functions below work on: the list memory, the per-descriptor record of
the identifier at hand, and the `kevent` requests issued so far. -/
structure State where
  memory : ListMemory
  descriptor : IO_Event_Selector_KQueue_Descriptor
  calls : List (List Change)

/-- Embeds `events_from_kevent_filter` (kqueue.c:186) on the filters above. -/
def events_from_kevent_filter : Filter → Nat
  | Filter.EVFILT_READ => IO_EVENT_READABLE
  | Filter.EVFILT_WRITE => IO_EVENT_WRITABLE
  | Filter.EVFILT_PROC => IO_EVENT_EXIT

/-- Embeds `IO_Event_Selector_KQueue_Descriptor_update` (kqueue.c:201): the value it returns (`-1`
with its errno as an error), the record and the requests afterwards. -/
def IO_Event_Selector_KQueue_Descriptor_update (kernel : Kernel) (calls : List (List Change))
    (identifier : Nat) (d : IO_Event_Selector_KQueue_Descriptor) :
    Except Errno Int × IO_Event_Selector_KQueue_Descriptor × List (List Change) :=
  let kevents : List Change := []
  let kevents :=
    if d.waiting_events &&& IO_EVENT_READABLE ≠ 0 then
      kevents ++ [{ ident := identifier, filter := Filter.EVFILT_READ }]
    else kevents
  let kevents :=
    if d.waiting_events &&& IO_EVENT_WRITABLE ≠ 0 then
      kevents ++ [{ ident := identifier, filter := Filter.EVFILT_WRITE }]
    else kevents
  let kevents :=
    if d.waiting_events &&& IO_EVENT_EXIT ≠ 0 then
      kevents ++ [{ ident := identifier, filter := Filter.EVFILT_PROC }]
    else kevents
  if kevents.length = 0 then (Except.ok 0, d, calls)
  else
    match kernel calls kevents with
    | some e => (Except.error e, d, calls ++ [kevents])
    | none =>
      (Except.ok 0, { d with registered_events := d.waiting_events }, calls ++ [kevents])

/-- How `IO_Event_Selector_KQueue_Waiting_register` ends: by the exception of a failed
`IO_Event_Selector_KQueue_Descriptor_lookup`, by returning `-1` with `errno` set, or by
returning the non-negative result of the update with the waiter linked. -/
inductive Registered where
  | raised (errno : Errno)
  | failed (errno : Errno)
  | linked (result : Int)
  deriving DecidableEq, Repr

/-- Embeds `IO_Event_Selector_KQueue_Waiting_register` (kqueue.c:252).  `found` tells whether
`IO_Event_Array_lookup` yields the record. -/
def IO_Event_Selector_KQueue_Waiting_register (kernel : Kernel) (found : Bool) (s : State)
    (identifier : Nat) (waiting : Nat) : Registered × State :=
  if found = false then (Registered.raised Errno.ENOMEM, s)
  else
    let d := { s.descriptor with
      waiting_events := s.descriptor.waiting_events ||| s.memory.events waiting }
    let r := IO_Event_Selector_KQueue_Descriptor_update kernel s.calls identifier d
    match r.1 with
    | Except.error e =>
      (Registered.failed e, { s with descriptor := r.2.1, calls := r.2.2 })
    | Except.ok result =>
      (Registered.linked result,
        { s with memory := IO_Event_List_prepend s.memory r.2.1.list waiting,
                 descriptor := r.2.1, calls := r.2.2 })

/-- How `IO_Event_Selector_KQueue_io_wait` goes on after the registration: it raises a
system error, or it runs `io_wait_transfer` under `io_wait_ensure` for the registered
waiter. -/
inductive Waited where
  | raised (errno : Errno)
  | transfer_ensure (waiting : Nat)
  deriving DecidableEq, Repr

/-- Embeds `IO_Event_Selector_KQueue_io_wait` (kqueue.c:549) up to the point where the fiber gives
up control; `waiting` is the address of the waiter in the caller's frame. -/
def IO_Event_Selector_KQueue_io_wait (kernel : Kernel) (found : Bool) (s : State)
    (fiber : Nat) (descriptor : Nat) (events : Nat) (waiting : Nat) : Waited × State :=
  let s := { s with memory := waiter_initialized s.memory waiting fiber events }
  let r := IO_Event_Selector_KQueue_Waiting_register kernel found s descriptor waiting
  match r.1 with
  | Registered.raised e => (Waited.raised e, r.2)
  | Registered.failed e => (Waited.raised e, r.2)
  | Registered.linked _ => (Waited.transfer_ensure waiting, r.2)

/-- What `IO_Event_Selector_KQueue_handle` leaves behind: the state, the value it returns
(`-1` with its errno as an error), and the transfers it made. -/
structure Handled where
  state : State
  result : Except Errno Int
  resumed : List (Nat × Outcome)

/-- Embeds `IO_Event_Selector_KQueue_handle` (kqueue.c:872); `saved` is the address of
`arguments->saved`. -/
def IO_Event_Selector_KQueue_handle (kernel : Kernel)
    (resume : Nat → ListMemory → ListMemory) (fuel : Nat) (s : State)
    (identifier : Nat) (saved : Nat) : Option Handled :=
  let ready_events := s.descriptor.ready_events
  if ready_events ≠ 0 then
    let d := { s.descriptor with
      ready_events := 0,
      registered_events := Nat.ldiff s.descriptor.registered_events ready_events }
    let list := d.list
    let node := s.memory.tail list
    match dispatch_loop resume ready_events list saved fuel node
        { memory := s.memory, waiting_events := 0, resumed := [] } with
    | none => none
    | some r =>
      let d := { d with waiting_events := r.waiting_events }
      let u := IO_Event_Selector_KQueue_Descriptor_update kernel s.calls identifier d
      some { state := { memory := r.memory, descriptor := u.2.1, calls := u.2.2 },
             result := u.1, resumed := r.resumed }
  else some { state := s, result := Except.ok 0, resumed := [] }

end KQueue

/-! ## Well-formed lists and queues -/

/-- Predicate `Walk next c z`: following the link `next` from the first address of `c` visits the
addresses of `c` in order and then arrives at `z`. -/
def Walk (next : Nat → Nat) : List Nat → Nat → Prop
  | [], _ => True
  | [a], z => next a = z
  | a :: b :: rest, z => next a = b ∧ Walk next (b :: rest) z

/-- Predicate `Ring m list ws`: the list headed by the cell at address `list` is well formed
and holds exactly the cells `ws`, in the order in which iteration along `tail` visits them; along
`head` the same cells are met in the opposite order. -/
structure Ring (m : ListMemory) (list : Nat) (ws : List Nat) : Prop where
  nodup : (list :: ws).Nodup
  forward : Walk m.tail (list :: ws) list
  backward : Walk m.head (list :: ws.reverse) list

/-- Predicate `Queue backend l`: the ready queue of `backend` is well formed and holds exactly the
nodes `l`, from the `ready` end (processed next) to the `waiting` end (pushed last). -/
structure Queue (backend : IO_Event_Selector) (l : List Nat) : Prop where
  nodup : l.Nodup
  nonnull : 0 ∉ l
  ready : backend.ready = l.headD 0
  waiting : backend.waiting = l.reverse.headD 0
  forward : Walk backend.head l 0
  backward : Walk backend.tail l.reverse 0

/-- Predicate `Tagged backend entries`: the ready queue holds exactly the nodes of `entries`,
in this order from the `ready` end, each tagged INTERNAL and carrying its fiber. -/
def Tagged (backend : IO_Event_Selector) (entries : List (Nat × Nat)) : Prop :=
  Queue backend (entries.map Prod.fst) ∧
    ∀ e ∈ entries, backend.flags e.1 = IO_EVENT_SELECTOR_QUEUE_INTERNAL ∧
      backend.fiber e.1 = e.2

/-- Predicate `Keeps w l l'`: from the queue `l` to the queue `l'` the node `w` stayed, and
between the `ready` end and `w` nodes were only removed, none added. -/
def Keeps (w : Nat) (l l' : List Nat) : Prop :=
  ∀ p q, l = p ++ w :: q → ∃ p' q', l' = p' ++ w :: q' ∧ p'.Sublist p

/-- The bitwise OR of the `events` of the waiters `ws`, on top of `mask`. -/
def events_union (events : Nat → Nat) (mask : Nat) (ws : List Nat) : Nat :=
  (ws.map events).foldl (fun a b => a ||| b) mask

/-! ## Behaviour of the resumed fibers -/

/-- The behaviour of a resumed fiber that the statements about `handle` assume: resumed
inside `io_wait`, it leaves `io_wait` at once, so that `io_wait_ensure` cancels its own
waiter, and nothing else is touched before control is back in the loop. -/
def fiber_leaves_io_wait (node : Nat) (m : ListMemory) : ListMemory :=
  Waiting_cancel m node

/-- Fibers that, when control is transferred to them, leave the ready queue as it is and
give control back without an exception. -/
def quietFibers : Fibers := fun _ _ _ backend => (backend, false)

/-- Fibers that only unwind: one resumed through its own FIBER-tagged node leaves `resume`
or `yield`, whose ensure clause pops that node (`wait_and_transfer_ensure`,
selector.c:173); one resumed through an INTERNAL node leaves the queue alone. -/
def unwindingFibers : Fibers := fun _ e _ backend =>
  (if backend.flags e &&& IO_EVENT_SELECTOR_QUEUE_INTERNAL ≠ 0 then backend
   else queue_pop backend e, false)

/-- The behaviours of the other fibers that a flush which noted the front node `w` on entry
can bound.  A transfer made for a node `e` other than `w` (an INTERNAL node, already popped
by the flush, or a FIBER-tagged node at the `ready` end) comes back with a well-formed queue
in which `e` is no longer in front of `w` and `w` is still queued: the resumed fiber has
left `resume` or `yield`, so its own node is popped, and whatever else happened (pushes at
the front, other queued fibers being resumed) added nothing in front of `w` and did not take
`w` out. -/
def Tame (w : Nat) (fibers : Fibers) : Prop :=
  ∀ (k e f : Nat) (backend : IO_Event_Selector) (l : List Nat), Queue backend l → e ≠ w →
    ((e ∉ l ∧ backend.flags e &&& IO_EVENT_SELECTOR_QUEUE_INTERNAL ≠ 0) ∨
      (∃ rest, l = e :: rest ∧ backend.flags e &&& IO_EVENT_SELECTOR_QUEUE_INTERNAL = 0 ∧
        backend.flags e &&& IO_EVENT_SELECTOR_QUEUE_FIBER ≠ 0)) →
    ∃ l', Queue (fibers k e f backend).1 l' ∧ Keeps w (l.erase e) l'

/-- The queue after `IO_Event_Selector_ready_push` of each entry of `entries` in order; an
entry is the address `malloc` returned for the node and the fiber pushed. -/
def pushed (backend : IO_Event_Selector) (entries : List (Nat × Nat)) : IO_Event_Selector :=
  entries.foldl (fun b e => IO_Event_Selector_ready_push b e.1 e.2) backend

/-! ## Example states -/

/-- Memory in which every member of every cell is zero. -/
def blankMemory : ListMemory :=
  { head := fun _ => 0, tail := fun _ => 0, type := fun _ => 0, events := fun _ => 0,
    ready := fun _ => 0, fiber := fun _ => 0 }

/-- An example: the list head of a descriptor at address 100 and two waiters prepended to
it, first the waiter at address 1 of fiber 11 for READABLE, then the waiter at address 2 of
fiber 12 for WRITABLE. -/
def exampleMemory : ListMemory :=
  let m := IO_Event_List_initialize blankMemory 100
  let m := { m with events := store m.events 1 IO_EVENT_READABLE, fiber := store m.fiber 1 11 }
  let m := IO_Event_List_prepend m 100 1
  let m := { m with events := store m.events 2 IO_EVENT_WRITABLE, fiber := store m.fiber 2 12 }
  IO_Event_List_prepend m 100 2

/-- An empty ready queue with loop fiber 1. -/
def emptyQueue : IO_Event_Selector :=
  { loop := 1, waiting := 0, ready := 0, head := fun _ => 0, tail := fun _ => 0,
    flags := fun _ => 0, fiber := fun _ => 0 }

/-- An epoll state on `exampleMemory`: both waiters are registered for io 7. -/
def exampleEPollState : EPoll.State :=
  { memory := exampleMemory,
    descriptor := { list := 100, io := 7, waiting_events := 5, registered_events := 5 },
    calls := [], backend := emptyQueue }

/-- A kqueue state on `exampleMemory` in which the read filter has fired. -/
def exampleKQueueState : KQueue.State :=
  { memory := exampleMemory,
    descriptor := { list := 100, waiting_events := 5, registered_events := 5,
                    ready_events := 1 },
    calls := [] }

/-- An epoll state with a freshly initialized descriptor record at address 100 and nothing
registered. -/
def freshEPollState : EPoll.State :=
  { memory := (EPoll.IO_Event_Selector_EPoll_Descriptor_initialize blankMemory 100).1,
    descriptor := (EPoll.IO_Event_Selector_EPoll_Descriptor_initialize blankMemory 100).2,
    calls := [], backend := emptyQueue }

/-- A kernel that refuses every `epoll_ctl` with `EPERM`, as Linux does for a descriptor that
cannot be polled (a regular file). -/
def refusingKernel : EPoll.Kernel := fun _ _ => some Errno.EPERM

/-- An example queue: fiber 10 was pushed with `ready_push` (INTERNAL node 1), then fiber 20
called `yield`, so that its FIBER-tagged node 2 is the front node. -/
def exampleQueue : IO_Event_Selector :=
  let b := IO_Event_Selector_ready_push emptyQueue 1 10
  let b := { b with head := store b.head 2 0, tail := store b.tail 2 0,
                    flags := store b.flags 2 IO_EVENT_SELECTOR_QUEUE_FIBER,
                    fiber := store b.fiber 2 20 }
  queue_push b 2

/-- An example behaviour on `exampleQueue` that never lets the queue run empty: as with
`exampleFibers`, the fiber resumed first resumes fiber 20, which leaves `yield` (its node 2
is popped) and pushes itself with `ready_push`; at every later transfer fiber 20 pushes
itself again, each time with a node at a new address. -/
def relentlessFibers : Fibers := fun k _ _ backend =>
  match k with
  | 0 => (IO_Event_Selector_ready_push (queue_pop backend 2) 3 20, false)
  | k + 1 => (IO_Event_Selector_ready_push backend (k + 4) 20, false)

/-! ## Elapsed time (time.c) -/

/-- The value a signed integer of `bits` bits holds after `x` is stored in it: `x` itself
when it is representable, and the two's complement wrap-around otherwise (what the hardware
leaves where the C standard leaves signed overflow undefined). -/
def wrap_signed (bits : Nat) (x : Int) : Int :=
  (x + 2 ^ (bits - 1)) % 2 ^ bits - 2 ^ (bits - 1)

/-- Embeds `IO_Event_Time_elapsed` (time.c:6); `time_bits` is the width of `time_t` and
`long_bits` the width of `long`, the types of `tv_sec` and `tv_nsec`. -/
def IO_Event_Time_elapsed (time_bits long_bits : Nat) (start stop : Timespec) : Timespec :=
  if wrap_signed long_bits (stop.tv_nsec - start.tv_nsec) < 0 then
    { tv_sec := wrap_signed time_bits (stop.tv_sec - start.tv_sec - 1),
      tv_nsec := wrap_signed long_bits (stop.tv_nsec - start.tv_nsec + 1000000000) }
  else
    { tv_sec := wrap_signed time_bits (stop.tv_sec - start.tv_sec),
      tv_nsec := wrap_signed long_bits (stop.tv_nsec - start.tv_nsec) }

/-- Predicate `Fits bits x`: a signed integer of `bits` bits can hold `x`. -/
def Fits (bits : Nat) (x : Int) : Prop :=
  -(2 ^ (bits - 1)) ≤ x ∧ x < 2 ^ (bits - 1)

instance (bits : Nat) (x : Int) : Decidable (Fits bits x) := by
  unfold Fits; infer_instance

/-- A timespec is normalised when `0 <= tv_nsec < 1000000000`. -/
def Normalised (t : Timespec) : Prop :=
  0 ≤ t.tv_nsec ∧ t.tv_nsec < 1000000000

instance (t : Timespec) : Decidable (Normalised t) := by
  unfold Normalised; infer_instance

/-- The instant `start` is not later than the instant `stop`. -/
def NotLater (start stop : Timespec) : Prop :=
  start.tv_sec < stop.tv_sec ∨ (start.tv_sec = stop.tv_sec ∧ start.tv_nsec ≤ stop.tv_nsec)

instance (start stop : Timespec) : Decidable (NotLater start stop) := by
  unfold NotLater; infer_instance

/-- The number of nanoseconds a timespec stands for. -/
def nanoseconds (t : Timespec) : Int :=
  t.tv_sec * 1000000000 + t.tv_nsec

/-! ## Traversal of a list (list.h) -/

/-- Embeds `IO_Event_List_clear` (list.h:22). -/
def IO_Event_List_clear (m : ListMemory) (list : Nat) : ListMemory :=
  { m with head := store m.head list 0, tail := store m.tail list 0,
           type := store m.type list 0 }

/-- Embeds `IO_Event_List_immutable_each` (list.h:97): the cells the loop visits from
`node` on, in order, each with the flag whether `callback` is applied to it (its `type` is
set); `none` when `fuel` iterations do not reach the list head. -/
def IO_Event_List_immutable_each (m : ListMemory) (list : Nat) :
    Nat → Nat → Option (List (Nat × Bool))
  | 0, node => if node = list then some [] else none
  | fuel + 1, node =>
    if node = list then some []
    else
      match IO_Event_List_immutable_each m list fuel (m.tail node) with
      | none => none
      | some rest => some ((node, decide (m.type node ≠ 0)) :: rest)

/-- The order in which `IO_Event_List_immutable_each` visits the cells of the list headed
by `list`, starting as the function does at `list->tail`. -/
def traversal (m : ListMemory) (list : Nat) (fuel : Nat) : Option (List Nat) :=
  (IO_Event_List_immutable_each m list fuel (m.tail list)).map (fun l => l.map Prod.fst)

/-- A list with one node: the head at address 100 after `IO_Event_List_initialize` and the
node at address 1 prepended to it. -/
def singleNodeMemory : ListMemory :=
  IO_Event_List_prepend ( IO_Event_List_initialize blankMemory 100) 100 1

/-- Predicate `Linked m cells`: among `cells` the two links agree, `a.tail == b` exactly when
`b.head == a`. -/
def Linked (m : ListMemory) (cells : List Nat) : Prop :=
  ∀ a ∈ cells, ∀ b ∈ cells, (m.tail a = b ↔ m.head b = a)

/-! ## The transitions of the epoll registration, as the specification words them -/

namespace EPoll

/-- The operation the specification assigns to a pair `(registered_events, waiting_events)`:
none when they are equal, `EPOLL_CTL_DEL` when waiting is zero and registered is not,
`EPOLL_CTL_ADD` when registered is zero and waiting is not, `EPOLL_CTL_MOD` when both are
nonzero and differ. -/
def transition (registered waiting : Nat) : Option Operation :=
  if registered = waiting then none
  else if waiting = 0 then some Operation.EPOLL_CTL_DEL
  else if registered = 0 then some Operation.EPOLL_CTL_ADD
  else some Operation.EPOLL_CTL_MOD

/-- The `epoll_ctl` request for `operation` on `descriptor` with the event built from
`waiting`: no event for a delete, the flags of `waiting` otherwise. -/
def request (K : EPollFlags) (operation : Operation) (descriptor : Int) (waiting : Nat) :
    Control :=
  { operation := operation, descriptor := descriptor,
    flags := if operation = Operation.EPOLL_CTL_DEL then none
             else some (epoll_flags_from_events K waiting) }

/-- A kernel that accepts every `epoll_ctl`. -/
def acceptingKernel : Kernel := fun _ _ => none

end EPoll

/-! ## resume, raise and yield (selector.c, selector.h, fiber.c) -/

/-- An exception of the Ruby runtime: the `ArgumentError` that `rb_check_arity` raises, or
any other one, known by a tag. -/
inductive RubyError where
  | ArgumentError
  | other (tag : Nat)
  deriving DecidableEq, Repr

/-- How a call ends for its caller: it returns `nil` or another VALUE, or an exception
unwinds through the caller. -/
inductive Returned where
  | nil
  | value (v : Nat)
  | raised (error : RubyError)
  deriving DecidableEq, Repr

/-- A call of a fiber primitive of the runtime (`rb_fiber_transfer` or the `transfer`
method, `rb_fiber_raise` or the `raise` method), with the ready queue as it is at the
moment control is handed to the fiber. -/
inductive FiberCall where
  | transfer (fiber : Nat) (argv : List Nat) (queue : IO_Event_Selector)
  | raise (fiber : Nat) (argv : List Nat) (queue : IO_Event_Selector)

/-- The ready queue at the moment of a call of a fiber primitive. -/
def FiberCall.queue : FiberCall → IO_Event_Selector
  | FiberCall.transfer _ _ q => q
  | FiberCall.raise _ _ q => q

/-- The Ruby runtime as `resume` and `raise` meet it: the fiber that is running
(`IO_Event_Fiber_current`), which fibers are alive (`rb_fiber_alive_p`, `alive?`), and for
the two primitives the ready queue at the moment control is back in the caller together
with what comes back (a VALUE or an exception). -/
structure Runtime where
  current : Nat
  alive : Nat → Bool
  transfer : Nat → List Nat → IO_Event_Selector → IO_Event_Selector × Returned
  raise : Nat → List Nat → IO_Event_Selector → IO_Event_Selector × Returned

/-- What a fiber primitive leaves: the ready queue and the result when control is back,
and the calls of the runtime primitives made. -/
structure Transferred where
  backend : IO_Event_Selector
  result : Returned
  calls : List FiberCall

/-- Embeds `IO_Event_Fiber_transfer` (fiber.c:8). -/
def IO_Event_Fiber_transfer (rt : Runtime) (fiber : Nat) (argv : List Nat)
    (backend : IO_Event_Selector) : Transferred :=
  if rt.alive fiber then
    { backend := (rt.transfer fiber argv backend).1,
      result := (rt.transfer fiber argv backend).2,
      calls := [FiberCall.transfer fiber argv backend] }
  else { backend := backend, result := Returned.nil, calls := [] }

/-- Embeds `IO_Event_Fiber_raise` (fiber.h:75, fiber.c:30). -/
def IO_Event_Fiber_raise (rt : Runtime) (fiber : Nat) (argv : List Nat)
    (backend : IO_Event_Selector) : Transferred :=
  { backend := (rt.raise fiber argv backend).1,
    result := (rt.raise fiber argv backend).2,
    calls := [FiberCall.raise fiber argv backend] }

/-- What `resume`, `raise` and `yield` leave: the ready queue and the result when the call
returns or unwinds, the calls of the runtime primitives made, and for the statements the
queue as it was when control was handed over (`entered`, after `queue_push`) and as it was
when control came back (`left`, before the ensure clause ran `queue_pop`). -/
structure Resumed where
  backend : IO_Event_Selector
  result : Returned
  calls : List FiberCall
  entered : IO_Event_Selector
  left : IO_Event_Selector

/-- The node `struct IO_Event_Selector_Queue waiting` that `resume` and `raise` set up in
their frame at address `waiting` (selector.c:185, :220). -/
def queue_node (backend : IO_Event_Selector) (waiting current : Nat) : IO_Event_Selector :=
  { backend with head := store backend.head waiting 0,
                 tail := store backend.tail waiting 0,
                 flags := store backend.flags waiting IO_EVENT_SELECTOR_QUEUE_FIBER,
                 fiber := store backend.fiber waiting current }

/-- Embeds `IO_Event_Selector_resume` (selector.c:181) with `wait_and_transfer` and
`wait_and_transfer_ensure`; `argv` holds the `argc` arguments and `waiting` is the address
of the queue node in the frame.  `rb_check_arity(argc, 1, UNLIMITED_ARGUMENTS)` raises an
`ArgumentError` when `argc < 1`. -/
def IO_Event_Selector_resume (rt : Runtime) (backend : IO_Event_Selector) (waiting : Nat)
    (argv : List Nat) : Resumed :=
  if argv.length < 1 then
    { backend := backend, result := Returned.raised RubyError.ArgumentError, calls := [],
      entered := backend, left := backend }
  else
    let entered := queue_push (queue_node backend waiting rt.current) waiting
    let t := IO_Event_Fiber_transfer rt (argv.headD 0) argv.tail entered
    { backend := queue_pop t.backend waiting, result := t.result, calls := t.calls,
      entered := entered, left := t.backend }

/-- Embeds `IO_Event_Selector_raise` (selector.c:216) with `wait_and_raise` and
`wait_and_transfer_ensure`; `rb_check_arity(argc, 2, UNLIMITED_ARGUMENTS)` raises an
`ArgumentError` when `argc < 2`. -/
def IO_Event_Selector_raise (rt : Runtime) (backend : IO_Event_Selector) (waiting : Nat)
    (argv : List Nat) : Resumed :=
  if argv.length < 2 then
    { backend := backend, result := Returned.raised RubyError.ArgumentError, calls := [],
      entered := backend, left := backend }
  else
    let entered := queue_push (queue_node backend waiting rt.current) waiting
    let t := IO_Event_Fiber_raise rt (argv.headD 0) argv.tail entered
    { backend := queue_pop t.backend waiting, result := t.result, calls := t.calls,
      entered := entered, left := t.backend }

/-- Embeds `IO_Event_Selector_yield` (selector.h:147). -/
def IO_Event_Selector_yield (rt : Runtime) (backend : IO_Event_Selector) (waiting : Nat) :
    Resumed :=
  IO_Event_Selector_resume rt backend waiting [backend.loop]

/-- A runtime in which fiber 20 is running, every fiber but fiber 9 is alive, a transfer
comes back with the queue untouched and `nil`, and a raise on a fiber comes back with the
queue untouched and an exception (as `Fiber#raise` on a dead fiber does). -/
def exampleRuntime : Runtime :=
  { current := 20, alive := fun f => decide (f ≠ 9),
    transfer := fun _ _ q => (q, Returned.nil),
    raise := fun _ _ q => (q, Returned.raised (RubyError.other 1)) }

/-! ## `IO::Event::Selector.nonblock` (selector.c:29) -/

/-- The `fcntl` requests that `nonblock` makes on its descriptor. -/
inductive Fcntl where
  | F_GETFL
  | F_SETFL (flags : Nat)
  deriving DecidableEq, Repr

/-- What `IO_Event_Selector_nonblock_set` leaves: the flags it returns, the file status
flags of the descriptor afterwards, and the requests it made. -/
structure NonblockSet where
  flags : Nat
  status : Nat
  calls : List Fcntl
  deriving DecidableEq, Repr

/-- Embeds `IO_Event_Selector_nonblock_set` (selector.c:29, the branch that is not Windows) on
a descriptor whose file status flags are `status`; `O_NONBLOCK` is the constant of
`<fcntl.h>`.  `F_GETFL` yields the status flags and `F_SETFL` replaces them (the bits it
cannot change are the same in the argument). -/
def IO_Event_Selector_nonblock_set (O_NONBLOCK status : Nat) : NonblockSet :=
  let flags := status
  if flags &&& O_NONBLOCK = 0 then
    { flags := flags, status := flags ||| O_NONBLOCK,
      calls := [Fcntl.F_GETFL, Fcntl.F_SETFL (flags ||| O_NONBLOCK)] }
  else { flags := flags, status := status, calls := [Fcntl.F_GETFL] }

/-- Embeds `IO_Event_Selector_nonblock_restore` (selector.c:49): the file status flags
afterwards and the requests made. -/
def IO_Event_Selector_nonblock_restore (O_NONBLOCK status flags : Nat) : Nat × List Fcntl :=
  if flags &&& O_NONBLOCK = 0 then (flags, [Fcntl.F_SETFL flags]) else (status, [])

/-- What `nonblock` leaves: the file status flags when the block starts and when `nonblock`
is left, whether it is left by an exception of the block, and the requests made by
`nonblock` itself. -/
structure Nonblocked where
  entered : Nat
  status : Nat
  raised : Bool
  calls : List Fcntl
  deriving DecidableEq, Repr

/-- Embeds `IO_Event_Selector_nonblock` (selector.c:76): `rb_yield` under `rb_ensure` with
`IO_Event_Selector_nonblock_ensure`.  `block status` gives the file status flags of the
descriptor when the block is left, having started with `status`, and whether the block is
left by an exception.  The initializer of `arguments` passes `arguments.file_descriptor` to
`IO_Event_Selector_nonblock_set`; the model takes that to be the descriptor of `io`, which
the member initialized just before holds. -/
def IO_Event_Selector_nonblock (O_NONBLOCK : Nat) (block : Nat → Nat × Bool)
    (status : Nat) : Nonblocked :=
  let s := IO_Event_Selector_nonblock_set O_NONBLOCK status
  let b := block s.status
  let r := IO_Event_Selector_nonblock_restore O_NONBLOCK b.1 s.flags
  { entered := s.status, status := r.1, raised := b.2, calls := s.calls ++ r.2 }

/-! ## The indexed table (array.h) -/

/-- The sizes of the platform that `array.h` depends on: `SIZE_MAX` and `sizeof(void*)`. -/
structure Sizes where
  size_max : Nat
  pointer : Nat
  deriving DecidableEq, Repr

/-- The sizes of a 64-bit platform. -/
def sizes64 : Sizes := { size_max := 18446744073709551615, pointer := 8 }

/-- The constant `IO_EVENT_ARRAY_MAXIMUM_COUNT` (array.h:11). -/
def IO_EVENT_ARRAY_MAXIMUM_COUNT (S : Sizes) : Nat := S.size_max / S.pointer

/-- The constant `IO_EVENT_ARRAY_DEFAULT_COUNT` (array.h:12). -/
def IO_EVENT_ARRAY_DEFAULT_COUNT : Nat := 128

/-- Embeds `struct IO_Event_Array` (array.h:14).  `slots` is the allocated pointer table
(`base[0]` to `base[count - 1]`, so `count` is its length and an empty list stands for no
allocation), with `0` for `NULL`.  For the statements, `initialized` records the indices at
which an element was allocated and initialized, and `freed` the elements freed, in
order. -/
structure IO_Event_Array where
  slots : List Nat
  limit : Nat
  initialized : List Nat
  freed : List Nat
  deriving DecidableEq, Repr

/-- The member `count` of `struct IO_Event_Array`. -/
def IO_Event_Array.count (array : IO_Event_Array) : Nat := array.slots.length

/-- Embeds `IO_Event_Array_initialize` (array.h:31) when `calloc` succeeds. -/
def IO_Event_Array_initialize (count : Nat) : IO_Event_Array :=
  { slots := List.replicate count 0, limit := 0, initialized := [], freed := [] }

/-- The `while (new_count < count)` loop of `IO_Event_Array_resize` (array.h:99); `none`
when `fuel` iterations do not end it. -/
def resize_loop (S : Sizes) (count : Nat) : Nat → Nat → Option Nat
  | 0, new_count => if new_count < count then none else some new_count
  | fuel + 1, new_count =>
    if new_count < count then
      if new_count > IO_EVENT_ARRAY_MAXIMUM_COUNT S / 2 then
        some (IO_EVENT_ARRAY_MAXIMUM_COUNT S)
      else resize_loop S count fuel (new_count * 2)
    else some new_count

/-- Embeds `IO_Event_Array_resize` (array.h:83): the value returned (`-1`, `0` or `1`) and
the table afterwards; `grow` tells whether `realloc` succeeds.  `none` when `fuel` does not
suffice for the loop. -/
def IO_Event_Array_resize (S : Sizes) (fuel : Nat) (grow : Bool) (array : IO_Event_Array)
    (count : Nat) : Option (Int × IO_Event_Array) :=
  if count ≤ array.count then some (0, array)
  else if count > IO_EVENT_ARRAY_MAXIMUM_COUNT S then some (-1, array)
  else
    let new_count :=
      if array.count = 0 then some IO_EVENT_ARRAY_DEFAULT_COUNT
      else resize_loop S count fuel array.count
    match new_count with
    | none => none
    | some new_count =>
      if grow = false then some (-1, array)
      else
        some (1, { array with
          slots := array.slots ++ List.replicate (new_count - array.count) 0 })

/-- How `IO_Event_Array_lookup` ends: it returns `NULL`, it returns an element, it accesses
`base[index]` outside the allocated table (undefined behaviour), or the assertion on the
result of `malloc` fails. -/
inductive Lookup where
  | null
  | element (address : Nat)
  | outside
  | aborted
  deriving DecidableEq, Repr

/-- Embeds `IO_Event_Array_lookup` (array.h:126).  `grow` tells whether `realloc` succeeds,
`fresh` is the address `malloc` returns for a new element (`0` for `NULL`), and
`index + 1` is computed in `size_t`. -/
def IO_Event_Array_lookup (S : Sizes) (fuel : Nat) (grow : Bool) (fresh : Nat)
    (array : IO_Event_Array) (index : Nat) : Option (Lookup × IO_Event_Array) :=
  let count := (index + 1) % (S.size_max + 1)
  let resized :=
    if count > array.count then IO_Event_Array_resize S fuel grow array count
    else some (0, array)
  match resized with
  | none => none
  | some (result, array) =>
    if result = -1 then some (Lookup.null, array)
    else if array.count ≤ index then some (Lookup.outside, array)
    else if array.slots.getD index 0 = 0 then
      if fresh = 0 then some (Lookup.aborted, array)
      else
        some (Lookup.element fresh,
          { array with slots := array.slots.set index fresh,
                       initialized := array.initialized ++ [index],
                       limit := if count > array.limit then count else array.limit })
    else some (Lookup.element (array.slots.getD index 0), array)

/-- The slots after the loop of `IO_Event_Array_truncate`: the slots with an index from
`limit` up to the old limit are `NULL`; `i` is the index of the first slot of the list. -/
def truncate_slots (limit old_limit : Nat) : Nat → List Nat → List Nat
  | _, [] => []
  | i, e :: rest =>
    (if limit ≤ i ∧ i < old_limit then 0 else e) :: truncate_slots limit old_limit (i + 1) rest

/-- Embeds `IO_Event_Array_truncate` (array.h:162). -/
def IO_Event_Array_truncate (array : IO_Event_Array) (limit : Nat) : IO_Event_Array :=
  if limit < array.limit then
    { array with
      slots := truncate_slots limit array.limit 0 array.slots,
      freed := array.freed ++
        ((array.slots.drop limit).take (array.limit - limit)).filter (fun e => e ≠ 0),
      limit := limit }
  else array

/-- Embeds `IO_Event_Array_each` (array.h:184): the elements `callback` is applied to, in
order. -/
def IO_Event_Array_each (array : IO_Event_Array) : List Nat :=
  (array.slots.take array.limit).filter (fun e => e ≠ 0)

/-- Embeds `IO_Event_Array_push` (array.h:179). -/
def IO_Event_Array_push (S : Sizes) (fuel : Nat) (grow : Bool) (fresh : Nat)
    (array : IO_Event_Array) : Option (Lookup × IO_Event_Array) :=
  IO_Event_Array_lookup S fuel grow fresh array array.limit

/-- An operation on the table, with what the allocator answers during it: whether `realloc`
succeeds (`grow`) and the address `malloc` returns for a new element (`fresh`). -/
inductive ArrayOp where
  | lookup (index : Nat) (grow : Bool) (fresh : Nat)
  | push (grow : Bool) (fresh : Nat)
  | resize (count : Nat) (grow : Bool)
  | each
  | truncate (limit : Nat)
  deriving DecidableEq, Repr

/-- The table after an operation; `none` when the operation accesses a slot outside the
allocation or fails the assertion on `malloc`. -/
def IO_Event_Array_apply (S : Sizes) (array : IO_Event_Array) : ArrayOp → Option IO_Event_Array
  | ArrayOp.lookup index grow fresh =>
    match IO_Event_Array_lookup S (index + 1) grow fresh array index with
    | some (Lookup.null, a) => some a
    | some (Lookup.element _, a) => some a
    | _ => none
  | ArrayOp.push grow fresh =>
    match IO_Event_Array_push S (array.limit + 1) grow fresh array with
    | some (Lookup.null, a) => some a
    | some (Lookup.element _, a) => some a
    | _ => none
  | ArrayOp.resize count grow =>
    (IO_Event_Array_resize S count grow array count).map Prod.snd
  | ArrayOp.each => some array
  | ArrayOp.truncate limit => some (IO_Event_Array_truncate array limit)

/-- The table after a sequence of operations. -/
def IO_Event_Array_run (S : Sizes) : List ArrayOp → IO_Event_Array → Option IO_Event_Array
  | [], array => some array
  | op :: ops, array =>
    match IO_Event_Array_apply S array op with
    | none => none
    | some a => IO_Event_Array_run S ops a

/-- A table is well formed when its limit is within the allocated count, the count within
the maximum count, and every slot from the limit on is `NULL`. -/
def ArrayWellFormed (S : Sizes) (array : IO_Event_Array) : Prop :=
  array.limit ≤ array.count ∧ array.count ≤ IO_EVENT_ARRAY_MAXIMUM_COUNT S ∧
    ∀ k, array.limit ≤ k → array.slots.getD k 0 = 0

/-- The operations that may come between two lookups of index `i` in the statement about
the identity of elements: any lookup (of an index below `SIZE_MAX`), push, resize and each,
with `malloc` returning an address where it is called, and a truncate only to a limit
above `i`. -/
def Admissible (S : Sizes) (i : Nat) : ArrayOp → Prop
  | ArrayOp.lookup index _ fresh => index < S.size_max ∧ fresh ≠ 0
  | ArrayOp.push _ fresh => fresh ≠ 0
  | ArrayOp.resize _ _ => True
  | ArrayOp.each => True
  | ArrayOp.truncate limit => i < limit

/-- An example table: four slots, after the lookup of index 2 allocated the element at
address 1000. -/
def exampleArray : IO_Event_Array :=
  { slots := [0, 0, 1000, 0], limit := 3, initialized := [2], freed := [] }

/-! ## io_uring: completion records and their waiters (uring.c:145) -/

namespace URing

/-- The address of `IO_Event_Selector_URing_Completion_Type`, which marks the list cell of a
completion record. -/
def Completion_Type : Nat := 1

/-- What the completion functions of the io_uring selector work on: the memory of the list
cells (the cell of a completion record is its first member), the member `waiting` of each
completion record and the members `completion` and `fiber` of each waiter, by address, the
address of `selector->free_list` and the table `selector->completions`. -/
structure Records where
  memory : ListMemory
  waiting : Nat → Nat
  completion : Nat → Nat
  fiber : Nat → Nat
  free_list : Nat
  completions : IO_Event_Array

/-- Embeds `IO_Event_Selector_URing_Completion_initialize` (uring.c:201), the initializer of
the elements of the table. -/
def IO_Event_Selector_URing_Completion_initialize (m : ListMemory) (element : Nat) :
    ListMemory :=
  let m := IO_Event_List_initialize m element
  { m with type := store m.type element Completion_Type }

/-- Embeds `IO_Event_Selector_URing_Completion_acquire` (uring.c:145): the completion record
it returns and the records afterwards.  `grow` and `fresh` are the answers of `realloc` and
`malloc` should the table be asked for a new element, which the table initializes with
`IO_Event_Selector_URing_Completion_initialize` when it allocates it; `none` when the push
yields no element (the function then dereferences what it got). -/
def IO_Event_Selector_URing_Completion_acquire (S : Sizes) (grow : Bool) (fresh : Nat)
    (s : Records) (waiting : Nat) : Option (Nat × Records) :=
  let taken : Option (Nat × Records) :=
    if IO_Event_List_empty s.memory s.free_list = false then
      let completion := s.memory.tail s.free_list
      some (completion, { s with memory := IO_Event_List_pop s.memory completion })
    else
      match IO_Event_Array_push S (s.completions.limit + 1) grow fresh s.completions with
      | some (Lookup.element completion, completions) =>
        let m :=
          if completions.initialized = s.completions.initialized then s.memory
          else IO_Event_Selector_URing_Completion_initialize s.memory completion
        some (completion,
          { s with completions := completions,
                   memory := IO_Event_List_clear m completion })
      | _ => none
  match taken with
  | none => none
  | some (completion, s) =>
    let s := { s with completion := store s.completion waiting completion }
    let s := { s with waiting := store s.waiting completion waiting }
    some (completion, s)

/-- Embeds `IO_Event_Selector_URing_Completion_cancel` (uring.c:166). -/
def IO_Event_Selector_URing_Completion_cancel (s : Records) (completion : Nat) : Records :=
  if s.waiting completion ≠ 0 then
    let s := { s with completion := store s.completion (s.waiting completion) 0 }
    { s with waiting := store s.waiting completion 0 }
  else s

/-- Embeds `IO_Event_Selector_URing_Completion_release` (uring.c:177). -/
def IO_Event_Selector_URing_Completion_release (s : Records) (completion : Nat) : Records :=
  let s := IO_Event_Selector_URing_Completion_cancel s completion
  { s with memory := IO_Event_List_prepend s.memory s.free_list completion }

/-- Embeds `IO_Event_Selector_URing_Waiting_cancel` (uring.c:186). -/
def IO_Event_Selector_URing_Waiting_cancel (s : Records) (waiting : Nat) : Records :=
  let s :=
    if s.completion waiting ≠ 0 then
      let s := { s with waiting := store s.waiting (s.completion waiting) 0 }
      { s with completion := store s.completion waiting 0 }
    else s
  { s with fiber := store s.fiber waiting 0 }

/-- The records of a selector after `IO_Event_Selector_URing_allocate` (uring.c:214), with
the free list at address 100 and a table of four slots. -/
def allocated : Records :=
  { memory := IO_Event_List_initialize blankMemory 100,
    waiting := fun _ => 0, completion := fun _ => 0, fiber := fun _ => 0,
    free_list := 100, completions := IO_Event_Array_initialize 4 }

/-- The records after a first operation has come and gone: the waiter at address 10
acquires a record (the table allocates it at address 1000), and the record is released
when its completion is processed, so that the free list holds this one record. -/
def oneReleased : Option Records :=
  match IO_Event_Selector_URing_Completion_acquire sizes64 true 1000 allocated 10 with
  | none => none
  | some (completion, s) => some (IO_Event_Selector_URing_Completion_release s completion)

end URing
namespace URing

/-- Predicate `Live s c`: the table of completion records holds the record at address `c`. -/
def Live (s : Records) (c : Nat) : Prop :=
  c ≠ 0 ∧ ∃ j, s.completions.slots.getD j 0 = c

/-- Predicate `Paired record waiting completion`: with `record` telling the records of the
table, `waiting` the member of the records and `completion` the member of the waiters, a
waiter points to a record of the table only, and for every record `c` of the table and
every waiter `w`, `c.waiting == w` exactly when `w.completion == c`. -/
def Paired (record : Nat → Prop) (waiting completion : Nat → Nat) : Prop :=
  ∀ c w, c ≠ 0 → w ≠ 0 →
    (completion w = c → record c) ∧ (record c → (waiting c = w ↔ completion w = c))

/-- Predicate `Symmetric s`: the linkage between waiters and completion records of `s` is
symmetric. -/
def Symmetric (s : Records) : Prop :=
  Paired (Live s) s.waiting s.completion

/-- Predicate `FreeList s fl`: the free list is a well-formed list that holds exactly the
records `fl`, each a record of the table without a waiter. -/
def FreeList (s : Records) (fl : List Nat) : Prop :=
  Ring s.memory s.free_list fl ∧ ∀ c ∈ fl, Live s c ∧ s.waiting c = 0

/-- Predicate `Consistent S s fl`: the linkage is symmetric, the free list holds `fl`, and the
table is well formed and has an allocation (as it has from `IO_Event_Selector_URing_allocate`
on). -/
def Consistent (S : Sizes) (s : Records) (fl : List Nat) : Prop :=
  Symmetric s ∧ FreeList s fl ∧ ArrayWellFormed S s.completions ∧ s.completions.count ≠ 0

end URing
namespace URing

/-- The requests that the ensure clauses of the waiting operations make: an
`io_uring_prep_cancel` for a target with the user data set on the entry, the
`io_uring_submit_now` that follows it, and the `close` of a descriptor. -/
inductive Request where
  | prep_cancel (target : Nat) (user_data : Nat)
  | submit_now
  | close (descriptor : Int)
  deriving DecidableEq, Repr

/-- What an ensure clause leaves: the records, the requests it made in order, and the
system error it raised, if any. -/
structure Ensured where
  records : Records
  requests : List Request
  raised : Option Errno

/-- Embeds `io_wait_ensure` (uring.c:532).  `get_sqe` and `submit` tell how `io_get_sqe` and
`io_uring_submit_now` end: `none` when they return (the submission queue has an entry, the
submission is accepted), and the errno of the system error they raise otherwise. -/
def io_wait_ensure (get_sqe submit : Option Errno) (s : Records) (waiting : Nat) : Ensured :=
  if s.completion waiting ≠ 0 then
    match get_sqe with
    | some e => { records := s, requests := [], raised := some e }
    | none =>
      match submit with
      | some e =>
        { records := s, requests := [Request.prep_cancel (s.completion waiting) 0],
          raised := some e }
      | none =>
        { records := IO_Event_Selector_URing_Waiting_cancel s waiting,
          requests := [Request.prep_cancel (s.completion waiting) 0, Request.submit_now],
          raised := none }
  else
    { records := IO_Event_Selector_URing_Waiting_cancel s waiting, requests := [],
      raised := none }

/-- Embeds `io_read_ensure` (uring.c:653). -/
def io_read_ensure (get_sqe submit : Option Errno) (s : Records) (waiting : Nat) : Ensured :=
  if s.completion waiting ≠ 0 then
    match get_sqe with
    | some e => { records := s, requests := [], raised := some e }
    | none =>
      match submit with
      | some e =>
        { records := s, requests := [Request.prep_cancel (s.completion waiting) 0],
          raised := some e }
      | none =>
        { records := IO_Event_Selector_URing_Waiting_cancel s waiting,
          requests := [Request.prep_cancel (s.completion waiting) 0, Request.submit_now],
          raised := none }
  else
    { records := IO_Event_Selector_URing_Waiting_cancel s waiting, requests := [],
      raised := none }

/-- Embeds `io_write_ensure` (uring.c:831). -/
def io_write_ensure (get_sqe submit : Option Errno) (s : Records) (waiting : Nat) : Ensured :=
  if s.completion waiting ≠ 0 then
    match get_sqe with
    | some e => { records := s, requests := [], raised := some e }
    | none =>
      match submit with
      | some e =>
        { records := s, requests := [Request.prep_cancel (s.completion waiting) 0],
          raised := some e }
      | none =>
        { records := IO_Event_Selector_URing_Waiting_cancel s waiting,
          requests := [Request.prep_cancel (s.completion waiting) 0, Request.submit_now],
          raised := none }
  else
    { records := IO_Event_Selector_URing_Waiting_cancel s waiting, requests := [],
      raised := none }

/-- Embeds `process_wait_ensure` (uring.c:449). -/
def process_wait_ensure (s : Records) (waiting : Nat) (descriptor : Int) : Ensured :=
  { records := IO_Event_Selector_URing_Waiting_cancel s waiting,
    requests := [Request.close descriptor], raised := none }

/-- The records while an operation of the waiter at address 10 is in flight: the waiter has
acquired the record that the table allocated at address 1000. -/
def oneAttached : Option Records :=
  (IO_Event_Selector_URing_Completion_acquire sizes64 true 1000 allocated 10).map Prod.snd

end URing

/-! ## The worker pool (worker_pool.c) -/

/-- Embeds `struct IO_Event_WorkerPool` (worker_pool.c:52) on the members the statements
are about: the queue of work items (by address, front first), the three counters and the
shutdown flag.  For the statements, `executing` holds the work items that workers have
taken from the queue and not yet marked completed, and `calls` and `executed` count the
increments of `call_count` and `completed_count` without wrap-around. -/
structure IO_Event_WorkerPool where
  work_queue : List Nat
  call_count : Nat
  completed_count : Nat
  cancelled_count : Nat
  shutdown : Bool
  executing : List Nat
  calls : Nat
  executed : Nat
  deriving DecidableEq, Repr

/-- Embeds `worker_pool_initialize` (worker_pool.c:230) on these members. -/
def worker_pool_initialize : IO_Event_WorkerPool :=
  { work_queue := [], call_count := 0, completed_count := 0, cancelled_count := 0,
    shutdown := false, executing := [], calls := 0, executed := 0 }

/-- Embeds `enqueue_work` (worker_pool.c:102). -/
def enqueue_work (pool : IO_Event_WorkerPool) (work : Nat) : IO_Event_WorkerPool :=
  { pool with work_queue := pool.work_queue ++ [work] }

/-- Embeds `dequeue_work` (worker_pool.c:112). -/
def dequeue_work (pool : IO_Event_WorkerPool) : Option Nat × IO_Event_WorkerPool :=
  match pool.work_queue with
  | [] => (none, pool)
  | work :: rest => (some work, { pool with work_queue := rest })

/-- One return of `rb_protect(worker_pool_work_begin, ...)` to the loop of
`worker_pool_call`: the state it reports (`0` when the block returned, the tag of the
exception that was caught otherwise) and the value of `work.completed` at that moment. -/
structure Wakeup where
  state : Nat
  completed : Bool
  deriving DecidableEq, Repr

/-- How `worker_pool_call` ends: it raises before it enqueues anything, it returns `Qtrue`,
or it re-raises with `rb_jump_tag(state)`. -/
inductive Called where
  | raised (error : RubyError)
  | returned_true
  | jumped (state : Nat)
  deriving DecidableEq, Repr

/-- What the loop of `worker_pool_call` leaves when it ends: the last state reported by
`rb_protect`, the number of times the fiber blocked and the number of cancellations of the
blocking operation it requested. -/
structure Blocked where
  state : Nat
  blocks : Nat
  cancels : Nat
  deriving DecidableEq, Repr

/-- The `while (true)` loop of `worker_pool_call` (worker_pool.c:340) over the wake-ups of
the blocked fiber; `none` when the wake-ups given end with the fiber blocked again. -/
def worker_pool_call_loop : List Wakeup → Nat → Nat → Option Blocked
  | [], _, _ => none
  | w :: rest, blocks, cancels =>
    if w.completed then some { state := w.state, blocks := blocks + 1, cancels := cancels }
    else worker_pool_call_loop rest (blocks + 1) (cancels + 1)

/-- What `worker_pool_call` leaves: how it ends, the pool, and the numbers of blocks and
cancellation requests. -/
structure PoolCall where
  result : Called
  pool : IO_Event_WorkerPool
  blocks : Nat
  cancels : Nat
  deriving DecidableEq, Repr

/-- Embeds `worker_pool_call` (worker_pool.c:297) up to the point where its loop starts: the
exception it raises before that, if any, and the pool.  `scheduler` tells whether a fiber
scheduler is set and `valid` whether the blocking operation can be extracted; the counter
wraps at `SIZE_MAX`. -/
def worker_pool_call_begin (S : Sizes) (pool : IO_Event_WorkerPool) (scheduler valid : Bool)
    (work : Nat) : Option RubyError × IO_Event_WorkerPool :=
  if pool.shutdown then (some (RubyError.other 0), pool)
  else
    let pool := { pool with call_count := (pool.call_count + 1) % (S.size_max + 1),
                            calls := pool.calls + 1 }
    if scheduler = false then (some (RubyError.other 0), pool)
    else if valid = false then (some RubyError.ArgumentError, pool)
    else (none, enqueue_work pool work)

/-- Embeds `worker_pool_call` (worker_pool.c:297) for the work item at address `work`;
`wakeups` are the returns of `rb_protect` in order, and the result is `none` when these end
with the fiber blocked. -/
def worker_pool_call (S : Sizes) (pool : IO_Event_WorkerPool) (scheduler valid : Bool)
    (work : Nat) (wakeups : List Wakeup) : Option PoolCall :=
  match worker_pool_call_begin S pool scheduler valid work with
  | (some error, pool) =>
    some { result := Called.raised error, pool := pool, blocks := 0, cancels := 0 }
  | (none, pool) =>
    match worker_pool_call_loop wakeups 0 0 with
    | none => none
    | some b =>
      some { result := if b.state ≠ 0 then Called.jumped b.state else Called.returned_true,
             pool := pool, blocks := b.blocks, cancels := b.cancels }

/-- A step of the life of a pool after `worker_pool_initialize`: a fiber enters
`worker_pool_call`; the blocking operation in flight is cancelled (by the loop of
`worker_pool_call`, worker_pool.c:347, or by `worker_unblock_func`); a worker takes the work
item at the front of the queue (`worker_wait_and_execute`); a worker has executed the item
`work` and marks it completed (`worker_thread_func`, worker_pool.c:191); the pool is
closed (`worker_pool_close`). -/
inductive PoolStep where
  | call (scheduler valid : Bool) (work : Nat)
  | cancel
  | take
  | complete (work : Nat)
  | close
  deriving DecidableEq, Repr

/-- The pool after a step; a step that cannot take place leaves the pool as it is. -/
def worker_pool_step (S : Sizes) (pool : IO_Event_WorkerPool) : PoolStep → IO_Event_WorkerPool
  | PoolStep.call scheduler valid work =>
    (worker_pool_call_begin S pool scheduler valid work).2
  | PoolStep.cancel => pool
  | PoolStep.take =>
    if pool.shutdown then pool
    else
      match dequeue_work pool with
      | (none, pool) => pool
      | (some work, pool) => { pool with executing := pool.executing ++ [work] }
  | PoolStep.complete work =>
    if work ∈ pool.executing then
      { pool with executing := pool.executing.erase work,
                  completed_count := (pool.completed_count + 1) % (S.size_max + 1),
                  executed := pool.executed + 1 }
    else pool
  | PoolStep.close => if pool.shutdown then pool else { pool with shutdown := true }

/-- The pool after a sequence of steps. -/
def worker_pool_run (S : Sizes) (steps : List PoolStep) (pool : IO_Event_WorkerPool) :
    IO_Event_WorkerPool :=
  steps.foldl (worker_pool_step S) pool

/-! ## The read and write loops (epoll.c:607, kqueue.c:595, uring.c:698) -/

/-- What the kernel answers to one `read` or `write`: the value returned and `errno`. -/
structure Answer where
  result : Int
  errno : Int
  deriving DecidableEq, Repr

/-- The codes of the two errors `IO_Event_try_again` tests for, which depend on the
platform. -/
structure ErrorCodes where
  EAGAIN : Int
  EWOULDBLOCK : Int
  deriving DecidableEq, Repr

/-- The codes of Linux. -/
def linuxCodes : ErrorCodes := { EAGAIN := 11, EWOULDBLOCK := 11 }

/-- Embeds `IO_Event_try_again` (selector.h:39). -/
def IO_Event_try_again (E : ErrorCodes) (error : Int) : Bool :=
  error == E.EAGAIN || error == E.EWOULDBLOCK

/-- The value of a `size_t` converted to `ssize_t`. -/
def to_ssize (S : Sizes) (x : Nat) : Int :=
  if 2 * x ≤ S.size_max then (x : Int) else (x : Int) - ((S.size_max : Int) + 1)

/-- Ruby's `rb_fiber_scheduler_io_result` (ruby/fiber/scheduler.h): the integer `-error` when
`result` is `-1`, and `result` otherwise. -/
def rb_fiber_scheduler_io_result (result error : Int) : Int :=
  if result = -1 then -error else result

/-- The selector whose `io_wait` a loop calls. -/
inductive Waiter where
  | epoll
  | kqueue
  | uring
  deriving DecidableEq, Repr

/-- What a loop does, in order: a `read` or `write` of `count` bytes at `offset` of the
buffer with the kernel's answer, or a call of `io_wait` of a selector for an event mask. -/
inductive IOStep where
  | transfer (offset count : Nat) (answer : Answer)
  | wait (selector : Waiter) (events : Nat)
  deriving DecidableEq, Repr

/-- How far a loop got: still going when the rounds allowed ran out, returned a value, or
left by the `RuntimeError` that the write loops raise. -/
inductive Ended where
  | looping
  | returned (value : Int)
  | raised
  deriving DecidableEq, Repr

/-- A run of a loop: how it ended and what it did. -/
structure Transfer where
  ended : Ended
  trace : List IOStep
  deriving DecidableEq, Repr

/-- The `while (maximum_size)` loop that `io_read_loop` and `io_write_loop` of epoll.c and
kqueue.c and `IO_Event_Selector_URing_io_read` and `_io_write` share; they differ in the call
made with `length > 0` after an error that `IO_Event_try_again` accepts, which is `wait`, and in
the count that reaches the kernel, which is `request maximum_size`.  `kernel index count` is
the answer to the transfer number `index` when it asks for `count` bytes.  The variables are
`size_t`, of `S.size_max + 1` values.  The call of `io_wait` is taken to return.  The first
argument bounds the number of rounds. -/
def transfer_loop (S : Sizes) (E : ErrorCodes) (wait : IOStep) (request : Nat → Nat)
    (kernel : Nat → Nat → Answer) (size : Nat) :
    Nat → Nat → Nat → Nat → Nat → List IOStep → Transfer
  | 0, _, _, _, _, trace => { ended := Ended.looping, trace := trace }
  | fuel + 1, index, length, offset, total, trace =>
    let maximum_size := (size + (S.size_max + 1) - offset) % (S.size_max + 1)
    if maximum_size = 0 then
      { ended := Ended.returned (rb_fiber_scheduler_io_result (to_ssize S total) 0),
        trace := trace }
    else
      let answer := kernel index (request maximum_size)
      let trace := trace ++ [IOStep.transfer offset (request maximum_size) answer]
      if 0 < answer.result then
        let total := (total + answer.result.toNat) % (S.size_max + 1)
        let offset := (offset + answer.result.toNat) % (S.size_max + 1)
        if length ≤ answer.result.toNat then
          { ended := Ended.returned (rb_fiber_scheduler_io_result (to_ssize S total) 0),
            trace := trace }
        else
          transfer_loop S E wait request kernel size fuel (index + 1)
            (length - answer.result.toNat) offset total trace
      else if answer.result = 0 then
        { ended := Ended.returned (rb_fiber_scheduler_io_result (to_ssize S total) 0),
          trace := trace }
      else if 0 < length ∧ IO_Event_try_again E answer.errno = true then
        transfer_loop S E wait request kernel size fuel (index + 1) length offset total
          (trace ++ [wait])
      else
        { ended := Ended.returned (rb_fiber_scheduler_io_result (-1) answer.errno),
          trace := trace }

namespace EPoll

/-- Embeds `io_read_loop` (epoll.c:607) on a buffer of `size` bytes: the loop calls
`IO_Event_Selector_EPoll_io_wait` for `IO_EVENT_READABLE`. -/
def io_read_loop (S : Sizes) (E : ErrorCodes) (kernel : Nat → Nat → Answer)
    (size length offset fuel : Nat) : Transfer :=
  transfer_loop S E (IOStep.wait Waiter.epoll IO_EVENT_READABLE) id kernel size fuel 0
    length offset 0 []

/-- Embeds `io_write_loop` (epoll.c:701): after the test of `length > size` the loop, which
calls `IO_Event_Selector_EPoll_io_wait` for `IO_EVENT_WRITABLE`. -/
def io_write_loop (S : Sizes) (E : ErrorCodes) (kernel : Nat → Nat → Answer)
    (size length offset fuel : Nat) : Transfer :=
  if size < length then { ended := Ended.raised, trace := [] }
  else
    transfer_loop S E (IOStep.wait Waiter.epoll IO_EVENT_WRITABLE) id kernel size fuel 0
      length offset 0 []

end EPoll

namespace KQueue

/-- Embeds `io_read_loop` (kqueue.c:595): the loop calls `IO_Event_Selector_KQueue_io_wait`
for `IO_EVENT_READABLE`. -/
def io_read_loop (S : Sizes) (E : ErrorCodes) (kernel : Nat → Nat → Answer)
    (size length offset fuel : Nat) : Transfer :=
  transfer_loop S E (IOStep.wait Waiter.kqueue IO_EVENT_READABLE) id kernel size fuel 0
    length offset 0 []

/-- Embeds `io_write_loop` (kqueue.c:699): after the test of `length > size` the loop, which
calls `IO_Event_Selector_KQueue_io_wait` with `RB_INT2NUM(IO_EVENT_READABLE)` (kqueue.c:731). -/
def io_write_loop (S : Sizes) (E : ErrorCodes) (kernel : Nat → Nat → Answer)
    (size length offset fuel : Nat) : Transfer :=
  if size < length then { ended := Ended.raised, trace := [] }
  else
    transfer_loop S E (IOStep.wait Waiter.kqueue IO_EVENT_READABLE) id kernel size fuel 0
      length offset 0 []

end KQueue

namespace URing

/-- The answer that the loops of uring.c see for a completion whose `res` is `result`: the
error tested and reported is `-result`. -/
def completed (ring : Nat → Nat → Int) (index count : Nat) : Answer :=
  { result := ring index count, errno := -ring index count }

/-- The count that reaches the kernel through `io_uring_prep_read` and
`io_uring_prep_write`, whose parameter `nbytes` is an `unsigned` of 32 bits. -/
def nbytes (count : Nat) : Nat := count % 4294967296

/-- Embeds `IO_Event_Selector_URing_io_read` (uring.c:698).  With `length` zero it makes one
`read` of the room of the buffer on the descriptor set to non-blocking, keeps the result in
an `int` and returns it with `errno`; `kernel` answers that read.  Otherwise it runs the loop
over `io_read`, whose result is the `res` of the completion, given by `ring`, and calls
`IO_Event_Selector_URing_io_wait` for `IO_EVENT_READABLE`. -/
def IO_Event_Selector_URing_io_read (S : Sizes) (E : ErrorCodes) (kernel : Nat → Nat → Answer)
    (ring : Nat → Nat → Int) (size length offset fuel : Nat) : Transfer :=
  let maximum_size := (size + (S.size_max + 1) - offset) % (S.size_max + 1)
  if length = 0 then
    let answer := kernel 0 maximum_size
    let result := wrap_signed 32 answer.result
    { ended := Ended.returned (rb_fiber_scheduler_io_result result answer.errno),
      trace := [IOStep.transfer offset maximum_size answer] }
  else
    transfer_loop S E (IOStep.wait Waiter.uring IO_EVENT_READABLE) nbytes (completed ring) size
      fuel 0 length offset 0 []

/-- Embeds `IO_Event_Selector_URing_io_write` (uring.c:876): after the test of
`length > size` the loop over `io_write`, which calls `IO_Event_Selector_URing_io_wait` for
`IO_EVENT_WRITABLE`. -/
def IO_Event_Selector_URing_io_write (S : Sizes) (E : ErrorCodes) (ring : Nat → Nat → Int)
    (size length offset fuel : Nat) : Transfer :=
  if size < length then { ended := Ended.raised, trace := [] }
  else
    transfer_loop S E (IOStep.wait Waiter.uring IO_EVENT_WRITABLE) nbytes (completed ring) size
      fuel 0 length offset 0 []

end URing

/-- One `read` or `write` of a trace. -/
structure Issued where
  offset : Nat
  count : Nat
  answer : Answer
  deriving DecidableEq, Repr

/-- The reads or writes of a trace, in order. -/
def issued : List IOStep → List Issued
  | [] => []
  | IOStep.transfer offset count answer :: rest =>
    { offset := offset, count := count, answer := answer } :: issued rest
  | IOStep.wait _ _ :: rest => issued rest

/-- The waits of a trace, in order. -/
def waits : List IOStep → List (Waiter × Nat)
  | [] => []
  | IOStep.transfer _ _ _ :: rest => waits rest
  | IOStep.wait selector events :: rest => (selector, events) :: waits rest

/-- The bytes that a list of reads or writes transferred: the sum of the positive results. -/
def transferred : List Issued → Nat
  | [] => 0
  | r :: rest => r.answer.result.toNat + transferred rest

/-- The answer of a read after which the loop goes on when bytes are still wanted: some
bytes, or an error that `IO_Event_try_again` accepts. -/
def Continues (E : ErrorCodes) (a : Answer) : Prop :=
  0 < a.result ∨ (a.result < 0 ∧ IO_Event_try_again E a.errno = true)

instance (E : ErrorCodes) (a : Answer) : Decidable (Continues E a) := by
  unfold Continues; infer_instance

/-- The reads `rs`, numbered from `index`, follow one another from `offset`: each starts
where the bytes read so far end, asks for no more than the room left in a buffer of `size`
bytes, and carries the answer of `kernel` to it. -/
def Chain (kernel : Nat → Nat → Answer) (size : Nat) : Nat → Nat → List Issued → Prop
  | _, _, [] => True
  | index, offset, r :: rest =>
    r.offset = offset ∧ r.offset + r.count ≤ size ∧ r.answer = kernel index r.count ∧
    Chain kernel size (index + 1) (offset + r.answer.result.toNat) rest

/-- How a run that made the reads `rs` may end, for a request of `n` bytes at offset `o` of a
buffer of `size` bytes.  With no read made, the buffer was full and the value is `0`.
Otherwise the last read decides: after an error, the value is `-errno`, and the error is not
one that `IO_Event_try_again` accepts unless no bytes were wanted; after no error, the value
is the number of bytes transferred, and the last read returned `0`, or brought the bytes to
`n` or more, or filled the buffer. -/
def Ending (E : ErrorCodes) (size o n : Nat) (rs : List Issued) (v : Int) : Prop :=
  match rs.getLast? with
  | none => o = size ∧ v = 0
  | some r =>
    if r.answer.result < 0 then
      v = -r.answer.errno ∧ ¬ (transferred rs < n ∧ IO_Event_try_again E r.answer.errno = true)
    else
      v = (transferred rs : Int) ∧
        (r.answer.result = 0 ∨ n ≤ transferred rs ∨ o + transferred rs = size)

/-- The contract of a read loop asked for `n` bytes at offset `o` of a buffer of `size`
bytes, on its run `run`: the reads follow one another inside the buffer, answered by
`kernel`; the bytes transferred fit the room; every read before the last was answered by
some bytes or by an error that `IO_Event_try_again` accepts, and before the last read fewer
than `n` bytes were transferred and room was left; the loop does not raise; and a value
returned is as `Ending` says. -/
def ReadContract (E : ErrorCodes) (kernel : Nat → Nat → Answer) (size o n : Nat)
    (run : Transfer) : Prop :=
  Chain kernel size 0 o (issued run.trace) ∧
  o + transferred (issued run.trace) ≤ size ∧
  (∀ r ∈ (issued run.trace).dropLast, Continues E r.answer) ∧
  ((issued run.trace).dropLast ≠ [] → transferred (issued run.trace).dropLast < n) ∧
  (issued run.trace ≠ [] → o + transferred (issued run.trace).dropLast < size) ∧
  run.ended ≠ Ended.raised ∧
  (∀ v, run.ended = Ended.returned v → Ending E size o n (issued run.trace) v)

/-- The kernel of the examples: it transfers up to three bytes at every read or write. -/
def upToThree : Nat → Nat → Answer := fun _ count => { result := (min 3 count : Nat), errno := 0 }

/-- The ring of the examples: every completion carries up to three bytes. -/
def ringUpToThree : Nat → Nat → Int := fun _ count => (min 3 count : Nat)

/-- The kernel of the examples that answers the error `EAGAIN` of Linux to every transfer. -/
def alwaysAgain : Nat → Nat → Answer := fun _ _ => { result := -1, errno := 11 }

/-- How a loop that continues with `length` bytes wanted, at `offset` and with `total` bytes
counted, may end after the reads `rs`: as `Ending` says of a loop that starts. -/
def EndingFrom (E : ErrorCodes) (size offset length total : Nat) (rs : List Issued)
    (v : Int) : Prop :=
  match rs.getLast? with
  | none => offset = size ∧ v = (total : Int)
  | some r =>
    if r.answer.result < 0 then
      v = -r.answer.errno ∧
        ¬ (transferred rs < length ∧ IO_Event_try_again E r.answer.errno = true)
    else
      v = ((total + transferred rs : Nat) : Int) ∧
        (r.answer.result = 0 ∨ length ≤ transferred rs ∨ offset + transferred rs = size)

/-- The contract of a loop that continues with the transfer number `index`, with `length`
bytes wanted, at `offset` and with `total` bytes counted: `ReadContract` is the case of a loop
that starts. -/
def LoopContract (E : ErrorCodes) (kernel : Nat → Nat → Answer)
    (size index length offset total : Nat) (run : Transfer) : Prop :=
  Chain kernel size index offset (issued run.trace) ∧
  offset + transferred (issued run.trace) ≤ size ∧
  (∀ r ∈ (issued run.trace).dropLast, Continues E r.answer) ∧
  ((issued run.trace).dropLast ≠ [] → transferred (issued run.trace).dropLast < length) ∧
  (issued run.trace ≠ [] → offset + transferred (issued run.trace).dropLast < size) ∧
  run.ended ≠ Ended.raised ∧
  (∀ v, run.ended = Ended.returned v →
    EndingFrom E size offset length total (issued run.trace) v)

/-! ## Sequences of registrations, cancellations and dispatches on a descriptor -/

/-- An operation on the waiters of one descriptor.  A registration is made by `io_wait` for
the waiter it has set up in its frame at `waiting`; `found` tells whether the lookup of the
record succeeds.  A cancellation is made by `io_wait_ensure` when the fiber waiting with
the waiter at `waiting` unwinds without its event having fired.  A dispatch is made by
`select` for an `event` that the kernel reports for the descriptor, with the list node
`saved` of `select_handle_events`. -/
inductive WaiterOp (Event : Type) where
  | register (found : Bool) (waiting fiber events : Nat)
  | cancel (waiting : Nat)
  | dispatch (event : Event) (saved : Nat)

/-- When an operation can be made on a descriptor whose list at `list` holds the waiters
`ws`: the waiter to register is not linked, the waiter to cancel is linked, the node that
`select` inserts is not linked, and the bound on the rounds of the dispatch loop is no less
than the number of waiters. -/
def Allowed {Event : Type} (fuel list : Nat) (ws : List Nat) : WaiterOp Event → Prop
  | WaiterOp.register _ waiting _ _ => waiting ∉ list :: ws
  | WaiterOp.cancel waiting => waiting ∈ ws
  | WaiterOp.dispatch _ saved => saved ∉ list :: ws ∧ ws.length ≤ fuel

instance {Event : Type} (fuel list : Nat) (ws : List Nat) (op : WaiterOp Event) :
    Decidable (Allowed fuel list ws op) := by
  cases op <;> unfold Allowed <;> infer_instance

namespace EPoll

/-- One operation on the descriptor of an epoll selector and on the waiters `ws` of its
list: `IO_Event_Selector_EPoll_Waiting_register` for the waiter that
`IO_Event_Selector_EPoll_io_wait` set up, `IO_Event_Selector_EPoll_Waiting_cancel`, or
`IO_Event_Selector_EPoll_handle` for the readiness flags `event`, where `resume` tells what
the resumed fibers do to the list memory.  The result is the state and the waiters linked
afterwards, which after a dispatch are read from the list; `none` for an operation that is
not allowed. -/
def step (K : EPollFlags) (kernel : Kernel) (resume : Nat → ListMemory → ListMemory)
    (io : Nat) (descriptor : Int) (fuel : Nat)
    (s : State) (ws : List Nat) : WaiterOp Nat → Option (State × List Nat)
  | WaiterOp.register found waiting fiber events =>
    if Allowed fuel s.descriptor.list ws
        (WaiterOp.register found waiting fiber events : WaiterOp Nat) then
      let r := IO_Event_Selector_EPoll_Waiting_register K kernel found
        { s with memory := waiter_initialized s.memory waiting fiber events } io descriptor
        waiting
      match r.1 with
      | Registered.linked _ => some (r.2, waiting :: ws)
      | _ => some (r.2, ws)
    else none
  | WaiterOp.cancel waiting =>
    if Allowed fuel s.descriptor.list ws (WaiterOp.cancel waiting : WaiterOp Nat) then
      some ({ s with memory := Waiting_cancel s.memory waiting }, ws.erase waiting)
    else none
  | WaiterOp.dispatch event saved =>
    if Allowed fuel s.descriptor.list ws (WaiterOp.dispatch event saved) then
      match IO_Event_Selector_EPoll_handle K kernel resume fuel true s descriptor
          event saved with
      | none => none
      | some h =>
        match traversal h.state.memory s.descriptor.list fuel with
        | none => none
        | some left => some (h.state, left)
    else none

/-- A sequence of operations, from the first. -/
def run (K : EPollFlags) (kernel : Kernel) (resume : Nat → ListMemory → ListMemory)
    (io : Nat) (descriptor : Int) (fuel : Nat) :
    List (WaiterOp Nat) → State × List Nat → Option (State × List Nat)
  | [], x => some x
  | op :: rest, x =>
    match step K kernel resume io descriptor fuel x.1 x.2 op with
    | none => none
    | some y => run K kernel resume io descriptor fuel rest y

end EPoll

namespace KQueue

/-- One operation on the descriptor of a kqueue selector and on the waiters `ws` of its
list: `IO_Event_Selector_KQueue_Waiting_register` for the waiter that
`IO_Event_Selector_KQueue_io_wait` set up, `IO_Event_Selector_KQueue_Waiting_cancel`, or,
for an event of the filter `event`, what `select_handle_events` (kqueue.c:918) does: it adds
the events of the filter to `ready_events` and calls `IO_Event_Selector_KQueue_handle`, where
`resume` tells what the resumed fibers do to the list memory. -/
def step (kernel : Kernel) (resume : Nat → ListMemory → ListMemory) (identifier : Nat)
    (fuel : Nat)
    (s : State) (ws : List Nat) : WaiterOp Filter → Option (State × List Nat)
  | WaiterOp.register found waiting fiber events =>
    if Allowed fuel s.descriptor.list ws
        (WaiterOp.register found waiting fiber events : WaiterOp Filter) then
      let r := IO_Event_Selector_KQueue_Waiting_register kernel found
        { s with memory := waiter_initialized s.memory waiting fiber events } identifier
        waiting
      match r.1 with
      | Registered.linked _ => some (r.2, waiting :: ws)
      | _ => some (r.2, ws)
    else none
  | WaiterOp.cancel waiting =>
    if Allowed fuel s.descriptor.list ws (WaiterOp.cancel waiting : WaiterOp Filter) then
      some ({ s with memory := Waiting_cancel s.memory waiting }, ws.erase waiting)
    else none
  | WaiterOp.dispatch event saved =>
    if Allowed fuel s.descriptor.list ws (WaiterOp.dispatch event saved) then
      let ready_events := s.descriptor.ready_events ||| events_from_kevent_filter event
      match IO_Event_Selector_KQueue_handle kernel resume fuel
          { s with descriptor := { s.descriptor with ready_events := ready_events } }
          identifier saved with
      | none => none
      | some h =>
        match traversal h.state.memory s.descriptor.list fuel with
        | none => none
        | some left => some (h.state, left)
    else none

/-- A sequence of operations, from the first. -/
def run (kernel : Kernel) (resume : Nat → ListMemory → ListMemory) (identifier : Nat)
    (fuel : Nat) :
    List (WaiterOp Filter) → State × List Nat → Option (State × List Nat)
  | [], x => some x
  | op :: rest, x =>
    match step kernel resume identifier fuel x.1 x.2 op with
    | none => none
    | some y => run kernel resume identifier fuel rest y

end KQueue

/-- The events `inner` are among the events `outer`. -/
def Within (inner outer : Nat) : Prop := inner ||| outer = outer

instance (inner outer : Nat) : Decidable (Within inner outer) := by
  unfold Within; infer_instance

namespace EPoll

/-- The list of the descriptor is well formed and holds the waiters `ws`, and the waiting
events of the descriptor are the bitwise OR of their events. -/
def Exact (s : State) (ws : List Nat) : Prop :=
  Ring s.memory s.descriptor.list ws ∧
    s.descriptor.waiting_events = events_union s.memory.events 0 ws

end EPoll

namespace KQueue

/-- The list of the descriptor is well formed and holds the waiters `ws`, and the waiting
events of the descriptor are the bitwise OR of their events. -/
def Exact (s : State) (ws : List Nat) : Prop :=
  Ring s.memory s.descriptor.list ws ∧
    s.descriptor.waiting_events = events_union s.memory.events 0 ws

end KQueue

/-- A behaviour of the resumed fibers: the fiber resumed for the waiter at `node` leaves
`io_wait`, and before control is back in the loop it makes the fiber that waits with the
waiter at `victim` unwind, if that waiter is on the list at `list`. -/
def fiber_unwinds_another (list fuel victim : Nat) (node : Nat) (m : ListMemory) :
    ListMemory :=
  let m := Waiting_cancel m node
  match traversal m list fuel with
  | some ws => if victim ∈ ws then Waiting_cancel m victim else m
  | none => m

/-! ## Bit lemmas -/

theorem lor_eq_zero_iff (x y : Nat) : x ||| y = 0 ↔ x = 0 ∧ y = 0 := by
  constructor
  · intro h
    have hb : ∀ i, (x.testBit i || y.testBit i) = false := by
      intro i
      rw [← Nat.testBit_or, h, Nat.zero_testBit]
    constructor
    · apply Nat.eq_of_testBit_eq
      intro i
      have := hb i
      simp only [Bool.or_eq_false_iff] at this
      simp [this.1]
    · apply Nat.eq_of_testBit_eq
      intro i
      have := hb i
      simp only [Bool.or_eq_false_iff] at this
      simp [this.2]
  · rintro ⟨rfl, rfl⟩
    rfl

theorem land_lor3_ne_zero_iff (f a b c : Nat) :
    f &&& (a ||| b ||| c) ≠ 0 ↔ (f &&& a ≠ 0 ∨ f &&& b ≠ 0 ∨ f &&& c ≠ 0) := by
  rw [Nat.and_or_distrib_left, Nat.and_or_distrib_left, Ne, lor_eq_zero_iff, lor_eq_zero_iff]
  tauto

/-! ## Readiness flags to event masks -/

/-- C8: for every kernel readiness flag word `f`, the masks computed by
`events_from_epoll_flags` and `events_from_poll_flags` contain READABLE iff `f` contains any
of IN, HUP or ERR, PRIORITY iff `f` contains PRI, WRITABLE iff `f` contains OUT, and never
contain the ERROR, HANGUP or EXIT bits. -/
theorem events_from_flags_fold (E : EPollFlags) (P : PollFlags) (f : Nat) :
    ((EPoll.events_from_epoll_flags E f &&& IO_EVENT_READABLE ≠ 0 ↔
        (f &&& E.EPOLLIN ≠ 0 ∨ f &&& E.EPOLLHUP ≠ 0 ∨ f &&& E.EPOLLERR ≠ 0)) ∧
      (EPoll.events_from_epoll_flags E f &&& IO_EVENT_PRIORITY ≠ 0 ↔ f &&& E.EPOLLPRI ≠ 0) ∧
      (EPoll.events_from_epoll_flags E f &&& IO_EVENT_WRITABLE ≠ 0 ↔ f &&& E.EPOLLOUT ≠ 0) ∧
      EPoll.events_from_epoll_flags E f &&&
        (IO_EVENT_ERROR ||| IO_EVENT_HANGUP ||| IO_EVENT_EXIT) = 0) ∧
    ((URing.events_from_poll_flags P f &&& IO_EVENT_READABLE ≠ 0 ↔
        (f &&& P.POLLIN ≠ 0 ∨ f &&& P.POLLHUP ≠ 0 ∨ f &&& P.POLLERR ≠ 0)) ∧
      (URing.events_from_poll_flags P f &&& IO_EVENT_PRIORITY ≠ 0 ↔ f &&& P.POLLPRI ≠ 0) ∧
      (URing.events_from_poll_flags P f &&& IO_EVENT_WRITABLE ≠ 0 ↔ f &&& P.POLLOUT ≠ 0) ∧
      URing.events_from_poll_flags P f &&&
        (IO_EVENT_ERROR ||| IO_EVENT_HANGUP ||| IO_EVENT_EXIT) = 0) := by
  refine ⟨?_, ?_⟩
  · rw [← land_lor3_ne_zero_iff]
    unfold EPoll.events_from_epoll_flags
    by_cases h1 : f &&& (E.EPOLLIN ||| E.EPOLLHUP ||| E.EPOLLERR) = 0 <;>
      by_cases h2 : f &&& E.EPOLLPRI = 0 <;>
      by_cases h3 : f &&& E.EPOLLOUT = 0 <;>
      simp [h1, h2, h3, IO_EVENT_READABLE, IO_EVENT_PRIORITY, IO_EVENT_WRITABLE,
        IO_EVENT_ERROR, IO_EVENT_HANGUP, IO_EVENT_EXIT] <;> decide
  · rw [← land_lor3_ne_zero_iff]
    unfold URing.events_from_poll_flags
    by_cases h1 : f &&& (P.POLLIN ||| P.POLLHUP ||| P.POLLERR) = 0 <;>
      by_cases h2 : f &&& P.POLLPRI = 0 <;>
      by_cases h3 : f &&& P.POLLOUT = 0 <;>
      simp [h1, h2, h3, IO_EVENT_READABLE, IO_EVENT_PRIORITY, IO_EVENT_WRITABLE,
        IO_EVENT_ERROR, IO_EVENT_HANGUP, IO_EVENT_EXIT] <;> decide

/-! ## io_uring `io_wait` result -/

/-- The mask `IO_Event_Selector_URing_io_wait` returns for a positive poll result never has a
PRIORITY or WRITABLE bit that was not requested; of the bits outside the request only
READABLE can appear. -/
theorem uring_io_wait_bits (K : PollFlags) (events : Nat) (result : Int) (m : Nat)
    (h : URing.IO_Event_Selector_URing_io_wait K events result = Outcome.value m) :
    m = URing.events_from_poll_flags K
      (result.toNat &&& URing.poll_flags_from_events K events) ∧ 0 < result := by
  unfold URing.IO_Event_Selector_URing_io_wait URing.io_wait_transfer at h
  by_cases h1 : result < 0
  · simp [h1] at h
  · by_cases h2 : result > 0
    · simp only [h1, h2, if_true, if_false, Outcome.value.injEq] at h
      exact ⟨h.symm, h2⟩
    · simp [h1, h2] at h

/-- C2 (the code at the failing input): a fiber that requested only WRITABLE and whose poll
completes with `POLLHUP` is handed READABLE, a bit outside its request, where the
intersection of the reported events with the request is empty. -/
theorem uring_io_wait_writable_gets_readable :
    URing.IO_Event_Selector_URing_io_wait linuxPollFlags IO_EVENT_WRITABLE 16
        = Outcome.value IO_EVENT_READABLE ∧
      IO_EVENT_READABLE &&& IO_EVENT_WRITABLE = 0 ∧
      URing.events_from_poll_flags linuxPollFlags 16 &&& IO_EVENT_WRITABLE = 0 := by
  decide

/-! ## close -/

/-- A second `close` of the epoll selector closes nothing and changes nothing. -/
theorem epoll_close_idempotent (s : EPoll.IO_Event_Selector_EPoll) :
    EPoll.close_internal (EPoll.close_internal s).1 = ((EPoll.close_internal s).1, []) := by
  unfold EPoll.close_internal
  by_cases h : s.descriptor ≥ 0
  · simp [h]
  · simp [h]

/-- A second `close` of the io_uring selector exits no ring and changes nothing. -/
theorem uring_close_idempotent (s : URing.IO_Event_Selector_URing) :
    URing.close_internal (URing.close_internal s).1 = ((URing.close_internal s).1, []) := by
  unfold URing.close_internal
  by_cases h : s.ring_fd ≥ 0
  · simp [h]
  · simp [h]

/-- A second `close` of the kqueue selector of the `EVFILT_USER` build closes nothing and
changes nothing. -/
theorem kqueue_user_close_idempotent (s : KQueue.IO_Event_Selector_KQueue)
    (h : s.interrupt = none) :
    KQueue.IO_Event_Selector_KQueue_close (KQueue.IO_Event_Selector_KQueue_close s).1
      = ((KQueue.IO_Event_Selector_KQueue_close s).1, []) := by
  unfold KQueue.IO_Event_Selector_KQueue_close KQueue.close_internal
  by_cases h' : s.descriptor ≥ 0
  · simp [h, h']
  · simp [h, h']

/-- C5 (the code at the failing input): in the pipe-interrupt build of the kqueue selector
the second `close` leaves the state as it is but closes both interrupt descriptors again. -/
theorem kqueue_pipe_close_twice :
    KQueue.IO_Event_Selector_KQueue_close
        (KQueue.IO_Event_Selector_KQueue_close
          { descriptor := 3, blocked := false,
            interrupt := some (IO_Event_Interrupt.pipe 4 5) }).1
      = ({ descriptor := -1, blocked := false,
           interrupt := some (IO_Event_Interrupt.pipe 4 5) },
         [Syscall.close 4, Syscall.close 5]) := by
  decide

/-! ## wakeup -/

theorem interrupt_signal_calls (i : IO_Event_Interrupt) (w : Option Errno) :
    (IO_Event_Interrupt_signal i w).2 ≠ [] := by
  unfold IO_Event_Interrupt_signal
  cases w with
  | none => simp
  | some e => by_cases h : e = Errno.EAGAIN ∨ e = Errno.EWOULDBLOCK <;> simp [h]

theorem uring_wakeup_loop_true_iff (rounds : List URing.SqeAttempt) (r : Bool × List Syscall)
    (h : URing.wakeup_loop rounds = some r) :
    (r.1 = true → r.2 = [Syscall.io_uring_submit_nop]) ∧ (r.1 = false → r.2 = []) := by
  induction rounds with
  | nil => simp [URing.wakeup_loop] at h
  | cons a rest ih =>
    cases a with
    | entry =>
      simp only [URing.wakeup_loop, Option.some.injEq] at h
      subst h
      simp
    | full b =>
      cases b with
      | false =>
        simp only [URing.wakeup_loop, Option.some.injEq] at h
        subst h
        simp
      | true =>
        simp only [URing.wakeup_loop] at h
        exact ih h

theorem uring_wakeup_loop_spin (k : Nat) (rest : List URing.SqeAttempt) :
    URing.wakeup_loop (List.replicate k (URing.SqeAttempt.full true) ++ rest)
      = URing.wakeup_loop rest := by
  induction k with
  | zero => simp
  | succ k ih => simpa [List.replicate_succ, URing.wakeup_loop] using ih

/-- C4 (counterexample): an io_uring selector that is blocked when `wakeup` is called, has no
submission entry free and is found unblocked after the thread yielded: `wakeup` returns
false and submits nothing although the blocked flag was set at the call. -/
theorem uring_wakeup_blocked_returns_false :
    URing.IO_Event_Selector_URing_wakeup { ring_fd := 3, blocked := true }
        [URing.SqeAttempt.full false] = some (false, []) ∧
      ¬ (URing.IO_Event_Selector_URing_wakeup { ring_fd := 3, blocked := true }
        [URing.SqeAttempt.full false] = some (true, [Syscall.io_uring_submit_nop])) := by
  decide

/-- C4 (amended): in every backend `wakeup` on a selector that is not blocked returns false
and issues no kernel call.  On a blocked epoll or kqueue selector it issues the wake-up
(interrupt write, or the two user-event `kevent` calls) and, whenever it returns, returns
true, so that a returned value is true iff the blocked flag was set at the call.  On a
blocked io_uring selector it returns true exactly when it submitted the NOP, which it does
as soon as a submission entry is free; when none is free and the selector is found
unblocked after yielding, it returns false and submits nothing. -/
theorem wakeup_blocked_flag :
    (∀ (s : EPoll.IO_Event_Selector_EPoll) (written : Option Errno),
      (s.blocked = false →
        EPoll.IO_Event_Selector_EPoll_wakeup s written = (Except.ok false, [])) ∧
      (s.blocked = true → (EPoll.IO_Event_Selector_EPoll_wakeup s written).2 ≠ []) ∧
      (∀ b, (EPoll.IO_Event_Selector_EPoll_wakeup s written).1 = Except.ok b →
        (b = true ↔ s.blocked = true))) ∧
    (∀ (s : KQueue.IO_Event_Selector_KQueue) (written added triggered : Option Errno),
      (s.blocked = false →
        KQueue.IO_Event_Selector_KQueue_wakeup s written added triggered
          = (Except.ok false, [])) ∧
      (s.blocked = true →
        (KQueue.IO_Event_Selector_KQueue_wakeup s written added triggered).2 ≠ []) ∧
      (∀ b, (KQueue.IO_Event_Selector_KQueue_wakeup s written added triggered).1 = Except.ok b →
        (b = true ↔ s.blocked = true))) ∧
    (∀ (s : URing.IO_Event_Selector_URing) (rounds : List URing.SqeAttempt),
      (s.blocked = false → URing.IO_Event_Selector_URing_wakeup s rounds = some (false, [])) ∧
      (∀ r, URing.IO_Event_Selector_URing_wakeup s rounds = some r →
        (r.1 = true → s.blocked = true ∧ r.2 = [Syscall.io_uring_submit_nop]) ∧
        (r.1 = false → r.2 = [])) ∧
      (∀ k rest, s.blocked = true →
        rounds = List.replicate k (URing.SqeAttempt.full true) ++ URing.SqeAttempt.entry :: rest →
        URing.IO_Event_Selector_URing_wakeup s rounds
          = some (true, [Syscall.io_uring_submit_nop])) ∧
      (∀ k rest, s.blocked = true →
        rounds = List.replicate k (URing.SqeAttempt.full true) ++
          URing.SqeAttempt.full false :: rest →
        URing.IO_Event_Selector_URing_wakeup s rounds = some (false, []))) := by
  refine ⟨?_, ?_, ?_⟩
  · intro s written
    unfold EPoll.IO_Event_Selector_EPoll_wakeup
    have hc := interrupt_signal_calls s.interrupt written
    cases hb : s.blocked with
    | false => simp
    | true =>
      rcases hs : IO_Event_Interrupt_signal s.interrupt written with ⟨res, calls⟩
      rw [hs] at hc
      cases res with
      | ok u => simpa using hc
      | error e => simpa using hc
  · intro s written added triggered
    unfold KQueue.IO_Event_Selector_KQueue_wakeup
    cases hb : s.blocked with
    | false => simp
    | true =>
      cases hi : s.interrupt with
      | some i =>
        have hc := interrupt_signal_calls i written
        simp only [if_true]
        rcases hs : IO_Event_Interrupt_signal i written with ⟨res, calls⟩
        rw [hs] at hc
        cases res with
        | ok u => simpa using hc
        | error e => simpa using hc
      | none =>
        cases added with
        | some e => simp
        | none =>
          cases triggered with
          | some e => simp
          | none => simp
  · intro s rounds
    unfold URing.IO_Event_Selector_URing_wakeup
    cases hb : s.blocked with
    | false =>
      refine ⟨by simp, ?_, by simp, by simp⟩
      intro r hr
      simp only [Bool.false_eq_true, if_false, Option.some.injEq] at hr
      subst hr
      simp
    | true =>
      refine ⟨by simp, ?_, ?_, ?_⟩
      · intro r hr
        simp only [if_true] at hr
        have := uring_wakeup_loop_true_iff rounds r hr
        exact ⟨fun h => ⟨rfl, this.1 h⟩, this.2⟩
      · intro k rest _ hrounds
        simp only [if_true]
        rw [hrounds, uring_wakeup_loop_spin]
        rfl
      · intro k rest _ hrounds
        simp only [if_true]
        rw [hrounds, uring_wakeup_loop_spin]
        rfl

/-! ## select -/

theorem timeout_blocking_cases (duration : Duration)
    (h : timeout_nonblocking (make_timeout duration) = false) :
    duration = Duration.nil ∨
      ∃ ts, make_timeout duration = some ts ∧ ¬ (ts.tv_sec = 0 ∧ ts.tv_nsec = 0) := by
  cases duration with
  | nil => exact Or.inl rfl
  | integer s =>
    right
    refine ⟨_, rfl, ?_⟩
    simpa [make_timeout, timeout_nonblocking] using h
  | float s n =>
    right
    refine ⟨_, rfl, ?_⟩
    simpa [make_timeout, timeout_nonblocking] using h

theorem gated_of_only_polls (steps : List SelectStep) (duration : Duration) (idle : Prop)
    (h : OnlyPolls steps) : BlockingWaitGated steps duration idle := by
  intro t ht
  exact absurd ht (h t)

theorem gated_of_split (before after : List SelectStep) (duration : Duration) (idle : Prop)
    (hidle : idle) (ht : timeout_nonblocking (make_timeout duration) = false)
    (hflush : SelectStep.ready_flush ∈ before) (hb : OnlyPolls before) (ha : OnlyPolls after) :
    BlockingWaitGated (before ++ SelectStep.wait (make_timeout duration) :: after)
      duration idle := by
  intro t hmem
  have ht' : t = make_timeout duration := by
    rcases List.mem_append.1 hmem with h | h
    · exact absurd h (hb t)
    · rcases List.mem_cons.1 h with h | h
      · exact SelectStep.wait.inj h
      · exact absurd h (ha t)
  subst ht'
  exact ⟨hidle, rfl, timeout_blocking_cases duration ht, before, after, rfl, hflush⟩

theorem select_finish_steps (steps : List SelectStep) (count : Int) :
    (select_finish steps count).1 = steps ∨
      (select_finish steps count).1 = steps ++ [SelectStep.handle_events count] := by
  unfold select_finish
  by_cases h : count ≠ 0
  · right; simp [h]
  · left; simp [h]

theorem epoll_select_steps (env : SelectEnv) (duration : Duration) :
    (env.ready = 0 ∧ select_internal_count env.polled = Except.ok 0 ∧ env.queued = false ∧
      timeout_nonblocking (make_timeout duration) = false ∧
      ∃ after, OnlyPolls after ∧ (EPoll.IO_Event_Selector_EPoll_select env duration).1 =
        [SelectStep.ready_flush, SelectStep.poll (some { tv_sec := 0, tv_nsec := 0 })] ++
          SelectStep.wait (make_timeout duration) :: after) ∨
    OnlyPolls (EPoll.IO_Event_Selector_EPoll_select env duration).1 := by
  unfold EPoll.IO_Event_Selector_EPoll_select
  have hpre : OnlyPolls
      [SelectStep.ready_flush, SelectStep.poll (some { tv_sec := 0, tv_nsec := 0 })] := by
    intro t; simp
  have hfin : ∀ count, OnlyPolls (select_finish
      [SelectStep.ready_flush, SelectStep.poll (some { tv_sec := 0, tv_nsec := 0 })] count).1 := by
    intro count t
    rcases select_finish_steps
      [SelectStep.ready_flush, SelectStep.poll (some { tv_sec := 0, tv_nsec := 0 })] count
      with h | h <;> rw [h] <;> simp
  cases hp : select_internal_count env.polled with
  | error e => exact Or.inr hpre
  | ok count =>
    dsimp only
    by_cases hidle : env.ready = 0 ∧ count = 0 ∧ env.queued = false
    · rw [if_pos hidle]
      by_cases ht : timeout_nonblocking (make_timeout duration) = false
      · rw [if_pos ht]
        left
        refine ⟨hidle.1, by rw [hidle.2.1], hidle.2.2, ht, ?_⟩
        cases hw : select_internal_count env.waited with
        | error e => exact ⟨[], by intro t; simp, rfl⟩
        | ok count' =>
          dsimp only
          rcases select_finish_steps
            ([SelectStep.ready_flush, SelectStep.poll (some { tv_sec := 0, tv_nsec := 0 })] ++
              [SelectStep.wait (make_timeout duration)]) count' with h | h
          · exact ⟨[], by intro t; simp, by simpa using h⟩
          · exact ⟨[SelectStep.handle_events count'], by intro t; simp, by simpa using h⟩
      · rw [if_neg ht]
        exact Or.inr (hfin count)
    · rw [if_neg hidle]
      exact Or.inr (hfin count)

theorem kqueue_select_eq_epoll :
    KQueue.IO_Event_Selector_KQueue_select = EPoll.IO_Event_Selector_EPoll_select := rfl

theorem uring_select_steps (env : URing.SelectEnv) (duration : Duration) :
    ((env.ready = 0 ∧ env.completed = 0 ∧ env.queued = false ∧ env.queued_again = false) ∧
      timeout_nonblocking (make_timeout duration) = false ∧
      ∃ after, OnlyPolls after ∧ (URing.IO_Event_Selector_URing_select env duration).1 =
        [SelectStep.submit_flush, SelectStep.ready_flush, SelectStep.process_completions,
          SelectStep.submit_flush] ++ SelectStep.wait (make_timeout duration) :: after) ∨
    OnlyPolls (URing.IO_Event_Selector_URing_select env duration).1 := by
  unfold URing.IO_Event_Selector_URing_select
  cases hf : env.flushed with
  | some e => right; intro t; simp
  | none =>
    dsimp only
    by_cases hidle : env.ready = 0 ∧ (env.completed : Int) = 0 ∧ env.queued = false
    · rw [if_pos hidle]
      by_cases ht : env.queued_again = false ∧ timeout_nonblocking (make_timeout duration) = false
      · rw [if_pos ht]
        cases hfa : env.flushed_again with
        | some e => right; intro t; simp
        | none =>
          left
          refine ⟨⟨hidle.1, by exact_mod_cast hidle.2.1, hidle.2.2, ht.1⟩, ht.2, ?_⟩
          cases hw : URing.select_internal_result env.waited with
          | error e => exact ⟨[], by intro t; simp, rfl⟩
          | ok result =>
            dsimp only
            by_cases hr : result > 0
            · rw [if_pos hr]
              exact ⟨[SelectStep.process_completions], by intro t; simp, rfl⟩
            · rw [if_neg hr]
              exact ⟨[], by intro t; simp, rfl⟩
      · rw [if_neg ht]
        right; intro t; simp
    · rw [if_neg hidle]
      right; intro t; simp

theorem gated_of_steps (steps before : List SelectStep) (duration : Duration) (idle : Prop)
    (hflush : SelectStep.ready_flush ∈ before) (hb : OnlyPolls before)
    (h : (idle ∧ timeout_nonblocking (make_timeout duration) = false ∧
        ∃ after, OnlyPolls after ∧
          steps = before ++ SelectStep.wait (make_timeout duration) :: after) ∨
      OnlyPolls steps) :
    BlockingWaitGated steps duration idle ∧
      (timeout_nonblocking (make_timeout duration) = true → OnlyPolls steps) := by
  rcases h with ⟨hidle, ht, after, ha, hsteps⟩ | h
  · subst hsteps
    exact ⟨gated_of_split before after duration idle hidle ht hflush hb ha,
      fun h => by rw [ht] at h; cases h⟩
  · exact ⟨gated_of_only_polls _ _ _ h, fun _ => h⟩

/-- C3: in every `select` cycle of the epoll, kqueue and io_uring selectors a blocking kernel
wait comes after the `ready_flush` of that cycle and is performed only if `ready_flush`
processed zero entries, the non-blocking poll (or completion harvest) yielded zero events,
the ready queue is empty, and the timeout is nil or non-zero; with a zero timeout the cycle
only polls. -/
theorem select_blocking_wait_gated (env : SelectEnv) (uenv : URing.SelectEnv)
    (duration : Duration) :
    (BlockingWaitGated (EPoll.IO_Event_Selector_EPoll_select env duration).1 duration
        (env.ready = 0 ∧ select_internal_count env.polled = Except.ok 0 ∧
          env.queued = false) ∧
      (timeout_nonblocking (make_timeout duration) = true →
        OnlyPolls (EPoll.IO_Event_Selector_EPoll_select env duration).1)) ∧
    (BlockingWaitGated (KQueue.IO_Event_Selector_KQueue_select env duration).1 duration
        (env.ready = 0 ∧ select_internal_count env.polled = Except.ok 0 ∧
          env.queued = false) ∧
      (timeout_nonblocking (make_timeout duration) = true →
        OnlyPolls (KQueue.IO_Event_Selector_KQueue_select env duration).1)) ∧
    (BlockingWaitGated (URing.IO_Event_Selector_URing_select uenv duration).1 duration
        (uenv.ready = 0 ∧ uenv.completed = 0 ∧ uenv.queued = false ∧
          uenv.queued_again = false) ∧
      (timeout_nonblocking (make_timeout duration) = true →
        OnlyPolls (URing.IO_Event_Selector_URing_select uenv duration).1)) := by
  have he := epoll_select_steps env duration
  have hu := uring_select_steps uenv duration
  refine ⟨?_, ?_, ?_⟩
  · apply gated_of_steps _
      [SelectStep.ready_flush, SelectStep.poll (some { tv_sec := 0, tv_nsec := 0 })]
    · simp
    · intro t; simp
    · rcases he with ⟨h1, h2, h3, h4, h5⟩ | h
      · exact Or.inl ⟨⟨h1, h2, h3⟩, h4, h5⟩
      · exact Or.inr h
  · rw [kqueue_select_eq_epoll]
    apply gated_of_steps _
      [SelectStep.ready_flush, SelectStep.poll (some { tv_sec := 0, tv_nsec := 0 })]
    · simp
    · intro t; simp
    · rcases he with ⟨h1, h2, h3, h4, h5⟩ | h
      · exact Or.inl ⟨⟨h1, h2, h3⟩, h4, h5⟩
      · exact Or.inr h
  · apply gated_of_steps _
      [SelectStep.submit_flush, SelectStep.ready_flush, SelectStep.process_completions,
        SelectStep.submit_flush]
    · simp
    · intro t; simp
    · rcases hu with ⟨h1, h4, h5⟩ | h
      · exact Or.inl ⟨h1, h4, h5⟩
      · exact Or.inr h

/-! ## Links in memory -/

theorem store_same (f : Nat → Nat) (p v : Nat) : store f p v p = v := by
  simp [store]

theorem store_other (f : Nat → Nat) (p v a : Nat) (h : a ≠ p) : store f p v a = f a := by
  simp [store, h]

theorem walk_congr {next next' : Nat → Nat} :
    ∀ (c : List Nat) (z : Nat),
      (∀ a ∈ c, next' a = next a) → Walk next c z → Walk next' c z
  | [], _, _, _ => trivial
  | [a], z, h, hw => by
    have := h a (by simp)
    simpa [Walk, this] using hw
  | a :: b :: rest, z, h, hw => by
    have ha := h a (by simp)
    refine ⟨by rw [ha]; exact hw.1, ?_⟩
    exact walk_congr (b :: rest) z (fun x hx => h x (List.mem_cons_of_mem _ hx)) hw.2

theorem walk_append {next : Nat → Nat} :
    ∀ (xs : List Nat) (u : Nat) (ys : List Nat) (z : Nat),
      Walk next (xs ++ u :: ys) z ↔ Walk next (xs ++ [u]) (ys.headD z) ∧ Walk next ys z
  | [], u, [], z => by simp [Walk]
  | [], u, y :: ys, z => by simp [Walk]
  | [x], u, ys, z => by
    have := @walk_append next [] u ys z
    simp only [List.nil_append] at this
    simp only [List.singleton_append, Walk, this, and_assoc]
  | x :: x' :: xs, u, ys, z => by
    have := @walk_append next (x' :: xs) u ys z
    show (next x = x' ∧ Walk next (x' :: xs ++ u :: ys) z) ↔
      (next x = x' ∧ Walk next (x' :: xs ++ [u]) (ys.headD z)) ∧ Walk next ys z
    rw [this, and_assoc]

theorem walk_snoc_read {next : Nat → Nat} :
    ∀ (xs : List Nat) (u t : Nat), Walk next (xs ++ [u]) t → next u = t
  | [], _, _, h => h
  | [_], _, _, h => h.2
  | _ :: x' :: xs, u, t, h => walk_snoc_read (x' :: xs) u t h.2

theorem walk_snoc_store {next : Nat → Nat} :
    ∀ (xs : List Nat) (u t t' : Nat), u ∉ xs → Walk next (xs ++ [u]) t →
      Walk (store next u t') (xs ++ [u]) t'
  | [], u, _, t', _, _ => store_same next u t'
  | [x], u, t, t', hu, h => by
    have hx : x ≠ u := fun e => hu (by simp [e])
    exact ⟨by rw [store_other _ _ _ _ hx]; exact h.1, store_same next u t'⟩
  | x :: x' :: xs, u, t, t', hu, h => by
    have hx : x ≠ u := fun e => hu (by simp [e])
    refine ⟨by rw [store_other _ _ _ _ hx]; exact h.1, ?_⟩
    exact walk_snoc_store (x' :: xs) u t t' (fun hm => hu (List.mem_cons_of_mem _ hm)) h.2

theorem walk_next {next : Nat → Nat} (xs : List Nat) (u : Nat) (ys : List Nat) (z : Nat)
    (h : Walk next (xs ++ u :: ys) z) : next u = ys.headD z :=
  walk_snoc_read xs u _ ((walk_append xs u ys z).1 h).1

theorem walk_insert {next : Nat → Nat} (xs : List Nat) (u : Nat) (ys : List Nat) (z new : Nat)
    (hnd : (xs ++ u :: ys).Nodup) (hnew : new ∉ xs ++ u :: ys)
    (h : Walk next (xs ++ u :: ys) z) :
    Walk (store (store next new (next u)) u new) (xs ++ u :: new :: ys) z := by
  have hu : u ∉ xs := by
    intro hm
    have := List.nodup_append.1 hnd
    exact this.2.2 hm (by simp)
  have huy : u ∉ ys := by
    have := (List.nodup_append.1 hnd).2.1
    exact (List.nodup_cons.1 this).1
  have hne : new ≠ u := fun e => hnew (by simp [e])
  have hs := (walk_append xs u ys z).1 h
  refine (walk_append xs u (new :: ys) z).2 ⟨?_, ?_⟩
  · have h1 : Walk (store next new (next u)) (xs ++ [u]) (ys.headD z) := by
      apply walk_congr _ _ _ hs.1
      intro a ha
      apply store_other
      rintro rfl
      apply hnew
      rcases List.mem_append.1 ha with h | h
      · exact List.mem_append_left _ h
      · exact List.mem_append_right _ (by simp at h; simp [h])
    exact walk_snoc_store xs u _ new hu h1
  · refine (walk_append [] new ys z).2 ⟨?_, ?_⟩
    · show store (store next new (next u)) u new new = ys.headD z
      rw [store_other _ _ _ _ hne, store_same]
      exact walk_next xs u ys z h
    · apply walk_congr _ _ _ hs.2
      intro a ha
      have h1 : a ≠ u := fun e => huy (e ▸ ha)
      have h2 : a ≠ new := fun e => hnew (by simp [← e, ha])
      rw [store_other _ _ _ _ h1, store_other _ _ _ _ h2]

theorem walk_remove {next : Nat → Nat} (xs : List Nat) (u a : Nat) (ys : List Nat) (z v : Nat)
    (hnd : (xs ++ u :: a :: ys).Nodup) (h : Walk next (xs ++ u :: a :: ys) z) :
    Walk (store (store next u (next a)) a v) (xs ++ u :: ys) z := by
  have hx := List.nodup_append.1 hnd
  have hu : u ∉ xs := fun hm => hx.2.2 hm (by simp)
  have hax : a ∉ xs := fun hm => hx.2.2 hm (by simp)
  have hc := List.nodup_cons.1 hx.2.1
  have hau : a ≠ u := fun e => hc.1 (by simp [e])
  have hc2 := List.nodup_cons.1 hc.2
  have hs := (walk_append xs u (a :: ys) z).1 h
  have hna : next a = ys.headD z := walk_next (xs ++ [u]) a ys z (by simpa using h)
  have hys : Walk next ys z := ((walk_append [] a ys z).1 hs.2).2
  refine (walk_append xs u ys z).2 ⟨?_, ?_⟩
  · have h1 : Walk (store next u (next a)) (xs ++ [u]) (next a) :=
      walk_snoc_store xs u _ _ hu hs.1
    rw [← hna]
    apply walk_congr _ _ _ h1
    intro b hb
    apply store_other
    rintro rfl
    rcases List.mem_append.1 hb with h | h
    · exact hax h
    · exact hau (by simpa using h)
  · apply walk_congr _ _ _ hys
    intro b hb
    have h1 : b ≠ a := fun e => hc2.1 (e ▸ hb)
    have h2 : b ≠ u := fun e => hc.1 (by simp [← e, hb])
    rw [store_other _ _ _ _ h1, store_other _ _ _ _ h2]

theorem cons_eq_snoc (L : Nat) (xs : List Nat) :
    ∃ fx, L :: xs = fx ++ [xs.reverse.headD L] := by
  rcases List.eq_nil_or_concat xs with rfl | ⟨xs', b, rfl⟩
  · exact ⟨[], rfl⟩
  · exact ⟨L :: xs', by simp⟩

/-! ## Rings: reading, inserting, removing -/

theorem ring_of_links {m m' : ListMemory} {L : Nat} {ws : List Nat}
    (hh : m'.head = m.head) (ht : m'.tail = m.tail) (h : Ring m L ws) : Ring m' L ws :=
  ⟨h.nodup, by rw [ht]; exact h.forward, by rw [hh]; exact h.backward⟩

theorem ring_tail {m : ListMemory} {L : Nat} (xs : List Nat) (a : Nat) (ys : List Nat)
    (h : Ring m L (xs ++ a :: ys)) : m.tail a = ys.headD L := by
  have := h.forward
  exact walk_next (L :: xs) a ys L (by simpa using this)

theorem ring_head {m : ListMemory} {L : Nat} (xs : List Nat) (a : Nat) (ys : List Nat)
    (h : Ring m L (xs ++ a :: ys)) : m.head a = xs.reverse.headD L := by
  have := h.backward
  exact walk_next (L :: ys.reverse) a xs.reverse L (by simpa using this)

theorem ring_first {m : ListMemory} {L : Nat} {ws : List Nat} (h : Ring m L ws) :
    m.tail L = ws.headD L :=
  walk_next [] L ws L h.forward

theorem ring_pop {m : ListMemory} {L : Nat} (xs : List Nat) (a : Nat) (ys : List Nat)
    (h : Ring m L (xs ++ a :: ys)) : Ring (IO_Event_List_pop m a) L (xs ++ ys) := by
  have hnd := h.nodup
  have hta := ring_tail xs a ys h
  have hha := ring_head xs a ys h
  obtain ⟨fx, hfx⟩ := cons_eq_snoc L xs
  obtain ⟨bx, hbx⟩ := cons_eq_snoc L ys.reverse
  rw [List.reverse_reverse] at hbx
  have hF : L :: (xs ++ a :: ys) = fx ++ xs.reverse.headD L :: a :: ys := by
    rw [← List.cons_append, hfx]; simp
  have hB : L :: (xs ++ a :: ys).reverse = bx ++ ys.headD L :: a :: xs.reverse := by
    have : L :: (xs ++ a :: ys).reverse = (L :: ys.reverse) ++ a :: xs.reverse := by simp
    rw [this, hbx]; simp
  have hF' : L :: (xs ++ ys) = fx ++ xs.reverse.headD L :: ys := by
    rw [← List.cons_append, hfx]; simp
  have hB' : L :: (xs ++ ys).reverse = bx ++ ys.headD L :: xs.reverse := by
    have : L :: (xs ++ ys).reverse = (L :: ys.reverse) ++ xs.reverse := by simp
    rw [this, hbx]; simp
  have hndB : (L :: (xs ++ a :: ys).reverse).Nodup := by
    rw [List.nodup_cons] at hnd ⊢
    exact ⟨fun hm => hnd.1 (List.mem_reverse.1 hm), List.nodup_reverse.2 hnd.2⟩
  refine ⟨?_, ?_, ?_⟩
  · have hsub : (L :: (xs ++ ys)).Sublist (L :: (xs ++ a :: ys)) := by
      apply List.Sublist.cons₂
      exact List.Sublist.append_left (List.sublist_cons_self a ys) xs
    exact hsub.nodup hnd
  · show Walk (store (store m.tail (m.head a) (m.tail a)) a 0) (L :: (xs ++ ys)) L
    rw [hF', hha]
    apply walk_remove
    · rw [← hF]; exact hnd
    · rw [← hF]; exact h.forward
  · show Walk (store (store m.head (m.tail a) (m.head a)) a 0) (L :: (xs ++ ys).reverse) L
    rw [hB', hta]
    apply walk_remove
    · rw [← hB]; exact hndB
    · rw [← hB]; exact h.backward

theorem ring_append {m : ListMemory} {L : Nat} (xs : List Nat) (c : Nat) (ys : List Nat)
    (new : Nat) (hnew : new ∉ L :: (xs ++ c :: ys)) (h : Ring m L (xs ++ c :: ys)) :
    Ring (IO_Event_List_append m c new) L (xs ++ new :: c :: ys) := by
  have hnd := h.nodup
  have hhc := ring_head xs c ys h
  obtain ⟨fx, hfx⟩ := cons_eq_snoc L xs
  have hF : L :: (xs ++ c :: ys) = fx ++ xs.reverse.headD L :: c :: ys := by
    rw [← List.cons_append, hfx]; simp
  have hF' : L :: (xs ++ new :: c :: ys) = fx ++ xs.reverse.headD L :: new :: c :: ys := by
    rw [← List.cons_append, hfx]; simp
  have hB : L :: (xs ++ c :: ys).reverse = (L :: ys.reverse) ++ c :: xs.reverse := by simp
  have hB' : L :: (xs ++ new :: c :: ys).reverse
      = (L :: ys.reverse) ++ c :: new :: xs.reverse := by simp
  have hndB : (L :: (xs ++ c :: ys).reverse).Nodup := by
    rw [List.nodup_cons] at hnd ⊢
    exact ⟨fun hm => hnd.1 (List.mem_reverse.1 hm), List.nodup_reverse.2 hnd.2⟩
  have hnewB : new ∉ L :: (xs ++ c :: ys).reverse := by
    intro hm
    apply hnew
    rcases List.mem_cons.1 hm with e | hm
    · exact List.mem_cons.2 (Or.inl e)
    · exact List.mem_cons_of_mem _ (List.mem_reverse.1 hm)
  have htu : m.tail (xs.reverse.headD L) = c := by
    have := walk_next fx (xs.reverse.headD L) (c :: ys) L (by rw [← hF]; exact h.forward)
    simpa using this
  refine ⟨?_, ?_, ?_⟩
  · have hp : (L :: (xs ++ new :: c :: ys)).Perm (new :: L :: (xs ++ c :: ys)) := by
      have : (xs ++ new :: c :: ys).Perm (new :: (xs ++ c :: ys)) := List.perm_middle
      exact (List.Perm.cons L this).trans (List.Perm.swap new L _)
    exact hp.nodup_iff.2 (List.nodup_cons.2 ⟨hnew, hnd⟩)
  · show Walk (store (store m.tail new c) (m.head c) new) (L :: (xs ++ new :: c :: ys)) L
    rw [hF', hhc]
    have := walk_insert fx (xs.reverse.headD L) (c :: ys) L new
      (by rw [← hF]; exact hnd) (by rw [← hF]; exact hnew) (by rw [← hF]; exact h.forward)
    rw [htu] at this
    exact this
  · show Walk (store (store m.head new (m.head c)) c new) (L :: (xs ++ new :: c :: ys).reverse) L
    rw [hB']
    apply walk_insert
    · rw [← hB]; exact hndB
    · rw [← hB]; exact hnewB
    · rw [← hB]; exact h.backward

/-! ## The dispatch loop of `handle` -/

theorem dispatch_loop_done (resume : Nat → ListMemory → ListMemory) (r L saved fuel : Nat)
    (d : Dispatch) : dispatch_loop resume r L saved fuel L d = some d := by
  cases fuel <;> simp [dispatch_loop]

theorem dispatch_loop_skip (resume : Nat → ListMemory → ListMemory) (r L saved fuel node : Nat)
    (d : Dispatch) (h1 : node ≠ L) (h2 : d.memory.events node &&& r = 0) :
    dispatch_loop resume r L saved (fuel + 1) node d
      = dispatch_loop resume r L saved fuel (d.memory.tail node)
          { d with waiting_events := d.waiting_events ||| d.memory.events node } := by
  simp [dispatch_loop, h1, h2]

theorem dispatch_loop_match (resume : Nat → ListMemory → ListMemory)
    (r L saved fuel node : Nat) (d : Dispatch) (h1 : node ≠ L)
    (h2 : d.memory.events node &&& r ≠ 0) :
    dispatch_loop resume r L saved (fuel + 1) node d
      = dispatch_loop resume r L saved fuel
          ((resume node { IO_Event_List_append d.memory node saved with
              ready := store (IO_Event_List_append d.memory node saved).ready node
                (d.memory.events node &&& r) }).tail saved)
          { memory := IO_Event_List_pop
              (resume node { IO_Event_List_append d.memory node saved with
                ready := store (IO_Event_List_append d.memory node saved).ready node
                  (d.memory.events node &&& r) }) saved,
            waiting_events := d.waiting_events,
            resumed := d.resumed ++ [(node, Outcome.value (d.memory.events node &&& r))] } := by
  simp [dispatch_loop, h1, h2, io_wait_transfer, store_same]

theorem dispatch_loop_spec (r L saved : Nat) :
    ∀ (rest pre : List Nat) (d : Dispatch) (fuel : Nat),
      Ring d.memory L (pre ++ rest) → saved ∉ L :: (pre ++ rest) → rest.length ≤ fuel →
      ∃ d', dispatch_loop fiber_leaves_io_wait r L saved fuel (rest.headD L) d = some d' ∧
        Ring d'.memory L (pre ++ rest.filter (fun a => decide (d.memory.events a &&& r = 0))) ∧
        d'.waiting_events = events_union d.memory.events d.waiting_events
          (rest.filter (fun a => decide (d.memory.events a &&& r = 0))) ∧
        d'.resumed = d.resumed ++
          (rest.filter (fun a => decide (d.memory.events a &&& r ≠ 0))).map
            (fun a => (a, Outcome.value (d.memory.events a &&& r))) ∧
        d'.memory.events = d.memory.events := by
  intro rest
  induction rest with
  | nil =>
    intro pre d fuel hring _ _
    refine ⟨d, dispatch_loop_done _ _ _ _ _ _, ?_, ?_, ?_, rfl⟩
    · simpa using hring
    · simp [events_union]
    · simp
  | cons cur post ih =>
    intro pre d fuel hring hsaved hfuel
    obtain ⟨fuel, rfl⟩ : ∃ f, fuel = f + 1 := ⟨fuel - 1, by simp at hfuel; omega⟩
    have hfuel' : post.length ≤ fuel := by simp at hfuel; omega
    have hcur : cur ≠ L := by
      intro e
      have := (List.nodup_cons.1 hring.nodup).1
      exact this (by simp [e])
    show ∃ d', dispatch_loop fiber_leaves_io_wait r L saved (fuel + 1) cur d = some d' ∧ _
    by_cases hm : d.memory.events cur &&& r = 0
    · rw [dispatch_loop_skip _ _ _ _ _ _ _ hcur hm, ring_tail pre cur post hring]
      have hring' : Ring d.memory L ((pre ++ [cur]) ++ post) := by simpa using hring
      have hsaved' : saved ∉ L :: ((pre ++ [cur]) ++ post) := by simpa using hsaved
      obtain ⟨d', h1, h2, h3, h4, h5⟩ := ih (pre ++ [cur])
        { d with waiting_events := d.waiting_events ||| d.memory.events cur } fuel
        hring' hsaved' hfuel'
      refine ⟨d', h1, ?_, ?_, ?_, h5⟩
      · simpa [List.filter_cons, hm] using h2
      · simpa [List.filter_cons, hm, events_union] using h3
      · simpa [List.filter_cons, hm] using h4
    · rw [dispatch_loop_match _ _ _ _ _ _ _ hcur hm]
      have hr1 : Ring (IO_Event_List_append d.memory cur saved) L (pre ++ saved :: cur :: post) :=
        ring_append pre cur post saved hsaved hring
      have hr3 : Ring (fiber_leaves_io_wait cur { IO_Event_List_append d.memory cur saved with
          ready := store (IO_Event_List_append d.memory cur saved).ready cur
            (d.memory.events cur &&& r) }) L (pre ++ saved :: post) := by
        have : Ring (IO_Event_List_pop (IO_Event_List_append d.memory cur saved) cur) L
            ((pre ++ [saved]) ++ post) :=
          ring_pop (pre ++ [saved]) cur post (by simpa using hr1)
        refine @ring_of_links (IO_Event_List_pop
          (IO_Event_List_append d.memory cur saved) cur) _ L _ rfl rfl ?_
        simpa using this
      rw [ring_tail pre saved post hr3]
      have hr4 := ring_pop pre saved post hr3
      have hsaved' : saved ∉ L :: (pre ++ post) := by
        intro hmem
        apply hsaved
        rcases List.mem_cons.1 hmem with e | hmem
        · exact List.mem_cons.2 (Or.inl e)
        · apply List.mem_cons_of_mem
          rcases List.mem_append.1 hmem with h | h
          · exact List.mem_append_left _ h
          · exact List.mem_append_right _ (List.mem_cons_of_mem _ h)
      obtain ⟨d', h1, h2, h3, h4, h5⟩ := ih pre
        ⟨_, d.waiting_events, d.resumed ++ [(cur, Outcome.value (d.memory.events cur &&& r))]⟩
        fuel hr4 hsaved' hfuel'
      have hev : (IO_Event_List_pop (fiber_leaves_io_wait cur
          { IO_Event_List_append d.memory cur saved with
            ready := store (IO_Event_List_append d.memory cur saved).ready cur
              (d.memory.events cur &&& r) }) saved).events = d.memory.events := rfl
      simp only [hev] at h2 h3 h4 h5
      refine ⟨d', h1, ?_, ?_, ?_, h5⟩
      · simpa [List.filter_cons, hm] using h2
      · simpa [List.filter_cons, hm] using h3
      · simpa [List.filter_cons, hm] using h4

/-! ## `handle` of the epoll and kqueue selectors -/

theorem epoll_handle_spec (K : EPollFlags) (kernel : EPoll.Kernel) (s : EPoll.State)
    (descriptor : Int) (flags saved : Nat) (ws : List Nat) (fuel : Nat)
    (hring : Ring s.memory s.descriptor.list ws) (hsaved : saved ∉ s.descriptor.list :: ws)
    (hfuel : ws.length ≤ fuel) :
    ∃ h, EPoll.IO_Event_Selector_EPoll_handle K kernel fiber_leaves_io_wait fuel true s
          descriptor flags saved = some h ∧
      Ring h.state.memory s.descriptor.list (ws.filter (fun a =>
        decide (s.memory.events a &&& EPoll.events_from_epoll_flags K flags = 0))) ∧
      h.resumed = (ws.filter (fun a =>
          decide (s.memory.events a &&& EPoll.events_from_epoll_flags K flags ≠ 0))).map
        (fun a =>
          (a, Outcome.value (s.memory.events a &&& EPoll.events_from_epoll_flags K flags))) ∧
      h.state.memory.events = s.memory.events := by
  obtain ⟨d', h1, h2, h3, h4, h5⟩ := dispatch_loop_spec (EPoll.events_from_epoll_flags K flags)
    s.descriptor.list saved ws [] ⟨s.memory, 0, []⟩ fuel (by simpa using hring)
    (by simpa using hsaved) hfuel
  rw [← ring_first hring] at h1
  unfold EPoll.IO_Event_Selector_EPoll_handle
  simp only [Bool.true_eq_false, if_false]
  rw [h1]
  exact ⟨_, rfl, by simpa using h2, by simpa using h4, h5⟩

theorem kqueue_handle_spec (kernel : KQueue.Kernel) (s : KQueue.State)
    (identifier saved : Nat) (ws : List Nat) (fuel : Nat)
    (hring : Ring s.memory s.descriptor.list ws) (hsaved : saved ∉ s.descriptor.list :: ws)
    (hfuel : ws.length ≤ fuel) :
    ∃ h, KQueue.IO_Event_Selector_KQueue_handle kernel fiber_leaves_io_wait fuel s
          identifier saved = some h ∧
      Ring h.state.memory s.descriptor.list (ws.filter (fun a =>
        decide (s.memory.events a &&& s.descriptor.ready_events = 0))) ∧
      h.resumed = (ws.filter (fun a =>
          decide (s.memory.events a &&& s.descriptor.ready_events ≠ 0))).map
        (fun a => (a, Outcome.value (s.memory.events a &&& s.descriptor.ready_events))) ∧
      h.state.memory.events = s.memory.events := by
  unfold KQueue.IO_Event_Selector_KQueue_handle
  by_cases hr : s.descriptor.ready_events = 0
  · simp only [hr, ne_eq, not_true_eq_false, if_false, Nat.and_zero, decide_True,
      decide_False, List.filter_true, List.filter_false, List.map_nil]
    exact ⟨_, rfl, hring, rfl, rfl⟩
  · obtain ⟨d', h1, h2, h3, h4, h5⟩ := dispatch_loop_spec s.descriptor.ready_events
      s.descriptor.list saved ws [] ⟨s.memory, 0, []⟩ fuel (by simpa using hring)
      (by simpa using hsaved) hfuel
    rw [← ring_first hring] at h1
    simp only [ne_eq, hr, not_false_eq_true, if_true]
    rw [h1]
    exact ⟨_, rfl, by simpa using h2, by simpa using h4, h5⟩

theorem example_ring : Ring exampleMemory 100 [2, 1] :=
  ⟨by decide, by simp [Walk]; decide, by simp [Walk]; decide⟩

theorem resumed_addresses (ws : List Nat) (p : Nat → Bool) (f : Nat → Outcome)
    (resumed : List (Nat × Outcome)) (hnd : ws.Nodup)
    (h : resumed = (ws.filter p).map (fun a => (a, f a))) :
    resumed.map Prod.fst = ws.filter p ∧ (resumed.map Prod.fst).Nodup ∧
      ∀ w, w ∈ resumed.map Prod.fst ↔ (w ∈ ws ∧ p w = true) := by
  have h1 : resumed.map Prod.fst = ws.filter p := by
    rw [h, List.map_map]
    exact List.map_id _
  refine ⟨h1, ?_, ?_⟩
  · rw [h1]; exact hnd.filter _
  · intro w; rw [h1, List.mem_filter]

/-- C6: for every descriptor record, every ready mask and every well-formed waiter list
`ws` on the descriptor, with each resumed fiber removing its own waiter before control
returns, `handle` of the epoll and of the kqueue selector returns and has resumed exactly
the waiters whose `events` meet the ready mask, each once, in list order; a waiter whose
`events` are disjoint from the ready mask is not resumed. -/
theorem handle_resumes_matching_waiters (K : EPollFlags) (ekernel : EPoll.Kernel)
    (kkernel : KQueue.Kernel) (es : EPoll.State) (ks : KQueue.State) (descriptor : Int)
    (flags identifier saved : Nat) (ews kws : List Nat) (fuel : Nat)
    (hering : Ring es.memory es.descriptor.list ews)
    (hesaved : saved ∉ es.descriptor.list :: ews) (hefuel : ews.length ≤ fuel)
    (hkring : Ring ks.memory ks.descriptor.list kws)
    (hksaved : saved ∉ ks.descriptor.list :: kws) (hkfuel : kws.length ≤ fuel) :
    (∃ h, EPoll.IO_Event_Selector_EPoll_handle K ekernel fiber_leaves_io_wait fuel true es
          descriptor flags saved = some h ∧
      h.resumed.map Prod.fst = ews.filter (fun w =>
        decide (es.memory.events w &&& EPoll.events_from_epoll_flags K flags ≠ 0)) ∧
      (h.resumed.map Prod.fst).Nodup ∧
      ∀ w, w ∈ h.resumed.map Prod.fst ↔
        (w ∈ ews ∧ es.memory.events w &&& EPoll.events_from_epoll_flags K flags ≠ 0)) ∧
    (∃ h, KQueue.IO_Event_Selector_KQueue_handle kkernel fiber_leaves_io_wait fuel ks
          identifier saved = some h ∧
      h.resumed.map Prod.fst = kws.filter (fun w =>
        decide (ks.memory.events w &&& ks.descriptor.ready_events ≠ 0)) ∧
      (h.resumed.map Prod.fst).Nodup ∧
      ∀ w, w ∈ h.resumed.map Prod.fst ↔
        (w ∈ kws ∧ ks.memory.events w &&& ks.descriptor.ready_events ≠ 0)) := by
  constructor
  · obtain ⟨h, h1, _, h3, _⟩ :=
      epoll_handle_spec K ekernel es descriptor flags saved ews fuel hering hesaved hefuel
    obtain ⟨r1, r2, r3⟩ := resumed_addresses ews _ _ h.resumed
      (List.nodup_cons.1 hering.nodup).2 h3
    exact ⟨h, h1, r1, r2, fun w => by simpa using r3 w⟩
  · obtain ⟨h, h1, _, h3, _⟩ :=
      kqueue_handle_spec kkernel ks identifier saved kws fuel hkring hksaved hkfuel
    obtain ⟨r1, r2, r3⟩ := resumed_addresses kws _ _ h.resumed
      (List.nodup_cons.1 hkring.nodup).2 h3
    exact ⟨h, h1, r1, r2, fun w => by simpa using r3 w⟩

/-- C6 (witness): a descriptor with a READABLE waiter and a WRITABLE waiter, dispatched for
an `EPOLLIN` event and for a fired read filter. -/
theorem handle_resumes_matching_waiters_witness :
    (∃ h, EPoll.IO_Event_Selector_EPoll_handle linuxEPollFlags (fun _ _ => none)
          fiber_leaves_io_wait 2 true exampleEPollState 5 1 200 = some h ∧
      h.resumed.map Prod.fst = [2, 1].filter (fun w =>
        decide (exampleMemory.events w &&&
          EPoll.events_from_epoll_flags linuxEPollFlags 1 ≠ 0)) ∧
      (h.resumed.map Prod.fst).Nodup ∧
      ∀ w, w ∈ h.resumed.map Prod.fst ↔
        (w ∈ [2, 1] ∧ exampleMemory.events w &&&
          EPoll.events_from_epoll_flags linuxEPollFlags 1 ≠ 0)) ∧
    (∃ h, KQueue.IO_Event_Selector_KQueue_handle (fun _ _ => none) fiber_leaves_io_wait 2
          exampleKQueueState 5 200 = some h ∧
      h.resumed.map Prod.fst = [2, 1].filter (fun w =>
        decide (exampleMemory.events w &&& 1 ≠ 0)) ∧
      (h.resumed.map Prod.fst).Nodup ∧
      ∀ w, w ∈ h.resumed.map Prod.fst ↔
        (w ∈ [2, 1] ∧ exampleMemory.events w &&& 1 ≠ 0)) :=
  handle_resumes_matching_waiters linuxEPollFlags (fun _ _ => none) (fun _ _ => none)
    exampleEPollState exampleKQueueState 5 1 5 200 [2, 1] [2, 1] 2
    example_ring (by decide) (by decide) example_ring (by decide) (by decide)

/-! ## `io_wait` of the epoll and kqueue selectors -/

/-- C7: in the epoll selector, when registering the waiter fails with `EPERM`, `io_wait`
raises nothing: it pushes the fiber on the ready queue and goes on to yield to the loop and
to return exactly the requested events value; the registration linked no waiter (the list
memory is as the waiter set-up left it, with `NULL` links in the waiter).  When the
registration fails with any other errno, `io_wait` raises a system error for it. -/
theorem epoll_io_wait_eperm (K : EPollFlags) (kernel : EPoll.Kernel) (found : Bool)
    (s : EPoll.State) (fiber io : Nat) (descriptor : Int) (events waiting node : Nat)
    (e : Errno)
    (h : (EPoll.IO_Event_Selector_EPoll_Waiting_register K kernel found
        { s with memory := waiter_initialized s.memory waiting fiber events }
        io descriptor waiting).1 = EPoll.Registered.failed e) :
    (e = Errno.EPERM →
      (EPoll.IO_Event_Selector_EPoll_io_wait K kernel found s fiber io descriptor events
          waiting node).1 = EPoll.Waited.yield_then_return events ∧
      (EPoll.IO_Event_Selector_EPoll_io_wait K kernel found s fiber io descriptor events
          waiting node).2.backend = IO_Event_Selector_ready_push s.backend node fiber ∧
      (EPoll.IO_Event_Selector_EPoll_io_wait K kernel found s fiber io descriptor events
          waiting node).2.memory = waiter_initialized s.memory waiting fiber events ∧
      (EPoll.IO_Event_Selector_EPoll_io_wait K kernel found s fiber io descriptor events
          waiting node).2.memory.head waiting = 0 ∧
      (EPoll.IO_Event_Selector_EPoll_io_wait K kernel found s fiber io descriptor events
          waiting node).2.memory.tail waiting = 0) ∧
    (e ≠ Errno.EPERM →
      (EPoll.IO_Event_Selector_EPoll_io_wait K kernel found s fiber io descriptor events
          waiting node).1 = EPoll.Waited.raised e) := by
  have hmem : (EPoll.IO_Event_Selector_EPoll_Waiting_register K kernel found
        { s with memory := waiter_initialized s.memory waiting fiber events }
        io descriptor waiting).2.memory = waiter_initialized s.memory waiting fiber events ∧
      (EPoll.IO_Event_Selector_EPoll_Waiting_register K kernel found
        { s with memory := waiter_initialized s.memory waiting fiber events }
        io descriptor waiting).2.backend = s.backend := by
    unfold EPoll.IO_Event_Selector_EPoll_Waiting_register at h ⊢
    cases found with
    | false => simp at h
    | true =>
      simp only [Bool.true_eq_false, if_false] at h ⊢
      split at h
      · exact ⟨rfl, rfl⟩
      · simp at h
  unfold EPoll.IO_Event_Selector_EPoll_io_wait
  dsimp only
  rw [h]
  dsimp only
  constructor
  · intro he
    subst he
    rw [if_pos rfl]
    refine ⟨rfl, ?_, hmem.1, ?_, ?_⟩
    · show IO_Event_Selector_ready_push _ node fiber = _
      rw [hmem.2]
    · show ListMemory.head _ waiting = 0
      rw [hmem.1]; simp [waiter_initialized, store]
    · show ListMemory.tail _ waiting = 0
      rw [hmem.1]; simp [waiter_initialized, store]
  · intro he
    rw [if_neg he]

/-- C7 (witness): `io_wait` for READABLE on a fresh descriptor record with a kernel that
refuses `epoll_ctl` with `EPERM`. -/
theorem epoll_io_wait_eperm_witness :
    (EPoll.IO_Event_Selector_EPoll_Waiting_register linuxEPollFlags refusingKernel true
        { freshEPollState with
          memory := waiter_initialized freshEPollState.memory 1 11 IO_EVENT_READABLE }
        7 5 1).1 = EPoll.Registered.failed Errno.EPERM ∧
    ((Errno.EPERM = Errno.EPERM →
      (EPoll.IO_Event_Selector_EPoll_io_wait linuxEPollFlags refusingKernel true
          freshEPollState 11 7 5 IO_EVENT_READABLE 1 50).1
        = EPoll.Waited.yield_then_return IO_EVENT_READABLE ∧
      (EPoll.IO_Event_Selector_EPoll_io_wait linuxEPollFlags refusingKernel true
          freshEPollState 11 7 5 IO_EVENT_READABLE 1 50).2.backend
        = IO_Event_Selector_ready_push freshEPollState.backend 50 11 ∧
      (EPoll.IO_Event_Selector_EPoll_io_wait linuxEPollFlags refusingKernel true
          freshEPollState 11 7 5 IO_EVENT_READABLE 1 50).2.memory
        = waiter_initialized freshEPollState.memory 1 11 IO_EVENT_READABLE ∧
      (EPoll.IO_Event_Selector_EPoll_io_wait linuxEPollFlags refusingKernel true
          freshEPollState 11 7 5 IO_EVENT_READABLE 1 50).2.memory.head 1 = 0 ∧
      (EPoll.IO_Event_Selector_EPoll_io_wait linuxEPollFlags refusingKernel true
          freshEPollState 11 7 5 IO_EVENT_READABLE 1 50).2.memory.tail 1 = 0) ∧
    (Errno.EPERM ≠ Errno.EPERM →
      (EPoll.IO_Event_Selector_EPoll_io_wait linuxEPollFlags refusingKernel true
          freshEPollState 11 7 5 IO_EVENT_READABLE 1 50).1
        = EPoll.Waited.raised Errno.EPERM)) :=
  ⟨by decide, epoll_io_wait_eperm linuxEPollFlags refusingKernel true freshEPollState
    11 7 5 IO_EVENT_READABLE 1 50 Errno.EPERM (by decide)⟩

theorem land_subset (e r : Nat) : (e &&& r) &&& e = e &&& r := by
  rw [Nat.and_comm, ← Nat.and_assoc, Nat.and_self]

theorem epoll_io_wait_outcomes (K : EPollFlags) (kernel : EPoll.Kernel) (found : Bool)
    (s : EPoll.State) (fiber io : Nat) (descriptor : Int) (events waiting node : Nat) :
    (∀ w, (EPoll.IO_Event_Selector_EPoll_io_wait K kernel found s fiber io descriptor events
          waiting node).1 = EPoll.Waited.transfer_ensure w →
      w = waiting ∧
      (EPoll.IO_Event_Selector_EPoll_io_wait K kernel found s fiber io descriptor events
          waiting node).2.memory.ready waiting = 0 ∧
      (EPoll.IO_Event_Selector_EPoll_io_wait K kernel found s fiber io descriptor events
          waiting node).2.memory.events waiting = events) ∧
    (∀ v, (EPoll.IO_Event_Selector_EPoll_io_wait K kernel found s fiber io descriptor events
          waiting node).1 = EPoll.Waited.yield_then_return v → v = events) := by
  unfold EPoll.IO_Event_Selector_EPoll_io_wait
  dsimp only
  cases hr : (EPoll.IO_Event_Selector_EPoll_Waiting_register K kernel found
      { s with memory := waiter_initialized s.memory waiting fiber events }
      io descriptor waiting).1 with
  | raised e => simp
  | failed e =>
    dsimp only
    by_cases he : e = Errno.EPERM
    · rw [if_pos he]
      exact ⟨fun w h => by simp at h, fun v h => by simpa using h.symm⟩
    · rw [if_neg he]
      simp
  | linked result =>
    dsimp only
    refine ⟨?_, fun v h => by simp at h⟩
    intro w hw
    have hw' : w = waiting := by simpa using hw.symm
    refine ⟨hw', ?_, ?_⟩
    · unfold EPoll.IO_Event_Selector_EPoll_Waiting_register at hr ⊢
      cases found with
      | false => simp at hr
      | true =>
        simp only [Bool.true_eq_false, if_false] at hr ⊢
        split at hr
        · simp at hr
        · rename_i heq
          simp only [heq]
          simp [IO_Event_List_prepend, waiter_initialized, store]
    · unfold EPoll.IO_Event_Selector_EPoll_Waiting_register at hr ⊢
      cases found with
      | false => simp at hr
      | true =>
        simp only [Bool.true_eq_false, if_false] at hr ⊢
        split at hr
        · simp at hr
        · rename_i heq
          simp only [heq]
          simp [IO_Event_List_prepend, waiter_initialized, store]

theorem kqueue_io_wait_outcomes (kernel : KQueue.Kernel) (found : Bool)
    (s : KQueue.State) (fiber descriptor events waiting : Nat) :
    ∀ w, (KQueue.IO_Event_Selector_KQueue_io_wait kernel found s fiber descriptor events
          waiting).1 = KQueue.Waited.transfer_ensure w →
      w = waiting ∧
      (KQueue.IO_Event_Selector_KQueue_io_wait kernel found s fiber descriptor events
          waiting).2.memory.ready waiting = 0 ∧
      (KQueue.IO_Event_Selector_KQueue_io_wait kernel found s fiber descriptor events
          waiting).2.memory.events waiting = events := by
  unfold KQueue.IO_Event_Selector_KQueue_io_wait
  dsimp only
  cases hr : (KQueue.IO_Event_Selector_KQueue_Waiting_register kernel found
      { s with memory := waiter_initialized s.memory waiting fiber events }
      descriptor waiting).1 with
  | raised e => simp
  | failed e => simp
  | linked result =>
    dsimp only
    intro w hw
    have hw' : w = waiting := by simpa using hw.symm
    refine ⟨hw', ?_, ?_⟩
    · unfold KQueue.IO_Event_Selector_KQueue_Waiting_register at hr ⊢
      cases found with
      | false => simp at hr
      | true =>
        simp only [Bool.true_eq_false, if_false] at hr ⊢
        split at hr
        · simp at hr
        · rename_i heq
          simp only [heq]
          simp [IO_Event_List_prepend, waiter_initialized, store]
    · unfold KQueue.IO_Event_Selector_KQueue_Waiting_register at hr ⊢
      cases found with
      | false => simp at hr
      | true =>
        simp only [Bool.true_eq_false, if_false] at hr ⊢
        split at hr
        · simp at hr
        · rename_i heq
          simp only [heq]
          simp [IO_Event_List_prepend, waiter_initialized, store]

theorem resumed_values (ws : List Nat) (events : Nat → Nat) (r : Nat)
    (resumed : List (Nat × Outcome))
    (h : resumed = (ws.filter (fun a => decide (events a &&& r ≠ 0))).map
      (fun a => (a, Outcome.value (events a &&& r)))) :
    ∀ w o, (w, o) ∈ resumed →
      ∃ m, o = Outcome.value m ∧ m ≠ 0 ∧ m &&& events w = m := by
  intro w o hmem
  rw [h, List.mem_map] at hmem
  obtain ⟨a, ha, heq⟩ := hmem
  rw [List.mem_filter] at ha
  have hw : a = w := (Prod.mk.inj heq).1
  have ho : Outcome.value (events a &&& r) = o := (Prod.mk.inj heq).2
  subst hw
  exact ⟨events a &&& r, ho.symm, by simpa using ha.2, land_subset _ _⟩

/-- C1 (counterexample): on a descriptor that the kernel refuses with `EPERM`, `io_wait` for
READABLE returns 1 through the fallback, and a following `io_wait` on it with the empty
request 0 fails to register with `EPERM` again and returns the integer 0, which is neither
false nor a nonzero mask. -/
theorem epoll_io_wait_eperm_returns_zero :
    (EPoll.IO_Event_Selector_EPoll_io_wait linuxEPollFlags refusingKernel true
        freshEPollState 11 7 5 IO_EVENT_READABLE 1 50).1
      = EPoll.Waited.yield_then_return 1 ∧
    (EPoll.IO_Event_Selector_EPoll_io_wait linuxEPollFlags refusingKernel true
        (EPoll.IO_Event_Selector_EPoll_io_wait linuxEPollFlags refusingKernel true
          freshEPollState 11 7 5 IO_EVENT_READABLE 1 50).2
        12 7 5 0 2 51).1
      = EPoll.Waited.yield_then_return 0 := by
  decide

/-- C1 (amended): in the epoll and kqueue selectors a fiber whose waiter was registered is
handed by `io_wait` either false (it was resumed with no event assigned to its waiter,
whose `ready` member the registration leaves at 0) or, when `handle` resumed it, an integer
`m` with `m ≠ 0` and `m &&& e = m` for its requested mask `e`.  On the `EPERM` fallback of
the epoll selector, where no waiter is registered, `io_wait` returns the requested value
itself. -/
theorem io_wait_value (K : EPollFlags) (ekernel : EPoll.Kernel) (kkernel : KQueue.Kernel)
    (es : EPoll.State) (ks : KQueue.State) (descriptor : Int)
    (flags identifier saved : Nat) (ews kws : List Nat) (fuel : Nat)
    (hering : Ring es.memory es.descriptor.list ews)
    (hesaved : saved ∉ es.descriptor.list :: ews) (hefuel : ews.length ≤ fuel)
    (hkring : Ring ks.memory ks.descriptor.list kws)
    (hksaved : saved ∉ ks.descriptor.list :: kws) (hkfuel : kws.length ≤ fuel) :
    (∃ h, EPoll.IO_Event_Selector_EPoll_handle K ekernel fiber_leaves_io_wait fuel true es
          descriptor flags saved = some h ∧
      ∀ w o, (w, o) ∈ h.resumed →
        ∃ m, o = Outcome.value m ∧ m ≠ 0 ∧ m &&& es.memory.events w = m) ∧
    (∃ h, KQueue.IO_Event_Selector_KQueue_handle kkernel fiber_leaves_io_wait fuel ks
          identifier saved = some h ∧
      ∀ w o, (w, o) ∈ h.resumed →
        ∃ m, o = Outcome.value m ∧ m ≠ 0 ∧ m &&& ks.memory.events w = m) ∧
    (∀ (m : ListMemory) (w : Nat), m.ready w = 0 → io_wait_transfer m w = Outcome.qfalse) ∧
    (∀ (found : Bool) (s : EPoll.State) (fiber io events waiting node : Nat),
      (∀ w, (EPoll.IO_Event_Selector_EPoll_io_wait K ekernel found s fiber io descriptor
            events waiting node).1 = EPoll.Waited.transfer_ensure w →
        w = waiting ∧
        (EPoll.IO_Event_Selector_EPoll_io_wait K ekernel found s fiber io descriptor events
            waiting node).2.memory.ready waiting = 0 ∧
        (EPoll.IO_Event_Selector_EPoll_io_wait K ekernel found s fiber io descriptor events
            waiting node).2.memory.events waiting = events) ∧
      (∀ v, (EPoll.IO_Event_Selector_EPoll_io_wait K ekernel found s fiber io descriptor
            events waiting node).1 = EPoll.Waited.yield_then_return v → v = events)) ∧
    (∀ (found : Bool) (s : KQueue.State) (fiber events waiting : Nat),
      ∀ w, (KQueue.IO_Event_Selector_KQueue_io_wait kkernel found s fiber identifier events
            waiting).1 = KQueue.Waited.transfer_ensure w →
        w = waiting ∧
        (KQueue.IO_Event_Selector_KQueue_io_wait kkernel found s fiber identifier events
            waiting).2.memory.ready waiting = 0 ∧
        (KQueue.IO_Event_Selector_KQueue_io_wait kkernel found s fiber identifier events
            waiting).2.memory.events waiting = events) := by
  refine ⟨?_, ?_, ?_, ?_, ?_⟩
  · obtain ⟨h, h1, _, h3, _⟩ :=
      epoll_handle_spec K ekernel es descriptor flags saved ews fuel hering hesaved hefuel
    exact ⟨h, h1, resumed_values ews _ _ h.resumed h3⟩
  · obtain ⟨h, h1, _, h3, _⟩ :=
      kqueue_handle_spec kkernel ks identifier saved kws fuel hkring hksaved hkfuel
    exact ⟨h, h1, resumed_values kws _ _ h.resumed h3⟩
  · intro m w hw
    simp [io_wait_transfer, hw]
  · intro found s fiber io events waiting node
    exact epoll_io_wait_outcomes K ekernel found s fiber io descriptor events waiting node
  · intro found s fiber events waiting
    exact kqueue_io_wait_outcomes kkernel found s fiber identifier events waiting

/-- C1 (witness): the amended statement on the example descriptor with a READABLE and a
WRITABLE waiter. -/
theorem io_wait_value_witness :
    Ring exampleEPollState.memory exampleEPollState.descriptor.list [2, 1] ∧
    (∃ h, EPoll.IO_Event_Selector_EPoll_handle linuxEPollFlags (fun _ _ => none)
          fiber_leaves_io_wait 2 true exampleEPollState 5 1 200 = some h ∧
      ∀ w o, (w, o) ∈ h.resumed →
        ∃ m, o = Outcome.value m ∧ m ≠ 0 ∧ m &&& exampleEPollState.memory.events w = m) :=
  ⟨example_ring,
    (io_wait_value linuxEPollFlags (fun _ _ => none) (fun _ _ => none)
      exampleEPollState exampleKQueueState 5 1 5 200 [2, 1] [2, 1] 2
      example_ring (by decide) (by decide) example_ring (by decide) (by decide)).1⟩

/-! ## The ready queue -/

theorem queue_empty (backend : IO_Event_Selector) (h0 : backend.ready = 0)
    (h1 : backend.waiting = 0) : Queue backend [] :=
  ⟨List.nodup_nil, by simp, h0, h1, trivial, trivial⟩

theorem queue_head {backend : IO_Event_Selector} {e : Nat} {l : List Nat}
    (h : Queue backend (e :: l)) : backend.head e = l.headD 0 :=
  walk_next [] e l 0 h.forward

theorem queue_tail {backend : IO_Event_Selector} {e : Nat} {l : List Nat}
    (h : Queue backend (e :: l)) : backend.tail e = 0 := by
  have := h.backward
  rw [List.reverse_cons] at this
  exact walk_snoc_read l.reverse e 0 this

theorem queue_pop_front {backend : IO_Event_Selector} {e : Nat} {l : List Nat}
    (h : Queue backend (e :: l)) :
    Queue (queue_pop backend e) l ∧ (queue_pop backend e).flags = backend.flags ∧
      (queue_pop backend e).fiber = backend.fiber ∧
      (queue_pop backend e).loop = backend.loop := by
  have hhead := queue_head h
  have htail := queue_tail h
  have hnd := List.nodup_cons.1 h.nodup
  have hel : e ∉ l := hnd.1
  have h0 : 0 ∉ l := fun hm => h.nonnull (List.mem_cons_of_mem _ hm)
  cases l with
  | nil =>
    simp only [List.headD_nil] at hhead
    refine ⟨⟨List.nodup_nil, by simp, ?_, ?_, trivial, trivial⟩, ?_, ?_, ?_⟩ <;>
      simp [queue_pop, hhead, htail]
  | cons b l' =>
    simp only [List.headD_cons] at hhead
    have hb0 : b ≠ 0 := fun e0 => h0 (by simp [e0])
    have hbe : b ≠ e := fun e0 => hel (by simp [← e0])
    have hte : store backend.tail b 0 e = 0 := by
      rw [store_other _ _ _ _ (Ne.symm hbe)]; exact htail
    refine ⟨⟨hnd.2, h0, ?_, ?_, ?_, ?_⟩, ?_, ?_, ?_⟩
    · simp [queue_pop, hhead, htail, hb0, hte]
    · have hw := h.waiting
      simp only [List.reverse_cons, List.append_assoc, List.singleton_append] at hw
      have hw' : backend.waiting = (l'.reverse ++ [b]).headD 0 := by
        rw [hw]
        cases l'.reverse <;> simp
      simp [queue_pop, hhead, htail, hb0, hte, hw']
    · have hf : Walk backend.head (b :: l') 0 := ((walk_append [] e (b :: l') 0).1 h.forward).2
      have : (queue_pop backend e).head = store backend.head e 0 := by
        simp [queue_pop, hhead, htail, hb0, hte]
      rw [this]
      apply walk_congr _ _ _ hf
      intro a ha
      exact store_other _ _ _ _ (fun e0 => hel (e0 ▸ ha))
    · have hbk := h.backward
      have hbk' : Walk backend.tail ((l'.reverse ++ [b]) ++ [e]) 0 := by
        simpa using hbk
      have h1 : Walk backend.tail (l'.reverse ++ [b]) e := by
        have := (walk_append (l'.reverse) b [e] 0).1 (by simpa using hbk')
        simpa using this.1
      have hbl : b ∉ l'.reverse := by
        intro hm
        exact (List.nodup_cons.1 hnd.2).1 (List.mem_reverse.1 hm)
      have h2 := walk_snoc_store l'.reverse b e 0 hbl h1
      have : (queue_pop backend e).tail = store (store backend.tail b 0) e 0 := by
        simp [queue_pop, hhead, htail, hb0, hte]
      rw [this, List.reverse_cons]
      apply walk_congr _ _ _ h2
      intro a ha
      apply store_other
      rintro rfl
      apply hel
      rcases List.mem_append.1 ha with hm | hm
      · exact List.mem_cons_of_mem _ (List.mem_reverse.1 hm)
      · simp at hm; simp [hm]
    · simp [queue_pop, hhead, htail, hb0, hte]
    · simp [queue_pop, hhead, htail, hb0, hte]
    · simp [queue_pop, hhead, htail, hb0, hte]

theorem queue_push_back_aux {backend : IO_Event_Selector} (p : Nat) (l0 : List Nat) (w : Nat)
    (h : Queue backend (l0 ++ [w])) (hp0 : p ≠ 0) (hpl : p ∉ l0 ++ [w])
    (hhead : backend.head p = 0) (htail : backend.tail p = 0)
    (hnd : (l0 ++ [w] ++ [p]).Nodup) (h0 : 0 ∉ l0 ++ [w] ++ [p]) :
    Queue (queue_push backend p) (l0 ++ [w] ++ [p]) ∧
      (queue_push backend p).flags = backend.flags ∧
      (queue_push backend p).fiber = backend.fiber := by
  have hw : backend.waiting = w := by simpa using h.waiting
  have hw0 : w ≠ 0 := fun e0 => h.nonnull (by simp [e0])
  have hpw : p ≠ w := fun e0 => hpl (by simp [e0])
  have hwl : w ∉ l0 := by
    have := List.nodup_append.1 h.nodup
    intro hm
    exact this.2.2 hm (by simp)
  refine ⟨⟨hnd, h0, ?_, ?_, ?_, ?_⟩, ?_, ?_⟩
  · have := h.ready
    simp only [queue_push, hw, ne_eq, hw0, not_false_eq_true, if_true]
    rw [this]
    cases l0 <;> simp
  · simp [queue_push]
  · have hf : (queue_push backend p).head = store backend.head w p := by
      simp [queue_push, hw, hw0]
    rw [hf]
    have h1 := walk_snoc_store l0 w 0 p hwl h.forward
    have : l0 ++ [w] ++ [p] = l0 ++ w :: [p] := by simp
    rw [this]
    refine (walk_append l0 w [p] 0).2 ⟨by simpa using h1, ?_⟩
    show store backend.head w p p = 0
    rw [store_other _ _ _ _ hpw]; exact hhead
  · have hf : (queue_push backend p).tail = store backend.tail p w := by
      simp [queue_push, hw, hw0]
    rw [hf]
    have hb : Walk backend.tail (w :: l0.reverse) 0 := by simpa using h.backward
    have : (l0 ++ [w] ++ [p]).reverse = p :: w :: l0.reverse := by simp
    rw [this]
    refine ⟨store_same _ _ _, ?_⟩
    apply walk_congr _ _ _ hb
    intro a ha
    apply store_other
    rintro rfl
    apply hpl
    rcases List.mem_cons.1 ha with e0 | hm
    · simp [e0]
    · exact List.mem_append_left _ (List.mem_reverse.1 hm)
  · simp [queue_push, hw, hw0]
  · simp [queue_push, hw, hw0]

theorem queue_push_back {backend : IO_Event_Selector} {l : List Nat} (p : Nat)
    (h : Queue backend l) (hp0 : p ≠ 0) (hpl : p ∉ l)
    (hhead : backend.head p = 0) (htail : backend.tail p = 0) :
    Queue (queue_push backend p) (l ++ [p]) ∧ (queue_push backend p).flags = backend.flags ∧
      (queue_push backend p).fiber = backend.fiber := by
  have hnd : (l ++ [p]).Nodup := by
    rw [List.nodup_append]
    exact ⟨h.nodup, by simp, by
      intro a ha hb
      simp at hb
      exact hpl (hb ▸ ha)⟩
  have h0 : 0 ∉ l ++ [p] := by
    intro hm
    rcases List.mem_append.1 hm with hm | hm
    · exact h.nonnull hm
    · simp at hm; exact hp0 hm.symm
  rcases List.eq_nil_or_concat l with rfl | ⟨l0, w, hl⟩
  case inr =>
    rw [List.concat_eq_append] at hl
    subst hl
    exact queue_push_back_aux p l0 w h hp0 hpl hhead htail hnd h0
  · have hw : backend.waiting = 0 := h.waiting
    refine ⟨⟨hnd, h0, ?_, ?_, ?_, ?_⟩, ?_, ?_⟩ <;>
      simp [queue_push, hw, Walk, hhead, htail]
theorem queue_congr {b b' : IO_Event_Selector} {l : List Nat}
    (hr : b'.ready = b.ready) (hw : b'.waiting = b.waiting)
    (hh : ∀ a ∈ l, b'.head a = b.head a) (ht : ∀ a ∈ l, b'.tail a = b.tail a)
    (h : Queue b l) : Queue b' l :=
  ⟨h.nodup, h.nonnull, by rw [hr]; exact h.ready, by rw [hw]; exact h.waiting,
    walk_congr _ _ hh h.forward,
    walk_congr _ _ (fun a ha => ht a (List.mem_reverse.1 ha)) h.backward⟩

theorem ready_push_spec {backend : IO_Event_Selector} {l : List Nat} (p f : Nat)
    (h : Queue backend l) (hp0 : p ≠ 0) (hpl : p ∉ l) :
    Queue (IO_Event_Selector_ready_push backend p f) (l ++ [p]) ∧
      (IO_Event_Selector_ready_push backend p f).flags p = IO_EVENT_SELECTOR_QUEUE_INTERNAL ∧
      (IO_Event_Selector_ready_push backend p f).fiber p = f ∧
      ∀ a, a ≠ p →
        (IO_Event_Selector_ready_push backend p f).flags a = backend.flags a ∧
        (IO_Event_Selector_ready_push backend p f).fiber a = backend.fiber a := by
  unfold IO_Event_Selector_ready_push
  dsimp only
  have hq : Queue
      { backend with head := store backend.head p 0, tail := store backend.tail p 0,
                     flags := store backend.flags p IO_EVENT_SELECTOR_QUEUE_INTERNAL,
                     fiber := store backend.fiber p f } l := by
    refine @queue_congr backend _ l rfl rfl ?_ ?_ h
    · intro a ha
      exact store_other _ _ _ _ (fun e => hpl (e ▸ ha))
    · intro a ha
      exact store_other _ _ _ _ (fun e => hpl (e ▸ ha))
  obtain ⟨h1, h2, h3⟩ := queue_push_back p hq hp0 hpl (store_same _ _ _) (store_same _ _ _)
  refine ⟨h1, ?_, ?_, ?_⟩
  · rw [h2]; exact store_same _ _ _
  · rw [h3]; exact store_same _ _ _
  · intro a ha
    rw [h2, h3]
    exact ⟨store_other _ _ _ _ ha, store_other _ _ _ _ ha⟩

theorem pushed_spec :
    ∀ (entries : List (Nat × Nat)) (backend : IO_Event_Selector) (before : List (Nat × Nat)),
      Tagged backend before → ((before ++ entries).map Prod.fst).Nodup →
      0 ∉ entries.map Prod.fst → Tagged (pushed backend entries) (before ++ entries) := by
  intro entries
  induction entries with
  | nil =>
    intro backend before h _ _
    simpa [pushed] using h
  | cons e rest ih =>
    intro backend before h hnd h0
    have hnd' : ((before ++ [e]) ++ rest).map Prod.fst |>.Nodup := by simpa using hnd
    have he0 : e.1 ≠ 0 := fun e0 => h0 (by simp [← e0])
    have hel : e.1 ∉ before.map Prod.fst := by
      have h1 : (before.map Prod.fst ++ e.1 :: rest.map Prod.fst).Nodup := by simpa using hnd
      have := List.nodup_append.1 h1
      intro hm
      exact this.2.2 hm (by simp)
    obtain ⟨q1, q2, q3, q4⟩ := ready_push_spec e.1 e.2 h.1 he0 hel
    have ht : Tagged (IO_Event_Selector_ready_push backend e.1 e.2) (before ++ [e]) := by
      refine ⟨by simpa using q1, ?_⟩
      intro x hx
      rcases List.mem_append.1 hx with hx | hx
      · have hne : x.1 ≠ e.1 := by
          intro e0
          exact hel (e0 ▸ List.mem_map_of_mem Prod.fst hx)
        rw [(q4 x.1 hne).1, (q4 x.1 hne).2]
        exact h.2 x hx
      · have : x = e := by simpa using hx
        subst this
        exact ⟨q2, q3⟩
    have := ih (IO_Event_Selector_ready_push backend e.1 e.2) (before ++ [e]) ht hnd'
      (fun hm => h0 (List.mem_cons_of_mem _ hm))
    simpa [pushed] using this

theorem flush_loop_empty (alive : Alive) (fibers : Fibers) (w fuel : Nat)
    (backend : IO_Event_Selector)
    (count : Nat) (processed transfers : List Nat) (h : backend.ready = 0) :
    ready_flush_loop alive fibers w fuel backend count processed transfers
      = some { count := count, backend := backend, processed := processed,
               transfers := transfers, raised := false } := by
  cases fuel <;> simp [ready_flush_loop, h]

theorem flush_quiet (alive : Alive) :
    ∀ (es : List (Nat × Nat)) (backend : IO_Event_Selector) (count : Nat)
      (processed transfers : List Nat) (fuel w : Nat),
      Tagged backend es → (es.map Prod.fst).reverse.headD 0 = w → es.length ≤ fuel →
      ∃ r, ready_flush_loop alive quietFibers w fuel backend count processed transfers
          = some r ∧
        r.count = count + es.length ∧ r.processed = processed ++ es.map Prod.fst ∧
        r.transfers = transfers ++ alive_fibers alive count es ∧ r.raised = false ∧
        r.backend.ready = 0 ∧ r.backend.waiting = 0 := by
  intro es
  induction es with
  | nil =>
    intro backend count processed transfers fuel w h _ _
    have hr : backend.ready = 0 := h.1.ready
    have hw : backend.waiting = 0 := h.1.waiting
    exact ⟨_, flush_loop_empty _ _ _ _ _ _ _ _ hr, by simp, by simp,
      by simp [alive_fibers], rfl, hr, hw⟩
  | cons e rest ih =>
    intro backend count processed transfers fuel w h hw hfuel
    obtain ⟨fuel, rfl⟩ : ∃ f, fuel = f + 1 := ⟨fuel - 1, by simp at hfuel; omega⟩
    have hfuel' : rest.length ≤ fuel := by simp at hfuel; omega
    have hq : Queue backend (e.1 :: rest.map Prod.fst) := by simpa using h.1
    have hready : backend.ready = e.1 := by simpa using hq.ready
    have he0 : e.1 ≠ 0 := fun e0 => hq.nonnull (by simp [e0])
    have hflags := (h.2 e (by simp)).1
    have hfiber := (h.2 e (by simp)).2
    obtain ⟨p1, p2, p3, _⟩ := queue_pop_front hq
    have hrest : Tagged (queue_pop backend e.1) rest := by
      refine ⟨p1, ?_⟩
      intro x hx
      rw [p2, p3]
      exact h.2 x (List.mem_cons_of_mem _ hx)
    have hpop : IO_Event_Selector_ready_pop alive quietFibers count backend e.1
        = { backend := queue_pop backend e.1, raised := false,
            transfers := if alive count e.2 = true then [e.2] else [] } := by
      simp only [IO_Event_Selector_ready_pop, hflags, hfiber, IO_Event_Selector_loop_resume,
        quietFibers, IO_EVENT_SELECTOR_QUEUE_INTERNAL]
      by_cases ha : alive count e.2 = true <;> simp [ha]
    have hstep : ready_flush_loop alive quietFibers w (fuel + 1) backend count processed
        transfers
        = if e.1 = w then
            some { count := count + 1, backend := queue_pop backend e.1,
                   processed := processed ++ [e.1],
                   transfers := transfers ++ (if alive count e.2 = true then [e.2] else []),
                   raised := false }
          else ready_flush_loop alive quietFibers w fuel (queue_pop backend e.1) (count + 1)
            (processed ++ [e.1])
            (transfers ++ (if alive count e.2 = true then [e.2] else [])) := by
      simp only [ready_flush_loop, hready, he0, if_false, hpop, Bool.false_eq_true]
    rw [hstep]
    cases rest with
    | nil =>
      have : e.1 = w := by simpa using hw
      rw [if_pos this]
      exact ⟨_, rfl, by simp, by simp, by simp [alive_fibers], rfl, p1.ready, p1.waiting⟩
    | cons e' rest' =>
      have hne : e.1 ≠ w := by
        intro e0
        have hmem : w ∈ (e' :: rest').map Prod.fst := by
          have hne' : ((e' :: rest').map Prod.fst).reverse ≠ [] := by simp
          have : w = (((e' :: rest').map Prod.fst).reverse).headD 0 := by
            rw [← hw]
            simp only [List.map_cons, List.reverse_cons]
            cases h' : (List.map Prod.fst rest').reverse <;> simp
          rw [this]
          cases h' : ((e' :: rest').map Prod.fst).reverse with
          | nil => exact absurd h' hne'
          | cons a t =>
            have : a ∈ ((e' :: rest').map Prod.fst).reverse := by rw [h']; simp
            simpa using List.mem_reverse.1 this
        have := (List.nodup_cons.1 hq.nodup).1
        exact this (e0 ▸ hmem)
      rw [if_neg hne]
      have hw' : ((e' :: rest').map Prod.fst).reverse.headD 0 = w := by
        rw [← hw]
        simp only [List.map_cons, List.reverse_cons]
        cases h' : (List.map Prod.fst rest').reverse <;> simp
      obtain ⟨r, r1, r2, r3, r4, r5, r6, r7⟩ := ih (queue_pop backend e.1) (count + 1)
        (processed ++ [e.1]) (transfers ++ (if alive count e.2 = true then [e.2] else []))
        fuel w hrest hw' hfuel'
      refine ⟨r, r1, ?_, ?_, ?_, r5, r6, r7⟩
      · rw [r2]; simp; omega
      · rw [r3]; simp
      · rw [r4]
        show _ = transfers ++ ((if alive count e.2 = true then [e.2] else []) ++
          alive_fibers alive (count + 1) (e' :: rest'))
        simp

theorem alive_fibers_filter (alive : Alive) (a : Nat → Bool)
    (h : ∀ k f, alive k f = a f) :
    ∀ (es : List (Nat × Nat)) (k : Nat),
      alive_fibers alive k es = (es.map Prod.snd).filter a := by
  intro es
  induction es with
  | nil => intro k; rfl
  | cons e rest ih =>
    intro k
    simp only [alive_fibers, List.map_cons, List.filter_cons, ih, h]
    by_cases ha : a e.2 = true <;> simp [ha]

theorem alive_fibers_sublist (alive : Alive) :
    ∀ (es : List (Nat × Nat)) (k : Nat),
      (alive_fibers alive k es).Sublist (es.map Prod.snd) := by
  intro es
  induction es with
  | nil => intro k; exact List.Sublist.refl _
  | cons e rest ih =>
    intro k
    simp only [alive_fibers, List.map_cons]
    by_cases ha : alive k e.2 = true
    · simp only [ha, if_true, List.singleton_append]
      exact List.Sublist.cons₂ _ (ih _)
    · simp only [ha, if_false, List.nil_append, Bool.false_eq_true]
      exact List.Sublist.cons _ (ih _)

/-- C9 (counterexample): after `ready_push` of fiber 9, which is not alive, and of fiber 20
on an empty queue, with resumed fibers that leave the queue alone, `ready_flush` returns 2
and leaves the queue empty, but it has transferred control to fiber 20 only:
`IO_Event_Fiber_transfer` does nothing for a fiber that is not alive. -/
theorem ready_flush_skips_dead_fiber :
    (IO_Event_Selector_ready_flush aliveBut9 quietFibers 2
        (pushed ( IO_Event_Selector_initialize emptyQueue 1) [(1, 9), (2, 20)])).map
        (fun r => (r.count, r.processed, r.transfers, r.raised, r.backend.ready,
          r.backend.waiting))
      = some (2, [1, 2], [20], false, 0, 0) := by
  decide

/-- C9 (amended): after `ready_push (f1)`, ..., `ready_push (fn)` on an empty ready queue,
with resumed fibers that leave the queue alone, `ready_flush` returns: it has processed the
`n` entries in push order, each once, and has transferred control, in that order and once
per entry, to the fibers that were alive when their entry was processed; its count is `n`,
and the queue is empty afterwards.  When all of `f1`, ..., `fn` are alive it has
transferred control to `f1`, ..., `fn`.  On the empty queue it returns 0 and transfers to
nothing. -/
theorem ready_flush_fifo (alive : Alive) (base : IO_Event_Selector) (loop : Nat)
    (entries : List (Nat × Nat))
    (fuel : Nat) (hnd : (entries.map Prod.fst).Nodup) (h0 : 0 ∉ entries.map Prod.fst)
    (hfuel : entries.length ≤ fuel) :
    ∃ r, IO_Event_Selector_ready_flush alive quietFibers fuel
          (pushed ( IO_Event_Selector_initialize base loop) entries) = some r ∧
      r.count = entries.length ∧ r.transfers = alive_fibers alive 0 entries ∧
      r.processed = entries.map Prod.fst ∧ r.raised = false ∧
      r.backend.ready = 0 ∧ r.backend.waiting = 0 ∧
      r.transfers.Sublist (entries.map Prod.snd) ∧
      (∀ a : Nat → Bool, (∀ k f, alive k f = a f) →
        r.transfers = (entries.map Prod.snd).filter a) ∧
      ((∀ k, ∀ e ∈ entries, alive k e.2 = true) → r.transfers = entries.map Prod.snd) := by
  have hinit : Tagged ( IO_Event_Selector_initialize base loop) [] :=
    ⟨queue_empty _ rfl rfl, by simp⟩
  have ht := pushed_spec entries _ [] hinit (by simpa using hnd) h0
  simp only [List.nil_append] at ht
  obtain ⟨r, r1, r2, r3, r4, r5, r6, r7⟩ := flush_quiet alive entries _ 0 [] [] fuel
    (pushed ( IO_Event_Selector_initialize base loop) entries).waiting ht ht.1.waiting.symm hfuel
  have r4' : r.transfers = alive_fibers alive 0 entries := by simpa using r4
  refine ⟨r, r1, by simpa using r2, r4', by simpa using r3, r5, r6, r7, ?_, ?_, ?_⟩
  · rw [r4']; exact alive_fibers_sublist alive entries 0
  · intro a ha
    rw [r4']; exact alive_fibers_filter alive a ha entries 0
  · intro ha
    rw [r4']
    have key : ∀ (es : List (Nat × Nat)) (k : Nat), (∀ k, ∀ e ∈ es, alive k e.2 = true) →
        alive_fibers alive k es = es.map Prod.snd := by
      intro es
      induction es with
      | nil => intro k _; rfl
      | cons e rest ih =>
        intro k hk
        simp only [alive_fibers, List.map_cons, hk k e (List.mem_cons_self _ _), if_true,
          List.singleton_append]
        rw [ih (k + 1) (fun k x hx => hk k x (List.mem_cons_of_mem _ hx))]
    exact key entries 0 ha

/-- C9 (witness): three pushes, fiber 10 at node 1, fiber 9, which is not alive, at node 2
and fiber 20 at node 3. -/
theorem ready_flush_fifo_witness :
    ∃ r, IO_Event_Selector_ready_flush aliveBut9 quietFibers 3
          (pushed ( IO_Event_Selector_initialize emptyQueue 1) [(1, 10), (2, 9), (3, 20)])
          = some r ∧
      r.count = 3 ∧ r.transfers = [10, 20] ∧ r.processed = [1, 2, 3] ∧ r.raised = false ∧
      r.backend.ready = 0 ∧ r.backend.waiting = 0 :=
  let ⟨r, h1, h2, h3, h4, h5, h6, h7, _⟩ := ready_flush_fifo aliveBut9 emptyQueue 1
    [(1, 10), (2, 9), (3, 20)] 3 (by decide) (by decide) (by decide)
  ⟨r, h1, h2, h3, h4, h5, h6, h7⟩

theorem example_queue : Queue exampleQueue [1, 2] := by
  refine ⟨by decide, by decide, by decide, by decide, ?_, ?_⟩
  · simp only [Walk]; decide
  · simp only [List.reverse_cons, List.reverse_nil, List.nil_append, List.singleton_append,
      Walk]; decide

theorem loop_resume_transfers (alive : Alive) (fibers : Fibers) (k node fiber : Nat)
    (backend : IO_Event_Selector) :
    (IO_Event_Selector_loop_resume alive fibers k node fiber backend).transfers.length
      ≤ 1 := by
  unfold IO_Event_Selector_loop_resume
  split <;> simp

theorem ready_pop_transfers (alive : Alive) (fibers : Fibers) (k : Nat)
    (backend : IO_Event_Selector) (ready : Nat) :
    (IO_Event_Selector_ready_pop alive fibers k backend ready).transfers.length ≤ 1 := by
  unfold IO_Event_Selector_ready_pop
  dsimp only
  split_ifs
  · exact loop_resume_transfers _ _ _ _ _ _
  · exact loop_resume_transfers _ _ _ _ _ _
  · simp

theorem flush_loop_step (alive : Alive) (fibers : Fibers) (w fuel : Nat)
    (backend : IO_Event_Selector)
    (count : Nat) (processed transfers : List Nat) (h : backend.ready ≠ 0) :
    ∃ transfers', transfers'.length ≤ transfers.length + 1 ∧
      ready_flush_loop alive fibers w (fuel + 1) backend count processed transfers
        = if (IO_Event_Selector_ready_pop alive fibers count backend backend.ready).raised
              = true then
            some { count := count + 1,
                   backend :=
                     (IO_Event_Selector_ready_pop alive fibers count backend
                       backend.ready).backend,
                   processed := processed ++ [backend.ready], transfers := transfers',
                   raised := true }
          else if backend.ready = w then
            some { count := count + 1,
                   backend :=
                     (IO_Event_Selector_ready_pop alive fibers count backend
                       backend.ready).backend,
                   processed := processed ++ [backend.ready], transfers := transfers',
                   raised := false }
          else ready_flush_loop alive fibers w fuel
            (IO_Event_Selector_ready_pop alive fibers count backend backend.ready).backend
            (count + 1) (processed ++ [backend.ready]) transfers' := by
  refine ⟨transfers ++
    (IO_Event_Selector_ready_pop alive fibers count backend backend.ready).transfers, ?_, ?_⟩
  · have := ready_pop_transfers alive fibers count backend backend.ready
    simp only [List.length_append]
    omega
  · simp [ready_flush_loop, h]

theorem unwinding_tame (w : Nat) : Tame w unwindingFibers := by
  intro k e f backend l hq _ hcase
  rcases hcase with ⟨hel, hi⟩ | ⟨rest, rfl, hi, _⟩
  · refine ⟨l, by simpa [unwindingFibers, hi] using hq, ?_⟩
    rw [List.erase_of_not_mem hel]
    intro p q h
    exact ⟨p, q, h, List.Sublist.refl _⟩
  · refine ⟨rest, by simpa [unwindingFibers, hi] using (queue_pop_front hq).1, ?_⟩
    rw [List.erase_cons_head]
    intro p q h
    exact ⟨p, q, h, List.Sublist.refl _⟩

theorem relentless_spin :
    ∀ (fuel k : Nat) (backend : IO_Event_Selector) (processed transfers : List Nat),
      Tagged backend [(k + 3, 20)] →
      ready_flush_loop allAlive relentlessFibers 2 fuel backend (k + 1) processed transfers
        = none := by
  intro fuel
  induction fuel with
  | zero =>
    intro k backend processed transfers h
    have hready : backend.ready = k + 3 := by simpa using h.1.ready
    simp [ready_flush_loop, hready]
  | succ fuel ih =>
    intro k backend processed transfers h
    have hq : Queue backend [k + 3] := by simpa using h.1
    have hready : backend.ready = k + 3 := by simpa using hq.ready
    have hflags := (h.2 (k + 3, 20) (by simp)).1
    have h0 : backend.ready ≠ 0 := by rw [hready]; omega
    obtain ⟨ts, _, hstep⟩ :=
      flush_loop_step allAlive relentlessFibers 2 fuel backend (k + 1) processed transfers h0
    have hpop : IO_Event_Selector_ready_pop allAlive relentlessFibers (k + 1) backend (k + 3)
        = { backend := IO_Event_Selector_ready_push (queue_pop backend (k + 3)) (k + 4) 20,
            raised := false, transfers := [backend.fiber (k + 3)] } := by
      simp [IO_Event_Selector_ready_pop, hflags, relentlessFibers, allAlive,
        IO_Event_Selector_loop_resume, IO_EVENT_SELECTOR_QUEUE_INTERNAL]
    rw [hstep, hready, hpop]
    have hne : k + 3 ≠ 2 := by omega
    simp only [Bool.false_eq_true, if_false, hne]
    apply ih (k + 1)
    obtain ⟨p1, _, _, _⟩ := queue_pop_front hq
    obtain ⟨q1, q2, q3, _⟩ := ready_push_spec (k + 4) 20 p1 (by omega) (by simp)
    refine ⟨by simpa using q1, ?_⟩
    intro e he
    have : e = (k + 4, 20) := by simpa using he
    subst this
    exact ⟨q2, q3⟩

/-- With `relentlessFibers` the flush of `exampleQueue`, entered with two entries, is not
ended by any number of iterations. -/
theorem ready_flush_never_returns (fuel : Nat) :
    IO_Event_Selector_ready_flush allAlive relentlessFibers fuel exampleQueue = none := by
  have hq := example_queue
  have hready : exampleQueue.ready = 1 := by decide
  have hwaiting : exampleQueue.waiting = 2 := by decide
  have hflags : exampleQueue.flags 1 = IO_EVENT_SELECTOR_QUEUE_INTERNAL := by decide
  unfold IO_Event_Selector_ready_flush
  rw [hwaiting]
  cases fuel with
  | zero => simp [ready_flush_loop, hready]
  | succ fuel =>
    obtain ⟨ts, _, hstep⟩ :=
      flush_loop_step allAlive relentlessFibers 2 fuel exampleQueue 0 [] []
        (by rw [hready]; decide)
    have hpop : IO_Event_Selector_ready_pop allAlive relentlessFibers 0 exampleQueue 1
        = { backend :=
              IO_Event_Selector_ready_push (queue_pop (queue_pop exampleQueue 1) 2) 3 20,
            raised := false, transfers := [exampleQueue.fiber 1] } := by
      simp [IO_Event_Selector_ready_pop, hflags, relentlessFibers, allAlive,
        IO_Event_Selector_loop_resume, IO_EVENT_SELECTOR_QUEUE_INTERNAL]
    rw [hstep, hready, hpop]
    simp only [Bool.false_eq_true, if_false, show (1 : Nat) ≠ 2 by decide]
    apply relentless_spin fuel 0
    obtain ⟨p1, _, _, _⟩ := queue_pop_front hq
    obtain ⟨p2, _, _, _⟩ := queue_pop_front p1
    obtain ⟨q1, q2, q3, _⟩ := ready_push_spec 3 20 p2 (by decide) (by simp)
    refine ⟨by simpa using q1, ?_⟩
    intro e he
    have : e = (3, 20) := by simpa using he
    subst this
    exact ⟨q2, q3⟩

/-! ## Elapsed time -/

theorem wrap_signed_fits (bits : Nat) (hb : 1 ≤ bits) (x : Int) (h : Fits bits x) :
    wrap_signed bits x = x := by
  obtain ⟨h1, h2⟩ := h
  unfold wrap_signed
  have hp : (2 : Int) ^ bits = 2 * 2 ^ (bits - 1) := by
    obtain ⟨k, rfl⟩ : ∃ k, bits = k + 1 := ⟨bits - 1, by omega⟩
    simp [pow_succ, mul_comm]
  rw [hp, Int.emod_eq_of_lt (by linarith) (by linarith)]
  ring

theorem fits_long (bits : Nat) (hb : 32 ≤ bits) (x : Int) (h1 : -2000000000 ≤ x)
    (h2 : x < 2000000000) : Fits bits x := by
  have hp : (2 : Int) ^ 31 ≤ 2 ^ (bits - 1) :=
    pow_le_pow_right₀ (by norm_num) (by omega)
  have : (2 : Int) ^ 31 = 2147483648 := by norm_num
  constructor <;> linarith

/-- C30: for normalised timespecs `start` not later than `stop` whose difference of seconds
`stop.tv_sec - start.tv_sec` is a value of `time_t` (so that the subtraction that
`IO_Event_Time_elapsed` makes is defined), the function yields a normalised duration with
`tv_sec >= 0` that stands for exactly the nanoseconds from `start` to `stop`; for
`start = stop` it is zero.  The seconds of `start` and of `stop` may be negative. -/
theorem time_elapsed_exact (time_bits long_bits : Nat) (ht : 1 ≤ time_bits)
    (hl : 32 ≤ long_bits) (start stop : Timespec)
    (hs : Normalised start) (hp : Normalised stop)
    (hfit : Fits time_bits (stop.tv_sec - start.tv_sec)) (hle : NotLater start stop) :
    Normalised (IO_Event_Time_elapsed time_bits long_bits start stop) ∧
      0 ≤ (IO_Event_Time_elapsed time_bits long_bits start stop).tv_sec ∧
      nanoseconds (IO_Event_Time_elapsed time_bits long_bits start stop)
        = nanoseconds stop - nanoseconds start ∧
      IO_Event_Time_elapsed time_bits long_bits start start = ⟨0, 0⟩ := by
  obtain ⟨s1, s2⟩ := hs
  obtain ⟨p1, p2⟩ := hp
  obtain ⟨f1, f2⟩ := hfit
  have hpos : (0 : Int) < 2 ^ (time_bits - 1) := by positivity
  have w0 : wrap_signed long_bits (stop.tv_nsec - start.tv_nsec)
      = stop.tv_nsec - start.tv_nsec :=
    wrap_signed_fits _ (by omega) _ (fits_long _ hl _ (by linarith) (by linarith))
  have w1 : wrap_signed long_bits (stop.tv_nsec - start.tv_nsec + 1000000000)
      = stop.tv_nsec - start.tv_nsec + 1000000000 :=
    wrap_signed_fits _ (by omega) _ (fits_long _ hl _ (by linarith) (by linarith))
  have wz : wrap_signed long_bits (start.tv_nsec - start.tv_nsec) = 0 := by
    rw [wrap_signed_fits _ (by omega) _ (fits_long _ hl _ (by linarith) (by linarith))]
    ring
  have wt : wrap_signed time_bits (start.tv_sec - start.tv_sec) = 0 := by
    rw [wrap_signed_fits _ ht _ ⟨by linarith, by linarith⟩]
    ring
  have wd : wrap_signed time_bits (stop.tv_sec - start.tv_sec)
      = stop.tv_sec - start.tv_sec := wrap_signed_fits _ ht _ ⟨f1, f2⟩
  have hd : 0 ≤ stop.tv_sec - start.tv_sec := by
    rcases hle with hlt | ⟨he, _⟩ <;> linarith
  refine ⟨?_, ?_, ?_, ?_⟩
  all_goals unfold IO_Event_Time_elapsed
  · rw [w0, w1]
    unfold Normalised
    split_ifs with h
    · dsimp only; constructor <;> linarith
    · dsimp only; constructor <;> linarith
  · rw [w0]
    split_ifs with h
    · dsimp only
      rcases hle with hlt | ⟨_, hn⟩
      · rw [wrap_signed_fits _ ht _ ⟨by linarith, by linarith⟩]; linarith
      · linarith
    · dsimp only
      rw [wd]; exact hd
  · rw [w0, w1]
    unfold nanoseconds
    split_ifs with h
    · dsimp only
      rcases hle with hlt | ⟨_, hn⟩
      · rw [wrap_signed_fits _ ht _ ⟨by linarith, by linarith⟩]; ring
      · linarith
    · dsimp only
      rw [wd]; ring
  · rw [wz, wt]
    simp

/-- C30 (witness): from `(-5, 900000000)` to `(3, 100000000)` with 64-bit fields, which is
7.2 seconds. -/
theorem time_elapsed_exact_witness :
    Normalised (IO_Event_Time_elapsed 64 64 ⟨-5, 900000000⟩ ⟨3, 100000000⟩) ∧
      0 ≤ (IO_Event_Time_elapsed 64 64 ⟨-5, 900000000⟩ ⟨3, 100000000⟩).tv_sec ∧
      nanoseconds (IO_Event_Time_elapsed 64 64 ⟨-5, 900000000⟩ ⟨3, 100000000⟩)
        = nanoseconds ⟨3, 100000000⟩ - nanoseconds ⟨-5, 900000000⟩ ∧
      IO_Event_Time_elapsed 64 64 ⟨-5, 900000000⟩ ⟨-5, 900000000⟩ = ⟨0, 0⟩ :=
  time_elapsed_exact 64 64 (by decide) (by decide) ⟨-5, 900000000⟩ ⟨3, 100000000⟩
    (by decide) (by decide) (by decide) (by decide)

/-! ## The list operations as sequence operations -/

theorem ring_last {m : ListMemory} {L : Nat} {ws : List Nat} (h : Ring m L ws) :
    m.head L = ws.reverse.headD L :=
  walk_next [] L ws.reverse L h.backward

theorem ring_nil (m : ListMemory) (L : Nat) (hh : m.head L = L) (ht : m.tail L = L) :
    Ring m L [] :=
  ⟨by simp, ht, hh⟩

theorem ring_prepend {m : ListMemory} {L : Nat} {s : List Nat} (x : Nat)
    (hx : x ∉ L :: s) (h : Ring m L s) : Ring (IO_Event_List_prepend m L x) L (x :: s) := by
  have hnd := h.nodup
  obtain ⟨bx, hbx⟩ := cons_eq_snoc L s.reverse
  rw [List.reverse_reverse] at hbx
  have hfirst := ring_first h
  have hback : Walk m.head (bx ++ [s.headD L]) L := by rw [← hbx]; exact h.backward
  have hhu : m.head (s.headD L) = L := walk_snoc_read bx _ _ hback
  have hndB : (L :: s.reverse).Nodup := by
    rw [List.nodup_cons] at hnd ⊢
    exact ⟨fun hm => hnd.1 (List.mem_reverse.1 hm), List.nodup_reverse.2 hnd.2⟩
  have hxB : x ∉ L :: s.reverse := by
    intro hm
    apply hx
    rcases List.mem_cons.1 hm with e | hm
    · exact List.mem_cons.2 (Or.inl e)
    · exact List.mem_cons_of_mem _ (List.mem_reverse.1 hm)
  refine ⟨?_, ?_, ?_⟩
  · have hp : (L :: x :: s).Perm (x :: L :: s) := List.Perm.swap x L s
    exact hp.nodup_iff.2 (List.nodup_cons.2 ⟨hx, hnd⟩)
  · show Walk (store (store m.tail x (m.tail L)) L x) (L :: x :: s) L
    exact walk_insert [] L s L x hnd hx h.forward
  · show Walk (store (store m.head x L) (m.tail L) x) (L :: (x :: s).reverse) L
    have hB' : L :: (x :: s).reverse = bx ++ s.headD L :: x :: [] := by
      have : L :: (x :: s).reverse = (L :: s.reverse) ++ [x] := by simp
      rw [this, hbx]; simp
    rw [hB', hfirst]
    have := walk_insert bx (s.headD L) [] L x (by rw [← hbx]; exact hndB)
      (by rw [← hbx]; exact hxB) hback
    rw [hhu] at this
    exact this

theorem ring_append_last {m : ListMemory} {L : Nat} {s : List Nat} (x : Nat)
    (hx : x ∉ L :: s) (h : Ring m L s) : Ring (IO_Event_List_append m L x) L (s ++ [x]) := by
  have hnd := h.nodup
  obtain ⟨fx, hfx⟩ := cons_eq_snoc L s
  have hlast := ring_last h
  have hfor : Walk m.tail (fx ++ [s.reverse.headD L]) L := by rw [← hfx]; exact h.forward
  have htu : m.tail (s.reverse.headD L) = L := walk_snoc_read fx _ _ hfor
  have hndB : (L :: s.reverse).Nodup := by
    rw [List.nodup_cons] at hnd ⊢
    exact ⟨fun hm => hnd.1 (List.mem_reverse.1 hm), List.nodup_reverse.2 hnd.2⟩
  have hxB : x ∉ L :: s.reverse := by
    intro hm
    apply hx
    rcases List.mem_cons.1 hm with e | hm
    · exact List.mem_cons.2 (Or.inl e)
    · exact List.mem_cons_of_mem _ (List.mem_reverse.1 hm)
  refine ⟨?_, ?_, ?_⟩
  · have hp : (L :: (s ++ [x])).Perm (x :: L :: s) := by
      have : (s ++ [x]).Perm (x :: s) := List.perm_append_singleton x s
      exact (List.Perm.cons L this).trans (List.Perm.swap x L _)
    exact hp.nodup_iff.2 (List.nodup_cons.2 ⟨hx, hnd⟩)
  · show Walk (store (store m.tail x L) (m.head L) x) (L :: (s ++ [x])) L
    have hF' : L :: (s ++ [x]) = fx ++ s.reverse.headD L :: x :: [] := by
      rw [← List.cons_append, hfx]; simp
    rw [hF', hlast]
    have := walk_insert fx (s.reverse.headD L) [] L x (by rw [← hfx]; exact hnd)
      (by rw [← hfx]; exact hx) hfor
    rw [htu] at this
    exact this
  · show Walk (store (store m.head x (m.head L)) L x) (L :: (s ++ [x]).reverse) L
    have hB' : L :: (s ++ [x]).reverse = L :: x :: s.reverse := by simp
    rw [hB']
    exact walk_insert [] L s.reverse L x hndB hxB h.backward
theorem pop_prepend {m : ListMemory} {L : Nat} {s : List Nat} (x : Nat)
    (hx : x ∉ L :: s) (hh : m.head x = 0) (ht : m.tail x = 0) (h : Ring m L s) :
    IO_Event_List_pop (IO_Event_List_prepend m L x) x = m := by
  have hxL : x ≠ L := fun e => hx (by simp [e])
  have hfirst := ring_first h
  have hxt : x ≠ m.tail L := by
    intro e
    apply hx
    rw [e, hfirst]
    cases s with
    | nil => simp
    | cons b rest => simp
  obtain ⟨bx, hbx⟩ := cons_eq_snoc L s.reverse
  rw [List.reverse_reverse] at hbx
  have hhu : m.head (m.tail L) = L := by
    rw [hfirst]
    exact walk_snoc_read bx _ _ (by rw [← hbx]; exact h.backward)
  cases m with
  | mk head tail type events ready fiber =>
    simp only [IO_Event_List_pop, IO_Event_List_prepend] at *
    congr 1
    · funext a
      simp only [store]
      by_cases h1 : a = x
      · simp [h1, hh]
      · by_cases h2 : a = tail L
        · simp [h1, h2, hhu, hxt, hxL, hxt.symm, hxL.symm]
        · simp [h1, h2, hxt, hxL, hxt.symm, hxL.symm]
    · funext a
      simp only [store]
      by_cases h1 : a = x
      · simp [h1, ht]
      · by_cases h2 : a = L
        · simp [h1, h2, hxt, hxL, hxt.symm, hxL.symm]
        · simp [h1, h2, hxt, hxL, hxt.symm, hxL.symm]

theorem pop_append {m : ListMemory} {L : Nat} {s : List Nat} (x : Nat)
    (hx : x ∉ L :: s) (hh : m.head x = 0) (ht : m.tail x = 0) (h : Ring m L s) :
    IO_Event_List_pop (IO_Event_List_append m L x) x = m := by
  have hxL : x ≠ L := fun e => hx (by simp [e])
  have hlast := ring_last h
  have hxh : x ≠ m.head L := by
    intro e
    apply hx
    rw [e, hlast]
    rcases List.eq_nil_or_concat s with rfl | ⟨s', b, rfl⟩
    · simp
    · simp
  obtain ⟨fx, hfx⟩ := cons_eq_snoc L s
  have htu : m.tail (m.head L) = L := by
    rw [hlast]
    exact walk_snoc_read fx _ _ (by rw [← hfx]; exact h.forward)
  cases m with
  | mk head tail type events ready fiber =>
    simp only [IO_Event_List_pop, IO_Event_List_append] at *
    congr 1
    · funext a
      simp only [store]
      by_cases h1 : a = x
      · simp [h1, hh]
      · by_cases h2 : a = L
        · simp [h1, h2, hxh, hxL, hxh.symm, hxL.symm]
        · simp [h1, h2, hxh, hxL, hxh.symm, hxL.symm]
    · funext a
      simp only [store]
      by_cases h1 : a = x
      · simp [h1, ht]
      · by_cases h2 : a = head L
        · simp [h1, h2, htu, hxh, hxL, hxh.symm, hxL.symm]
        · simp [h1, h2, hxh, hxL, hxh.symm, hxL.symm]

theorem each_walk (m : ListMemory) (L : Nat) :
    ∀ (ws : List Nat) (fuel : Nat), L ∉ ws → Walk m.tail ws L → ws.length ≤ fuel →
      IO_Event_List_immutable_each m L fuel (ws.headD L)
        = some (ws.map (fun a => (a, decide (m.type a ≠ 0))))
  | [], fuel, _, _, _ => by cases fuel <;> simp [IO_Event_List_immutable_each]
  | [a], fuel, hL, hw, hf => by
    obtain ⟨fuel, rfl⟩ : ∃ f, fuel = f + 1 := ⟨fuel - 1, by simp at hf; omega⟩
    have ha : a ≠ L := fun e => hL (by simp [e])
    have hn : m.tail a = L := hw
    have := each_walk m L [] fuel (by simp) trivial (by simp)
    simp only [List.headD_nil] at this
    simp [IO_Event_List_immutable_each, ha, hn, this]
  | a :: b :: rest, fuel, hL, hw, hf => by
    obtain ⟨fuel, rfl⟩ : ∃ f, fuel = f + 1 := ⟨fuel - 1, by simp at hf; omega⟩
    have ha : a ≠ L := fun e => hL (by simp [e])
    have hn : m.tail a = b := hw.1
    have := each_walk m L (b :: rest) fuel (fun hm => hL (List.mem_cons_of_mem _ hm)) hw.2
      (by simp at hf ⊢; omega)
    simp only [List.headD_cons] at this
    simp [IO_Event_List_immutable_each, ha, hn, this]

theorem ring_traversal {m : ListMemory} {L : Nat} {s : List Nat} (h : Ring m L s)
    (fuel : Nat) (hf : s.length ≤ fuel) : traversal m L fuel = some s := by
  have hL : L ∉ s := (List.nodup_cons.1 h.nodup).1
  have hw : Walk m.tail s L := by
    have := h.forward
    cases s with
    | nil => trivial
    | cons b rest => exact this.2
  unfold traversal
  rw [ring_first h, each_walk m L s fuel hL hw hf]
  simp [Function.comp_def]
theorem ring_successor {m : ListMemory} {L : Nat} {ws : List Nat} (h : Ring m L ws)
    (a : Nat) (ha : a ∈ L :: ws) : m.head (m.tail a) = a := by
  rcases List.mem_cons.1 ha with rfl | hm
  · rw [ring_first h]
    cases ws with
    | nil => simpa using ring_last h
    | cons b rest => simpa using ring_head [] b rest h
  · obtain ⟨xs, ys, rfl⟩ := List.append_of_mem hm
    rw [ring_tail xs a ys h]
    cases ys with
    | nil => simpa using ring_last h
    | cons b rest =>
      have := ring_head (xs ++ [a]) b rest (by simpa using h)
      simpa using this

theorem ring_predecessor {m : ListMemory} {L : Nat} {ws : List Nat} (h : Ring m L ws)
    (b : Nat) (hb : b ∈ L :: ws) : m.tail (m.head b) = b := by
  rcases List.mem_cons.1 hb with rfl | hm
  · rw [ring_last h]
    rcases List.eq_nil_or_concat ws with rfl | ⟨xs, a, rfl⟩
    · simpa using ring_first h
    · rw [List.concat_eq_append] at h ⊢
      simpa using ring_tail xs a [] h
  · obtain ⟨xs, ys, rfl⟩ := List.append_of_mem hm
    rw [ring_head xs b ys h]
    rcases List.eq_nil_or_concat xs with rfl | ⟨xs', a, rfl⟩
    · simpa using ring_first h
    · rw [List.concat_eq_append] at h ⊢
      have := ring_tail xs' a (b :: ys) (by simpa using h)
      simpa using this

theorem ring_linked {m : ListMemory} {L : Nat} {ws : List Nat} (h : Ring m L ws) :
    Linked m (L :: ws) := by
  intro a ha b hb
  constructor
  · intro e
    rw [← e]
    exact ring_successor h a ha
  · intro e
    rw [← e]
    exact ring_predecessor h b hb
/-! ## `IO_Event_List_empty` -/

theorem list_empty_iff {m : ListMemory} {L : Nat} {ws : List Nat} (h : Ring m L ws) :
    IO_Event_List_empty m L = true ↔ ws.length ≤ 1 := by
  unfold IO_Event_List_empty
  rw [ring_last h, ring_first h, beq_iff_eq]
  have hnd := h.nodup
  cases ws with
  | nil => simp
  | cons a rest =>
    rcases List.eq_nil_or_concat rest with rfl | ⟨rest', b, rfl⟩
    · simp
    · rw [List.concat_eq_append] at hnd ⊢
      have hab : a ≠ b := by
        intro e
        have := (List.nodup_cons.1 (List.nodup_cons.1 hnd).2).1
        exact this (by simp [e])
      simp [hab.symm]

theorem single_node_ring : Ring singleNodeMemory 100 [1] :=
  ring_prepend 1 (by decide) (ring_nil _ 100 (by simp [ IO_Event_List_initialize, store])
    (by simp [ IO_Event_List_initialize, store]))

/-- C22 (the code at the failing input): for the well-formed list that holds the one node at
address 1 (the traversal visits exactly that node), `IO_Event_List_empty` returns true, as
`head == tail` holds there with both links on the node and not on the list head. -/
theorem list_empty_single_node :
    traversal singleNodeMemory 100 1 = some [1] ∧
      IO_Event_List_empty singleNodeMemory 100 = true ∧
      singleNodeMemory.head 100 = 1 ∧ singleNodeMemory.tail 100 = 1 := by
  refine ⟨ring_traversal single_node_ring 1 (by simp), ?_, ?_, ?_⟩ <;>
    simp [IO_Event_List_empty, singleNodeMemory, IO_Event_List_prepend,
      IO_Event_List_initialize, store]

/-! ## The list operations refine sequence operations -/

/-- C23: on a well-formed list with node sequence `s` (the order of the traversal from the
tail link of the list head) and for a node `x` that is not linked, `prepend` yields `x`
followed by `s` and `append` yields `s` followed by `x`; `pop` of a member removes exactly
that node, nulls both of its links and keeps the order of the others; every result is
again well formed, with `a.tail == b` exactly when `b.head == a` among its cells; and `pop`
after `prepend` or `append` restores the memory of the original list. -/
theorem list_operations_refine (m : ListMemory) (L : Nat) (s : List Nat) (x : Nat)
    (h : Ring m L s) (hx : x ∉ L :: s) (hh : m.head x = 0) (ht : m.tail x = 0) :
    (Ring (IO_Event_List_prepend m L x) L (x :: s) ∧
      traversal (IO_Event_List_prepend m L x) L (s.length + 1) = some (x :: s) ∧
      Linked (IO_Event_List_prepend m L x) (L :: x :: s)) ∧
    (Ring (IO_Event_List_append m L x) L (s ++ [x]) ∧
      traversal (IO_Event_List_append m L x) L (s.length + 1) = some (s ++ [x]) ∧
      Linked (IO_Event_List_append m L x) (L :: (s ++ [x]))) ∧
    (∀ xs a ys, s = xs ++ a :: ys →
      Ring (IO_Event_List_pop m a) L (xs ++ ys) ∧
      traversal (IO_Event_List_pop m a) L s.length = some (xs ++ ys) ∧
      Linked (IO_Event_List_pop m a) (L :: (xs ++ ys)) ∧
      (IO_Event_List_pop m a).head a = 0 ∧ (IO_Event_List_pop m a).tail a = 0) ∧
    IO_Event_List_pop (IO_Event_List_prepend m L x) x = m ∧
    IO_Event_List_pop (IO_Event_List_append m L x) x = m := by
  refine ⟨?_, ?_, ?_, pop_prepend x hx hh ht h, pop_append x hx hh ht h⟩
  · have hr := ring_prepend x hx h
    exact ⟨hr, ring_traversal hr _ (by simp), ring_linked hr⟩
  · have hr := ring_append_last x hx h
    exact ⟨hr, ring_traversal hr _ (by simp), ring_linked hr⟩
  · intro xs a ys e
    subst e
    have hr := ring_pop xs a ys h
    refine ⟨hr, ring_traversal hr _ (by simp), ring_linked hr, ?_, ?_⟩
    · exact store_same _ _ _
    · exact store_same _ _ _

/-- C23 (witness): on the list at address 100 that holds the nodes 2 and 1, with the node at
address 3 not linked. -/
theorem list_operations_refine_witness :
    (Ring (IO_Event_List_prepend exampleMemory 100 3) 100 [3, 2, 1] ∧
      traversal (IO_Event_List_prepend exampleMemory 100 3) 100 3 = some [3, 2, 1] ∧
      Linked (IO_Event_List_prepend exampleMemory 100 3) [100, 3, 2, 1]) ∧
    (Ring (IO_Event_List_append exampleMemory 100 3) 100 [2, 1, 3] ∧
      traversal (IO_Event_List_append exampleMemory 100 3) 100 3 = some [2, 1, 3] ∧
      Linked (IO_Event_List_append exampleMemory 100 3) [100, 2, 1, 3]) ∧
    (∀ xs a ys, [2, 1] = xs ++ a :: ys →
      Ring (IO_Event_List_pop exampleMemory a) 100 (xs ++ ys) ∧
      traversal (IO_Event_List_pop exampleMemory a) 100 2 = some (xs ++ ys) ∧
      Linked (IO_Event_List_pop exampleMemory a) (100 :: (xs ++ ys)) ∧
      (IO_Event_List_pop exampleMemory a).head a = 0 ∧
      (IO_Event_List_pop exampleMemory a).tail a = 0) ∧
    IO_Event_List_pop (IO_Event_List_prepend exampleMemory 100 3) 3 = exampleMemory ∧
    IO_Event_List_pop (IO_Event_List_append exampleMemory 100 3) 3 = exampleMemory :=
  list_operations_refine exampleMemory 100 [2, 1] 3 example_ring (by decide)
    (by simp [exampleMemory, IO_Event_List_prepend, IO_Event_List_initialize, blankMemory,
      store])
    (by simp [exampleMemory, IO_Event_List_prepend, IO_Event_List_initialize, blankMemory,
      store])

/-! ## The transitions of the epoll registration -/

/-- C20: for a descriptor record whose io handle is the one passed in, the first `epoll_ctl`
request of `IO_Event_Selector_EPoll_Descriptor_update` is the one the pair
`(registered_events, waiting_events)` determines (none, ADD, MOD or DEL); a second request
follows only when the kernel refuses the first with `ENOENT` (then ADD) or `EEXIST` (then
MOD); and whenever the update returns a non-negative result, `registered_events` equals
`waiting_events` afterwards. -/
theorem epoll_update_transition (K : EPollFlags) (kernel : EPoll.Kernel)
    (calls : List EPoll.Control) (io : Nat) (descriptor : Int)
    (d : EPoll.IO_Event_Selector_EPoll_Descriptor) (hio : d.io = io) :
    (∃ retry : List EPoll.Control,
      (EPoll.IO_Event_Selector_EPoll_Descriptor_update K kernel calls io descriptor d).2.2
        = calls ++
          ((EPoll.transition d.registered_events d.waiting_events).toList.map
            (fun op => EPoll.request K op descriptor d.waiting_events)) ++ retry ∧
      (retry = [] ∨
        (∃ op, EPoll.transition d.registered_events d.waiting_events = some op ∧
          kernel calls (EPoll.request K op descriptor d.waiting_events) = some Errno.ENOENT ∧
          retry = [EPoll.request K EPoll.Operation.EPOLL_CTL_ADD descriptor
            d.waiting_events]) ∨
        (∃ op, EPoll.transition d.registered_events d.waiting_events = some op ∧
          kernel calls (EPoll.request K op descriptor d.waiting_events) = some Errno.EEXIST ∧
          retry = [EPoll.request K EPoll.Operation.EPOLL_CTL_MOD descriptor
            d.waiting_events]))) ∧
    (∀ v, (EPoll.IO_Event_Selector_EPoll_Descriptor_update K kernel calls io descriptor d).1
        = Except.ok v →
      0 ≤ v ∧
      (EPoll.IO_Event_Selector_EPoll_Descriptor_update K kernel calls io descriptor
          d).2.1.registered_events
        = (EPoll.IO_Event_Selector_EPoll_Descriptor_update K kernel calls io descriptor
          d).2.1.waiting_events) := by
  unfold EPoll.IO_Event_Selector_EPoll_Descriptor_update EPoll.transition
  by_cases heq : d.registered_events = d.waiting_events
  · simp only [hio, heq, and_self, if_true]
    refine ⟨⟨[], by simp, Or.inl rfl⟩, ?_⟩
    intro v hv
    simp only [Except.ok.injEq] at hv
    exact ⟨by omega, trivial⟩
  · simp only [hio, heq, and_false, if_false, if_true]
    by_cases hw : d.waiting_events = 0
    · have hr : d.registered_events ≠ 0 := fun e => heq (by rw [e, hw])
      simp only [hw, hr, if_true, ne_eq, not_false_eq_true]
      refine ⟨⟨[], by simp [EPoll.request], Or.inl rfl⟩, ?_⟩
      intro v hv
      simp only [Except.ok.injEq] at hv
      exact ⟨by omega, trivial⟩
    · simp only [hw, if_false]
      by_cases hr : d.registered_events = 0
      · simp only [hr, ne_eq, not_true_eq_false, if_false, if_true, Option.toList,
          List.map_cons, List.map_nil]
        have hrq : EPoll.request K EPoll.Operation.EPOLL_CTL_ADD descriptor d.waiting_events
            = { operation := EPoll.Operation.EPOLL_CTL_ADD, descriptor := descriptor,
                flags := some (EPoll.epoll_flags_from_events K d.waiting_events) } := rfl
        have hrm : EPoll.request K EPoll.Operation.EPOLL_CTL_MOD descriptor d.waiting_events
            = { operation := EPoll.Operation.EPOLL_CTL_MOD, descriptor := descriptor,
                flags := some (EPoll.epoll_flags_from_events K d.waiting_events) } := rfl
        rw [hrq, hrm]
        split
        · refine ⟨⟨[], by simp, Or.inl rfl⟩, ?_⟩
          intro v hv
          simp only [Except.ok.injEq] at hv
          exact ⟨by omega, rfl⟩
        · rename_i e hk
          by_cases h1 : e = Errno.ENOENT
          · subst h1
            simp only [if_true]
            split
            · refine ⟨⟨_, by simp, Or.inr (Or.inl ⟨_, rfl, hk, rfl⟩)⟩, ?_⟩
              intro v hv
              simp only [Except.ok.injEq] at hv
              exact ⟨by omega, rfl⟩
            · refine ⟨⟨_, by simp, Or.inr (Or.inl ⟨_, rfl, hk, rfl⟩)⟩, ?_⟩
              intro v hv
              simp at hv
          · by_cases h2 : e = Errno.EEXIST
            · subst h2
              simp only [if_true, if_false, h1]
              split
              · refine ⟨⟨_, by simp, Or.inr (Or.inr ⟨_, rfl, hk, rfl⟩)⟩, ?_⟩
                intro v hv
                simp only [Except.ok.injEq] at hv
                exact ⟨by omega, rfl⟩
              · refine ⟨⟨_, by simp, Or.inr (Or.inr ⟨_, rfl, hk, rfl⟩)⟩, ?_⟩
                intro v hv
                simp at hv
            · simp only [h1, h2, if_false]
              refine ⟨⟨[], by simp, Or.inl rfl⟩, ?_⟩
              intro v hv
              simp at hv
      · simp only [hr, ne_eq, not_false_eq_true, if_false, if_true, Option.toList,
          List.map_cons, List.map_nil]
        have hrq : EPoll.request K EPoll.Operation.EPOLL_CTL_ADD descriptor d.waiting_events
            = { operation := EPoll.Operation.EPOLL_CTL_ADD, descriptor := descriptor,
                flags := some (EPoll.epoll_flags_from_events K d.waiting_events) } := rfl
        have hrm : EPoll.request K EPoll.Operation.EPOLL_CTL_MOD descriptor d.waiting_events
            = { operation := EPoll.Operation.EPOLL_CTL_MOD, descriptor := descriptor,
                flags := some (EPoll.epoll_flags_from_events K d.waiting_events) } := rfl
        rw [hrq, hrm]
        split
        · refine ⟨⟨[], by simp, Or.inl rfl⟩, ?_⟩
          intro v hv
          simp only [Except.ok.injEq] at hv
          exact ⟨by omega, rfl⟩
        · rename_i e hk
          by_cases h1 : e = Errno.ENOENT
          · subst h1
            simp only [if_true]
            split
            · refine ⟨⟨_, by simp, Or.inr (Or.inl ⟨_, rfl, hk, rfl⟩)⟩, ?_⟩
              intro v hv
              simp only [Except.ok.injEq] at hv
              exact ⟨by omega, rfl⟩
            · refine ⟨⟨_, by simp, Or.inr (Or.inl ⟨_, rfl, hk, rfl⟩)⟩, ?_⟩
              intro v hv
              simp at hv
          · by_cases h2 : e = Errno.EEXIST
            · subst h2
              simp only [if_true, if_false, h1]
              split
              · refine ⟨⟨_, by simp, Or.inr (Or.inr ⟨_, rfl, hk, rfl⟩)⟩, ?_⟩
                intro v hv
                simp only [Except.ok.injEq] at hv
                exact ⟨by omega, rfl⟩
              · refine ⟨⟨_, by simp, Or.inr (Or.inr ⟨_, rfl, hk, rfl⟩)⟩, ?_⟩
                intro v hv
                simp at hv
            · simp only [h1, h2, if_false]
              refine ⟨⟨[], by simp, Or.inl rfl⟩, ?_⟩
              intro v hv
              simp at hv

/-- C20 (witness): a record registered for READABLE with waiters for READABLE and WRITABLE,
on a kernel that accepts the request. -/
theorem epoll_update_transition_witness :
    (∃ retry : List EPoll.Control,
      (EPoll.IO_Event_Selector_EPoll_Descriptor_update linuxEPollFlags EPoll.acceptingKernel
          [] 7 3 ⟨100, 7, 5, 1⟩).2.2
        = [] ++
          ((EPoll.transition 1 5).toList.map
            (fun op => EPoll.request linuxEPollFlags op 3 5)) ++ retry ∧
      (retry = [] ∨
        (∃ op, EPoll.transition 1 5 = some op ∧
          EPoll.acceptingKernel [] (EPoll.request linuxEPollFlags op 3 5)
            = some Errno.ENOENT ∧
          retry = [EPoll.request linuxEPollFlags EPoll.Operation.EPOLL_CTL_ADD 3 5]) ∨
        (∃ op, EPoll.transition 1 5 = some op ∧
          EPoll.acceptingKernel [] (EPoll.request linuxEPollFlags op 3 5)
            = some Errno.EEXIST ∧
          retry = [EPoll.request linuxEPollFlags EPoll.Operation.EPOLL_CTL_MOD 3 5]))) ∧
    (∀ v, (EPoll.IO_Event_Selector_EPoll_Descriptor_update linuxEPollFlags
          EPoll.acceptingKernel [] 7 3 ⟨100, 7, 5, 1⟩).1 = Except.ok v →
      0 ≤ v ∧
      (EPoll.IO_Event_Selector_EPoll_Descriptor_update linuxEPollFlags EPoll.acceptingKernel
          [] 7 3 ⟨100, 7, 5, 1⟩).2.1.registered_events
        = (EPoll.IO_Event_Selector_EPoll_Descriptor_update linuxEPollFlags
          EPoll.acceptingKernel [] 7 3 ⟨100, 7, 5, 1⟩).2.1.waiting_events) :=
  epoll_update_transition linuxEPollFlags EPoll.acceptingKernel [] 7 3 ⟨100, 7, 5, 1⟩ rfl

/-! ## Removing any node from the ready queue -/

theorem queue_pop_inner {backend : IO_Event_Selector} (xs : List Nat) (u w : Nat)
    (ys : List Nat) (h : Queue backend (xs ++ u :: w :: ys)) :
    Queue (queue_pop backend w) (xs ++ u :: ys) ∧
      (queue_pop backend w).flags = backend.flags ∧
      (queue_pop backend w).fiber = backend.fiber ∧
      (queue_pop backend w).loop = backend.loop := by
  have hnd := h.nodup
  have h0 := h.nonnull
  have hnd' : (xs ++ u :: ys).Nodup := by
    have hsub : (xs ++ u :: ys).Sublist (xs ++ u :: w :: ys) :=
      List.Sublist.append_left (List.Sublist.cons₂ u (List.sublist_cons_self w ys)) xs
    exact hsub.nodup hnd
  have h0' : 0 ∉ xs ++ u :: ys := by
    intro hm
    apply h0
    rcases List.mem_append.1 hm with hm | hm
    · exact List.mem_append_left _ hm
    · rcases List.mem_cons.1 hm with e | hm
      · exact List.mem_append_right _ (by simp [e])
      · exact List.mem_append_right _ (by simp [hm])
  have hu0 : u ≠ 0 := fun e => h0 (by simp [e])
  have hhw : backend.head w = ys.headD 0 :=
    walk_next (xs ++ [u]) w ys 0 (by simpa using h.forward)
  have hrev : (xs ++ u :: w :: ys).reverse = ys.reverse ++ w :: u :: xs.reverse := by simp
  have hback : Walk backend.tail (ys.reverse ++ w :: u :: xs.reverse) 0 := by
    rw [← hrev]; exact h.backward
  have htw : backend.tail w = u := by
    simpa using walk_next ys.reverse w (u :: xs.reverse) 0 hback
  have hndr : (ys.reverse ++ w :: u :: xs.reverse).Nodup := by
    rw [← hrev]; exact List.nodup_reverse.2 hnd
  have hwu : w ≠ u := by
    intro e
    have := (List.nodup_append.1 hnd).2.1
    exact (List.nodup_cons.1 this).1 (by simp [e])
  have hwys : w ∉ ys := by
    have := (List.nodup_append.1 hnd).2.1
    exact (List.nodup_cons.1 (List.nodup_cons.1 this).2).1
  have hwxs : w ∉ xs := fun hm => (List.nodup_append.1 hnd).2.2 hm (by simp)
  have hready : backend.ready = (xs ++ u :: ys).headD 0 := by
    rw [h.ready]; cases xs <;> simp
  cases ys with
  | nil =>
    simp only [List.headD_nil] at hhw
    have e1 : (queue_pop backend w).head = store (store backend.head u 0) w 0 := by
      simp [queue_pop, hhw, htw, hu0]
    have e2 : (queue_pop backend w).tail = store backend.tail w 0 := by
      simp [queue_pop, hhw, htw, hu0]
    refine ⟨⟨hnd', h0', ?_, ?_, ?_, ?_⟩, ?_, ?_, ?_⟩
    · simp [queue_pop, hhw, htw, hu0, hready]
    · simp [queue_pop, hhw, htw, hu0]
    · rw [e1]
      have := walk_remove xs u w [] 0 0 hnd h.forward
      rw [hhw] at this
      exact this
    · rw [e2]
      have hb : Walk backend.tail (u :: xs.reverse) 0 := by
        have := (walk_append [] w (u :: xs.reverse) 0).1 (by simpa using hback)
        exact this.2
      have : (xs ++ [u]).reverse = u :: xs.reverse := by simp
      rw [this]
      apply walk_congr _ _ _ hb
      intro a ha
      apply store_other
      rintro rfl
      rcases List.mem_cons.1 ha with e | hm
      · exact hwu e
      · exact hwxs (List.mem_reverse.1 hm)
    · simp [queue_pop, hhw, htw, hu0]
    · simp [queue_pop, hhw, htw, hu0]
    · simp [queue_pop, hhw, htw, hu0]
  | cons y ys' =>
    simp only [List.headD_cons] at hhw
    have hy0 : y ≠ 0 := fun e => h0 (by simp [e])
    have hyw : y ≠ w := fun e => hwys (by simp [← e])
    have hst : store backend.tail y u w = u := by
      rw [store_other _ _ _ _ (Ne.symm hyw)]; exact htw
    have e1 : (queue_pop backend w).head = store (store backend.head u y) w 0 := by
      simp [queue_pop, hhw, htw, hu0, hy0, hst]
    have e2 : (queue_pop backend w).tail = store (store backend.tail y u) w 0 := by
      simp [queue_pop, hhw, htw, hu0, hy0, hst]
    refine ⟨⟨hnd', h0', ?_, ?_, ?_, ?_⟩, ?_, ?_, ?_⟩
    · simp [queue_pop, hhw, htw, hu0, hy0, hst, hready]
    · have hw := h.waiting
      have : (queue_pop backend w).waiting = backend.waiting := by
        simp [queue_pop, hhw, htw, hu0, hy0, hst]
      rw [this, hw]
      simp only [List.reverse_append, List.reverse_cons, List.append_assoc]
      cases ys'.reverse <;> simp
    · rw [e1]
      have := walk_remove xs u w (y :: ys') 0 0 hnd h.forward
      rw [hhw] at this
      exact this
    · rw [e2]
      have hb : Walk backend.tail (ys'.reverse ++ y :: w :: u :: xs.reverse) 0 := by
        simpa using hback
      have hn : (ys'.reverse ++ y :: w :: u :: xs.reverse).Nodup := by simpa using hndr
      have := walk_remove ys'.reverse y w (u :: xs.reverse) 0 0 hn hb
      rw [htw] at this
      have e : (xs ++ u :: y :: ys').reverse = ys'.reverse ++ y :: u :: xs.reverse := by simp
      rw [e]
      exact this
    · simp [queue_pop, hhw, htw, hu0, hy0, hst]
    · simp [queue_pop, hhw, htw, hu0, hy0, hst]
    · simp [queue_pop, hhw, htw, hu0, hy0, hst]

theorem queue_pop_mem {backend : IO_Event_Selector} (xs : List Nat) (w : Nat)
    (ys : List Nat) (h : Queue backend (xs ++ w :: ys)) :
    Queue (queue_pop backend w) (xs ++ ys) ∧
      (queue_pop backend w).flags = backend.flags ∧
      (queue_pop backend w).fiber = backend.fiber ∧
      (queue_pop backend w).loop = backend.loop := by
  rcases List.eq_nil_or_concat xs with rfl | ⟨xs', u, rfl⟩
  · simpa using queue_pop_front (by simpa using h)
  · rw [List.concat_eq_append] at h ⊢
    have := queue_pop_inner xs' u w ys (by simpa using h)
    simpa using this
/-! ## resume, raise and yield -/

/-- C11: `resume` with no argument and `raise` with fewer than two arguments end with an
`ArgumentError`, leave the ready queue as it is and call no fiber primitive. -/
theorem resume_raise_arity (rt : Runtime) (backend : IO_Event_Selector) (waiting : Nat)
    (argv : List Nat) :
    (argv.length = 0 →
      (IO_Event_Selector_resume rt backend waiting argv).result
          = Returned.raised RubyError.ArgumentError ∧
        (IO_Event_Selector_resume rt backend waiting argv).backend = backend ∧
        (IO_Event_Selector_resume rt backend waiting argv).calls = []) ∧
    (argv.length < 2 →
      (IO_Event_Selector_raise rt backend waiting argv).result
          = Returned.raised RubyError.ArgumentError ∧
        (IO_Event_Selector_raise rt backend waiting argv).backend = backend ∧
        (IO_Event_Selector_raise rt backend waiting argv).calls = []) := by
  constructor
  · intro h
    simp [IO_Event_Selector_resume, h]
  · intro h
    simp [IO_Event_Selector_raise, h]

/-- C11 (witness): `resume()` and `raise(fiber)` on the example queue. -/
theorem resume_raise_arity_witness :
    ([] : List Nat).length = 0 ∧ [5].length < 2 ∧
      (IO_Event_Selector_resume exampleRuntime exampleQueue 7 []).result
          = Returned.raised RubyError.ArgumentError ∧
      (IO_Event_Selector_resume exampleRuntime exampleQueue 7 []).calls = [] ∧
      (IO_Event_Selector_raise exampleRuntime exampleQueue 7 [5]).result
          = Returned.raised RubyError.ArgumentError ∧
      (IO_Event_Selector_raise exampleRuntime exampleQueue 7 [5]).calls = [] :=
  ⟨rfl, by decide,
    ((resume_raise_arity exampleRuntime exampleQueue 7 []).1 rfl).1,
    ((resume_raise_arity exampleRuntime exampleQueue 7 []).1 rfl).2.2,
    ((resume_raise_arity exampleRuntime exampleQueue 7 [5]).2 (by decide)).1,
    ((resume_raise_arity exampleRuntime exampleQueue 7 [5]).2 (by decide)).2.2⟩
theorem queue_node_queue {backend : IO_Event_Selector} {l : List Nat} (w current : Nat)
    (h : Queue backend l) (hw : w ∉ l) : Queue (queue_node backend w current) l :=
  @queue_congr backend (queue_node backend w current) l rfl rfl
    (fun _ ha => store_other _ _ _ _ (fun e => hw (e ▸ ha)))
    (fun _ ha => store_other _ _ _ _ (fun e => hw (e ▸ ha))) h

theorem enter_queue {backend : IO_Event_Selector} {l : List Nat} (w current : Nat)
    (h : Queue backend l) (hw : w ∉ l) (hw0 : w ≠ 0) :
    Queue (queue_push (queue_node backend w current) w) (l ++ [w]) ∧
      (queue_push (queue_node backend w current) w).waiting = w ∧
      (queue_push (queue_node backend w current) w).flags w = IO_EVENT_SELECTOR_QUEUE_FIBER ∧
      (queue_push (queue_node backend w current) w).fiber w = current := by
  have hq := queue_node_queue w current h hw
  have hp := queue_push_back w hq hw0 hw (store_same _ _ _) (store_same _ _ _)
  refine ⟨hp.1, ?_, ?_, ?_⟩
  · simp [queue_push]
  · rw [hp.2.1]; exact store_same _ _ _
  · rw [hp.2.2]; exact store_same _ _ _

theorem push_pop_restores {backend : IO_Event_Selector} {l : List Nat} (w current : Nat)
    (h : Queue backend l) (hw : w ∉ l) :
    queue_pop (queue_push (queue_node backend w current) w) w
      = queue_node backend w current := by
  rcases List.eq_nil_or_concat l with rfl | ⟨l0, f, rfl⟩
  · have h1 : backend.waiting = 0 := h.waiting
    have h2 : backend.ready = 0 := h.ready
    cases backend with
    | mk loop waiting ready head tail flags fiber =>
      simp only at h1 h2
      subst h1 h2
      simp only [queue_pop, queue_push, queue_node, ne_eq, not_true_eq_false, if_false,
        store_same]
      congr 1
      · funext a
        by_cases h1 : a = w <;> simp [store, h1]
      · funext a
        by_cases h1 : a = w <;> simp [store, h1]
  · rw [List.concat_eq_append] at h hw
    have h1 : backend.waiting = f := by simpa using h.waiting
    have hf0 : f ≠ 0 := fun e => h.nonnull (by simp [e])
    have hfw : f ≠ w := fun e => hw (by simp [e])
    have hhf : backend.head f = 0 := walk_snoc_read l0 f 0 h.forward
    cases backend with
    | mk loop waiting ready head tail flags fiber =>
      simp only at h1 hhf
      subst h1
      have e1 : store (store head w 0) waiting w w = 0 := by
        rw [store_other _ _ _ _ hfw.symm, store_same]
      have e2 : store (store tail w 0) w waiting w = waiting := store_same _ _ _
      simp only [queue_pop, queue_push, queue_node, ne_eq, hf0, not_false_eq_true, if_true,
        e1, e2, not_true_eq_false, if_false]
      congr 1
      · funext a
        by_cases h1 : a = w
        · simp [store, h1]
        · by_cases h2 : a = waiting
          · simp [store, h1, h2, hhf, hfw]
          · simp [store, h1, h2]
      · funext a
        by_cases h1 : a = w <;> simp [store, h1]
theorem frame_of_shape {backend : IO_Event_Selector} {l : List Nat} (w current : Nat)
    (r : Resumed) (h : Queue backend l) (hw : w ∉ l) (hw0 : w ≠ 0)
    (he : r.entered = queue_push (queue_node backend w current) w)
    (hb : r.backend = queue_pop r.left w) (hc : ∀ c ∈ r.calls, c.queue = r.entered) :
    (Queue r.entered (l ++ [w]) ∧ r.entered.waiting = w ∧
      r.entered.flags w = IO_EVENT_SELECTOR_QUEUE_FIBER ∧ r.entered.fiber w = current ∧
      ∀ c ∈ r.calls, c.queue = r.entered) ∧
    (∀ xs ys, Queue r.left (xs ++ w :: ys) → Queue r.backend (xs ++ ys) ∧ w ∉ xs ++ ys) ∧
    (r.left = r.entered →
      r.backend = queue_node backend w current ∧ Queue r.backend l ∧
      r.backend.ready = backend.ready ∧ r.backend.waiting = backend.waiting) := by
  have hen := enter_queue w current h hw hw0
  refine ⟨?_, ?_, ?_⟩
  · rw [he]
    exact ⟨hen.1, hen.2.1, hen.2.2.1, hen.2.2.2, fun c hm => by rw [hc c hm, he]⟩
  · intro xs ys hq
    rw [hb]
    refine ⟨(queue_pop_mem xs w ys hq).1, ?_⟩
    have hnd := hq.nodup
    intro hm
    rcases List.mem_append.1 hm with hm | hm
    · exact (List.nodup_append.1 hnd).2.2 hm (by simp)
    · exact (List.nodup_cons.1 (List.nodup_append.1 hnd).2.1).1 hm
  · intro hl
    have e : r.backend = queue_node backend w current := by
      rw [hb, hl, he]
      exact push_pop_restores w current h hw
    rw [e]
    exact ⟨rfl, queue_node_queue w current h hw, rfl, rfl⟩

theorem resume_cons (rt : Runtime) (backend : IO_Event_Selector) (w fiber : Nat)
    (rest : List Nat) :
    IO_Event_Selector_resume rt backend w (fiber :: rest)
      = { backend := queue_pop (IO_Event_Fiber_transfer rt fiber rest
            (queue_push (queue_node backend w rt.current) w)).backend w,
          result := (IO_Event_Fiber_transfer rt fiber rest
            (queue_push (queue_node backend w rt.current) w)).result,
          calls := (IO_Event_Fiber_transfer rt fiber rest
            (queue_push (queue_node backend w rt.current) w)).calls,
          entered := queue_push (queue_node backend w rt.current) w,
          left := (IO_Event_Fiber_transfer rt fiber rest
            (queue_push (queue_node backend w rt.current) w)).backend } := by
  unfold IO_Event_Selector_resume
  rw [if_neg (by simp)]
  rfl

theorem raise_cons (rt : Runtime) (backend : IO_Event_Selector) (w fiber argument : Nat)
    (rest : List Nat) :
    IO_Event_Selector_raise rt backend w (fiber :: argument :: rest)
      = { backend := queue_pop (IO_Event_Fiber_raise rt fiber (argument :: rest)
            (queue_push (queue_node backend w rt.current) w)).backend w,
          result := (IO_Event_Fiber_raise rt fiber (argument :: rest)
            (queue_push (queue_node backend w rt.current) w)).result,
          calls := (IO_Event_Fiber_raise rt fiber (argument :: rest)
            (queue_push (queue_node backend w rt.current) w)).calls,
          entered := queue_push (queue_node backend w rt.current) w,
          left := (IO_Event_Fiber_raise rt fiber (argument :: rest)
            (queue_push (queue_node backend w rt.current) w)).backend } := by
  unfold IO_Event_Selector_raise
  rw [if_neg (by simp)]
  rfl

theorem transfer_calls (rt : Runtime) (fiber : Nat) (argv : List Nat)
    (backend : IO_Event_Selector) :
    ∀ c ∈ (IO_Event_Fiber_transfer rt fiber argv backend).calls, c.queue = backend := by
  intro c hm
  unfold IO_Event_Fiber_transfer at hm
  by_cases ha : rt.alive fiber = true
  · rw [if_pos ha] at hm
    simp only [List.mem_singleton] at hm
    rw [hm]; rfl
  · rw [if_neg ha] at hm
    simp at hm

/-- C12: for every well-formed ready queue with entries `l` and a frame node `w` outside
of it, each of `resume`, `raise` and `yield` hands control over with the queue `l` followed
by `w`, where `w` is the front node (`backend->waiting`), tagged FIBER and carrying the
calling fiber; when control is back with `w` still queued, the call leaves the queue
without `w` and with the other entries in their order; and when the queue comes back as it
was handed over, the call leaves the queue it found (same ends, same links). -/
theorem resume_queue_frame (rt : Runtime) (backend : IO_Event_Selector) (l : List Nat)
    (w fiber argument : Nat) (rest : List Nat)
    (h : Queue backend l) (hw : w ∉ l) (hw0 : w ≠ 0) :
    ∀ r ∈ [IO_Event_Selector_resume rt backend w (fiber :: rest),
           IO_Event_Selector_raise rt backend w (fiber :: argument :: rest),
           IO_Event_Selector_yield rt backend w],
      (Queue r.entered (l ++ [w]) ∧ r.entered.waiting = w ∧
        r.entered.flags w = IO_EVENT_SELECTOR_QUEUE_FIBER ∧ r.entered.fiber w = rt.current ∧
        ∀ c ∈ r.calls, c.queue = r.entered) ∧
      (∀ xs ys, Queue r.left (xs ++ w :: ys) → Queue r.backend (xs ++ ys) ∧ w ∉ xs ++ ys) ∧
      (r.left = r.entered →
        r.backend = queue_node backend w rt.current ∧ Queue r.backend l ∧
        r.backend.ready = backend.ready ∧ r.backend.waiting = backend.waiting) := by
  intro r hr
  simp only [List.mem_cons, List.mem_singleton, List.not_mem_nil, or_false] at hr
  rcases hr with rfl | rfl | rfl
  · rw [resume_cons]
    exact frame_of_shape w rt.current _ h hw hw0 rfl rfl (transfer_calls _ _ _ _)
  · rw [raise_cons]
    refine frame_of_shape w rt.current _ h hw hw0 rfl rfl ?_
    intro c hm
    simp only [IO_Event_Fiber_raise, List.mem_singleton] at hm
    rw [hm]; rfl
  · unfold IO_Event_Selector_yield
    rw [resume_cons]
    exact frame_of_shape w rt.current _ h hw hw0 rfl rfl (transfer_calls _ _ _ _)
/-- C12 (witness): `yield` on the example queue with the frame node at address 7. -/
theorem resume_queue_frame_witness :
    (Queue (IO_Event_Selector_yield exampleRuntime exampleQueue 7).entered ([1, 2] ++ [7]) ∧
      (IO_Event_Selector_yield exampleRuntime exampleQueue 7).entered.waiting = 7 ∧
      (IO_Event_Selector_yield exampleRuntime exampleQueue 7).entered.flags 7
        = IO_EVENT_SELECTOR_QUEUE_FIBER ∧
      (IO_Event_Selector_yield exampleRuntime exampleQueue 7).entered.fiber 7
        = exampleRuntime.current ∧
      ∀ c ∈ (IO_Event_Selector_yield exampleRuntime exampleQueue 7).calls,
        c.queue = (IO_Event_Selector_yield exampleRuntime exampleQueue 7).entered) ∧
    (∀ xs ys, Queue (IO_Event_Selector_yield exampleRuntime exampleQueue 7).left
        (xs ++ 7 :: ys) →
      Queue (IO_Event_Selector_yield exampleRuntime exampleQueue 7).backend (xs ++ ys) ∧
        7 ∉ xs ++ ys) ∧
    ((IO_Event_Selector_yield exampleRuntime exampleQueue 7).left
        = (IO_Event_Selector_yield exampleRuntime exampleQueue 7).entered →
      (IO_Event_Selector_yield exampleRuntime exampleQueue 7).backend
          = queue_node exampleQueue 7 exampleRuntime.current ∧
        Queue (IO_Event_Selector_yield exampleRuntime exampleQueue 7).backend [1, 2] ∧
        (IO_Event_Selector_yield exampleRuntime exampleQueue 7).backend.ready
          = exampleQueue.ready ∧
        (IO_Event_Selector_yield exampleRuntime exampleQueue 7).backend.waiting
          = exampleQueue.waiting) :=
  resume_queue_frame exampleRuntime exampleQueue [1, 2] 7 10 0 [] example_queue (by decide)
    (by decide) (IO_Event_Selector_yield exampleRuntime exampleQueue 7) (by simp)

/-! ## resume and raise on a fiber that is not alive -/

/-- C13 (counterexample): `raise` on fiber 9, which is not alive, does call the raise
primitive of the runtime on that fiber, and (with a runtime that answers a raise on a dead
fiber by an exception, as Ruby does) is left by that exception, not with `nil`. -/
theorem raise_dead_fiber_raises :
    exampleRuntime.alive 9 = false ∧
      (IO_Event_Selector_raise exampleRuntime exampleQueue 7 [9, 1]).calls
        = [FiberCall.raise 9 [1]
            (IO_Event_Selector_raise exampleRuntime exampleQueue 7 [9, 1]).entered] ∧
      (IO_Event_Selector_raise exampleRuntime exampleQueue 7 [9, 1]).result
        = Returned.raised (RubyError.other 1) :=
  ⟨by decide, by rw [raise_cons]; rfl, by rw [raise_cons]; rfl⟩

/-- C13 (amended): for a target fiber that is not alive, `resume` calls no fiber primitive,
returns `nil` and leaves the ready queue as it found it; `raise` makes no such test: it
calls the raise primitive on the fiber, with the calling fiber's entry at the front of the
queue, and hands on what the primitive gives back. -/
theorem resume_dead_fiber (rt : Runtime) (backend : IO_Event_Selector) (l : List Nat)
    (w fiber argument : Nat) (rest : List Nat)
    (h : Queue backend l) (hw : w ∉ l) (hd : rt.alive fiber = false) :
    ((IO_Event_Selector_resume rt backend w (fiber :: rest)).calls = [] ∧
      (IO_Event_Selector_resume rt backend w (fiber :: rest)).result = Returned.nil ∧
      (IO_Event_Selector_resume rt backend w (fiber :: rest)).backend
        = queue_node backend w rt.current ∧
      Queue (IO_Event_Selector_resume rt backend w (fiber :: rest)).backend l ∧
      (IO_Event_Selector_resume rt backend w (fiber :: rest)).backend.ready
        = backend.ready ∧
      (IO_Event_Selector_resume rt backend w (fiber :: rest)).backend.waiting
        = backend.waiting) ∧
    ((IO_Event_Selector_raise rt backend w (fiber :: argument :: rest)).calls
        = [FiberCall.raise fiber (argument :: rest)
            (queue_push (queue_node backend w rt.current) w)] ∧
      (IO_Event_Selector_raise rt backend w (fiber :: argument :: rest)).result
        = (rt.raise fiber (argument :: rest)
            (queue_push (queue_node backend w rt.current) w)).2) := by
  constructor
  · rw [resume_cons]
    have ht : IO_Event_Fiber_transfer rt fiber rest
        (queue_push (queue_node backend w rt.current) w)
        = { backend := queue_push (queue_node backend w rt.current) w,
            result := Returned.nil, calls := [] } := by
      unfold IO_Event_Fiber_transfer
      rw [if_neg (by simp [hd])]
    rw [ht]
    have e := push_pop_restores w rt.current h hw
    refine ⟨rfl, rfl, e, ?_, ?_, ?_⟩
    · show Queue (queue_pop _ w) l
      rw [e]; exact queue_node_queue w rt.current h hw
    · show (queue_pop _ w).ready = _
      rw [e]; rfl
    · show (queue_pop _ w).waiting = _
      rw [e]; rfl
  · rw [raise_cons]
    exact ⟨rfl, rfl⟩

/-- C13 (witness): `resume` and `raise` on fiber 9 of the example runtime. -/
theorem resume_dead_fiber_witness :
    Queue exampleQueue [1, 2] ∧ exampleRuntime.alive 9 = false ∧
      (IO_Event_Selector_resume exampleRuntime exampleQueue 7 [9]).calls = [] ∧
      (IO_Event_Selector_resume exampleRuntime exampleQueue 7 [9]).result = Returned.nil ∧
      Queue (IO_Event_Selector_resume exampleRuntime exampleQueue 7 [9]).backend [1, 2] :=
  ⟨example_queue, by decide,
    (resume_dead_fiber exampleRuntime exampleQueue [1, 2] 7 9 0 [] example_queue (by decide)
      (by decide)).1.1,
    (resume_dead_fiber exampleRuntime exampleQueue [1, 2] 7 9 0 [] example_queue (by decide)
      (by decide)).1.2.1,
    (resume_dead_fiber exampleRuntime exampleQueue [1, 2] 7 9 0 [] example_queue (by decide)
      (by decide)).1.2.2.2.1⟩

/-! ## `nonblock` -/

theorem lor_land_self (a b : Nat) : (a ||| b) &&& b = b := by
  apply Nat.eq_of_testBit_eq
  intro i
  simp only [Nat.testBit_land, Nat.testBit_lor]
  cases a.testBit i <;> cases b.testBit i <;> rfl

/-- C17 (counterexample): on a descriptor that has `O_NONBLOCK` (2048) set, with a block
that clears the flag, `nonblock` makes no `F_SETFL` request and leaves the flag cleared:
it is not the value from before the call. -/
theorem nonblock_block_clears_flag :
    IO_Event_Selector_nonblock 2048 (fun _ => (0, false)) 2048
      = { entered := 2048, status := 0, raised := false, calls := [Fcntl.F_GETFL] } ∧
    (IO_Event_Selector_nonblock 2048 (fun _ => (0, false)) 2048).status &&& 2048
      ≠ 2048 &&& 2048 := by
  decide

/-- C17 (amended): for every prior flag word and every block, also one that raises,
`O_NONBLOCK` is set when the block starts; after `nonblock` the flag is as before the call
whenever it was clear before the call (whatever the block did to the flags) or the block
leaves the flag as it found it; when the flag was set before the call, `nonblock` makes no
`F_SETFL` request and the flags are those the block left. -/
theorem nonblock_restores (O_NONBLOCK : Nat) (hO : O_NONBLOCK ≠ 0)
    (block : Nat → Nat × Bool) (status : Nat) :
    (IO_Event_Selector_nonblock O_NONBLOCK block status).entered &&& O_NONBLOCK ≠ 0 ∧
    (status &&& O_NONBLOCK = 0 ∨
        (block (IO_Event_Selector_nonblock O_NONBLOCK block status).entered).1 &&& O_NONBLOCK
          = (IO_Event_Selector_nonblock O_NONBLOCK block status).entered &&& O_NONBLOCK →
      (IO_Event_Selector_nonblock O_NONBLOCK block status).status &&& O_NONBLOCK
        = status &&& O_NONBLOCK) ∧
    (status &&& O_NONBLOCK ≠ 0 →
      (IO_Event_Selector_nonblock O_NONBLOCK block status).calls = [Fcntl.F_GETFL] ∧
      (IO_Event_Selector_nonblock O_NONBLOCK block status).status = (block status).1) := by
  unfold IO_Event_Selector_nonblock IO_Event_Selector_nonblock_set
    IO_Event_Selector_nonblock_restore
  by_cases h : status &&& O_NONBLOCK = 0
  · simp only [if_pos h]
    refine ⟨by rw [lor_land_self]; exact hO, fun _ => trivial, fun hc => absurd h hc⟩
  · simp only [if_neg h]
    refine ⟨h, ?_, fun _ => by simp⟩
    rintro (hc | hc)
    · exact absurd hc h
    · exact hc

/-- C17 (witness): a descriptor without `O_NONBLOCK` and a block that raises after setting
another flag. -/
theorem nonblock_restores_witness :
    (2048 : Nat) ≠ 0 ∧
    (IO_Event_Selector_nonblock 2048 (fun s => (s ||| 1024, true)) 2).entered &&& 2048 ≠ 0 ∧
    (IO_Event_Selector_nonblock 2048 (fun s => (s ||| 1024, true)) 2).status &&& 2048
      = 2 &&& 2048 :=
  ⟨by decide,
    (nonblock_restores 2048 (by decide) (fun s => (s ||| 1024, true)) 2).1,
    (nonblock_restores 2048 (by decide) (fun s => (s ||| 1024, true)) 2).2.1
      (Or.inl (by decide))⟩

/-! ## Growing the indexed table -/

set_option maxRecDepth 100000 in
/-- C21 (the code at the failing input): on a table with no allocation, a resize to 129
succeeds with an allocated count of 128, and the lookup of index 128 that caused it then
accesses slot 128 outside the allocation. -/
theorem array_resize_empty_too_small :
    (129 : Nat) ≤ IO_EVENT_ARRAY_MAXIMUM_COUNT sizes64 ∧
    (IO_Event_Array_resize sizes64 129 true ( IO_Event_Array_initialize 0) 129).map
        (fun r => (r.1, r.2.count)) = some (1, 128) ∧
    (IO_Event_Array_lookup sizes64 129 true 1000 ( IO_Event_Array_initialize 0) 128).map
        (fun r => (r.1, r.2.count)) = some (Lookup.outside, 128) := by
  decide
theorem resize_loop_spec (S : Sizes) (count : Nat)
    (hc : count ≤ IO_EVENT_ARRAY_MAXIMUM_COUNT S) :
    ∀ (fuel new_count : Nat), 0 < new_count → count ≤ new_count + fuel →
      ∃ r, resize_loop S count fuel new_count = some r ∧ count ≤ r ∧ new_count ≤ r ∧
        (r ≤ IO_EVENT_ARRAY_MAXIMUM_COUNT S ∨ r = new_count) := by
  intro fuel
  induction fuel with
  | zero =>
    intro nc _ hf
    refine ⟨nc, ?_, by omega, le_refl _, Or.inr rfl⟩
    simp only [resize_loop]
    rw [if_neg (by omega)]
  | succ fuel ih =>
    intro nc hpos hf
    simp only [resize_loop]
    by_cases h1 : nc < count
    · rw [if_pos h1]
      by_cases h2 : nc > IO_EVENT_ARRAY_MAXIMUM_COUNT S / 2
      · rw [if_pos h2]
        exact ⟨_, rfl, hc, by omega, Or.inl (le_refl _)⟩
      · rw [if_neg h2]
        obtain ⟨r, hr, h3, h4, h5⟩ := ih (nc * 2) (by omega) (by omega)
        refine ⟨r, hr, h3, by omega, ?_⟩
        rcases h5 with h5 | h5
        · exact Or.inl h5
        · left
          rw [h5]
          have : nc ≤ IO_EVENT_ARRAY_MAXIMUM_COUNT S / 2 := by omega
          omega
    · rw [if_neg h1]
      exact ⟨nc, rfl, by omega, le_refl _, Or.inr rfl⟩

/-- On a table that has an allocation, a resize to a count up to the maximum that succeeds
leaves an allocated count of at least the count asked for, keeps the slots it had and adds
empty ones. -/
theorem array_resize_grows (S : Sizes) (grow : Bool) (array : IO_Event_Array) (count : Nat)
    (h0 : array.count ≠ 0) (hc : count ≤ IO_EVENT_ARRAY_MAXIMUM_COUNT S) :
    ∃ r a, IO_Event_Array_resize S count grow array count = some (r, a) ∧
      (r = -1 → a = array) ∧
      (r ≠ -1 → count ≤ a.count ∧ a.limit = array.limit ∧
        a.initialized = array.initialized ∧
        ∃ k, a.slots = array.slots ++ List.replicate k 0) := by
  unfold IO_Event_Array_resize
  by_cases h1 : count ≤ array.count
  · rw [if_pos h1]
    exact ⟨0, array, rfl, fun _ => rfl, fun _ => ⟨h1, rfl, rfl, 0, by simp⟩⟩
  · rw [if_neg h1, if_neg (by omega), if_neg h0]
    obtain ⟨r, hr, h3, h4, _⟩ :=
      resize_loop_spec S count hc count array.count (by omega) (by omega)
    rw [hr]
    dsimp only
    cases grow with
    | false => exact ⟨-1, array, rfl, fun _ => rfl, fun h => absurd rfl h⟩
    | true =>
      refine ⟨1, _, rfl, fun h => absurd h (by decide), fun _ => ⟨?_, rfl, rfl, _, rfl⟩⟩
      simp only [IO_Event_Array.count, List.length_append, List.length_replicate] at h4 ⊢
      omega

/-! ## Lookups beyond the maximum count -/

set_option maxRecDepth 100000 in
/-- C29 (the code at the failing input): the lookup of index `SIZE_MAX` computes the count
`0` in `size_t`, so it makes no resize and does not return `NULL`; it goes on to access
`base[SIZE_MAX]`, outside the 128 allocated slots. -/
theorem array_lookup_size_max :
    (sizes64.size_max + 1) % (sizes64.size_max + 1) = 0 ∧
    IO_Event_Array_lookup sizes64 0 true 1000 ( IO_Event_Array_initialize 128)
        sizes64.size_max
      = some (Lookup.outside, IO_Event_Array_initialize 128) := by
  decide

/-- For every other index whose count `index + 1` exceeds the maximum count, the lookup
returns `NULL` and leaves the table as it is. -/
theorem array_lookup_beyond_maximum (S : Sizes) (fuel : Nat) (grow : Bool) (fresh : Nat)
    (array : IO_Event_Array) (index : Nat)
    (ha : array.count ≤ IO_EVENT_ARRAY_MAXIMUM_COUNT S)
    (h1 : IO_EVENT_ARRAY_MAXIMUM_COUNT S ≤ index) (h2 : index < S.size_max) :
    IO_Event_Array_lookup S fuel grow fresh array index = some (Lookup.null, array) := by
  unfold IO_Event_Array_lookup IO_Event_Array_resize
  have hm : (index + 1) % (S.size_max + 1) = index + 1 := Nat.mod_eq_of_lt (by omega)
  simp only [hm]
  rw [if_pos (by omega), if_neg (by omega), if_pos (by omega)]
  simp

/-! ## Identity of the elements of the indexed table -/

theorem truncate_slots_length (limit old_limit : Nat) :
    ∀ (xs : List Nat) (i : Nat), (truncate_slots limit old_limit i xs).length = xs.length
  | [], _ => rfl
  | _ :: rest, i => by
    simp [truncate_slots, truncate_slots_length limit old_limit rest (i + 1)]

theorem truncate_slots_getD (limit old_limit : Nat) :
    ∀ (xs : List Nat) (i k : Nat),
      (truncate_slots limit old_limit i xs).getD k 0
        = if limit ≤ i + k ∧ i + k < old_limit then 0 else xs.getD k 0
  | [], _, _ => by simp [truncate_slots]
  | e :: rest, i, 0 => by simp [truncate_slots]
  | e :: rest, i, k + 1 => by
    have := truncate_slots_getD limit old_limit rest (i + 1) k
    simp only [truncate_slots, List.getD_cons_succ, this]
    have e1 : i + 1 + k = i + (k + 1) := by omega
    rw [e1]

theorem maximum_count_lt (S : Sizes) (h1 : 1 < S.pointer) (h2 : 0 < S.size_max) :
    IO_EVENT_ARRAY_MAXIMUM_COUNT S < S.size_max :=
  Nat.div_lt_self h2 h1

theorem getD_append_replicate (xs : List Nat) (n k : Nat) :
    (xs ++ List.replicate n 0).getD k 0 = xs.getD k 0 := by
  by_cases h : k < xs.length
  · simp [List.getD_eq_getElem?_getD, List.getElem?_append_left h]
  · have h' : xs.length ≤ k := by omega
    rw [List.getD_eq_default _ _ h']
    simp only [List.getD_eq_getElem?_getD, List.getElem?_append_right h']
    by_cases h2 : k - xs.length < n
    · simp [List.getElem?_replicate, h2]
    · simp [List.getElem?_replicate, h2]
theorem lookup_slot (S : Sizes) (fresh : Nat) (a : IO_Event_Array) (k : Nat)
    (hwf : ArrayWellFormed S a) (hk : k < a.count) (hf : fresh ≠ 0) :
    ∃ p a', (if a.count ≤ k then some (Lookup.outside, a)
        else if a.slots.getD k 0 = 0 then
          if fresh = 0 then some (Lookup.aborted, a)
          else
            some (Lookup.element fresh,
              { a with slots := a.slots.set k fresh,
                       initialized := a.initialized ++ [k],
                       limit := if k + 1 > a.limit then k + 1 else a.limit })
        else some (Lookup.element (a.slots.getD k 0), a)) = some (Lookup.element p, a') ∧
      p ≠ 0 ∧ a'.slots.getD k 0 = p ∧
      ArrayWellFormed S a' ∧ a'.count = a.count ∧ a.limit ≤ a'.limit ∧
      (∀ j, a.slots.getD j 0 ≠ 0 → a'.slots.getD j 0 = a.slots.getD j 0 ∧
        a'.initialized.count j = a.initialized.count j) ∧
      (∀ j, j ≠ k → a'.slots.getD j 0 = a.slots.getD j 0) := by
  rw [if_neg (by omega)]
  by_cases h0 : a.slots.getD k 0 = 0
  · rw [if_pos h0, if_neg hf]
    have hk' : k < a.slots.length := hk
    refine ⟨fresh, _, rfl, hf, ?_, ?_, ?_, ?_, ?_, ?_⟩
    · simp [List.getD_eq_getElem?_getD, hk']
    · refine ⟨?_, ?_, ?_⟩
      · show (if k + 1 > a.limit then k + 1 else a.limit) ≤ (a.slots.set k fresh).length
        rw [List.length_set]
        split_ifs
        · exact hk'
        · exact hwf.1
      · show (a.slots.set k fresh).length ≤ _
        rw [List.length_set]; exact hwf.2.1
      · intro j hj
        have hj' : (if k + 1 > a.limit then k + 1 else a.limit) ≤ j := hj
        have hjk : j ≠ k := by split_ifs at hj' <;> omega
        have hjl : a.limit ≤ j := by split_ifs at hj' <;> omega
        show (a.slots.set k fresh).getD j 0 = 0
        rw [List.getD_eq_getElem?_getD, List.getElem?_set_ne (Ne.symm hjk),
          ← List.getD_eq_getElem?_getD]
        exact hwf.2.2 j hjl
    · show (a.slots.set k fresh).length = a.slots.length
      exact List.length_set _ _ _
    · show a.limit ≤ (if k + 1 > a.limit then k + 1 else a.limit)
      split_ifs <;> omega
    · intro j hj
      have hjk : j ≠ k := fun e => hj (e ▸ h0)
      refine ⟨?_, ?_⟩
      · show (a.slots.set k fresh).getD j 0 = _
        rw [List.getD_eq_getElem?_getD, List.getElem?_set_ne (Ne.symm hjk),
          ← List.getD_eq_getElem?_getD]
      · show (a.initialized ++ [k]).count j = _
        rw [List.count_append]
        simp [List.count_cons, Ne.symm hjk]
    · intro j hjk
      show (a.slots.set k fresh).getD j 0 = _
      rw [List.getD_eq_getElem?_getD, List.getElem?_set_ne (Ne.symm hjk),
        ← List.getD_eq_getElem?_getD]
  · rw [if_neg h0]
    exact ⟨_, a, rfl, h0, rfl, hwf, rfl, le_refl _, fun j _ => ⟨rfl, rfl⟩, fun j _ => rfl⟩
theorem array_resize_bounded (S : Sizes) (grow : Bool) (array : IO_Event_Array) (count : Nat)
    (h0 : array.count ≠ 0) (hc : count ≤ IO_EVENT_ARRAY_MAXIMUM_COUNT S)
    (ha : array.count ≤ IO_EVENT_ARRAY_MAXIMUM_COUNT S) (r : Int) (a : IO_Event_Array)
    (h : IO_Event_Array_resize S count grow array count = some (r, a)) :
    a.count ≤ IO_EVENT_ARRAY_MAXIMUM_COUNT S := by
  unfold IO_Event_Array_resize at h
  by_cases h1 : count ≤ array.count
  · rw [if_pos h1] at h
    simp only [Option.some.injEq, Prod.mk.injEq] at h
    rw [← h.2]; exact ha
  · rw [if_neg h1, if_neg (by omega), if_neg h0] at h
    obtain ⟨n, hn, _, h4, h5⟩ :=
      resize_loop_spec S count hc count array.count (by omega) (by omega)
    rw [hn] at h
    dsimp only at h
    cases grow with
    | false =>
      simp only [if_true, Option.some.injEq, Prod.mk.injEq] at h
      rw [← h.2]; exact ha
    | true =>
      simp only [Bool.true_eq_false, if_false, Option.some.injEq, Prod.mk.injEq] at h
      rw [← h.2]
      simp only [IO_Event_Array.count, List.length_append, List.length_replicate] at h4 ha ⊢
      rcases h5 with h5 | h5
      · omega
      · omega
theorem lookup_cases (S : Sizes) (grow : Bool)
    (fresh : Nat) (a : IO_Event_Array) (k : Nat)
    (hwf : ArrayWellFormed S a) (h0 : a.count ≠ 0) (hk : k < S.size_max) (hf : fresh ≠ 0) :
    ∃ r a', IO_Event_Array_lookup S (k + 1) grow fresh a k = some (r, a') ∧
      (r = Lookup.null ∨ ∃ p, r = Lookup.element p ∧ p ≠ 0 ∧ a'.slots.getD k 0 = p) ∧
      ArrayWellFormed S a' ∧ a.count ≤ a'.count ∧ a.limit ≤ a'.limit ∧
      (∀ j, a.slots.getD j 0 ≠ 0 → a'.slots.getD j 0 = a.slots.getD j 0 ∧
        a'.initialized.count j = a.initialized.count j) := by
  have hm : (k + 1) % (S.size_max + 1) = k + 1 := Nat.mod_eq_of_lt (by omega)
  unfold IO_Event_Array_lookup
  simp only [hm]
  by_cases h1 : k + 1 > a.count
  · rw [if_pos h1]
    by_cases h2 : k + 1 > IO_EVENT_ARRAY_MAXIMUM_COUNT S
    · have : IO_Event_Array_resize S (k + 1) grow a (k + 1) = some (-1, a) := by
        unfold IO_Event_Array_resize
        rw [if_neg (by omega), if_pos h2]
      rw [this]
      exact ⟨Lookup.null, a, by simp, Or.inl rfl, hwf, le_refl _, le_refl _,
        fun j _ => ⟨rfl, rfl⟩⟩
    · obtain ⟨r, a1, hr, hneg, hpos⟩ := array_resize_grows S grow a (k + 1) h0 (by omega)
      rw [hr]
      by_cases h3 : r = -1
      · rw [hneg h3]
        exact ⟨Lookup.null, a, by simp [h3], Or.inl rfl, hwf, le_refl _, le_refl _,
          fun j _ => ⟨rfl, rfl⟩⟩
      · obtain ⟨hc, hl, hi, n, hsl⟩ := hpos h3
        have hwf1 : ArrayWellFormed S a1 := by
          refine ⟨?_, ?_, ?_⟩
          · rw [hl]
            have := hwf.1
            simp only [IO_Event_Array.count, hsl, List.length_append] at this ⊢
            omega
          · exact array_resize_bounded S grow a (k + 1) h0 (by omega) hwf.2.1 r a1 hr
          · intro j hj
            rw [hsl, getD_append_replicate]
            exact hwf.2.2 j (by rw [← hl]; exact hj)
        obtain ⟨p, a', he, hp0, hpk, hwf', hc', hl', hkeep, _⟩ :=
          lookup_slot S fresh a1 k hwf1 (by omega) hf
        dsimp only
        rw [if_neg h3, he]
        refine ⟨_, a', rfl, Or.inr ⟨p, rfl, hp0, hpk⟩, hwf', ?_, ?_, ?_⟩
        · rw [hc']
          simp only [IO_Event_Array.count, hsl, List.length_append]
          omega
        · omega
        · intro j hj
          have e1 : a1.slots.getD j 0 = a.slots.getD j 0 := by
            rw [hsl, getD_append_replicate]
          have := hkeep j (by rw [e1]; exact hj)
          rw [e1, hi] at this
          exact this
  · rw [if_neg h1]
    obtain ⟨p, a', he, hp0, hpk, hwf', hc', hl', hkeep, _⟩ :=
      lookup_slot S fresh a k hwf (by omega) hf
    dsimp only
    rw [if_neg (by decide), he]
    exact ⟨_, a', rfl, Or.inr ⟨p, rfl, hp0, hpk⟩, hwf', by omega, hl', hkeep⟩
theorem resize_cases (S : Sizes) (grow : Bool) (a : IO_Event_Array) (count : Nat)
    (hwf : ArrayWellFormed S a) (h0 : a.count ≠ 0) :
    ∃ r a', IO_Event_Array_resize S count grow a count = some (r, a') ∧
      ArrayWellFormed S a' ∧ a'.limit = a.limit ∧ a'.initialized = a.initialized ∧
      ∀ j, a'.slots.getD j 0 = a.slots.getD j 0 := by
  by_cases h2 : count > IO_EVENT_ARRAY_MAXIMUM_COUNT S
  · refine ⟨-1, a, ?_, hwf, rfl, rfl, fun _ => rfl⟩
    unfold IO_Event_Array_resize
    have := hwf.2.1
    rw [if_neg (by omega), if_pos h2]
  · obtain ⟨r, a1, hr, hneg, hpos⟩ := array_resize_grows S grow a count h0 (by omega)
    refine ⟨r, a1, hr, ?_⟩
    by_cases h3 : r = -1
    · rw [hneg h3]
      exact ⟨hwf, rfl, rfl, fun _ => rfl⟩
    · obtain ⟨_, hl, hi, n, hsl⟩ := hpos h3
      refine ⟨⟨?_, ?_, ?_⟩, hl, hi, ?_⟩
      · rw [hl]
        have := hwf.1
        simp only [IO_Event_Array.count, hsl, List.length_append] at this ⊢
        omega
      · exact array_resize_bounded S grow a count h0 (by omega) hwf.2.1 r a1 hr
      · intro j hj
        rw [hsl, getD_append_replicate]
        exact hwf.2.2 j (by rw [← hl]; exact hj)
      · intro j
        rw [hsl, getD_append_replicate]

theorem truncate_keeps (S : Sizes) (a : IO_Event_Array) (limit : Nat)
    (hwf : ArrayWellFormed S a) :
    ArrayWellFormed S (IO_Event_Array_truncate a limit) ∧
      (IO_Event_Array_truncate a limit).initialized = a.initialized ∧
      ∀ k, k < limit →
        (IO_Event_Array_truncate a limit).slots.getD k 0 = a.slots.getD k 0 := by
  unfold IO_Event_Array_truncate
  by_cases h : limit < a.limit
  · rw [if_pos h]
    refine ⟨⟨?_, ?_, ?_⟩, rfl, ?_⟩
    · show limit ≤ (truncate_slots limit a.limit 0 a.slots).length
      rw [truncate_slots_length]
      have := hwf.1
      simp only [IO_Event_Array.count] at this
      omega
    · show (truncate_slots limit a.limit 0 a.slots).length ≤ _
      rw [truncate_slots_length]; exact hwf.2.1
    · intro k hk
      show (truncate_slots limit a.limit 0 a.slots).getD k 0 = 0
      have hk' : limit ≤ k := hk
      rw [truncate_slots_getD]
      split_ifs with h1
      · rfl
      · exact hwf.2.2 k (by simp only [Nat.zero_add] at h1; omega)
    · intro k hk
      show (truncate_slots limit a.limit 0 a.slots).getD k 0 = _
      rw [truncate_slots_getD, if_neg (by simp only [Nat.zero_add]; omega)]
  · rw [if_neg h]
    exact ⟨hwf, rfl, fun _ _ => rfl⟩

theorem getD_ne_zero_lt (xs : List Nat) (i : Nat) (h : xs.getD i 0 ≠ 0) : i < xs.length := by
  by_contra hc
  exact h (List.getD_eq_default _ _ (by omega))

theorem apply_keeps (S : Sizes) (hp : 1 < S.pointer) (hs : 0 < S.size_max)
    (a : IO_Event_Array) (i e : Nat) (op : ArrayOp) (hwf : ArrayWellFormed S a)
    (hi : a.slots.getD i 0 = e) (he : e ≠ 0) (hadm : Admissible S i op) :
    ∃ a', IO_Event_Array_apply S a op = some a' ∧ ArrayWellFormed S a' ∧
      a'.slots.getD i 0 = e ∧ a'.initialized.count i = a.initialized.count i := by
  have hil : i < a.slots.length := getD_ne_zero_lt _ _ (by rw [hi]; exact he)
  have h0 : a.count ≠ 0 := by simp only [IO_Event_Array.count]; omega
  have hne : a.slots.getD i 0 ≠ 0 := by rw [hi]; exact he
  cases op with
  | lookup k grow fresh =>
    obtain ⟨hk, hf⟩ := hadm
    obtain ⟨r, a', hr, hres, hwf', _, _, hkeep⟩ := lookup_cases S grow fresh a k hwf h0 hk hf
    have hk2 := hkeep i hne
    refine ⟨a', ?_, hwf', by rw [hk2.1, hi], hk2.2⟩
    simp only [IO_Event_Array_apply, hr]
    rcases hres with rfl | ⟨p, rfl, _, _⟩ <;> rfl
  | push grow fresh =>
    have hf : fresh ≠ 0 := hadm
    have hl : a.limit < S.size_max := by
      have := maximum_count_lt S hp hs
      have := hwf.1
      have := hwf.2.1
      omega
    obtain ⟨r, a', hr, hres, hwf', _, _, hkeep⟩ :=
      lookup_cases S grow fresh a a.limit hwf h0 hl hf
    have hk2 := hkeep i hne
    refine ⟨a', ?_, hwf', by rw [hk2.1, hi], hk2.2⟩
    simp only [IO_Event_Array_apply, IO_Event_Array_push, hr]
    rcases hres with rfl | ⟨p, rfl, _, _⟩ <;> rfl
  | resize count grow =>
    obtain ⟨r, a', hr, hwf', _, hin, hsl⟩ := resize_cases S grow a count hwf h0
    refine ⟨a', ?_, hwf', by rw [hsl, hi], by rw [hin]⟩
    simp [IO_Event_Array_apply, hr]
  | each => exact ⟨a, rfl, hwf, hi, rfl⟩
  | truncate limit =>
    have hl : i < limit := hadm
    obtain ⟨hwf', hin, hsl⟩ := truncate_keeps S a limit hwf
    exact ⟨_, rfl, hwf', by rw [hsl i hl, hi], by rw [hin]⟩

theorem run_keeps (S : Sizes) (hp : 1 < S.pointer) (hs : 0 < S.size_max) (i e : Nat)
    (he : e ≠ 0) :
    ∀ (ops : List ArrayOp) (a : IO_Event_Array), ArrayWellFormed S a →
      a.slots.getD i 0 = e → (∀ op ∈ ops, Admissible S i op) →
      ∃ a', IO_Event_Array_run S ops a = some a' ∧ ArrayWellFormed S a' ∧
        a'.slots.getD i 0 = e ∧ a'.initialized.count i = a.initialized.count i
  | [], a, hwf, hi, _ => ⟨a, rfl, hwf, hi, rfl⟩
  | op :: ops, a, hwf, hi, hadm => by
    obtain ⟨a1, h1, hwf1, hi1, hc1⟩ :=
      apply_keeps S hp hs a i e op hwf hi he (hadm op (by simp))
    obtain ⟨a2, h2, hwf2, hi2, hc2⟩ :=
      run_keeps S hp hs i e he ops a1 hwf1 hi1 (fun o ho => hadm o (by simp [ho]))
    refine ⟨a2, ?_, hwf2, hi2, by rw [hc2, hc1]⟩
    simp only [IO_Event_Array_run, h1, h2]
theorem lookup_existing (S : Sizes) (fuel : Nat) (grow : Bool) (fresh : Nat)
    (a : IO_Event_Array) (i e : Nat) (hwf : ArrayWellFormed S a)
    (hi : a.slots.getD i 0 = e) (he : e ≠ 0) :
    IO_Event_Array_lookup S fuel grow fresh a i = some (Lookup.element e, a) := by
  have hil : i < a.slots.length := getD_ne_zero_lt _ _ (by rw [hi]; exact he)
  have hc : a.count ≤ S.size_max := le_trans hwf.2.1 (Nat.div_le_self _ _)
  have hil' : i < a.count := hil
  have hm : (i + 1) % (S.size_max + 1) = i + 1 := Nat.mod_eq_of_lt (by omega)
  unfold IO_Event_Array_lookup
  simp only [hm]
  rw [if_neg (by omega)]
  dsimp only
  rw [if_neg (by decide), if_neg (by omega), if_neg (by rw [hi]; exact he), hi]

/-- C18: in a well-formed table that holds the element `e` at index `i`, after every
sequence of lookups, pushes, resizes and iterations (also ones that grow and reallocate the
pointer table) and of truncates to limits above `i`, every lookup of `i` returns `e` and
changes nothing, and the element at `i` has not been initialized again; and a truncate to
the limit `j` leaves every slot below `j` as it is. -/
theorem array_element_identity (S : Sizes) (hp : 1 < S.pointer) (hs : 0 < S.size_max)
    (a : IO_Event_Array) (i e : Nat) (ops : List ArrayOp) (hwf : ArrayWellFormed S a)
    (hi : a.slots.getD i 0 = e) (he : e ≠ 0) (hadm : ∀ op ∈ ops, Admissible S i op) :
    ∃ a', IO_Event_Array_run S ops a = some a' ∧
      (∀ fuel grow fresh,
        IO_Event_Array_lookup S fuel grow fresh a' i = some (Lookup.element e, a')) ∧
      a'.initialized.count i = a.initialized.count i ∧
      (∀ j k, k < j →
        (IO_Event_Array_truncate a' j).slots.getD k 0 = a'.slots.getD k 0) := by
  obtain ⟨a', hrun, hwf', hi', hc'⟩ := run_keeps S hp hs i e he ops a hwf hi hadm
  exact ⟨a', hrun, fun fuel grow fresh => lookup_existing S fuel grow fresh a' i e hwf' hi' he,
    hc', fun j k hk => (truncate_keeps S a' j hwf').2.2 k hk⟩

theorem example_array_well_formed : ArrayWellFormed sizes64 exampleArray := by
  refine ⟨by decide, by decide, ?_⟩
  intro k hk
  match k, hk with
  | 0, h => exact absurd h (by decide)
  | 1, h => exact absurd h (by decide)
  | 2, h => exact absurd h (by decide)
  | 3, _ => rfl
  | k + 4, _ => rfl

/-- C18 (witness): on the example table, with a lookup that grows the table, a push, a
resize, an iteration and a truncate to limit 3 between the lookups of index 2. -/
theorem array_element_identity_witness :
    ∃ a', IO_Event_Array_run sizes64
        [ArrayOp.lookup 9 true 1001, ArrayOp.push true 1002, ArrayOp.resize 40 true,
          ArrayOp.each, ArrayOp.truncate 3] exampleArray = some a' ∧
      (∀ fuel grow fresh,
        IO_Event_Array_lookup sizes64 fuel grow fresh a' 2 = some (Lookup.element 1000, a')) ∧
      a'.initialized.count 2 = exampleArray.initialized.count 2 ∧
      (∀ j k, k < j →
        (IO_Event_Array_truncate a' j).slots.getD k 0 = a'.slots.getD k 0) :=
  array_element_identity sizes64 (by decide) (by decide) exampleArray 2 1000 _
    example_array_well_formed rfl (by decide) (by
      intro op hop
      simp only [List.mem_cons, List.mem_singleton, List.not_mem_nil, or_false] at hop
      rcases hop with rfl | rfl | rfl | rfl | rfl
      · exact ⟨by decide, by decide⟩
      · exact (by decide : (1002 : Nat) ≠ 0)
      · trivial
      · trivial
      · exact (by decide : 2 < 3))

/-! ## io_uring: the free list of completion records -/

/-- C24 (the code at the failing input): with exactly one released record (at address 1000)
on the free list, `acquire` for the waiter at address 20 does not take that record: it
grows the table by a new record (at address 2000, the limit goes from 1 to 2) and leaves
the released record on the free list. -/
theorem uring_acquire_skips_single_free_record :
    (URing.oneReleased.bind (fun s => traversal s.memory s.free_list 1)) = some [1000] ∧
    (URing.oneReleased.map (fun s => s.completions.limit)) = some 1 ∧
    (URing.oneReleased.bind (fun s =>
      (URing.IO_Event_Selector_URing_Completion_acquire sizes64 true 2000 s 20).map
        (fun r => (r.1, r.2.completions.limit, traversal r.2.memory r.2.free_list 1))))
      = some (2000, 2, some [1000]) := by
  decide
/-! ## io_uring: the linkage of waiters and completion records -/

theorem paired_completion_cancel {record : Nat → Prop} {wt cp : Nat → Nat}
    (h : URing.Paired record wt cp) (c : Nat) (hc0 : c ≠ 0) (hc : record c)
    (hw : wt c ≠ 0) : URing.Paired record (store wt c 0) (store cp (wt c) 0) := by
  have hcw : cp (wt c) = c := ((h c _ hc0 hw).2 hc).1 rfl
  intro c' w' hc' hw'
  have hold := h c' w' hc' hw'
  refine ⟨?_, ?_⟩
  · intro e
    by_cases h1 : w' = wt c
    · rw [h1, store_same] at e
      exact absurd e.symm hc'
    · rw [store_other _ _ _ _ h1] at e
      exact hold.1 e
  · intro hl
    by_cases h2 : c' = c
    · subst h2
      rw [store_same]
      constructor
      · intro e; exact absurd e.symm hw'
      · intro e
        by_cases h1 : w' = wt c'
        · rw [h1, store_same] at e
          exact absurd e.symm hc'
        · rw [store_other _ _ _ _ h1] at e
          exact absurd ((hold.2 hl).2 e).symm h1
    · rw [store_other _ _ _ _ h2]
      by_cases h1 : w' = wt c
      · rw [h1, store_same]
        constructor
        · intro e
          have := ((h c' _ hc' hw).2 hl).1 e
          rw [hcw] at this
          exact absurd this.symm h2
        · intro e; exact absurd e.symm hc'
      · rw [store_other _ _ _ _ h1]
        exact hold.2 hl

theorem paired_waiting_cancel {record : Nat → Prop} {wt cp : Nat → Nat}
    (h : URing.Paired record wt cp) (w : Nat) (hw0 : w ≠ 0) (hc : cp w ≠ 0) :
    URing.Paired record (store wt (cp w) 0) (store cp w 0) := by
  have hrec : record (cp w) := (h _ w hc hw0).1 rfl
  have hwc : wt (cp w) = w := ((h _ w hc hw0).2 hrec).2 rfl
  have := paired_completion_cancel h (cp w) hc hrec (by rw [hwc]; exact hw0)
  rw [hwc] at this
  exact this

theorem paired_attach {record record' : Nat → Prop} {wt cp : Nat → Nat}
    (h : URing.Paired record wt cp) (c w : Nat) (hc0 : c ≠ 0) (hw0 : w ≠ 0)
    (hw : cp w = 0) (hc : record c → wt c = 0)
    (hr : ∀ c', record' c' ↔ record c' ∨ c' = c) :
    URing.Paired record' (store wt c w) (store cp w c) := by
  intro c' w' hc' hw'
  have hold := h c' w' hc' hw'
  refine ⟨?_, ?_⟩
  · intro e
    by_cases h1 : w' = w
    · rw [h1, store_same] at e
      exact (hr c').2 (Or.inr e.symm)
    · rw [store_other _ _ _ _ h1] at e
      exact (hr c').2 (Or.inl (hold.1 e))
  · intro hl
    by_cases h2 : c' = c
    · subst h2
      rw [store_same]
      constructor
      · intro e; rw [← e, store_same]
      · intro e
        by_cases h1 : w' = w
        · exact h1.symm
        · rw [store_other _ _ _ _ h1] at e
          have hrc := hold.1 e
          have := ((hold.2 hrc).2 e)
          rw [hc hrc] at this
          exact absurd this.symm hw'
    · rw [store_other _ _ _ _ h2]
      have hrc : record c' := by
        rcases (hr c').1 hl with h3 | h3
        · exact h3
        · exact absurd h3 h2
      by_cases h1 : w' = w
      · rw [h1, store_same]
        constructor
        · intro e
          have := ((h c' w hc' hw0).2 hrc).1 e
          rw [hw] at this
          exact absurd this.symm hc'
        · intro e; exact absurd e.symm h2
      · rw [store_other _ _ _ _ h1]
        exact hold.2 hrc
theorem uring_completion_cancel_spec (S : Sizes) (s : URing.Records) (fl : List Nat)
    (h : URing.Consistent S s fl) (c : Nat) (hc : URing.Live s c) :
    URing.Consistent S (URing.IO_Event_Selector_URing_Completion_cancel s c) fl ∧
      (URing.IO_Event_Selector_URing_Completion_cancel s c).waiting c = 0 ∧
      (s.waiting c ≠ 0 →
        (URing.IO_Event_Selector_URing_Completion_cancel s c).completion (s.waiting c) = 0) ∧
      URing.IO_Event_Selector_URing_Completion_cancel
          (URing.IO_Event_Selector_URing_Completion_cancel s c) c
        = URing.IO_Event_Selector_URing_Completion_cancel s c := by
  obtain ⟨hsym, hfl, hwf, h0⟩ := h
  by_cases hw : s.waiting c = 0
  · have e : URing.IO_Event_Selector_URing_Completion_cancel s c = s := by
      unfold URing.IO_Event_Selector_URing_Completion_cancel
      rw [if_neg (by simp [hw])]
    rw [e, e]
    exact ⟨⟨hsym, hfl, hwf, h0⟩, hw, fun h => absurd hw h, rfl⟩
  · have e : URing.IO_Event_Selector_URing_Completion_cancel s c
        = { s with completion := store s.completion (s.waiting c) 0,
                   waiting := store s.waiting c 0 } := by
      unfold URing.IO_Event_Selector_URing_Completion_cancel
      rw [if_pos hw]
    have e2 : URing.IO_Event_Selector_URing_Completion_cancel
        { s with completion := store s.completion (s.waiting c) 0,
                 waiting := store s.waiting c 0 } c
        = { s with completion := store s.completion (s.waiting c) 0,
                   waiting := store s.waiting c 0 } := by
      unfold URing.IO_Event_Selector_URing_Completion_cancel
      rw [if_neg (by simp [store_same])]
    rw [e, e2]
    refine ⟨⟨?_, ?_, hwf, h0⟩, store_same _ _ _, fun _ => store_same _ _ _, rfl⟩
    · exact paired_completion_cancel hsym c hc.1 hc hw
    · refine ⟨hfl.1, ?_⟩
      intro c' hm
      refine ⟨(hfl.2 c' hm).1, ?_⟩
      show store s.waiting c 0 c' = 0
      by_cases h2 : c' = c
      · rw [h2, store_same]
      · rw [store_other _ _ _ _ h2]; exact (hfl.2 c' hm).2

theorem uring_waiting_cancel_spec (S : Sizes) (s : URing.Records) (fl : List Nat)
    (h : URing.Consistent S s fl) (w : Nat) (hw0 : w ≠ 0) :
    URing.Consistent S (URing.IO_Event_Selector_URing_Waiting_cancel s w) fl ∧
      (URing.IO_Event_Selector_URing_Waiting_cancel s w).completion w = 0 ∧
      (s.completion w ≠ 0 →
        (URing.IO_Event_Selector_URing_Waiting_cancel s w).waiting (s.completion w) = 0) ∧
      URing.IO_Event_Selector_URing_Waiting_cancel
          (URing.IO_Event_Selector_URing_Waiting_cancel s w) w
        = URing.IO_Event_Selector_URing_Waiting_cancel s w := by
  obtain ⟨hsym, hfl, hwf, h0⟩ := h
  by_cases hc : s.completion w = 0
  · have e : URing.IO_Event_Selector_URing_Waiting_cancel s w
        = { s with fiber := store s.fiber w 0 } := by
      unfold URing.IO_Event_Selector_URing_Waiting_cancel
      rw [if_neg (by simp [hc])]
    have e2 : URing.IO_Event_Selector_URing_Waiting_cancel
        { s with fiber := store s.fiber w 0 } w = { s with fiber := store s.fiber w 0 } := by
      unfold URing.IO_Event_Selector_URing_Waiting_cancel
      rw [if_neg (by simp [hc])]
      dsimp only
      congr 1
      funext a
      by_cases h1 : a = w <;> simp [store, h1]
    rw [e, e2]
    exact ⟨⟨hsym, hfl, hwf, h0⟩, hc, fun h => absurd hc h, rfl⟩
  · have e : URing.IO_Event_Selector_URing_Waiting_cancel s w
        = { s with waiting := store s.waiting (s.completion w) 0,
                   completion := store s.completion w 0,
                   fiber := store s.fiber w 0 } := by
      unfold URing.IO_Event_Selector_URing_Waiting_cancel
      rw [if_pos hc]
    have e2 : URing.IO_Event_Selector_URing_Waiting_cancel
        { s with waiting := store s.waiting (s.completion w) 0,
                 completion := store s.completion w 0,
                 fiber := store s.fiber w 0 } w
        = { s with waiting := store s.waiting (s.completion w) 0,
                   completion := store s.completion w 0,
                   fiber := store s.fiber w 0 } := by
      unfold URing.IO_Event_Selector_URing_Waiting_cancel
      rw [if_neg (by simp [store_same])]
      dsimp only
      congr 1
      funext a
      by_cases h1 : a = w <;> simp [store, h1]
    rw [e, e2]
    refine ⟨⟨?_, ?_, hwf, h0⟩, store_same _ _ _, fun _ => store_same _ _ _, rfl⟩
    · exact paired_waiting_cancel hsym w hw0 hc
    · refine ⟨hfl.1, ?_⟩
      intro c' hm
      refine ⟨(hfl.2 c' hm).1, ?_⟩
      show store s.waiting (s.completion w) 0 c' = 0
      by_cases h2 : c' = s.completion w
      · rw [h2, store_same]
      · rw [store_other _ _ _ _ h2]; exact (hfl.2 c' hm).2

theorem uring_completion_release_spec (S : Sizes) (s : URing.Records) (fl : List Nat)
    (h : URing.Consistent S s fl) (c : Nat) (hc : URing.Live s c)
    (hn : c ∉ s.free_list :: fl) :
    URing.Consistent S (URing.IO_Event_Selector_URing_Completion_release s c) (c :: fl) ∧
      (URing.IO_Event_Selector_URing_Completion_release s c).waiting c = 0 ∧
      (s.waiting c ≠ 0 →
        (URing.IO_Event_Selector_URing_Completion_release s c).completion (s.waiting c)
          = 0) := by
  obtain ⟨hcons, hw, hcw, _⟩ := uring_completion_cancel_spec S s fl h c hc
  obtain ⟨hsym, hfl, hwf, h0⟩ := hcons
  have hm : (URing.IO_Event_Selector_URing_Completion_cancel s c).memory = s.memory := by
    unfold URing.IO_Event_Selector_URing_Completion_cancel
    split_ifs <;> rfl
  have hf : (URing.IO_Event_Selector_URing_Completion_cancel s c).free_list = s.free_list := by
    unfold URing.IO_Event_Selector_URing_Completion_cancel
    split_ifs <;> rfl
  have hcmp : (URing.IO_Event_Selector_URing_Completion_cancel s c).completions
      = s.completions := by
    unfold URing.IO_Event_Selector_URing_Completion_cancel
    split_ifs <;> rfl
  refine ⟨⟨hsym, ?_, hwf, h0⟩, hw, hcw⟩
  refine ⟨?_, ?_⟩
  · show Ring (IO_Event_List_prepend
        (URing.IO_Event_Selector_URing_Completion_cancel s c).memory
        (URing.IO_Event_Selector_URing_Completion_cancel s c).free_list c)
      (URing.IO_Event_Selector_URing_Completion_cancel s c).free_list (c :: fl)
    exact ring_prepend c (by rw [hf]; exact hn) hfl.1
  · intro c' hm'
    rcases List.mem_cons.1 hm' with rfl | hm'
    · refine ⟨?_, hw⟩
      show c' ≠ 0 ∧ ∃ j,
        (URing.IO_Event_Selector_URing_Completion_cancel s c').completions.slots.getD j 0 = c'
      rw [hcmp]
      exact hc
    · exact hfl.2 c' hm'
theorem ring_congr {m m' : ListMemory} {L : Nat} {ws : List Nat}
    (hh : ∀ a ∈ L :: ws, m'.head a = m.head a) (ht : ∀ a ∈ L :: ws, m'.tail a = m.tail a)
    (h : Ring m L ws) : Ring m' L ws := by
  refine ⟨h.nodup, walk_congr _ _ ht h.forward, walk_congr _ _ ?_ h.backward⟩
  intro a ha
  apply hh
  rcases List.mem_cons.1 ha with e | hm
  · exact List.mem_cons.2 (Or.inl e)
  · exact List.mem_cons_of_mem _ (List.mem_reverse.1 hm)

theorem getD_set (xs : List Nat) (k v j : Nat) (hk : k < xs.length) :
    (xs.set k v).getD j 0 = if j = k then v else xs.getD j 0 := by
  by_cases h : j = k
  · subst h
    simp [List.getD_eq_getElem?_getD, hk]
  · rw [if_neg h, List.getD_eq_getElem?_getD, List.getElem?_set_ne (Ne.symm h),
      ← List.getD_eq_getElem?_getD]

theorem push_fresh (S : Sizes) (hp : 1 < S.pointer) (hs : 0 < S.size_max) (grow : Bool)
    (fresh : Nat) (a : IO_Event_Array) (hwf : ArrayWellFormed S a) (h0 : a.count ≠ 0)
    (hf : fresh ≠ 0) :
    IO_Event_Array_push S (a.limit + 1) grow fresh a = some (Lookup.null, a) ∨
    ∃ a', IO_Event_Array_push S (a.limit + 1) grow fresh a
        = some (Lookup.element fresh, a') ∧
      a'.initialized = a.initialized ++ [a.limit] ∧ a'.limit = a.limit + 1 ∧
      ArrayWellFormed S a' ∧ a'.count ≠ 0 ∧
      ∀ c, (c ≠ 0 ∧ ∃ j, a'.slots.getD j 0 = c) ↔
        ((c ≠ 0 ∧ ∃ j, a.slots.getD j 0 = c) ∨ c = fresh) := by
  have hl : a.limit < S.size_max := by
    have := maximum_count_lt S hp hs
    have := hwf.1
    have := hwf.2.1
    omega
  have hm : (a.limit + 1) % (S.size_max + 1) = a.limit + 1 := Nat.mod_eq_of_lt (by omega)
  have hz : a.slots.getD a.limit 0 = 0 := hwf.2.2 _ (le_refl _)
  have key : ∀ a1 : IO_Event_Array, ArrayWellFormed S a1 → a.limit < a1.count →
      a1.limit = a.limit → a1.initialized = a.initialized →
      (∀ j, a1.slots.getD j 0 = a.slots.getD j 0) →
      ∃ a', a' = { a1 with slots := a1.slots.set a.limit fresh,
                           initialized := a1.initialized ++ [a.limit],
                           limit := if a.limit + 1 > a1.limit then a.limit + 1
                                    else a1.limit } ∧
        a'.initialized = a.initialized ++ [a.limit] ∧ a'.limit = a.limit + 1 ∧
        ArrayWellFormed S a' ∧ a'.count ≠ 0 ∧
        ∀ c, (c ≠ 0 ∧ ∃ j, a'.slots.getD j 0 = c) ↔
          ((c ≠ 0 ∧ ∃ j, a.slots.getD j 0 = c) ∨ c = fresh) := by
    intro a1 hwf1 hk hl1 hi1 hs1
    have hk' : a.limit < a1.slots.length := hk
    refine ⟨_, rfl, by simp [hi1], by simp [hl1], ⟨?_, ?_, ?_⟩, ?_, ?_⟩
    · show (if a.limit + 1 > a1.limit then a.limit + 1 else a1.limit)
        ≤ (a1.slots.set a.limit fresh).length
      rw [List.length_set, hl1, if_pos (by omega)]
      exact hk'
    · show (a1.slots.set a.limit fresh).length ≤ _
      rw [List.length_set]; exact hwf1.2.1
    · intro j hj
      have hj' : (if a.limit + 1 > a1.limit then a.limit + 1 else a1.limit) ≤ j := hj
      rw [hl1, if_pos (by omega)] at hj'
      show (a1.slots.set a.limit fresh).getD j 0 = 0
      rw [getD_set _ _ _ _ hk', if_neg (by omega), hs1]
      exact hwf.2.2 j (by omega)
    · show (a1.slots.set a.limit fresh).length ≠ 0
      rw [List.length_set]; omega
    · intro c
      show (c ≠ 0 ∧ ∃ j, (a1.slots.set a.limit fresh).getD j 0 = c) ↔ _
      constructor
      · rintro ⟨hc, j, hj⟩
        rw [getD_set _ _ _ _ hk'] at hj
        by_cases h1 : j = a.limit
        · rw [if_pos h1] at hj
          exact Or.inr hj.symm
        · rw [if_neg h1, hs1] at hj
          exact Or.inl ⟨hc, j, hj⟩
      · rintro (⟨hc, j, hj⟩ | rfl)
        · refine ⟨hc, j, ?_⟩
          rw [getD_set _ _ _ _ hk']
          have h1 : j ≠ a.limit := by
            intro e
            rw [e, hz] at hj
            exact hc hj.symm
          rw [if_neg h1, hs1, hj]
        · refine ⟨hf, a.limit, ?_⟩
          rw [getD_set _ _ _ _ hk', if_pos rfl]
  unfold IO_Event_Array_push IO_Event_Array_lookup
  simp only [hm]
  by_cases h1 : a.limit + 1 > a.count
  · rw [if_pos h1]
    obtain ⟨r, a1, hr, hwf1, hl1, hi1, hs1⟩ := resize_cases S grow a (a.limit + 1) hwf h0
    by_cases h2 : a.limit + 1 > IO_EVENT_ARRAY_MAXIMUM_COUNT S
    · left
      have : IO_Event_Array_resize S (a.limit + 1) grow a (a.limit + 1) = some (-1, a) := by
        unfold IO_Event_Array_resize
        rw [if_neg (by omega), if_pos h2]
      rw [this]
      simp
    · obtain ⟨r', a1', hr', hneg, hpos⟩ :=
        array_resize_grows S grow a (a.limit + 1) h0 (by omega)
      rw [hr] at hr'
      simp only [Option.some.injEq, Prod.mk.injEq] at hr'
      obtain ⟨rfl, rfl⟩ := hr'
      rw [hr]
      by_cases h3 : r = -1
      · left
        rw [hneg h3]
        simp [h3]
      · right
        have hc1 := (hpos h3).1
        obtain ⟨a', ha', p1, p2, p3, p4, p5⟩ := key a1 hwf1 (by omega) hl1 hi1 hs1
        refine ⟨a', ?_, p1, p2, p3, p4, p5⟩
        dsimp only
        rw [if_neg h3, if_neg (by omega), if_pos (by rw [hs1]; exact hz), if_neg hf, ha']
  · rw [if_neg h1]
    right
    obtain ⟨a', ha', p1, p2, p3, p4, p5⟩ :=
      key a hwf (by omega) rfl rfl (fun _ => rfl)
    refine ⟨a', ?_, p1, p2, p3, p4, p5⟩
    dsimp only
    rw [if_neg (by decide), if_neg (by omega), if_pos hz, if_neg hf, ha']
theorem uring_acquire_spec (S : Sizes) (hp : 1 < S.pointer) (hs : 0 < S.size_max)
    (s : URing.Records) (fl : List Nat) (h : URing.Consistent S s fl) (grow : Bool)
    (fresh w c : Nat) (s' : URing.Records) (hw0 : w ≠ 0) (hcw : s.completion w = 0)
    (hf : fresh ≠ 0) (hnl : ¬ URing.Live s fresh) (hnf : fresh ∉ s.free_list :: fl)
    (hacq : URing.IO_Event_Selector_URing_Completion_acquire S grow fresh s w
      = some (c, s')) :
    ∃ fl', URing.Consistent S s' fl' ∧ s'.completion w = c ∧ s'.waiting c = w ∧ c ∉ fl' ∧
      (fl = c :: fl' ∨ (fl' = fl ∧ c = fresh)) := by
  obtain ⟨hsym, hfl, hwf, h0⟩ := h
  unfold URing.IO_Event_Selector_URing_Completion_acquire at hacq
  by_cases hE : IO_Event_List_empty s.memory s.free_list = false
  · rw [if_pos hE] at hacq
    simp only [Option.some.injEq, Prod.mk.injEq] at hacq
    obtain ⟨hc, hs'⟩ := hacq
    have hlen : ¬ fl.length ≤ 1 := by
      intro hle
      have := (list_empty_iff hfl.1).2 hle
      rw [hE] at this
      exact absurd this (by decide)
    obtain ⟨c0, rest, rfl⟩ : ∃ c0 rest, fl = c0 :: rest := by
      cases fl with
      | nil => exact absurd (by simp) hlen
      | cons c0 rest => exact ⟨c0, rest, rfl⟩
    have htl : s.memory.tail s.free_list = c0 := by simpa using ring_first hfl.1
    rw [htl] at hc hs'
    subst hc
    have hlive := (hfl.2 c0 (by simp)).1
    have hwc := (hfl.2 c0 (by simp)).2
    have hnd := hfl.1.nodup
    have hcr : c0 ∉ rest := (List.nodup_cons.1 (List.nodup_cons.1 hnd).2).1
    refine ⟨rest, ?_, ?_, ?_, hcr, Or.inl rfl⟩
    · rw [← hs']
      refine ⟨?_, ⟨?_, ?_⟩, hwf, h0⟩
      · exact paired_attach hsym c0 w hlive.1 hw0 hcw (fun _ => hwc)
          (fun c' => ⟨fun hl => Or.inl hl, fun hl => hl.elim id (fun e => e ▸ hlive)⟩)
      · exact ring_pop [] c0 rest hfl.1
      · intro c' hm
        refine ⟨(hfl.2 c' (List.mem_cons_of_mem _ hm)).1, ?_⟩
        show store s.waiting c0 w c' = 0
        rw [store_other _ _ _ _ (fun e : c' = c0 => hcr (e ▸ hm))]
        exact (hfl.2 c' (List.mem_cons_of_mem _ hm)).2
    · rw [← hs']; exact store_same _ _ _
    · rw [← hs']; exact store_same _ _ _
  · rw [if_neg hE] at hacq
    rcases push_fresh S hp hs grow fresh s.completions hwf h0 hf with hpush | hpush
    · rw [hpush] at hacq
      simp at hacq
    · obtain ⟨a', hpush, hinit, _, hwf', h0', hlive⟩ := hpush
      rw [hpush] at hacq
      have hne : ¬ a'.initialized = s.completions.initialized := by
        rw [hinit]
        intro e
        have := congrArg List.length e
        simp at this
      simp only [if_neg hne, Option.some.injEq, Prod.mk.injEq] at hacq
      obtain ⟨hc, hs'⟩ := hacq
      subst hc
      refine ⟨fl, ?_, ?_, ?_, fun hm => hnf (List.mem_cons_of_mem _ hm), Or.inr ⟨rfl, rfl⟩⟩
      · rw [← hs']
        refine ⟨?_, ⟨?_, ?_⟩, hwf', h0'⟩
        · exact paired_attach hsym fresh w hf hw0 hcw (fun hl => absurd hl hnl) hlive
        · refine ring_congr ?_ ?_ hfl.1
          · intro a ha
            have hne' : a ≠ fresh := fun e => hnf (e ▸ ha)
            simp [IO_Event_List_clear, URing.IO_Event_Selector_URing_Completion_initialize,
              IO_Event_List_initialize, store, hne']
          · intro a ha
            have hne' : a ≠ fresh := fun e => hnf (e ▸ ha)
            simp [IO_Event_List_clear, URing.IO_Event_Selector_URing_Completion_initialize,
              IO_Event_List_initialize, store, hne']
        · intro c' hm
          have hne' : c' ≠ fresh := fun e => hnf (List.mem_cons_of_mem _ (e ▸ hm))
          refine ⟨(hlive c').2 (Or.inl (hfl.2 c' hm).1), ?_⟩
          show store s.waiting fresh w c' = 0
          rw [store_other _ _ _ _ hne']
          exact (hfl.2 c' hm).2
      · rw [← hs']; exact store_same _ _ _
      · rw [← hs']; exact store_same _ _ _
theorem uring_allocated_consistent : URing.Consistent sizes64 URing.allocated [] := by
  refine ⟨?_, ⟨?_, ?_⟩, ⟨by decide, by decide, ?_⟩, by decide⟩
  · intro c w hc hw
    exact ⟨fun e => absurd e.symm hc,
      fun _ => ⟨fun e => absurd e.symm hw, fun e => absurd e.symm hc⟩⟩
  · exact ring_nil _ 100 (by simp [URing.allocated, IO_Event_List_initialize, store])
      (by simp [URing.allocated, IO_Event_List_initialize, store])
  · intro c hm
    simp at hm
  · intro k _
    show (List.replicate 4 0).getD k 0 = 0
    match k with
    | 0 => rfl
    | 1 => rfl
    | 2 => rfl
    | 3 => rfl
    | k + 4 => rfl

/-- A push on a well-formed table that has room, or that `realloc` lets grow below the
maximum count, yields the new element. -/
theorem push_returns (S : Sizes) (hp : 1 < S.pointer) (hs : 0 < S.size_max) (grow : Bool)
    (fresh : Nat) (a : IO_Event_Array) (hwf : ArrayWellFormed S a) (h0 : a.count ≠ 0)
    (hf : fresh ≠ 0)
    (hroom : a.limit < a.count ∨
      (grow = true ∧ a.limit < IO_EVENT_ARRAY_MAXIMUM_COUNT S)) :
    ∃ a', IO_Event_Array_push S (a.limit + 1) grow fresh a
      = some (Lookup.element fresh, a') := by
  rcases push_fresh S hp hs grow fresh a hwf h0 hf with hnull | ⟨a', ha', _⟩
  · exfalso
    have hl : a.limit < S.size_max := by
      have := maximum_count_lt S hp hs
      have := hwf.1
      have := hwf.2.1
      omega
    have hm : (a.limit + 1) % (S.size_max + 1) = a.limit + 1 := Nat.mod_eq_of_lt (by omega)
    have hz : a.slots.getD a.limit 0 = 0 := hwf.2.2 _ (le_refl _)
    unfold IO_Event_Array_push IO_Event_Array_lookup at hnull
    simp only [hm] at hnull
    by_cases h1 : a.limit + 1 > a.count
    · rw [if_pos h1] at hnull
      have hg : grow = true ∧ a.limit < IO_EVENT_ARRAY_MAXIMUM_COUNT S := by
        rcases hroom with h | h
        · omega
        · exact h
      obtain ⟨r', a1', hr', hneg, hpos⟩ :=
        array_resize_grows S grow a (a.limit + 1) h0 (by omega)
      have hr1 : r' ≠ -1 := by
        intro e
        have hx := hr'
        unfold IO_Event_Array_resize at hx
        have hcount : a.count = a.slots.length := rfl
        rw [if_neg (by omega), if_neg (by omega), if_neg h0] at hx
        obtain ⟨r, hr, _⟩ := resize_loop_spec S (a.limit + 1) (by omega) (a.limit + 1)
          a.count (by omega) (by omega)
        rw [hr] at hx
        simp [hg.1] at hx
        omega
      have hc1 := (hpos hr1).1
      rw [hr'] at hnull
      dsimp only at hnull
      rw [if_neg hr1, if_neg (by omega)] at hnull
      split_ifs at hnull <;> simp at hnull
    · rw [if_neg h1] at hnull
      dsimp only at hnull
      rw [if_neg (by decide), if_neg (by omega), if_pos hz, if_neg hf] at hnull
      simp at hnull
  · exact ⟨a', ha'⟩

/-- The acquisition of a completion record returns a record whenever the free list is
taken, the table has room, or `realloc` lets the table grow below the maximum count;
`malloc` is taken to return an address. -/
theorem uring_acquire_returns (S : Sizes) (hp : 1 < S.pointer) (hs : 0 < S.size_max)
    (s : URing.Records) (fl : List Nat) (h : URing.Consistent S s fl) (grow : Bool)
    (fresh w : Nat) (hf : fresh ≠ 0)
    (hroom : IO_Event_List_empty s.memory s.free_list = false ∨
      s.completions.limit < s.completions.count ∨
      (grow = true ∧ s.completions.limit < IO_EVENT_ARRAY_MAXIMUM_COUNT S)) :
    ∃ c s', URing.IO_Event_Selector_URing_Completion_acquire S grow fresh s w
      = some (c, s') := by
  unfold URing.IO_Event_Selector_URing_Completion_acquire
  by_cases he : IO_Event_List_empty s.memory s.free_list = false
  · simp only [he, if_true]
    exact ⟨_, _, rfl⟩
  · rw [if_neg he]
    have hroom' : s.completions.limit < s.completions.count ∨
        (grow = true ∧ s.completions.limit < IO_EVENT_ARRAY_MAXIMUM_COUNT S) := by
      rcases hroom with h1 | h1
      · exact absurd h1 he
      · exact h1
    obtain ⟨a', ha'⟩ := push_returns S hp hs grow fresh s.completions h.2.2.1 h.2.2.2 hf hroom'
    rw [ha']
    exact ⟨_, _, rfl⟩

/-- C25: in every state in which the linkage of waiters and completion records is
symmetric (for every record `c` of the table and waiter `w`, `c.waiting == w` exactly when
`w.completion == c`) and every record on the free list has no waiter, this holds again
after `acquire` for a waiter without a completion (as every caller passes it), after
`Completion_cancel`, `Completion_release` and `Waiting_cancel`; after either cancel both
pointers are null, and either cancel applied twice gives the state it gives applied
once.  `acquire` returns a record whenever it takes the free list, the table has room, or
`realloc` lets the table grow. -/
theorem uring_linkage_symmetric (S : Sizes) (hp : 1 < S.pointer) (hs : 0 < S.size_max)
    (s : URing.Records) (fl : List Nat) (h : URing.Consistent S s fl) :
    (∀ grow fresh w c s', w ≠ 0 → s.completion w = 0 → fresh ≠ 0 → ¬ URing.Live s fresh →
      fresh ∉ s.free_list :: fl →
      URing.IO_Event_Selector_URing_Completion_acquire S grow fresh s w = some (c, s') →
      ∃ fl', URing.Consistent S s' fl' ∧ s'.completion w = c ∧ s'.waiting c = w ∧
        c ∉ fl') ∧
    (∀ c, URing.Live s c →
      URing.Consistent S (URing.IO_Event_Selector_URing_Completion_cancel s c) fl ∧
      (URing.IO_Event_Selector_URing_Completion_cancel s c).waiting c = 0 ∧
      (s.waiting c ≠ 0 →
        (URing.IO_Event_Selector_URing_Completion_cancel s c).completion (s.waiting c)
          = 0) ∧
      URing.IO_Event_Selector_URing_Completion_cancel
          (URing.IO_Event_Selector_URing_Completion_cancel s c) c
        = URing.IO_Event_Selector_URing_Completion_cancel s c) ∧
    (∀ c, URing.Live s c → c ∉ s.free_list :: fl →
      URing.Consistent S (URing.IO_Event_Selector_URing_Completion_release s c) (c :: fl) ∧
      (URing.IO_Event_Selector_URing_Completion_release s c).waiting c = 0 ∧
      (s.waiting c ≠ 0 →
        (URing.IO_Event_Selector_URing_Completion_release s c).completion (s.waiting c)
          = 0)) ∧
    (∀ w, w ≠ 0 →
      URing.Consistent S (URing.IO_Event_Selector_URing_Waiting_cancel s w) fl ∧
      (URing.IO_Event_Selector_URing_Waiting_cancel s w).completion w = 0 ∧
      (s.completion w ≠ 0 →
        (URing.IO_Event_Selector_URing_Waiting_cancel s w).waiting (s.completion w) = 0) ∧
      URing.IO_Event_Selector_URing_Waiting_cancel
          (URing.IO_Event_Selector_URing_Waiting_cancel s w) w
        = URing.IO_Event_Selector_URing_Waiting_cancel s w) ∧
    (∀ grow fresh w, fresh ≠ 0 →
      (IO_Event_List_empty s.memory s.free_list = false ∨
        s.completions.limit < s.completions.count ∨
        (grow = true ∧ s.completions.limit < IO_EVENT_ARRAY_MAXIMUM_COUNT S)) →
      ∃ c s', URing.IO_Event_Selector_URing_Completion_acquire S grow fresh s w
        = some (c, s')) := by
  refine ⟨?_, ?_, ?_, ?_, ?_⟩
  · intro grow fresh w c s' hw0 hcw hf hnl hnf hacq
    obtain ⟨fl', h1, h2, h3, h4, _⟩ :=
      uring_acquire_spec S hp hs s fl h grow fresh w c s' hw0 hcw hf hnl hnf hacq
    exact ⟨fl', h1, h2, h3, h4⟩
  · exact fun c hc => uring_completion_cancel_spec S s fl h c hc
  · exact fun c hc hn => uring_completion_release_spec S s fl h c hc hn
  · exact fun w hw => uring_waiting_cancel_spec S s fl h w hw
  · exact fun grow fresh w hf hroom =>
      uring_acquire_returns S hp hs s fl h grow fresh w hf hroom

theorem allocated_not_live (c : Nat) : ¬ URing.Live URing.allocated c := by
  rintro ⟨hc, j, hj⟩
  have hz : (List.replicate 4 0).getD j 0 = 0 := by
    match j with
    | 0 => rfl
    | 1 => rfl
    | 2 => rfl
    | 3 => rfl
    | k + 4 => rfl
  have : URing.allocated.completions.slots.getD j 0 = 0 := hz
  rw [this] at hj
  exact hc hj.symm

/-- C25 (witness): on the state after `IO_Event_Selector_URing_allocate` the waiter at
address 10 acquires the record that the table allocates at address 1000, which links the
two; on that state `Completion_cancel` and `Completion_release` of the record and
`Waiting_cancel` of the waiter each null both pointers and keep the linkage symmetric, and
the release puts the record on the free list. -/
theorem uring_linkage_symmetric_witness :
    (∃ c s', URing.IO_Event_Selector_URing_Completion_acquire sizes64 true 1000
      URing.allocated 10 = some (c, s')) ∧
    ∃ s1, URing.IO_Event_Selector_URing_Completion_acquire sizes64 true 1000
        URing.allocated 10 = some (1000, s1) ∧
      s1.completion 10 = 1000 ∧ s1.waiting 1000 = 10 ∧
      ∃ fl, URing.Consistent sizes64 s1 fl ∧
        URing.Consistent sizes64
          (URing.IO_Event_Selector_URing_Completion_cancel s1 1000) fl ∧
        (URing.IO_Event_Selector_URing_Completion_cancel s1 1000).waiting 1000 = 0 ∧
        (URing.IO_Event_Selector_URing_Completion_cancel s1 1000).completion 10 = 0 ∧
        URing.Consistent sizes64
          (URing.IO_Event_Selector_URing_Completion_release s1 1000) (1000 :: fl) ∧
        (URing.IO_Event_Selector_URing_Completion_release s1 1000).waiting 1000 = 0 ∧
        (URing.IO_Event_Selector_URing_Completion_release s1 1000).completion 10 = 0 ∧
        URing.Consistent sizes64 (URing.IO_Event_Selector_URing_Waiting_cancel s1 10) fl ∧
        (URing.IO_Event_Selector_URing_Waiting_cancel s1 10).completion 10 = 0 ∧
        (URing.IO_Event_Selector_URing_Waiting_cancel s1 10).waiting 1000 = 0 := by
  have t0 := uring_linkage_symmetric sizes64 (by decide) (by decide) URing.allocated []
    uring_allocated_consistent
  have key : ∀ s1, URing.IO_Event_Selector_URing_Completion_acquire sizes64 true 1000
      URing.allocated 10 = some (1000, s1) → s1.free_list = 100 →
      s1.completion 10 = 1000 ∧ s1.waiting 1000 = 10 ∧
      ∃ fl, URing.Consistent sizes64 s1 fl ∧
        URing.Consistent sizes64
          (URing.IO_Event_Selector_URing_Completion_cancel s1 1000) fl ∧
        (URing.IO_Event_Selector_URing_Completion_cancel s1 1000).waiting 1000 = 0 ∧
        (URing.IO_Event_Selector_URing_Completion_cancel s1 1000).completion 10 = 0 ∧
        URing.Consistent sizes64
          (URing.IO_Event_Selector_URing_Completion_release s1 1000) (1000 :: fl) ∧
        (URing.IO_Event_Selector_URing_Completion_release s1 1000).waiting 1000 = 0 ∧
        (URing.IO_Event_Selector_URing_Completion_release s1 1000).completion 10 = 0 ∧
        URing.Consistent sizes64 (URing.IO_Event_Selector_URing_Waiting_cancel s1 10) fl ∧
        (URing.IO_Event_Selector_URing_Waiting_cancel s1 10).completion 10 = 0 ∧
        (URing.IO_Event_Selector_URing_Waiting_cancel s1 10).waiting 1000 = 0 := by
    intro s1 hacq hfl
    obtain ⟨fl, hc, h1, h2, hnot⟩ := t0.1 true 1000 10 1000 s1 (by decide) rfl (by decide)
      (allocated_not_live 1000) (by decide) hacq
    have t1 := uring_linkage_symmetric sizes64 (by decide) (by decide) s1 fl hc
    have hlive : URing.Live s1 1000 := (hc.1 1000 10 (by decide) (by decide)).1 h1
    have hw : (10 : Nat) ≠ 0 := by decide
    have hwc : s1.waiting 1000 ≠ 0 := by rw [h2]; decide
    have hcw : s1.completion 10 ≠ 0 := by rw [h1]; decide
    have hfree : (1000 : Nat) ∉ s1.free_list :: fl := by
      rw [hfl]
      intro hm
      rcases List.mem_cons.mp hm with e | e
      · exact absurd e (by decide)
      · exact hnot e
    have c3 := (t1.2.1 1000 hlive).2.2.1 hwc
    have r3 := (t1.2.2.1 1000 hlive hfree).2.2 hwc
    have w3 := (t1.2.2.2.1 10 hw).2.2.1 hcw
    rw [h2] at c3 r3
    rw [h1] at w3
    exact ⟨h1, h2, fl, hc, (t1.2.1 1000 hlive).1, (t1.2.1 1000 hlive).2.1, c3,
      (t1.2.2.1 1000 hlive hfree).1, (t1.2.2.1 1000 hlive hfree).2.1, r3,
      (t1.2.2.2.1 10 hw).1, (t1.2.2.2.1 10 hw).2.1, w3⟩
  exact ⟨t0.2.2.2.2 true 1000 10 (by decide) (Or.inr (Or.inl (by decide))),
    _, rfl, key _ rfl rfl⟩

/-! ## io_uring: cancellation in the ensure clauses -/

/-- The ensure clauses of `io_wait`, `io_read` and `io_write` behave alike when
`io_get_sqe` and `io_uring_submit_now` return: if the completion record of the waiter is
still attached they submit one cancel that targets the record, with null user data, and
then detach the waiter; if no record is attached they submit nothing and detach the
waiter. -/
theorem uring_ensure_cancels (s : URing.Records) (waiting : Nat) :
    ∀ e ∈ [URing.io_wait_ensure none none s waiting,
            URing.io_read_ensure none none s waiting,
            URing.io_write_ensure none none s waiting],
      e.raised = none ∧
      e.records = URing.IO_Event_Selector_URing_Waiting_cancel s waiting ∧
      (s.completion waiting ≠ 0 →
        e.requests = [URing.Request.prep_cancel (s.completion waiting) 0,
          URing.Request.submit_now]) ∧
      (s.completion waiting = 0 → e.requests = []) := by
  intro e he
  simp only [List.mem_cons, List.mem_singleton, List.not_mem_nil, or_false] at he
  by_cases h : s.completion waiting = 0
  · rcases he with rfl | rfl | rfl
    · unfold URing.io_wait_ensure
      rw [if_neg (by simp [h])]
      exact ⟨rfl, rfl, fun hc => absurd h hc, fun _ => rfl⟩
    · unfold URing.io_read_ensure
      rw [if_neg (by simp [h])]
      exact ⟨rfl, rfl, fun hc => absurd h hc, fun _ => rfl⟩
    · unfold URing.io_write_ensure
      rw [if_neg (by simp [h])]
      exact ⟨rfl, rfl, fun hc => absurd h hc, fun _ => rfl⟩
  · rcases he with rfl | rfl | rfl
    · unfold URing.io_wait_ensure
      rw [if_pos h]
      exact ⟨rfl, rfl, fun _ => rfl, fun hc => absurd hc h⟩
    · unfold URing.io_read_ensure
      rw [if_pos h]
      exact ⟨rfl, rfl, fun _ => rfl, fun hc => absurd hc h⟩
    · unfold URing.io_write_ensure
      rw [if_pos h]
      exact ⟨rfl, rfl, fun _ => rfl, fun hc => absurd hc h⟩

/-- C26: for every state in which the completion record of the waiter is still attached,
the ensure clause of `process_wait` makes one request, the `close` of its descriptor: it
submits no cancel for the record, and detaches the waiter, which leaves the record without
a waiter while its operation is still with the kernel.  In the same state the ensure
clause of `io_wait` submits a cancel that targets the record with null user data before it
detaches the waiter (and so do those of `io_read` and `io_write`); but when `io_get_sqe`
raises in it, it submits nothing and leaves the waiter attached to the record. -/
theorem uring_process_wait_ensure_no_cancel (s : URing.Records) (waiting : Nat)
    (descriptor : Int) (h : s.completion waiting ≠ 0) :
    (URing.process_wait_ensure s waiting descriptor).requests
      = [URing.Request.close descriptor] ∧
    (∀ target data, URing.Request.prep_cancel target data ∉
      (URing.process_wait_ensure s waiting descriptor).requests) ∧
    (URing.process_wait_ensure s waiting descriptor).records.completion waiting = 0 ∧
    (URing.process_wait_ensure s waiting descriptor).records.waiting (s.completion waiting)
      = 0 ∧
    (URing.io_wait_ensure none none s waiting).requests
      = [URing.Request.prep_cancel (s.completion waiting) 0, URing.Request.submit_now] ∧
    (∀ e submit, (URing.io_wait_ensure (some e) submit s waiting).requests = [] ∧
      (URing.io_wait_ensure (some e) submit s waiting).records.completion waiting
        = s.completion waiting) := by
  refine ⟨rfl, ?_, ?_, ?_, ?_, ?_⟩
  · intro target data hm
    simp [URing.process_wait_ensure] at hm
  · simp [URing.process_wait_ensure, URing.IO_Event_Selector_URing_Waiting_cancel, h, store]
  · simp [URing.process_wait_ensure, URing.IO_Event_Selector_URing_Waiting_cancel, h, store]
  · unfold URing.io_wait_ensure
    rw [if_pos h]
  · intro e submit
    unfold URing.io_wait_ensure
    rw [if_pos h]
    exact ⟨rfl, rfl⟩

/-- C26 (witness): the waiter at address 10 has acquired the record at address 1000, and
the fiber that waits for a process is unwound while the record is still attached. -/
theorem uring_process_wait_ensure_no_cancel_witness :
    ∃ s, URing.oneAttached = some s ∧ s.completion 10 = 1000 ∧
      (URing.process_wait_ensure s 10 5).requests = [URing.Request.close 5] ∧
      (URing.process_wait_ensure s 10 5).records.waiting 1000 = 0 ∧
      (URing.io_wait_ensure none none s 10).requests
        = [URing.Request.prep_cancel 1000 0, URing.Request.submit_now] :=
  ⟨_, rfl, rfl,
    (uring_process_wait_ensure_no_cancel _ 10 5 (by decide)).1,
    (uring_process_wait_ensure_no_cancel _ 10 5 (by decide)).2.2.2.1,
    (uring_process_wait_ensure_no_cancel _ 10 5 (by decide)).2.2.2.2.1⟩

/-! ## The worker pool: `call` -/

theorem call_loop_none (wakeups : List Wakeup) :
    ∀ (blocks cancels : Nat),
      worker_pool_call_loop wakeups blocks cancels = none ↔
        ∀ w ∈ wakeups, w.completed = false := by
  induction wakeups with
  | nil => intro _ _; simp [worker_pool_call_loop]
  | cons w rest ih =>
    intro blocks cancels
    simp only [worker_pool_call_loop]
    by_cases h : w.completed = true
    · simp [h]
    · simp only [h, Bool.false_eq_true, if_false]
      rw [ih]
      simp [h]

theorem call_loop_some (wakeups : List Wakeup) :
    ∀ (blocks cancels : Nat) (b : Blocked),
      worker_pool_call_loop wakeups blocks cancels = some b →
        ∃ pre w post, wakeups = pre ++ w :: post ∧ (∀ x ∈ pre, x.completed = false) ∧
          w.completed = true ∧ b.state = w.state ∧ b.blocks = blocks + pre.length + 1 ∧
          b.cancels = cancels + pre.length := by
  induction wakeups with
  | nil => intro _ _ b h; simp [worker_pool_call_loop] at h
  | cons w rest ih =>
    intro blocks cancels b h
    simp only [worker_pool_call_loop] at h
    by_cases hc : w.completed = true
    · rw [if_pos hc] at h
      simp only [Option.some.injEq] at h
      subst h
      exact ⟨[], w, rest, rfl, by simp, hc, rfl, by simp, by simp⟩
    · rw [if_neg hc] at h
      obtain ⟨pre, w', post, e, h1, h2, h3, h4, h5⟩ := ih _ _ b h
      refine ⟨w :: pre, w', post, by rw [e]; rfl, ?_, h2, h3, ?_, ?_⟩
      · intro x hx
        rcases List.mem_cons.1 hx with rfl | hx
        · simpa using hc
        · exact h1 x hx
      · simp only [List.length_cons]; omega
      · simp only [List.length_cons]; omega
theorem call_loop_prefix (pre : List Wakeup) (w : Wakeup) (post : List Wakeup)
    (hpre : ∀ x ∈ pre, x.completed = false) (hw : w.completed = true) :
    ∀ (blocks cancels : Nat),
      worker_pool_call_loop (pre ++ w :: post) blocks cancels
        = some { state := w.state, blocks := blocks + pre.length + 1,
                 cancels := cancels + pre.length } := by
  induction pre with
  | nil =>
    intro blocks cancels
    simp [worker_pool_call_loop, hw]
  | cons x rest ih =>
    intro blocks cancels
    have hx : x.completed = false := hpre x (by simp)
    show worker_pool_call_loop (x :: (rest ++ w :: post)) blocks cancels = _
    rw [worker_pool_call_loop, if_neg (by simp [hx]),
      ih (fun y hy => hpre y (List.mem_cons_of_mem _ hy))]
    simp only [List.length_cons]
    congr 2 <;> omega

theorem call_unfold (S : Sizes) (pool : IO_Event_WorkerPool) (work : Nat)
    (wakeups : List Wakeup) (hs : pool.shutdown = false) :
    worker_pool_call S pool true true work wakeups
      = (worker_pool_call_loop wakeups 0 0).map (fun b =>
          { result := if b.state ≠ 0 then Called.jumped b.state else Called.returned_true,
            pool := enqueue_work
              { pool with call_count := (pool.call_count + 1) % (S.size_max + 1),
                          calls := pool.calls + 1 } work,
            blocks := b.blocks, cancels := b.cancels }) := by
  unfold worker_pool_call worker_pool_call_begin
  simp only [hs, Bool.false_eq_true, if_false, Bool.true_eq_false]
  cases worker_pool_call_loop wakeups 0 0 <;> rfl

/-- C16: once `call` has enqueued its work item, for every sequence of wake-ups of the
blocked fiber (each with any state, so normal, spurious or by exception) it neither returns
nor unwinds as long as no wake-up finds the item completed; when it ends, it ends at the
first wake-up that finds the item completed, having requested one cancellation and blocked
again at each wake-up before; and it returns true only with the item completed. -/
theorem worker_pool_call_waits (S : Sizes) (pool : IO_Event_WorkerPool) (work : Nat)
    (wakeups : List Wakeup) (hs : pool.shutdown = false) :
    (worker_pool_call S pool true true work wakeups = none ↔
      ∀ w ∈ wakeups, w.completed = false) ∧
    (∀ r, worker_pool_call S pool true true work wakeups = some r →
      ∃ pre w post, wakeups = pre ++ w :: post ∧ (∀ x ∈ pre, x.completed = false) ∧
        w.completed = true ∧ r.blocks = pre.length + 1 ∧ r.cancels = pre.length ∧
        r.pool.work_queue = pool.work_queue ++ [work] ∧
        (r.result = Called.returned_true ∨ ∃ state, r.result = Called.jumped state)) := by
  rw [call_unfold S pool work wakeups hs]
  constructor
  · rw [Option.map_eq_none']
    exact call_loop_none wakeups 0 0
  · intro r hr
    rw [Option.map_eq_some'] at hr
    obtain ⟨b, hb, rfl⟩ := hr
    obtain ⟨pre, w, post, e, h1, h2, _, h4, h5⟩ := call_loop_some wakeups 0 0 b hb
    refine ⟨pre, w, post, e, h1, h2, by simp [h4], by simp [h5], rfl, ?_⟩
    by_cases h0 : b.state ≠ 0
    · exact Or.inr ⟨b.state, by simp [h0]⟩
    · exact Or.inl (by simp [h0])

/-- C16 (witness): a spurious wake-up, a wake-up by an exception, and then the wake-up by
the worker that completed the item. -/
theorem worker_pool_call_waits_witness :
    worker_pool_initialize.shutdown = false ∧
    (worker_pool_call sizes64 worker_pool_initialize true true 7 [⟨0, false⟩, ⟨6, false⟩]
      = none ↔ ∀ w ∈ [(⟨0, false⟩ : Wakeup), ⟨6, false⟩], w.completed = false) ∧
    ∀ r, worker_pool_call sizes64 worker_pool_initialize true true 7
        [⟨0, false⟩, ⟨6, false⟩, ⟨0, true⟩] = some r →
      ∃ pre w post, [(⟨0, false⟩ : Wakeup), ⟨6, false⟩, ⟨0, true⟩] = pre ++ w :: post ∧
        (∀ x ∈ pre, x.completed = false) ∧
        w.completed = true ∧ r.blocks = pre.length + 1 ∧ r.cancels = pre.length ∧
        r.pool.work_queue = worker_pool_initialize.work_queue ++ [7] ∧
        (r.result = Called.returned_true ∨ ∃ state, r.result = Called.jumped state) :=
  ⟨rfl,
    (worker_pool_call_waits sizes64 worker_pool_initialize 7 [⟨0, false⟩, ⟨6, false⟩]
      rfl).1,
    (worker_pool_call_waits sizes64 worker_pool_initialize 7
      [⟨0, false⟩, ⟨6, false⟩, ⟨0, true⟩] rfl).2⟩

/-- C27: when the block attempts before the last one find the work item not completed,
whatever their states (also when they unwound with an exception), and the last attempt
finds it completed, `call` ends as the state of the last attempt says: it returns true when
that attempt returned normally, and it re-raises exactly when that attempt unwound. -/
theorem worker_pool_call_outcome (S : Sizes) (pool : IO_Event_WorkerPool) (work : Nat)
    (pre : List Wakeup) (last : Wakeup) (hs : pool.shutdown = false)
    (hpre : ∀ x ∈ pre, x.completed = false) (hw : last.completed = true) :
    (worker_pool_call S pool true true work (pre ++ [last])).map (fun r => r.result)
      = some (if last.state ≠ 0 then Called.jumped last.state else Called.returned_true) := by
  rw [call_unfold S pool work _ hs, call_loop_prefix pre last [] hpre hw]
  rfl

/-- C27 (witness): the first attempt unwinds with an exception (state 6) while the item is
not completed, the second returns normally with the item completed: `call` returns
true. -/
theorem worker_pool_call_outcome_witness :
    (worker_pool_call sizes64 worker_pool_initialize true true 7
        ([⟨6, false⟩] ++ [⟨0, true⟩])).map (fun r => r.result)
      = some Called.returned_true :=
  worker_pool_call_outcome sizes64 worker_pool_initialize 7 [⟨6, false⟩] ⟨0, true⟩ rfl
    (by decide) rfl
/-! ## The worker pool: statistics -/

theorem pool_step_invariant (S : Sizes) (pool : IO_Event_WorkerPool) (step : PoolStep)
    (h : pool.cancelled_count = 0 ∧ pool.call_count = pool.calls % (S.size_max + 1) ∧
      pool.completed_count = pool.executed % (S.size_max + 1) ∧
      pool.executed + pool.executing.length + pool.work_queue.length ≤ pool.calls) :
    (worker_pool_step S pool step).cancelled_count = 0 ∧
      (worker_pool_step S pool step).call_count
        = (worker_pool_step S pool step).calls % (S.size_max + 1) ∧
      (worker_pool_step S pool step).completed_count
        = (worker_pool_step S pool step).executed % (S.size_max + 1) ∧
      (worker_pool_step S pool step).executed
          + (worker_pool_step S pool step).executing.length
          + (worker_pool_step S pool step).work_queue.length
        ≤ (worker_pool_step S pool step).calls := by
  obtain ⟨h1, h2, h3, h4⟩ := h
  cases step with
  | call scheduler valid work =>
    simp only [worker_pool_step, worker_pool_call_begin]
    by_cases hs : pool.shutdown = true
    · simp only [hs, if_true]
      exact ⟨h1, h2, h3, h4⟩
    · simp only [hs, Bool.false_eq_true, if_false]
      have e : (pool.call_count + 1) % (S.size_max + 1)
          = (pool.calls + 1) % (S.size_max + 1) := by
        rw [h2, Nat.add_mod, Nat.mod_mod, ← Nat.add_mod]
      cases scheduler <;> cases valid <;>
        simp [enqueue_work, h1, h3, e] <;> omega
  | cancel => exact ⟨h1, h2, h3, h4⟩
  | take =>
    simp only [worker_pool_step, dequeue_work]
    by_cases hs : pool.shutdown = true
    · simp only [hs, if_true]
      exact ⟨h1, h2, h3, h4⟩
    · simp only [hs, Bool.false_eq_true, if_false]
      cases hq : pool.work_queue with
      | nil => simp only; exact ⟨h1, h2, h3, h4⟩
      | cons w rest =>
        simp only [List.length_append, List.length_singleton]
        rw [hq] at h4
        simp only [List.length_cons] at h4
        exact ⟨h1, h2, h3, by omega⟩
  | complete work =>
    simp only [worker_pool_step]
    by_cases hm : work ∈ pool.executing
    · simp only [hm, if_true]
      have e : (pool.completed_count + 1) % (S.size_max + 1)
          = (pool.executed + 1) % (S.size_max + 1) := by
        rw [h3, Nat.add_mod, Nat.mod_mod, ← Nat.add_mod]
      have hl : (pool.executing.erase work).length + 1 = pool.executing.length := by
        rw [List.length_erase_of_mem hm]
        have : 0 < pool.executing.length := List.length_pos_of_mem hm
        omega
      exact ⟨h1, h2, e, by omega⟩
    · simp only [hm, if_false]
      exact ⟨h1, h2, h3, h4⟩
  | close =>
    simp only [worker_pool_step]
    by_cases hs : pool.shutdown = true
    · simp only [hs, if_true]
      exact ⟨h1, h2, h3, h4⟩
    · simp only [hs, Bool.false_eq_true, if_false]
      exact ⟨h1, h2, h3, h4⟩

theorem pool_run_invariant (S : Sizes) (steps : List PoolStep) :
    ∀ (pool : IO_Event_WorkerPool),
      (pool.cancelled_count = 0 ∧ pool.call_count = pool.calls % (S.size_max + 1) ∧
        pool.completed_count = pool.executed % (S.size_max + 1) ∧
        pool.executed + pool.executing.length + pool.work_queue.length ≤ pool.calls) →
      (worker_pool_run S steps pool).cancelled_count = 0 ∧
        (worker_pool_run S steps pool).call_count
          = (worker_pool_run S steps pool).calls % (S.size_max + 1) ∧
        (worker_pool_run S steps pool).completed_count
          = (worker_pool_run S steps pool).executed % (S.size_max + 1) ∧
        (worker_pool_run S steps pool).executed
            + (worker_pool_run S steps pool).executing.length
            + (worker_pool_run S steps pool).work_queue.length
          ≤ (worker_pool_run S steps pool).calls := by
  induction steps with
  | nil => intro pool h; exact h
  | cons step rest ih =>
    intro pool h
    exact ih _ (pool_step_invariant S pool step h)
/-- C28: after every sequence of steps of a pool (calls, cancellations of the operation in
flight, workers taking and completing work items, close) from `worker_pool_initialize`,
`cancelled_count` is 0, and no step changes it; `call_count` counts (in `size_t`) the calls
made while the pool was not shut down and `completed_count` the work items that workers
executed; the executed items are not more than the calls, so that `completed_count <=
call_count` as long as the counter of the calls has not wrapped around. -/
theorem worker_pool_counters (S : Sizes) (steps : List PoolStep) :
    (worker_pool_run S steps worker_pool_initialize).cancelled_count = 0 ∧
    (worker_pool_run S steps worker_pool_initialize).call_count
      = (worker_pool_run S steps worker_pool_initialize).calls % (S.size_max + 1) ∧
    (worker_pool_run S steps worker_pool_initialize).completed_count
      = (worker_pool_run S steps worker_pool_initialize).executed % (S.size_max + 1) ∧
    (worker_pool_run S steps worker_pool_initialize).executed
      ≤ (worker_pool_run S steps worker_pool_initialize).calls ∧
    ((worker_pool_run S steps worker_pool_initialize).calls ≤ S.size_max →
      (worker_pool_run S steps worker_pool_initialize).completed_count
        ≤ (worker_pool_run S steps worker_pool_initialize).call_count) ∧
    (∀ pool step, (worker_pool_step S pool step).cancelled_count = pool.cancelled_count) ∧
    (∀ pool scheduler valid work,
      (worker_pool_step S pool (PoolStep.call scheduler valid work)).calls
        = if pool.shutdown then pool.calls else pool.calls + 1) ∧
    (∀ pool work,
      (worker_pool_step S pool (PoolStep.complete work)).executed
        = if work ∈ pool.executing then pool.executed + 1 else pool.executed) := by
  obtain ⟨h1, h2, h3, h4⟩ := pool_run_invariant S steps worker_pool_initialize
    ⟨rfl, by simp [ worker_pool_initialize], by simp [ worker_pool_initialize],
      by simp [ worker_pool_initialize]⟩
  refine ⟨h1, h2, h3, by omega, ?_, ?_, ?_, ?_⟩
  · intro hle
    rw [h2, h3, Nat.mod_eq_of_lt (by omega), Nat.mod_eq_of_lt (by omega)]
    omega
  · intro pool step
    cases step with
    | call scheduler valid work =>
      simp only [worker_pool_step, worker_pool_call_begin]
      by_cases hs : pool.shutdown = true
      · simp [hs]
      · cases scheduler <;> cases valid <;> simp [hs, enqueue_work]
    | cancel => rfl
    | take =>
      simp only [worker_pool_step, dequeue_work]
      by_cases hs : pool.shutdown = true
      · simp [hs]
      · cases hq : pool.work_queue <;> simp [hs]
    | complete work =>
      simp only [worker_pool_step]
      split_ifs <;> rfl
    | close =>
      simp only [worker_pool_step]
      split_ifs <;> rfl
  · intro pool scheduler valid work
    simp only [worker_pool_step, worker_pool_call_begin]
    by_cases hs : pool.shutdown = true
    · simp [hs]
    · cases scheduler <;> cases valid <;> simp [hs, enqueue_work]
  · intro pool work
    simp only [worker_pool_step]
    split_ifs <;> rfl

/-- C28 (witness): two calls, the second with its operation cancelled, both executed, and
the pool closed. -/
theorem worker_pool_counters_witness :
    (worker_pool_run sizes64
      [PoolStep.call true true 7, PoolStep.take, PoolStep.call true true 8,
        PoolStep.complete 7, PoolStep.take, PoolStep.cancel, PoolStep.complete 8,
        PoolStep.close] worker_pool_initialize).calls ≤ sizes64.size_max ∧
    (worker_pool_run sizes64
      [PoolStep.call true true 7, PoolStep.take, PoolStep.call true true 8,
        PoolStep.complete 7, PoolStep.take, PoolStep.cancel, PoolStep.complete 8,
        PoolStep.close] worker_pool_initialize).completed_count
      ≤ (worker_pool_run sizes64
      [PoolStep.call true true 7, PoolStep.take, PoolStep.call true true 8,
        PoolStep.complete 7, PoolStep.take, PoolStep.cancel, PoolStep.complete 8,
        PoolStep.close] worker_pool_initialize).call_count :=
  ⟨by decide,
    (worker_pool_counters sizes64
      [PoolStep.call true true 7, PoolStep.take, PoolStep.call true true 8,
        PoolStep.complete 7, PoolStep.take, PoolStep.cancel, PoolStep.complete 8,
        PoolStep.close]).2.2.2.2.1 (by decide)⟩

/-! ## The read and write loops -/

theorem issued_append (a b : List IOStep) : issued (a ++ b) = issued a ++ issued b := by
  induction a with
  | nil => rfl
  | cons x rest ih =>
    cases x with
    | transfer o c w => simp [issued, ih]
    | wait s e => simp [issued, ih]

theorem waits_append (a b : List IOStep) : waits (a ++ b) = waits a ++ waits b := by
  induction a with
  | nil => rfl
  | cons x rest ih =>
    cases x with
    | transfer o c w => simp [waits, ih]
    | wait s e => simp [waits, ih]

theorem transferred_append (a b : List Issued) :
    transferred (a ++ b) = transferred a + transferred b := by
  induction a with
  | nil => simp [transferred]
  | cons x rest ih => simp [transferred, ih, Nat.add_assoc]

/-- The steps recorded before a loop starts stay in front of the steps of the loop. -/
theorem transfer_loop_trace (S : Sizes) (E : ErrorCodes) (wait : IOStep) (request : Nat → Nat)
    (kernel : Nat → Nat → Answer) (size : Nat) (fuel : Nat) :
    ∀ (index length offset total : Nat) (trace : List IOStep),
      transfer_loop S E wait request kernel size fuel index length offset total trace =
        { ended := (transfer_loop S E wait request kernel size fuel index length offset total
            []).ended,
          trace := trace ++ (transfer_loop S E wait request kernel size fuel index length offset
            total []).trace } := by
  induction fuel with
  | zero => intro index length offset total trace; simp [transfer_loop]
  | succ fuel ih =>
    intro index length offset total trace
    simp only [transfer_loop]
    split_ifs with h1 h2 h3 h4 h5
    · simp
    · simp
    · rw [ih _ _ _ _ (trace ++ _), ih _ _ _ _ ([] ++ _)]
      simp
    · simp
    · rw [ih _ _ _ _ (trace ++ _ ++ _), ih _ _ _ _ ([] ++ _ ++ _)]
      simp
    · simp

/-- The room left in the buffer, when the offset is inside it. -/
theorem room_eq (M size offset : Nat) (ho : offset ≤ size) (hs : size ≤ M) :
    (size + (M + 1) - offset) % (M + 1) = size - offset := by
  have e : size + (M + 1) - offset = (size - offset) + (M + 1) := by omega
  rw [e, Nat.add_mod_right, Nat.mod_eq_of_lt (by omega)]

/-- The value returned for a total that fits `ssize_t`. -/
theorem io_result_total (S : Sizes) (total : Nat) (h : 2 * total ≤ S.size_max) :
    rb_fiber_scheduler_io_result (to_ssize S total) 0 = (total : Int) := by
  unfold rb_fiber_scheduler_io_result to_ssize
  rw [if_pos h, if_neg (by omega)]
theorem dropLast_cons_ne {α : Type} (x : α) (rest : List α) (h : rest ≠ []) :
    (x :: rest).dropLast = x :: rest.dropLast := by
  cases rest with
  | nil => exact absurd rfl h
  | cons y ys => rfl

theorem getLast_cons_ne {α : Type} (x : α) (rest : List α) (h : rest ≠ []) :
    (x :: rest).getLast? = rest.getLast? := by
  cases rest with
  | nil => exact absurd rfl h
  | cons y ys => simp [List.getLast?_cons_cons]

/-- One round of the loop that starts with room in the buffer, as a read followed by the
rest of the run. -/
theorem transfer_loop_step (S : Sizes) (E : ErrorCodes) (wait : IOStep) (request : Nat → Nat)
    (kernel : Nat → Nat → Answer) (size fuel index length offset total : Nat)
    (ho : offset < size) (hs : size ≤ S.size_max) :
    transfer_loop S E wait request kernel size (fuel + 1) index length offset total [] =
      (let answer := kernel index (request (size - offset))
       let first := IOStep.transfer offset (request (size - offset)) answer
       if 0 < answer.result then
         if length ≤ answer.result.toNat then
           { ended := Ended.returned (rb_fiber_scheduler_io_result
               (to_ssize S ((total + answer.result.toNat) % (S.size_max + 1))) 0),
             trace := [first] }
         else
           { ended := (transfer_loop S E wait request kernel size fuel (index + 1)
               (length - answer.result.toNat)
               ((offset + answer.result.toNat) % (S.size_max + 1))
               ((total + answer.result.toNat) % (S.size_max + 1)) []).ended,
             trace := first :: (transfer_loop S E wait request kernel size fuel (index + 1)
               (length - answer.result.toNat)
               ((offset + answer.result.toNat) % (S.size_max + 1))
               ((total + answer.result.toNat) % (S.size_max + 1)) []).trace }
       else if answer.result = 0 then
         { ended := Ended.returned (rb_fiber_scheduler_io_result (to_ssize S total) 0),
           trace := [first] }
       else if 0 < length ∧ IO_Event_try_again E answer.errno = true then
         { ended := (transfer_loop S E wait request kernel size fuel (index + 1) length offset
             total []).ended,
           trace := first :: wait :: (transfer_loop S E wait request kernel size fuel
             (index + 1) length offset total []).trace }
       else
         { ended := Ended.returned (rb_fiber_scheduler_io_result (-1) answer.errno),
           trace := [first] }) := by
  have hroom : (size + (S.size_max + 1) - offset) % (S.size_max + 1) = size - offset :=
    room_eq _ _ _ (Nat.le_of_lt ho) hs
  have hne : size - offset ≠ 0 := by omega
  simp only [transfer_loop, hroom, if_neg hne, List.nil_append]
  split_ifs with h2 h3 h4 h5
  · rfl
  · rw [transfer_loop_trace]; simp
  · rfl
  · rw [transfer_loop_trace]; simp
  · rfl

/-- A loop that starts with the buffer full returns the total at once. -/
theorem transfer_loop_full (S : Sizes) (E : ErrorCodes) (wait : IOStep) (request : Nat → Nat)
    (kernel : Nat → Nat → Answer) (size fuel index length total : Nat)
    (hs : size ≤ S.size_max) :
    transfer_loop S E wait request kernel size (fuel + 1) index length size total [] =
      { ended := Ended.returned (rb_fiber_scheduler_io_result (to_ssize S total) 0),
        trace := [] } := by
  have hroom : (size + (S.size_max + 1) - size) % (S.size_max + 1) = 0 := by
    rw [room_eq _ _ _ (Nat.le_refl _) hs]; omega
  simp only [transfer_loop, hroom, if_pos]
/-- A loop that starts: the contract of a loop that continues from the first transfer with
nothing counted is the contract of the read. -/
theorem read_contract_of_loop (E : ErrorCodes) (kernel : Nat → Nat → Answer) (size o n : Nat)
    (run : Transfer) (h : LoopContract E kernel size 0 n o 0 run) :
    ReadContract E kernel size o n run := by
  obtain ⟨h1, h2, h3, h4, h5, h6, h7⟩ := h
  refine ⟨h1, h2, h3, h4, h5, h6, ?_⟩
  intro v hv
  have h := h7 v hv
  unfold EndingFrom at h
  unfold Ending
  cases hl : (issued run.trace).getLast? with
  | none => rw [hl] at h; simpa using h
  | some r =>
    rw [hl] at h
    by_cases hr : r.answer.result < 0
    · simp only [if_pos hr] at h ⊢; exact h
    · simp only [if_neg hr, Nat.zero_add] at h ⊢; exact h

/-- A run that made one read and went on: the contract of the whole run from the contract
of what follows the read. -/
theorem loop_contract_cons (E : ErrorCodes) (kernel : Nat → Nat → Answer)
    (size index length offset total : Nat) (r : Issued) (ended : Ended)
    (first rest : List IOStep) (hfirst : issued first = [r])
    (ho : offset < size) (hro : r.offset = offset) (hrc : r.offset + r.count ≤ size)
    (hra : r.answer = kernel index r.count) (hc : Continues E r.answer)
    (hb : r.answer.result.toNat < length)
    (h : LoopContract E kernel size (index + 1) (length - r.answer.result.toNat)
      (offset + r.answer.result.toNat) (total + r.answer.result.toNat)
      { ended := ended, trace := rest }) :
    LoopContract E kernel size index length offset total
      { ended := ended, trace := first ++ rest } := by
  obtain ⟨h1, h2, h3, h4, h5, h6, h7⟩ := h
  simp only at h1 h2 h3 h4 h5 h6 h7
  have hi : issued (first ++ rest) = r :: issued rest := by
    rw [issued_append, hfirst]; rfl
  unfold LoopContract
  simp only [hi]
  by_cases hn : issued rest = []
  · rw [hn] at h1 h2 h3 h4 h5 h7 ⊢
    simp only [transferred, Nat.add_zero] at h2
    refine ⟨⟨hro, hrc, hra, trivial⟩, ?_, ?_, ?_, ?_, h6, ?_⟩
    · simp only [transferred, Nat.add_zero]; omega
    · intro x hx; simp at hx
    · intro hx; simp at hx
    · intro _; simp [transferred]; omega
    · intro v hv
      have h := h7 v hv
      unfold EndingFrom at h ⊢
      simp only [List.getLast?_nil, List.getLast?_singleton] at h ⊢
      obtain ⟨e1, e2⟩ := h
      have hpos : ¬ r.answer.result < 0 := by
        intro hneg
        have : r.answer.result.toNat = 0 := Int.toNat_eq_zero.mpr (le_of_lt hneg)
        omega
      rw [if_neg hpos]
      refine ⟨?_, Or.inr (Or.inr ?_)⟩
      · rw [e2]; simp [transferred]
      · simp only [transferred, Nat.add_zero]; exact e1
  · have hd : (r :: issued rest).dropLast = r :: (issued rest).dropLast :=
      dropLast_cons_ne _ _ hn
    have hg : (r :: issued rest).getLast? = (issued rest).getLast? := getLast_cons_ne _ _ hn
    refine ⟨⟨hro, hrc, hra, h1⟩, ?_, ?_, ?_, ?_, h6, ?_⟩
    · simp only [transferred]; omega
    · intro x hx
      rw [hd] at hx
      rcases List.mem_cons.mp hx with e | e
      · rw [e]; exact hc
      · exact h3 x e
    · intro _
      rw [hd]
      simp only [transferred]
      by_cases hdn : (issued rest).dropLast = []
      · rw [hdn]; simp only [transferred]; omega
      · have := h4 hdn; omega
    · intro _
      rw [hd]
      simp only [transferred]
      have := h5 hn; omega
    · intro v hv
      have h := h7 v hv
      unfold EndingFrom at h ⊢
      rw [hg]
      cases hl : (issued rest).getLast? with
      | none => rw [List.getLast?_eq_none_iff] at hl; exact absurd hl hn
      | some q =>
        rw [hl] at h
        simp only at h ⊢
        by_cases hq : q.answer.result < 0
        · simp only [if_pos hq] at h ⊢
          refine ⟨h.1, ?_⟩
          intro hx
          apply h.2
          refine ⟨?_, hx.2⟩
          have := hx.1
          simp only [transferred] at this
          omega
        · simp only [if_neg hq] at h ⊢
          refine ⟨?_, ?_⟩
          · rw [h.1]; simp only [transferred]; push_cast; ring
          · rcases h.2 with e | e | e
            · exact Or.inl e
            · right; left; simp only [transferred]; omega
            · right; right; simp only [transferred]; omega
/-- A run that ends with its only read. -/
theorem loop_contract_single (E : ErrorCodes) (kernel : Nat → Nat → Answer)
    (size index length offset total : Nat) (r : Issued) (v : Int)
    (ho : offset < size) (hro : r.offset = offset) (hrc : r.offset + r.count ≤ size)
    (hra : r.answer = kernel index r.count) (hfit : offset + r.answer.result.toNat ≤ size)
    (hv : EndingFrom E size offset length total [r] v) :
    LoopContract E kernel size index length offset total
      { ended := Ended.returned v,
        trace := [IOStep.transfer r.offset r.count r.answer] } := by
  unfold LoopContract
  simp only [issued]
  refine ⟨⟨hro, hrc, hra, trivial⟩, ?_, ?_, ?_, ?_, ?_, ?_⟩
  · simp only [transferred, Nat.add_zero]; exact hfit
  · intro x hx; simp at hx
  · intro hx; simp at hx
  · intro _; simp [transferred]; omega
  · intro hx; cases hx
  · intro w hw
    cases hw
    exact hv

/-- The contract of the loop, from any state inside the buffer, for a kernel that transfers
no more than it is asked for. -/
theorem transfer_loop_contract (S : Sizes) (E : ErrorCodes) (wait : IOStep)
    (hwait : issued [wait] = [])
    (request : Nat → Nat) (kernel : Nat → Nat → Answer) (size : Nat)
    (hs : 2 * size ≤ S.size_max) (hreq : ∀ c, request c ≤ c)
    (hk : ∀ i c, (kernel i c).result ≤ (c : Int)) (fuel : Nat) :
    ∀ index length offset total : Nat, offset ≤ size → total ≤ offset →
      LoopContract E kernel size index length offset total
        (transfer_loop S E wait request kernel size fuel index length offset total []) := by
  induction fuel with
  | zero =>
    intro index length offset total _ _
    simp only [transfer_loop]
    unfold LoopContract
    simp only [issued]
    refine ⟨trivial, by simp [transferred]; omega, ?_, ?_, ?_, ?_, ?_⟩
    · intro x hx; simp at hx
    · intro hx; simp at hx
    · intro hx; exact absurd rfl hx
    · intro hx; cases hx
    · intro v hv; cases hv
  | succ fuel ih =>
    intro index length offset total ho ht
    have hsm : size ≤ S.size_max := by omega
    rcases Nat.lt_or_ge offset size with hlt | hge
    · rw [transfer_loop_step S E wait request kernel size fuel index length offset total hlt
        hsm]
      have hcount : request (size - offset) ≤ size - offset := hreq _
      have hres := hk index (request (size - offset))
      have hb : (kernel index (request (size - offset))).result.toNat ≤ size - offset := by
        have : (kernel index (request (size - offset))).result ≤ ((size - offset : Nat) : Int) :=
          le_trans hres (by exact_mod_cast hcount)
        omega
      have hm1 : (offset + (kernel index (request (size - offset))).result.toNat) %
          (S.size_max + 1) = offset + (kernel index (request (size - offset))).result.toNat :=
        Nat.mod_eq_of_lt (by omega)
      have hm2 : (total + (kernel index (request (size - offset))).result.toNat) %
          (S.size_max + 1) = total + (kernel index (request (size - offset))).result.toNat :=
        Nat.mod_eq_of_lt (by omega)
      simp only [hm1, hm2]
      split_ifs with h2 h3 h4 h5
      · -- the read brought the bytes wanted
        rw [io_result_total S _ (by omega)]
        refine loop_contract_single E kernel size index length offset total
          ⟨offset, request (size - offset), kernel index (request (size - offset))⟩ _ hlt rfl
          (by show offset + request (size - offset) ≤ size; omega) rfl
          (by show offset + (kernel index (request (size - offset))).result.toNat ≤ size; omega) ?_
        unfold EndingFrom
        simp only [List.getLast?_singleton, if_neg (not_lt.mpr (le_of_lt h2)), transferred,
          Nat.add_zero]
        exact ⟨trivial, Or.inr (Or.inl h3)⟩
      · -- the read brought fewer bytes than wanted
        have hrec := ih (index + 1)
          (length - (kernel index (request (size - offset))).result.toNat)
          (offset + (kernel index (request (size - offset))).result.toNat)
          (total + (kernel index (request (size - offset))).result.toNat)
          (by omega) (by omega)
        exact loop_contract_cons E kernel size index length offset total
          ⟨offset, request (size - offset), kernel index (request (size - offset))⟩ _
          [IOStep.transfer offset (request (size - offset))
            (kernel index (request (size - offset)))] _ rfl hlt rfl
          (by show offset + request (size - offset) ≤ size; omega) rfl (Or.inl h2)
          (by show (kernel index (request (size - offset))).result.toNat < length; omega) hrec
      · -- the read returned 0
        rw [io_result_total S _ (by omega)]
        refine loop_contract_single E kernel size index length offset total
          ⟨offset, request (size - offset), kernel index (request (size - offset))⟩ _ hlt rfl
          (by show offset + request (size - offset) ≤ size; omega) rfl
          (by show offset + (kernel index (request (size - offset))).result.toNat ≤ size; omega) ?_
        unfold EndingFrom
        simp only [List.getLast?_singleton, transferred, Nat.add_zero]
        rw [if_neg (by omega)]
        refine ⟨?_, Or.inl h4⟩
        have : (kernel index (request (size - offset))).result.toNat = 0 := by omega
        rw [this]; rfl
      · -- the read failed with an error to wait on
        have hneg : (kernel index (request (size - offset))).result < 0 := by omega
        have hz : (kernel index (request (size - offset))).result.toNat = 0 := by omega
        have hrec := ih (index + 1) length offset total ho ht
        have hrec2 : LoopContract E kernel size (index + 1)
            (length - (kernel index (request (size - offset))).result.toNat)
            (offset + (kernel index (request (size - offset))).result.toNat)
            (total + (kernel index (request (size - offset))).result.toNat)
            { ended := (transfer_loop S E wait request kernel size fuel (index + 1) length
                offset total []).ended,
              trace := wait :: (transfer_loop S E wait request kernel size fuel (index + 1)
                length offset total []).trace } := by
          rw [hz]
          simp only [Nat.sub_zero, Nat.add_zero]
          have hi : issued (wait :: (transfer_loop S E wait request kernel size fuel
              (index + 1) length offset total []).trace) = issued (transfer_loop S E wait
              request kernel size fuel (index + 1) length offset total []).trace := by
            have := issued_append [wait] (transfer_loop S E wait request kernel size fuel
              (index + 1) length offset total []).trace
            rw [hwait] at this
            simpa using this
          unfold LoopContract at hrec ⊢
          simp only [hi]
          exact hrec
        exact loop_contract_cons E kernel size index length offset total
          ⟨offset, request (size - offset), kernel index (request (size - offset))⟩ _
          [IOStep.transfer offset (request (size - offset))
            (kernel index (request (size - offset)))] _ rfl hlt rfl
          (by show offset + request (size - offset) ≤ size; omega) rfl
          (Or.inr ⟨hneg, h5.2⟩)
          (by show (kernel index (request (size - offset))).result.toNat < length; omega)
          hrec2
      · -- the read failed with an error that is returned
        have hneg : (kernel index (request (size - offset))).result < 0 := by omega
        have hz : (kernel index (request (size - offset))).result.toNat = 0 := by omega
        refine loop_contract_single E kernel size index length offset total
          ⟨offset, request (size - offset), kernel index (request (size - offset))⟩ _ hlt rfl
          (by show offset + request (size - offset) ≤ size; omega) rfl
          (by show offset + (kernel index (request (size - offset))).result.toNat ≤ size; omega) ?_
        unfold EndingFrom
        simp only [List.getLast?_singleton, transferred, Nat.add_zero]
        rw [if_pos hneg]
        refine ⟨by simp [rb_fiber_scheduler_io_result], ?_⟩
        rw [hz]
        exact h5
    · have he : offset = size := Nat.le_antisymm ho hge
      subst he
      rw [transfer_loop_full S E wait request kernel offset fuel index length total hsm,
        io_result_total S _ (by omega)]
      unfold LoopContract
      simp only [issued]
      refine ⟨trivial, by simp [transferred], ?_, ?_, ?_, ?_, ?_⟩
      · intro x hx; simp at hx
      · intro hx; simp at hx
      · intro hx; exact absurd rfl hx
      · intro hx; cases hx
      · intro v hv
        cases hv
        exact ⟨rfl, rfl⟩
/-- The loop returns once the kernel has stopped answering with errors to wait on: with
none of them from the transfer number `e` on, `e - index` rounds and one round for every
byte of room are enough. -/
theorem transfer_loop_returns (S : Sizes) (E : ErrorCodes) (wait : IOStep)
    (request : Nat → Nat) (kernel : Nat → Nat → Answer) (size : Nat)
    (hs : 2 * size ≤ S.size_max) (hreq : ∀ c, request c ≤ c)
    (hk : ∀ i c, (kernel i c).result ≤ (c : Int)) (e : Nat)
    (hfin : ∀ i c, e ≤ i →
      ¬ ((kernel i c).result < 0 ∧ IO_Event_try_again E (kernel i c).errno = true))
    (fuel : Nat) :
    ∀ index length offset total : Nat, offset ≤ size → total ≤ offset →
      (e - index) + (size - offset) < fuel →
      ∃ v, (transfer_loop S E wait request kernel size fuel index length offset total
        []).ended = Ended.returned v := by
  induction fuel with
  | zero => intro index length offset total _ _ h; omega
  | succ fuel ih =>
    intro index length offset total ho ht hf
    have hsm : size ≤ S.size_max := by omega
    rcases Nat.lt_or_ge offset size with hlt | hge
    · rw [transfer_loop_step S E wait request kernel size fuel index length offset total hlt
        hsm]
      have hcount : request (size - offset) ≤ size - offset := hreq _
      have hres := hk index (request (size - offset))
      have hb : (kernel index (request (size - offset))).result.toNat ≤ size - offset := by
        have : (kernel index (request (size - offset))).result ≤ ((size - offset : Nat) : Int) :=
          le_trans hres (by exact_mod_cast hcount)
        omega
      have hm1 : (offset + (kernel index (request (size - offset))).result.toNat) %
          (S.size_max + 1) = offset + (kernel index (request (size - offset))).result.toNat :=
        Nat.mod_eq_of_lt (by omega)
      have hm2 : (total + (kernel index (request (size - offset))).result.toNat) %
          (S.size_max + 1) = total + (kernel index (request (size - offset))).result.toNat :=
        Nat.mod_eq_of_lt (by omega)
      simp only [hm1, hm2]
      split_ifs with h2 h3 h4 h5
      · exact ⟨_, rfl⟩
      · exact ih _ _ _ _ (by omega) (by omega) (by omega)
      · exact ⟨_, rfl⟩
      · have hneg : (kernel index (request (size - offset))).result < 0 := by omega
        have hi : index < e := by
          by_contra hc
          exact hfin index _ (by omega) ⟨hneg, h5.2⟩
        exact ih _ _ _ _ ho ht (by omega)
      · exact ⟨_, rfl⟩
    · have he : offset = size := Nat.le_antisymm ho hge
      subst he
      rw [transfer_loop_full S E wait request kernel offset fuel index length total hsm]
      exact ⟨_, rfl⟩

/-- Every wait of the loop is the call that the loop is built with. -/
theorem transfer_loop_waits (S : Sizes) (E : ErrorCodes) (selector : Waiter) (events : Nat)
    (request : Nat → Nat) (kernel : Nat → Nat → Answer) (size : Nat) (fuel : Nat) :
    ∀ (index length offset total : Nat) (trace : List IOStep),
      (∀ w ∈ waits trace, w = (selector, events)) →
      ∀ w ∈ waits (transfer_loop S E (IOStep.wait selector events) request kernel size fuel
        index length offset total trace).trace, w = (selector, events) := by
  induction fuel with
  | zero => intro index length offset total trace h; simpa [transfer_loop] using h
  | succ fuel ih =>
    intro index length offset total trace h
    simp only [transfer_loop]
    have h1 : ∀ a : IOStep, (∃ o c w, a = IOStep.transfer o c w) →
        ∀ w ∈ waits (trace ++ [a]), w = (selector, events) := by
      rintro a ⟨o, c, w, rfl⟩ x hx
      rw [waits_append] at hx
      simp only [waits, List.append_nil] at hx
      exact h x hx
    split_ifs with h2 h3 h4 h5 h6
    · exact h
    · exact h1 _ ⟨_, _, _, rfl⟩
    · exact ih _ _ _ _ _ (h1 _ ⟨_, _, _, rfl⟩)
    · exact h1 _ ⟨_, _, _, rfl⟩
    · apply ih
      intro x hx
      rw [waits_append] at hx
      rcases List.mem_append.mp hx with hx | hx
      · exact h1 _ ⟨_, _, _, rfl⟩ x hx
      · simp only [waits, List.mem_singleton] at hx
        exact hx
    · exact h1 _ ⟨_, _, _, rfl⟩
theorem nbytes_le (c : Nat) : URing.nbytes c ≤ c := Nat.mod_le _ _

/-- C14 (counterexample): asked for no bytes, with nothing transferred yet (so that the
bytes transferred already reach the length asked for), `io_read_loop` of epoll.c still
issues a read when the buffer has room, and returns the three bytes it brings; and
`IO_Event_Selector_URing_io_read` issues a read of zero bytes when the buffer is full. -/
theorem io_read_zero_length_reads :
    EPoll.io_read_loop sizes64 linuxCodes upToThree 4 0 0 2 =
      { ended := Ended.returned 3,
        trace := [IOStep.transfer 0 4 { result := 3, errno := 0 }] } ∧
    URing.IO_Event_Selector_URing_io_read sizes64 linuxCodes upToThree ringUpToThree 4 0 4 2 =
      { ended := Ended.returned 0,
        trace := [IOStep.transfer 4 0 { result := 0, errno := 0 }] } := by
  constructor <;> decide

/-- C14 (amended): on a buffer of `size` bytes (no more than `SSIZE_MAX`), from an offset
inside it, for every length `n` asked for and every kernel that transfers no more than it is
asked for, the read loops of epoll.c and kqueue.c, and that of uring.c when `n > 0`, keep
`ReadContract`: the reads follow one another inside the buffer; the bytes transferred fit the
room; the loop goes on only after some bytes that leave the total under `n` and room in the
buffer, or after an error that `IO_Event_try_again` accepts with bytes still wanted; an error
is returned as `-errno` at the read that meets it; otherwise the value is the number of
bytes transferred, after a read that returned `0`, or brought the total to `n` or more, or
with the buffer full.  With `n = 0` the uring function makes exactly one read, of the room
left, and returns its result.  The loops return once the kernel has stopped answering with
errors that `IO_Event_try_again` accepts. -/
theorem io_read_contract (S : Sizes) (E : ErrorCodes) (kernel : Nat → Nat → Answer)
    (ring : Nat → Nat → Int) (size o n fuel : Nat) (ho : o ≤ size)
    (hs : 2 * size ≤ S.size_max) (hk : ∀ i c, (kernel i c).result ≤ (c : Int))
    (hr : ∀ i c, ring i c ≤ (c : Int)) :
    ReadContract E kernel size o n (EPoll.io_read_loop S E kernel size n o fuel) ∧
    ReadContract E kernel size o n (KQueue.io_read_loop S E kernel size n o fuel) ∧
    (0 < n → ReadContract E (URing.completed ring) size o n
      (URing.IO_Event_Selector_URing_io_read S E kernel ring size n o fuel)) ∧
    (n = 0 → URing.IO_Event_Selector_URing_io_read S E kernel ring size n o fuel =
      { ended := Ended.returned (rb_fiber_scheduler_io_result
          (wrap_signed 32 (kernel 0 (size - o)).result) (kernel 0 (size - o)).errno),
        trace := [IOStep.transfer o (size - o) (kernel 0 (size - o))] }) ∧
    (∀ e, (∀ i c, e ≤ i →
        ¬ ((kernel i c).result < 0 ∧ IO_Event_try_again E (kernel i c).errno = true)) →
      e + (size - o) < fuel →
      (∃ v, (EPoll.io_read_loop S E kernel size n o fuel).ended = Ended.returned v) ∧
      (∃ v, (KQueue.io_read_loop S E kernel size n o fuel).ended = Ended.returned v)) ∧
    (∀ e, (∀ i c, e ≤ i →
        ¬ (ring i c < 0 ∧ IO_Event_try_again E (-ring i c) = true)) →
      e + (size - o) < fuel →
      ∃ v, (URing.IO_Event_Selector_URing_io_read S E kernel ring size n o fuel).ended =
        Ended.returned v) := by
  have hid : ∀ c : Nat, id c ≤ c := fun c => Nat.le_refl c
  have hrk : ∀ i c, (URing.completed ring i c).result ≤ (c : Int) := hr
  have hsm : size ≤ S.size_max := by omega
  refine ⟨?_, ?_, ?_, ?_, ?_, ?_⟩
  · exact read_contract_of_loop E kernel size o n _
      (transfer_loop_contract S E (IOStep.wait Waiter.epoll IO_EVENT_READABLE) rfl id kernel
        size hs hid hk fuel 0 n o 0 ho (Nat.zero_le _))
  · exact read_contract_of_loop E kernel size o n _
      (transfer_loop_contract S E (IOStep.wait Waiter.kqueue IO_EVENT_READABLE) rfl id kernel
        size hs hid hk fuel 0 n o 0 ho (Nat.zero_le _))
  · intro hn
    unfold URing.IO_Event_Selector_URing_io_read
    simp only [if_neg (Nat.ne_of_gt hn)]
    exact read_contract_of_loop E _ size o n _
      (transfer_loop_contract S E (IOStep.wait Waiter.uring IO_EVENT_READABLE) rfl
        URing.nbytes _ size hs nbytes_le hrk fuel 0 n o 0 ho (Nat.zero_le _))
  · intro hn
    unfold URing.IO_Event_Selector_URing_io_read
    simp only [if_pos hn, room_eq _ _ _ ho hsm]
  · intro e hfin hf
    exact ⟨transfer_loop_returns S E _ id kernel size hs hid hk e hfin fuel 0 n o 0 ho
        (Nat.zero_le _) (by omega),
      transfer_loop_returns S E _ id kernel size hs hid hk e hfin fuel 0 n o 0 ho
        (Nat.zero_le _) (by omega)⟩
  · intro e hfin hf
    unfold URing.IO_Event_Selector_URing_io_read
    by_cases hn : n = 0
    · simp only [if_pos hn]; exact ⟨_, rfl⟩
    · simp only [if_neg hn]
      exact transfer_loop_returns S E _ URing.nbytes _ size hs nbytes_le hrk e hfin fuel 0 n o 0
        ho (Nat.zero_le _) (by omega)

theorem up_to_three_bounded : ∀ i c, (upToThree i c).result ≤ (c : Int) := by
  intro i c
  show ((min 3 c : Nat) : Int) ≤ (c : Int)
  exact_mod_cast Nat.min_le_right 3 c

theorem ring_up_to_three_bounded : ∀ i c, ringUpToThree i c ≤ (c : Int) := by
  intro i c
  show ((min 3 c : Nat) : Int) ≤ (c : Int)
  exact_mod_cast Nat.min_le_right 3 c

/-- C14 (witness): five bytes asked for at offset 1 of a buffer of 8 bytes, from a kernel
that brings up to three bytes at a time; the loop of epoll.c keeps the contract and returns
within four rounds. -/
theorem io_read_contract_witness :
    ReadContract linuxCodes upToThree 8 1 5
      (EPoll.io_read_loop sizes64 linuxCodes upToThree 8 5 1 8) ∧
    ∃ v, (EPoll.io_read_loop sizes64 linuxCodes upToThree 8 5 1 8).ended = Ended.returned v :=
  ⟨(io_read_contract sizes64 linuxCodes upToThree ringUpToThree 8 1 5 8 (by decide) (by decide)
      up_to_three_bounded ring_up_to_three_bounded).1,
    ((io_read_contract sizes64 linuxCodes upToThree ringUpToThree 8 1 5 8 (by decide)
      (by decide) up_to_three_bounded ring_up_to_three_bounded).2.2.2.2.1 0
      (by intro i c _ h; exact absurd h.1 (by
        show ¬ ((min 3 c : Nat) : Int) < 0
        omega))
      (by decide)).1⟩
/-! ## The event that the read and write loops wait for -/

/-- The read loops of the three selectors wait for `IO_EVENT_READABLE` only, and the write
loops of epoll.c and uring.c for `IO_EVENT_WRITABLE` only. -/
theorem io_loops_wait_direction (S : Sizes) (E : ErrorCodes) (kernel : Nat → Nat → Answer)
    (ring : Nat → Nat → Int) (size length offset fuel : Nat) :
    (∀ w ∈ waits (EPoll.io_read_loop S E kernel size length offset fuel).trace,
      w = (Waiter.epoll, IO_EVENT_READABLE)) ∧
    (∀ w ∈ waits (KQueue.io_read_loop S E kernel size length offset fuel).trace,
      w = (Waiter.kqueue, IO_EVENT_READABLE)) ∧
    (∀ w ∈ waits (URing.IO_Event_Selector_URing_io_read S E kernel ring size length offset
      fuel).trace, w = (Waiter.uring, IO_EVENT_READABLE)) ∧
    (∀ w ∈ waits (EPoll.io_write_loop S E kernel size length offset fuel).trace,
      w = (Waiter.epoll, IO_EVENT_WRITABLE)) ∧
    (∀ w ∈ waits (URing.IO_Event_Selector_URing_io_write S E ring size length offset
      fuel).trace, w = (Waiter.uring, IO_EVENT_WRITABLE)) := by
  have h0 : ∀ (p : Waiter × Nat), ∀ w ∈ waits ([] : List IOStep), w = p := by
    intro p w hw; simp [waits] at hw
  refine ⟨?_, ?_, ?_, ?_, ?_⟩
  · exact transfer_loop_waits S E _ _ _ _ _ _ _ _ _ _ _ (h0 _)
  · exact transfer_loop_waits S E _ _ _ _ _ _ _ _ _ _ _ (h0 _)
  · unfold URing.IO_Event_Selector_URing_io_read
    by_cases hn : length = 0
    · simp only [if_pos hn]
      intro w hw; simp [waits] at hw
    · simp only [if_neg hn]
      exact transfer_loop_waits S E _ _ _ _ _ _ _ _ _ _ _ (h0 _)
  · unfold EPoll.io_write_loop
    by_cases hl : size < length
    · simp only [if_pos hl]; exact h0 _
    · simp only [if_neg hl]
      exact transfer_loop_waits S E _ _ _ _ _ _ _ _ _ _ _ (h0 _)
  · unfold URing.IO_Event_Selector_URing_io_write
    by_cases hl : size < length
    · simp only [if_pos hl]; exact h0 _
    · simp only [if_neg hl]
      exact transfer_loop_waits S E _ _ _ _ _ _ _ _ _ _ _ (h0 _)

/-- C15: when the first `write` of `io_write_loop` of kqueue.c fails with an error that
`IO_Event_try_again` accepts while bytes are still wanted, the loop calls
`IO_Event_Selector_KQueue_io_wait` for `IO_EVENT_READABLE`, which shares no bit with
`IO_EVENT_WRITABLE`; and it never waits for another event. -/
theorem kqueue_io_write_waits_readable (S : Sizes) (E : ErrorCodes)
    (kernel : Nat → Nat → Answer) (size length offset fuel : Nat)
    (hl : 0 < length) (hls : length ≤ size) (ho : offset < size) (hs : size ≤ S.size_max)
    (herr : (kernel 0 (size - offset)).result < 0)
    (hagain : IO_Event_try_again E (kernel 0 (size - offset)).errno = true) :
    (∃ rest, (KQueue.io_write_loop S E kernel size length offset (fuel + 1)).trace =
      IOStep.transfer offset (size - offset) (kernel 0 (size - offset)) ::
        IOStep.wait Waiter.kqueue IO_EVENT_READABLE :: rest) ∧
    (∀ w ∈ waits (KQueue.io_write_loop S E kernel size length offset (fuel + 1)).trace,
      w = (Waiter.kqueue, IO_EVENT_READABLE)) ∧
    IO_EVENT_READABLE &&& IO_EVENT_WRITABLE = 0 := by
  have hnl : ¬ size < length := by omega
  refine ⟨?_, ?_, by decide⟩
  · unfold KQueue.io_write_loop
    rw [if_neg hnl, transfer_loop_step S E _ id kernel size fuel 0 length offset 0 ho hs]
    simp only [id]
    rw [if_neg (by omega), if_neg (by omega), if_pos ⟨hl, hagain⟩]
    exact ⟨_, rfl⟩
  · unfold KQueue.io_write_loop
    rw [if_neg hnl]
    apply transfer_loop_waits
    intro w hw; simp [waits] at hw

/-- C15 (witness): four bytes to write from a buffer of four bytes, to a descriptor whose
first `write` fails with `EAGAIN`. -/
theorem kqueue_io_write_waits_readable_witness :
    (∃ rest, (KQueue.io_write_loop sizes64 linuxCodes alwaysAgain 4 4 0 (1 + 1)).trace =
      IOStep.transfer 0 (4 - 0) (alwaysAgain 0 (4 - 0)) ::
        IOStep.wait Waiter.kqueue IO_EVENT_READABLE :: rest) ∧
    (∀ w ∈ waits (KQueue.io_write_loop sizes64 linuxCodes alwaysAgain 4 4 0 (1 + 1)).trace,
      w = (Waiter.kqueue, IO_EVENT_READABLE)) ∧
    IO_EVENT_READABLE &&& IO_EVENT_WRITABLE = 0 :=
  kqueue_io_write_waits_readable sizes64 linuxCodes alwaysAgain 4 4 0 1 (by decide)
    (by decide) (by decide) (by decide) (by decide) (by decide)

/-! ## The waiting events of a descriptor and the waiters on its list -/

theorem within_refl (a : Nat) : Within a a := Nat.or_self a

/-- The waiting events after a dispatch can hold events of no waiter left: on the
descriptor with the waiter at 2 for WRITABLE and the waiter at 1 for READABLE, the dispatch
of READABLE passes the waiter at 2, whose events it keeps, and resumes the fiber of the
waiter at 1; when that fiber makes the fiber of the waiter at 2 unwind before control is
back in the loop, the list is left empty with `waiting_events` at WRITABLE. -/
theorem waiting_events_stale_after_dispatch :
    ∃ s', EPoll.run linuxEPollFlags EPoll.acceptingKernel (fiber_unwinds_another 100 4 2)
        7 3 4 [WaiterOp.dispatch 1 50] (exampleEPollState, [2, 1]) = some (s', []) ∧
      s'.descriptor.waiting_events = IO_EVENT_WRITABLE ∧
      events_union s'.memory.events 0 [] = 0 ∧
      ¬ EPoll.Exact s' [] := by
  have hrun : EPoll.run linuxEPollFlags EPoll.acceptingKernel
      (fiber_unwinds_another 100 4 2) 7 3 4 [WaiterOp.dispatch 1 50]
      (exampleEPollState, [2, 1]) = some (_, []) := rfl
  refine ⟨_, hrun, rfl, rfl, ?_⟩
  intro h
  have := h.2
  revert this
  decide

end IOEvent
